import Mathlib

/-!
# Interrupt filter and dispatcher of the EHCI and OHCI controllers

A shallow embedding of `AppleUSBEHCI_Interrupts.cpp` and
`AppleUSBOHCI_Interrupts.cpp`.

* Machine integers are natural numbers, reduced modulo `2 ^ w` where the
  source arithmetic can overflow.
* Objects live in memory maps indexed by addresses; a pointer is an
  `Option` of an address, `none` being `NULL`.
* Values read from the hardware during one pass are inputs of the pass;
  register writes and calls into code outside these two files are recorded
  in the output of the pass, in program order.
* `USBToHostLong` and `HostToUSBLong` convert between bus order and host
  order; every register and descriptor word is kept in host order, so both
  are the identity here.
* Loops over linked lists take fuel; running out of fuel is `Res.timeout`,
  a dereference of `NULL` is `Res.fault`.
-/

namespace IOUSBFamily

/-- Outcome of a piece of code that may loop or dereference `NULL`. -/
inductive Res (α : Type) where
  | ok (a : α)
  | fault
  | timeout

/-- Address of a list element or transfer descriptor. -/
abbrev Ptr := Nat

/-- Truncation to an unsigned 32-bit value. -/
def toUInt32 (n : Nat) : Nat := n % 2 ^ 32

/-- Truncation to an unsigned 16-bit value. -/
def toUInt16 (n : Nat) : Nat := n % 2 ^ 16

/-- Truncation to an unsigned 64-bit value. -/
def toUInt64 (n : Nat) : Nat := n % 2 ^ 64

/-- Wrap an integer into the range of a signed 32-bit value. -/
def toSInt32 (z : Int) : Int := (z + 2 ^ 31) % 2 ^ 32 - 2 ^ 31

/-! ## EHCI: constants

The interrupt bits of `USBSTS`/`USBINTR`, the periodic-enable bit of
`USBCMD`, the port count mask of `HCSPARAMS` and the resume bit of `PORTSC`
are fixed by the EHCI register layout; the header that names them is not
part of the two source files. -/

/-- Bit 0 of `USBSTS`: transfer completion. -/
def kEHCICompleteIntBit : Nat := 1
/-- Bit 1 of `USBSTS`: transfer error. -/
def kEHCIErrorIntBit : Nat := 2
/-- Bit 2 of `USBSTS`: port change detect. -/
def kEHCIPortChangeIntBit : Nat := 4
/-- Bit 3 of `USBSTS`: frame list rollover. -/
def kEHCIFrListRolloverIntBit : Nat := 8
/-- Bit 4 of `USBSTS`: host system error. -/
def kEHCIHostErrorIntBit : Nat := 16
/-- Bit 5 of `USBSTS`: interrupt on async advance. -/
def kEHCIAAEIntBit : Nat := 32
/-- Bit 4 of `USBCMD`: periodic schedule enable. -/
def kEHCICMDPeriodicEnable : Nat := 16
/-- Bits 0..3 of `HCSPARAMS`: number of ports. -/
def kEHCINumPortsMask : Nat := 15
/-- Bit 6 of `PORTSC`: force port resume. -/
def kEHCIPortSC_Resume : Nat := 64

/-- Constants of the driver header that the source files use by name only. -/
structure EHCIParams where
  /-- Number of slots of the periodic list. -/
  kEHCIPeriodicListEntries : Nat
  /-- Threshold the frame index is compared with at a rollover. -/
  kEHCIFRIndexRolloverBit : Nat
  /-- Amount added to the frame number at a rollover. -/
  kEHCIFrameNumberIncrement : Nat

/-! ## EHCI: memory -/

/-- Dynamic class of a periodic list element, as seen by `OSDynamicCast`:
`isoch` passes the cast to `IOUSBControllerIsochListElement` only,
`splitIsoch` also the cast to `AppleEHCISplitIsochTransferDescriptor`,
`other` passes neither. -/
inductive ElemKind where
  | other
  | isoch
  | splitIsoch
  deriving DecidableEq

/-- An isochronous endpoint (`AppleEHCIIsochEndpoint`), with the fields the
filter reads or writes. -/
structure IsochEndpoint where
  useBackPtr : Bool
  onProducerQ : Nat
  scheduledTDs : Int
  deriving DecidableEq

/-- A periodic list element (`IOUSBControllerListElement` and subclasses).
`physicalLink` is what `GetPhysicalLink` returns and `SetPhysicalLink`
sets. -/
structure ListElement where
  kind : ElemKind
  _logicalNext : Option Ptr
  physicalLink : Nat
  _pEndpoint : Option Nat
  _lowLatency : Bool
  _doneQueueLink : Option Ptr
  deriving DecidableEq

/-- The error counters `_errors` of the EHCI driver. -/
structure EHCIErrors where
  hostSystemError : Nat
  displayed : Nat
  deriving DecidableEq

/-- The driver state of one EHCI controller. `errataNECIncompleteWrite` is
the test `_errataBits & kErrataNECIncompleteWrite`. -/
structure EHCIState where
  _frameNumber : Nat
  _tempAnchorFrame : Nat
  _tempAnchorTime : Nat
  _anchorFrame : Nat
  _anchorTime : Nat
  _frameRolloverInterrupt : Nat
  _asyncAdvanceInterrupt : Nat
  _hostErrorInterrupt : Nat
  _portChangeInterrupt : Nat
  _errorInterrupt : Nat
  _completeInterrupt : Nat
  _errors : EHCIErrors
  errataNECIncompleteWrite : Bool
  _inAbortIsochEP : Bool
  _outSlot : Nat
  _logicalPeriodicList : Nat → Option Ptr
  _periodicList : Nat → Nat
  _savedDoneQueueHead : Option Ptr
  _producerCount : Nat
  _rhPortBeingResumed : Nat → Bool
  elements : Ptr → ListElement
  endpoints : Nat → IsochEndpoint

/-- What the hardware returns to the reads of one `FilterInterrupt` pass.
`FRIndexRollover` and `uptimeRollover` are the frame index and the clock
read in the rollover branch, `FRIndex` and `uptimeComplete` those read in
the completion branch, `USBSTSReread i` the value of the `i`-th read of
`USBSTS` after the port change bit was cleared. -/
structure EHCIHw where
  USBIntr : Nat
  USBSTS : Nat
  USBCMD : Nat
  FRIndexRollover : Nat
  uptimeRollover : Nat
  USBSTSReread : Nat → Nat
  uptimeComplete : Nat
  FRIndex : Nat

/-- A write to a register of the EHCI controller. -/
inductive EHCIRegWrite where
  | USBSTS (value : Nat)
  deriving DecidableEq

/-- What one `FilterInterrupt` pass does besides changing the driver state:
the value returned, the number of calls of `signalInterrupt`, the register
writes in program order, the calls `UpdateFrameList(timeStamp)` as pairs of
element and time stamp in program order, and the elements put on the done
queue, first one first. -/
structure FilterOut where
  result : Bool
  signalInterrupt : Nat
  regWrites : List EHCIRegWrite
  UpdateFrameList : List (Ptr × Nat)
  retired : List Ptr

/-! ## EHCI: the periodic sweep of `FilterInterrupt` -/

/-- The locals of the sweep that outlive one slot, with the driver state. -/
structure SweepState where
  st : EHCIState
  cachedHead : Option Ptr
  cachedProducer : Nat
  UpdateFrameList : List (Ptr × Nat)
  retired : List Ptr

/-- The test of lines 351-358: `none` is the dereference of a `NULL`
`_pEndpoint`, `some true` means the element cannot be retired yet. -/
def cannotRetire (st : EHCIState) (el : ListElement)
    (nextSlot curSlot curMicroFrame : Nat) : Option Bool :=
  if el.kind = ElemKind.splitIsoch then
    match el._pEndpoint with
    | none => none
    | some ep =>
      some ((st.endpoints ep).useBackPtr && decide (nextSlot = curSlot)
        && decide (curMicroFrame < 2))
  else some false

/-- Lines 366-376: unlink `thing`, which follows `prevThing` or heads slot
`testSlot`. -/
def unlinkElement (testSlot : Nat) (thing : Ptr) (prevThing : Option Ptr)
    (st : EHCIState) : EHCIState :=
  let nextThing := (st.elements thing)._logicalNext
  match prevThing with
  | none =>
    { st with
      _logicalPeriodicList :=
        Function.update st._logicalPeriodicList testSlot nextThing
      _periodicList :=
        Function.update st._periodicList testSlot
          (st.elements thing).physicalLink }
  | some p =>
    { st with
      elements := Function.update st.elements p
        { st.elements p with
          _logicalNext := nextThing
          physicalLink := (st.elements thing).physicalLink } }

/-- Line 383: `isochEl->_doneQueueLink = cachedHead`. -/
def setDoneQueueLink (thing : Ptr) (cachedHead : Option Ptr)
    (st : EHCIState) : EHCIState :=
  { st with
    elements := Function.update st.elements thing
      { st.elements thing with _doneQueueLink := cachedHead } }

/-- Lines 386-390: the counters of the endpoint `pEndpoint`, if there is
one. -/
def countOnProducerQ (pEndpoint : Option Nat) (st : EHCIState) : EHCIState :=
  match pEndpoint with
  | none => st
  | some ep =>
    { st with
      endpoints := Function.update st.endpoints ep
        { st.endpoints ep with
          onProducerQ := toUInt32 ((st.endpoints ep).onProducerQ + 1)
          scheduledTDs := toSInt32 ((st.endpoints ep).scheduledTDs - 1) } }

/-- Lines 366-390: unlink `thing` and put it on the backward done queue. -/
def retireElement (testSlot timeStamp : Nat) (thing : Ptr)
    (prevThing : Option Ptr) (w : SweepState) : SweepState :=
  let st1 := unlinkElement testSlot thing prevThing w.st
  let calls :=
    if (st1.elements thing)._lowLatency then
      w.UpdateFrameList ++ [(thing, timeStamp)]
    else w.UpdateFrameList
  let st2 := setDoneQueueLink thing w.cachedHead st1
  let st3 := countOnProducerQ (st2.elements thing)._pEndpoint st2
  { st := st3
    cachedHead := some thing
    cachedProducer := toUInt32 (w.cachedProducer + 1)
    UpdateFrameList := calls
    retired := w.retired ++ [thing] }

/-- The inner loop, lines 343-393, from `thing` with predecessor
`prevThing`. Returns `needToRescavenge` and the state. -/
def walkSlot (testSlot nextSlot curSlot curMicroFrame timeStamp : Nat) :
    Nat → Option Ptr → Option Ptr → Bool → SweepState →
      Res (Bool × SweepState)
  | 0, thing, _, needToRescavenge, w =>
    match thing with
    | none => Res.ok (needToRescavenge, w)
    | some _ => Res.timeout
  | fuel + 1, thing, prevThing, needToRescavenge, w =>
    match thing with
    | none => Res.ok (needToRescavenge, w)
    | some t =>
      let el := w.st.elements t
      let nextThing := el._logicalNext
      if el.kind = ElemKind.other then Res.ok (needToRescavenge, w)
      else
        match cannotRetire w.st el nextSlot curSlot curMicroFrame with
        | none => Res.fault
        | some true =>
          walkSlot testSlot nextSlot curSlot curMicroFrame timeStamp
            fuel nextThing (some t) true w
        | some false =>
          walkSlot testSlot nextSlot curSlot curMicroFrame timeStamp
            fuel nextThing prevThing needToRescavenge
            (retireElement testSlot timeStamp t prevThing w)

/-- The slot after `testSlot`, line 340, as the `UInt16` it is stored in. -/
def nextSlotOf (K : EHCIParams) (testSlot : Nat) : Nat :=
  toUInt16 ((testSlot + 1) &&& (K.kEHCIPeriodicListEntries - 1))

/-- The outer loop, lines 333-397. The first fuel bounds the slots walked,
`fuel` the elements walked in each slot. -/
def sweepSlots (K : EHCIParams) (curSlot curMicroFrame timeStamp fuel : Nat) :
    Nat → Nat → SweepState → Res SweepState
  | 0, testSlot, w => if testSlot = curSlot then Res.ok w else Res.timeout
  | slots + 1, testSlot, w =>
    if testSlot = curSlot then Res.ok w
    else
      let nextSlot := nextSlotOf K testSlot
      match walkSlot testSlot nextSlot curSlot curMicroFrame timeStamp fuel
          (w.st._logicalPeriodicList testSlot) none false w with
      | Res.ok (needToRescavenge, w1) =>
        let w2 : SweepState :=
          if needToRescavenge then w1
          else { w1 with st := { w1.st with _outSlot := nextSlot } }
        sweepSlots K curSlot curMicroFrame timeStamp fuel slots nextSlot w2
      | Res.fault => Res.fault
      | Res.timeout => Res.timeout

/-- The locals of a `FilterInterrupt` pass before the sweep. -/
structure FilterPass where
  st : EHCIState
  needSignal : Bool
  regWrites : List EHCIRegWrite

/-- Lines 241-258: frame list rollover. -/
def frameRolloverInterrupt (K : EHCIParams) (hw : EHCIHw)
    (activeInterrupts : Nat) (p : FilterPass) : FilterPass :=
  if activeInterrupts &&& kEHCIFrListRolloverIntBit ≠ 0 then
    let frindex := hw.FRIndexRollover
    let frameNumber :=
      if frindex < K.kEHCIFRIndexRolloverBit then
        toUInt64 (p.st._frameNumber + K.kEHCIFrameNumberIncrement)
      else p.st._frameNumber
    { p with
      st := { p.st with
        _frameNumber := frameNumber
        _tempAnchorFrame := toUInt64 (frameNumber + (frindex >>> 3))
        _tempAnchorTime := hw.uptimeRollover
        _frameRolloverInterrupt := kEHCIFrListRolloverIntBit }
      regWrites :=
        p.regWrites ++ [EHCIRegWrite.USBSTS kEHCIFrListRolloverIntBit] }
  else p

/-- Lines 260-266: async advance. -/
def asyncAdvanceInterrupt (activeInterrupts : Nat) (p : FilterPass) :
    FilterPass :=
  if activeInterrupts &&& kEHCIAAEIntBit ≠ 0 then
    { st := { p.st with _asyncAdvanceInterrupt := kEHCIAAEIntBit }
      regWrites := p.regWrites ++ [EHCIRegWrite.USBSTS kEHCIAAEIntBit]
      needSignal := true }
  else p

/-- Lines 267-273: host system error. -/
def hostErrorInterrupt (activeInterrupts : Nat) (p : FilterPass) :
    FilterPass :=
  if activeInterrupts &&& kEHCIHostErrorIntBit ≠ 0 then
    { st := { p.st with _hostErrorInterrupt := kEHCIHostErrorIntBit }
      regWrites := p.regWrites ++ [EHCIRegWrite.USBSTS kEHCIHostErrorIntBit]
      needSignal := true }
  else p

/-- The retry loop of lines 284-291: `remaining` is `10 - count`, `i` the
index of the last read of `USBSTS`, `newValue` what it returned. Returns the
register writes of the loop. -/
def portChangeRetry (hw : EHCIHw) : Nat → Nat → Nat → List EHCIRegWrite
  | 0, _, _ => []
  | remaining + 1, i, newValue =>
    if newValue &&& kEHCIPortChangeIntBit ≠ 0 then
      EHCIRegWrite.USBSTS kEHCIPortChangeIntBit ::
        portChangeRetry hw remaining (i + 1) (hw.USBSTSReread (i + 1))
    else []

/-- Lines 274-294: port change. -/
def portChangeInterrupt (hw : EHCIHw) (activeInterrupts : Nat)
    (p : FilterPass) : FilterPass :=
  if activeInterrupts &&& kEHCIPortChangeIntBit ≠ 0 then
    let retries :=
      if p.st.errataNECIncompleteWrite then
        portChangeRetry hw 10 0 (hw.USBSTSReread 0)
      else []
    { st := { p.st with _portChangeInterrupt := kEHCIPortChangeIntBit }
      regWrites :=
        p.regWrites ++ [EHCIRegWrite.USBSTS kEHCIPortChangeIntBit] ++ retries
      needSignal := true }
  else p

/-- Lines 295-301: transfer error. -/
def errorInterrupt (activeInterrupts : Nat) (p : FilterPass) : FilterPass :=
  if activeInterrupts &&& kEHCIErrorIntBit ≠ 0 then
    { st := { p.st with _errorInterrupt := kEHCIErrorIntBit }
      regWrites := p.regWrites ++ [EHCIRegWrite.USBSTS kEHCIErrorIntBit]
      needSignal := true }
  else p

/-- The frame list slot the hardware is in, line 326. -/
def curSlotOf (K : EHCIParams) (frIndex : Nat) : Nat :=
  toUInt16 ((frIndex >>> 3) &&& (K.kEHCIPeriodicListEntries - 1))

/-- The micro frame the hardware is in, line 327. -/
def curMicroFrameOf (frIndex : Nat) : Nat := toUInt16 (frIndex &&& 7)

/-- The guard of line 317. -/
def sweepRuns (K : EHCIParams) (hw : EHCIHw) (st : EHCIState) : Bool :=
  !st._inAbortIsochEP && decide (hw.USBCMD &&& kEHCICMDPeriodicEnable ≠ 0)
    && decide (st._outSlot < K.kEHCIPeriodicListEntries)

/-- Lines 319-403: the sweep of the periodic list with the publication of
the done queue head and the producer count. -/
def periodicSweep (K : EHCIParams) (fuel : Nat) (hw : EHCIHw)
    (st : EHCIState) : Res SweepState :=
  let frIndex := hw.FRIndex
  let curSlot := curSlotOf K frIndex
  let curMicroFrame := curMicroFrameOf frIndex
  match sweepSlots K curSlot curMicroFrame hw.uptimeComplete fuel fuel
      (toUInt16 st._outSlot)
      { st := st
        cachedHead := st._savedDoneQueueHead
        cachedProducer := st._producerCount
        UpdateFrameList := []
        retired := [] } with
  | Res.ok w =>
    Res.ok { w with
      st := { w.st with
        _savedDoneQueueHead := w.cachedHead
        _producerCount := w.cachedProducer } }
  | Res.fault => Res.fault
  | Res.timeout => Res.timeout

/-- Lines 302-405: transfer completion. -/
def completeInterrupt (K : EHCIParams) (fuel : Nat) (hw : EHCIHw)
    (activeInterrupts : Nat) (p : FilterPass) :
    Res (FilterPass × List (Ptr × Nat) × List Ptr) :=
  if activeInterrupts &&& kEHCICompleteIntBit ≠ 0 then
    let p1 : FilterPass :=
      { st := { p.st with _completeInterrupt := kEHCICompleteIntBit }
        regWrites := p.regWrites ++ [EHCIRegWrite.USBSTS kEHCICompleteIntBit]
        needSignal := true }
    if sweepRuns K hw p1.st then
      match periodicSweep K fuel hw p1.st with
      | Res.ok w => Res.ok ({ p1 with st := w.st }, w.UpdateFrameList, w.retired)
      | Res.fault => Res.fault
      | Res.timeout => Res.timeout
    else Res.ok (p1, [], [])
  else Res.ok (p, [], [])

/-- `AppleUSBEHCI::FilterInterrupt`, lines 222-418. -/
def AppleUSBEHCI.FilterInterrupt (K : EHCIParams) (fuel : Nat) (hw : EHCIHw)
    (st : EHCIState) : Res (EHCIState × FilterOut) :=
  let enabledInterrupts := hw.USBIntr
  let activeInterrupts := enabledInterrupts &&& hw.USBSTS
  let p0 : FilterPass := { st := st, needSignal := false, regWrites := [] }
  if activeInterrupts ≠ 0 then
    let p1 := frameRolloverInterrupt K hw activeInterrupts p0
    let p2 := asyncAdvanceInterrupt activeInterrupts p1
    let p3 := hostErrorInterrupt activeInterrupts p2
    let p4 := portChangeInterrupt hw activeInterrupts p3
    let p5 := errorInterrupt activeInterrupts p4
    match completeInterrupt K fuel hw activeInterrupts p5 with
    | Res.ok (p6, calls, retired) =>
      Res.ok (p6.st,
        { result := false
          signalInterrupt := if p6.needSignal then 1 else 0
          regWrites := p6.regWrites
          UpdateFrameList := calls
          retired := retired })
    | Res.fault => Res.fault
    | Res.timeout => Res.timeout
  else
    Res.ok (st,
      { result := false
        signalInterrupt := 0
        regWrites := []
        UpdateFrameList := []
        retired := [] })

/-! ## EHCI: `PollInterrupts` -/

/-- What the hardware returns to the reads of one `PollInterrupts` run. -/
structure EHCIPollHw where
  HCSParams : Nat
  PortSC : Nat → Nat

/-- A call out of `PollInterrupts`, or a line it logs at level 1. -/
inductive PollEvent where
  | hostSystemErrorLog
  | scavengeCompletedTransactions
  | EnsureUsability
  | resumePortThread (arg : Nat)
  deriving DecidableEq

/-- The locals of a `PollInterrupts` run. -/
structure PollPass where
  st : EHCIState
  events : List PollEvent

/-- Lines 53-101: host system error, logged every power of two times. The
shift `1L << displayed` is a shift of natural numbers before the cast to
`UInt32`. -/
def pollHostError (p : PollPass) : PollPass :=
  if p.st._hostErrorInterrupt &&& kEHCIHostErrorIntBit ≠ 0 then
    let count := toUInt32 (p.st._errors.hostSystemError + 1)
    if count = toUInt32 (1 <<< p.st._errors.displayed) then
      { st := { p.st with
          _hostErrorInterrupt := 0
          _errors :=
            { hostSystemError := count
              displayed := toUInt32 (p.st._errors.displayed + 1) } }
        events := p.events ++ [PollEvent.hostSystemErrorLog] }
    else
      { p with
        st := { p.st with
          _hostErrorInterrupt := 0
          _errors := { p.st._errors with hostSystemError := count } } }
  else p

/-- Lines 103-109: transfer error. -/
def pollError (p : PollPass) : PollPass :=
  if p.st._errorInterrupt &&& kEHCIErrorIntBit ≠ 0 then
    { st := { p.st with _errorInterrupt := 0 }
      events := p.events ++ [PollEvent.scavengeCompletedTransactions] }
  else p

/-- Lines 111-116: transfer completion. -/
def pollComplete (p : PollPass) : PollPass :=
  if p.st._completeInterrupt &&& kEHCICompleteIntBit ≠ 0 then
    { st := { p.st with _completeInterrupt := 0 }
      events := p.events ++ [PollEvent.scavengeCompletedTransactions] }
  else p

/-- The loop of lines 126-138 from `port` on, `remaining` being
`numPorts - port`. -/
def pollPorts (hw : EHCIPollHw) : Nat → Nat → PollPass → PollPass
  | 0, _, p => p
  | remaining + 1, port, p =>
    if !p.st._rhPortBeingResumed port then
      let portStatus := hw.PortSC port
      if portStatus &&& kEHCIPortSC_Resume ≠ 0 then
        pollPorts hw remaining (port + 1)
          { st := { p.st with
              _rhPortBeingResumed :=
                Function.update p.st._rhPortBeingResumed port true }
            events := p.events ++ [PollEvent.resumePortThread (port + 1)] }
      else pollPorts hw remaining (port + 1) p
    else pollPorts hw remaining (port + 1) p

/-- Lines 119-139: port change. -/
def pollPortChange (hw : EHCIPollHw) (p : PollPass) : PollPass :=
  if p.st._portChangeInterrupt &&& kEHCIPortChangeIntBit ≠ 0 then
    let numPorts := hw.HCSParams &&& kEHCINumPortsMask
    pollPorts hw numPorts 0
      { st := { p.st with _portChangeInterrupt := 0 }
        events := p.events ++ [PollEvent.EnsureUsability] }
  else p

/-- Lines 142-146: async advance. -/
def pollAsyncAdvance (p : PollPass) : PollPass :=
  if p.st._asyncAdvanceInterrupt &&& kEHCIAAEIntBit ≠ 0 then
    { p with st := { p.st with _asyncAdvanceInterrupt := 0 } }
  else p

/-- Lines 149-158: frame list rollover. -/
def pollFrameRollover (p : PollPass) : PollPass :=
  if p.st._frameRolloverInterrupt &&& kEHCIFrListRolloverIntBit ≠ 0 then
    { p with
      st := { p.st with
        _frameRolloverInterrupt := 0
        _anchorTime := p.st._tempAnchorTime
        _anchorFrame := p.st._tempAnchorFrame } }
  else p

/-- `AppleUSBEHCI::PollInterrupts`, lines 50-159. -/
def AppleUSBEHCI.PollInterrupts (hw : EHCIPollHw) (st : EHCIState) :
    EHCIState × List PollEvent :=
  let p := pollFrameRollover (pollAsyncAdvance (pollPortChange hw
    (pollComplete (pollError (pollHostError { st := st, events := [] })))))
  (p.st, p.events)

/-! ## OHCI: constants

The bits of `HcInterruptStatus`/`HcInterruptEnable` are fixed by the OHCI
register layout; the header that names them is not part of the two source
files. -/

/-- Bit 0: scheduling overrun. -/
def kOHCIHcInterrupt_SO : Nat := 1
/-- Bit 1: writeback done head. -/
def kOHCIHcInterrupt_WDH : Nat := 2
/-- Bit 2: start of frame. -/
def kOHCIHcInterrupt_SF : Nat := 4
/-- Bit 3: resume detected. -/
def kOHCIHcInterrupt_RD : Nat := 8
/-- Bit 4: unrecoverable error. -/
def kOHCIHcInterrupt_UE : Nat := 16
/-- Bit 5: frame number overflow. -/
def kOHCIHcInterrupt_FNO : Nat := 32
/-- Bit 6: root hub status change. -/
def kOHCIHcInterrupt_RHSC : Nat := 64
/-- Bit 30: ownership change. -/
def kOHCIHcInterrupt_OC : Nat := 2 ^ 30
/-- Bit 31: master interrupt enable. -/
def kOHCIHcInterrupt_MIE : Nat := 2 ^ 31

/-- Constants and the one function of the driver that the source file uses
by name only. -/
structure OHCIParams where
  kOHCIFmNumberMask : Nat
  kOHCIBit15 : Nat
  kOHCIFrameOverflowBit : Nat
  kOHCIHeadPMask : Nat
  kOHCIIsochronousInLowLatencyType : Nat
  kOHCIIsochronousOutLowLatencyType : Nat
  kOHCIITDControl_FC : Nat
  kOHCIITDControl_FCPhase : Nat
  kUSBLowLatencyIsochTransferKey : Int
  kOHCIITDOffset_CC : Nat
  kOHCIITDOffset_CCPhase : Nat
  kOHCIITDOffsetConditionNotAccessed : Nat
  kOHCIITDConditionNotAccessedReturn : Nat
  kOHCIITDPSW_CC : Nat
  kOHCIITDPSW_CCPhase : Nat
  kOHCIITDPSW_Size : Nat
  kIOReturnSuccess : Int
  TranslateStatusToUSBError : Nat → Int

/-! ## OHCI: memory -/

/-- One record of a low latency frame list (`IOUSBLowLatencyIsocFrame`). -/
structure LowLatencyIsocFrame where
  frStatus : Int
  frReqCount : Nat
  frActCount : Nat
  frTimeStamp : Nat
  deriving DecidableEq

/-- A transfer descriptor on the done queue, general or isochronous.
`flags` is the first word of an isochronous descriptor, `offset i` its
`i`-th offset word, `pIsocFrame` the address of its frame list. -/
structure OHCITransferDescriptor where
  flags : Nat
  nextTD : Nat
  pType : Nat
  pIsocFrame : Ptr
  frameNum : Nat
  offset : Nat → Nat

/-- The error counters `_errors` of the OHCI driver. -/
structure OHCIErrors where
  frameNumberOverflow : Nat
  scheduleOverrun : Nat
  ownershipChange : Nat
  unrecoverableError : Nat
  deriving DecidableEq

/-- The driver state of one OHCI controller. `GetLogicalAddress` is the
table from physical to logical addresses, `frames a i` the `i`-th record of
the frame list at address `a`. -/
structure OHCIState where
  _errors : OHCIErrors
  _frameNumber : Nat
  _rootHubStatusChangeInterrupt : Nat
  _unrecoverableErrorInterrupt : Nat
  _resumeDetectedInterrupt : Nat
  _writeDoneHeadInterrupt : Nat
  _filterInterruptCount : Nat
  _filterTimeStamp : Nat
  _filterTimeStamp2 : Nat
  _lowLatencyIsochTDsProcessed : Nat
  _framesUpdated : Nat
  _framesError : Nat
  _savedDoneQueueHead : Nat
  _producerCount : Nat
  _timeElapsed : Nat
  _remote_wakeup_occurred : Bool
  _idleSuspend : Bool
  GetLogicalAddress : Nat → Option Ptr
  descriptors : Ptr → OHCITransferDescriptor
  frames : Ptr → Nat → LowLatencyIsocFrame

/-- What the hardware returns to the reads of one OHCI `FilterInterrupt`
pass; `HCCAFrameNumber` and `HCCADoneHead` are the words of the
communication area the controller writes. -/
structure OHCIHw where
  hcInterruptEnable : Nat
  hcInterruptStatus : Nat
  HCCAFrameNumber : Nat
  HCCADoneHead : Nat
  uptime : Nat

/-- A write to a register of the OHCI controller or to the done head word
of the communication area. -/
inductive OHCIWrite where
  | hcInterruptStatus (value : Nat)
  | hcInterruptDisable (value : Nat)
  | HCCADoneHead (value : Nat)
  deriving DecidableEq

/-- What one OHCI `FilterInterrupt` pass does besides changing the driver
state. -/
structure OHCIFilterOut where
  result : Bool
  signalInterrupt : Nat
  writes : List OHCIWrite

/-- The locals of an OHCI `FilterInterrupt` pass. -/
structure OHCIPass where
  st : OHCIState
  writes : List OHCIWrite

/-! ## OHCI: `FilterInterrupt` -/

/-- Lines 184-197: frame number overflow. -/
def ohciFrameNumberOverflow (P : OHCIParams) (hw : OHCIHw)
    (activeInterrupts : Nat) (p : OHCIPass) : OHCIPass :=
  if activeInterrupts &&& kOHCIHcInterrupt_FNO ≠ 0 then
    let frameNumber :=
      if toUInt16 hw.HCCAFrameNumber &&& P.kOHCIFmNumberMask < P.kOHCIBit15 then
        toUInt64 (p.st._frameNumber + P.kOHCIFrameOverflowBit)
      else p.st._frameNumber
    { st := { p.st with
        _errors := { p.st._errors with
          frameNumberOverflow :=
            toUInt32 (p.st._errors.frameNumberOverflow + 1) }
        _frameNumber := frameNumber }
      writes := p.writes ++ [OHCIWrite.hcInterruptStatus kOHCIHcInterrupt_FNO] }
  else p

/-- Lines 201-209: scheduling overrun. -/
def ohciSchedulingOverrun (activeInterrupts : Nat) (p : OHCIPass) : OHCIPass :=
  if activeInterrupts &&& kOHCIHcInterrupt_SO ≠ 0 then
    { st := { p.st with
        _errors := { p.st._errors with
          scheduleOverrun := toUInt32 (p.st._errors.scheduleOverrun + 1) } }
      writes := p.writes ++ [OHCIWrite.hcInterruptStatus kOHCIHcInterrupt_SO] }
  else p

/-- Lines 213-226: start of frame. -/
def ohciStartOfFrame (activeInterrupts : Nat) (p : OHCIPass) : OHCIPass :=
  if activeInterrupts &&& kOHCIHcInterrupt_SF ≠ 0 then
    { p with
      writes := p.writes ++ [OHCIWrite.hcInterruptStatus kOHCIHcInterrupt_SF,
        OHCIWrite.hcInterruptDisable kOHCIHcInterrupt_SF] }
  else p

/-- Lines 230-240: ownership change. -/
def ohciOwnershipChange (activeInterrupts : Nat) (p : OHCIPass) : OHCIPass :=
  if activeInterrupts &&& kOHCIHcInterrupt_OC ≠ 0 then
    { st := { p.st with
        _errors := { p.st._errors with
          ownershipChange := toUInt32 (p.st._errors.ownershipChange + 1) } }
      writes := p.writes ++ [OHCIWrite.hcInterruptStatus kOHCIHcInterrupt_OC] }
  else p

/-- Lines 244-260: root hub status change. -/
def ohciRootHubStatusChange (activeInterrupts : Nat) (p : OHCIPass) :
    OHCIPass :=
  if activeInterrupts &&& kOHCIHcInterrupt_RHSC ≠ 0 then
    { st := { p.st with _rootHubStatusChangeInterrupt := kOHCIHcInterrupt_RHSC }
      writes := p.writes ++ [OHCIWrite.hcInterruptDisable kOHCIHcInterrupt_RHSC,
        OHCIWrite.hcInterruptStatus kOHCIHcInterrupt_RHSC] }
  else p

/-- Lines 264-277: unrecoverable error. -/
def ohciUnrecoverableError (activeInterrupts : Nat) (p : OHCIPass) :
    OHCIPass :=
  if activeInterrupts &&& kOHCIHcInterrupt_UE ≠ 0 then
    { st := { p.st with
        _errors := { p.st._errors with
          unrecoverableError :=
            toUInt32 (p.st._errors.unrecoverableError + 1) }
        _unrecoverableErrorInterrupt := kOHCIHcInterrupt_UE }
      writes := p.writes ++ [OHCIWrite.hcInterruptStatus kOHCIHcInterrupt_UE] }
  else p

/-- Lines 281-292: resume detected. -/
def ohciResumeDetected (activeInterrupts : Nat) (p : OHCIPass) : OHCIPass :=
  if activeInterrupts &&& kOHCIHcInterrupt_RD ≠ 0 then
    { st := { p.st with _resumeDetectedInterrupt := kOHCIHcInterrupt_RD }
      writes := p.writes ++ [OHCIWrite.hcInterruptStatus kOHCIHcInterrupt_RD] }
  else p

/-- The body of the loop of lines 389-427 for frame `i` of the descriptor
`td`. -/
def updateLowLatencyFrame (P : OHCIParams) (timeStamp : Nat)
    (td : OHCITransferDescriptor) (i : Nat) (st : OHCIState) : OHCIState :=
  let idx := td.frameNum + i
  let fr := st.frames td.pIsocFrame idx
  let framesError :=
    if fr.frStatus ≠ P.kUSBLowLatencyIsochTransferKey then
      toUInt32 (st._framesError + 1)
    else st._framesError
  let offset := toUInt16 (td.offset i)
  let fr1 : LowLatencyIsocFrame :=
    if (offset &&& P.kOHCIITDOffset_CC) >>> P.kOHCIITDOffset_CCPhase
        = P.kOHCIITDOffsetConditionNotAccessed then
      { fr with
        frTimeStamp := timeStamp
        frActCount := 0
        frStatus :=
          P.TranslateStatusToUSBError P.kOHCIITDConditionNotAccessedReturn }
    else
      let status :=
        P.TranslateStatusToUSBError
          ((offset &&& P.kOHCIITDPSW_CC) >>> P.kOHCIITDPSW_CCPhase)
      { fr with
        frTimeStamp := timeStamp
        frStatus := status
        frActCount :=
          if P.kIOReturnSuccess = status
              ∧ td.pType = P.kOHCIIsochronousOutLowLatencyType then
            fr.frReqCount
          else toUInt16 (offset &&& P.kOHCIITDPSW_Size) }
  { st with
    _framesUpdated := toUInt32 (st._framesUpdated + 1)
    _framesError := framesError
    frames := Function.update st.frames td.pIsocFrame
      (Function.update (st.frames td.pIsocFrame) idx fr1) }

/-- Lines 368-428: the frames `0 .. frameCount` of a low latency isochronous
descriptor; other descriptors are left alone. The status computed from the
first word at lines 382-384 is not used by the source. -/
def updateLowLatencyTD (P : OHCIParams) (timeStamp : Nat)
    (td : OHCITransferDescriptor) (st : OHCIState) : OHCIState :=
  if td.pType = P.kOHCIIsochronousInLowLatencyType
      ∨ td.pType = P.kOHCIIsochronousOutLowLatencyType then
    let frameCount :=
      (td.flags &&& P.kOHCIITDControl_FC) >>> P.kOHCIITDControl_FCPhase
    (List.range (frameCount + 1)).foldl
      (fun s i => updateLowLatencyFrame P timeStamp td i s)
      { st with
        _lowLatencyIsochTDsProcessed :=
          toUInt32 (st._lowLatencyIsochTDsProcessed + 1) }
  else st

/-- The loop of lines 349-434 from `pHCDoneTD` on. Returns `prevTD`,
`numberOfTDs` and the state. -/
def walkDoneQueue (P : OHCIParams) (timeStamp : Nat) :
    Nat → Option Ptr → Option Ptr → Nat → OHCIState →
      Res (Option Ptr × Nat × OHCIState)
  | 0, pHCDoneTD, prevTD, numberOfTDs, st =>
    match pHCDoneTD with
    | none => Res.ok (prevTD, numberOfTDs, st)
    | some _ => Res.timeout
  | fuel + 1, pHCDoneTD, prevTD, numberOfTDs, st =>
    match pHCDoneTD with
    | none => Res.ok (prevTD, numberOfTDs, st)
    | some t =>
      let td := st.descriptors t
      let physicalAddress := td.nextTD &&& P.kOHCIHeadPMask
      let nextTD := st.GetLogicalAddress physicalAddress
      walkDoneQueue P timeStamp fuel nextTD (some t)
        (toUInt32 (numberOfTDs + 1)) (updateLowLatencyTD P timeStamp td st)

/-- Lines 296-456: writeback done head. -/
def ohciWriteDoneHead (P : OHCIParams) (fuel : Nat) (hw : OHCIHw)
    (activeInterrupts : Nat) (p : OHCIPass) : Res OHCIPass :=
  if activeInterrupts &&& kOHCIHcInterrupt_WDH ≠ 0 then
    let timeStamp := hw.uptime
    let physicalAddress := toUInt32 hw.HCCADoneHead &&& P.kOHCIHeadPMask
    let oldHead := p.st._savedDoneQueueHead
    let cachedHead := physicalAddress
    let st1 : OHCIState :=
      { p.st with
        _filterInterruptCount := toUInt32 (p.st._filterInterruptCount + 1)
        _filterTimeStamp2 :=
          toUInt64 (timeStamp + 2 ^ 64 - p.st._filterTimeStamp)
        _filterTimeStamp := timeStamp
        _writeDoneHeadInterrupt := kOHCIHcInterrupt_WDH }
    match walkDoneQueue P timeStamp fuel
        (st1.GetLogicalAddress physicalAddress) none 0 st1 with
    | Res.ok (prevTD, numberOfTDs, st2) =>
      let cachedProducer := toUInt32 (st2._producerCount + numberOfTDs)
      let st3 : OHCIState :=
        match prevTD with
        | none => st2
        | some t =>
          { st2 with
            descriptors := Function.update st2.descriptors t
              { st2.descriptors t with nextTD := oldHead } }
      Res.ok
        { st := { st3 with
            _savedDoneQueueHead := cachedHead
            _producerCount := cachedProducer }
          writes := p.writes ++ [OHCIWrite.HCCADoneHead 0,
            OHCIWrite.hcInterruptStatus kOHCIHcInterrupt_WDH] }
    | Res.fault => Res.fault
    | Res.timeout => Res.timeout
  else Res.ok p

/-- `AppleUSBOHCI::FilterInterrupt`, lines 153-469. -/
def AppleUSBOHCI.FilterInterrupt (P : OHCIParams) (fuel : Nat) (hw : OHCIHw)
    (st : OHCIState) : Res (OHCIState × OHCIFilterOut) :=
  let enabledInterrupts := hw.hcInterruptEnable
  let activeInterrupts := enabledInterrupts &&& hw.hcInterruptStatus
  let p0 : OHCIPass := { st := st, writes := [] }
  if enabledInterrupts &&& kOHCIHcInterrupt_MIE ≠ 0 ∧ activeInterrupts ≠ 0 then
    let p1 := ohciFrameNumberOverflow P hw activeInterrupts p0
    let p2 := ohciSchedulingOverrun activeInterrupts p1
    let p3 := ohciStartOfFrame activeInterrupts p2
    let p4 := ohciOwnershipChange activeInterrupts p3
    let p5 := ohciRootHubStatusChange activeInterrupts p4
    let p6 := ohciUnrecoverableError activeInterrupts p5
    let p7 := ohciResumeDetected activeInterrupts p6
    match ohciWriteDoneHead P fuel hw activeInterrupts p7 with
    | Res.ok p8 =>
      Res.ok (p8.st,
        { result := false, signalInterrupt := 1, writes := p8.writes })
    | Res.fault => Res.fault
    | Res.timeout => Res.timeout
  else
    Res.ok (st, { result := false, signalInterrupt := 1, writes := [] })

/-! ## OHCI: `PollInterrupts` -/

/-- Bit 0 of `HcCommandStatus`: host controller reset. -/
def kOHCIHcCommandStatus_HCR : Nat := 1
/-- The functional state `UsbOperational` of `HcControl`. -/
def kOHCIFunctionalState_Operational : Nat := 2
/-- Position of the functional state in `HcControl`. -/
def kOHCIHcControl_HCFSPhase : Nat := 6
/-- Bit 2 of `HcControl`: periodic list enable. -/
def kOHCIHcControl_PLE : Nat := 4

/-- What the kernel returns to the calls of one OHCI `PollInterrupts`
run. -/
structure OHCIPollHw where
  absolutetime_to_nanoseconds : Nat → Nat

/-- A register write or a call out of the OHCI `PollInterrupts`.
`setPowerStateRunning` is `setPowerState(kOHCISetPowerLevelRunning, self)`,
`delay` is `delay(10 * MICROSECOND)`. -/
inductive OHCIPollEvent where
  | UIMProcessDoneQueue
  | setPowerStateRunning
  | hcCommandStatus (value : Nat)
  | delay
  | hcControl (value : Nat)
  | UIMRootHubStatusChange (arg : Bool)
  | LastRootHubPortStatusChanged (arg : Bool)
  | hcInterruptEnable (value : Nat)
  deriving DecidableEq

/-- The locals of an OHCI `PollInterrupts` run. -/
structure OHCIPollPass where
  st : OHCIState
  events : List OHCIPollEvent

/-- Lines 46-50: writeback done head. -/
def ohciPollWriteDoneHead (p : OHCIPollPass) : OHCIPollPass :=
  if p.st._writeDoneHeadInterrupt &&& kOHCIHcInterrupt_WDH ≠ 0 then
    { st := { p.st with _writeDoneHeadInterrupt := 0 }
      events := p.events ++ [OHCIPollEvent.UIMProcessDoneQueue] }
  else p

/-- Lines 54-64: resume detected. -/
def ohciPollResumeDetected (p : OHCIPollPass) : OHCIPollPass :=
  if p.st._resumeDetectedInterrupt &&& kOHCIHcInterrupt_RD ≠ 0 then
    { st := { p.st with
        _resumeDetectedInterrupt := 0
        _remote_wakeup_occurred := true }
      events :=
        if p.st._idleSuspend then
          p.events ++ [OHCIPollEvent.setPowerStateRunning]
        else p.events }
  else p

/-- Lines 68-83: unrecoverable error. -/
def ohciPollUnrecoverableError (p : OHCIPollPass) : OHCIPollPass :=
  if p.st._unrecoverableErrorInterrupt &&& kOHCIHcInterrupt_UE ≠ 0 then
    { st := { p.st with
        _unrecoverableErrorInterrupt := 0
        _errors := { p.st._errors with
          unrecoverableError :=
            toUInt32 (p.st._errors.unrecoverableError + 1) } }
      events := p.events ++
        [OHCIPollEvent.hcCommandStatus kOHCIHcCommandStatus_HCR,
          OHCIPollEvent.delay,
          OHCIPollEvent.hcControl
            ((kOHCIFunctionalState_Operational <<< kOHCIHcControl_HCFSPhase)
              ||| kOHCIHcControl_PLE)] }
  else p

/-- Lines 87-101: root hub status change. -/
def ohciPollRootHubStatusChange (p : OHCIPollPass) : OHCIPollPass :=
  if p.st._rootHubStatusChangeInterrupt &&& kOHCIHcInterrupt_RHSC ≠ 0 then
    { st := { p.st with
        _rootHubStatusChangeInterrupt := 0
        _remote_wakeup_occurred := true }
      events := p.events ++
        [OHCIPollEvent.UIMRootHubStatusChange false,
          OHCIPollEvent.LastRootHubPortStatusChanged true,
          OHCIPollEvent.hcInterruptEnable kOHCIHcInterrupt_RHSC] }
  else p

/-- `AppleUSBOHCI::PollInterrupts`, lines 34-102. -/
def AppleUSBOHCI.PollInterrupts (env : OHCIPollHw) (st : OHCIState) :
    OHCIState × List OHCIPollEvent :=
  let p0 : OHCIPollPass :=
    { st := { st with
        _timeElapsed := env.absolutetime_to_nanoseconds st._filterTimeStamp2 }
      events := [] }
  let p := ohciPollRootHubStatusChange (ohciPollUnrecoverableError
    (ohciPollResumeDetected (ohciPollWriteDoneHead p0)))
  (p.st, p.events)

/-! ## The entry points -/

/-- The EHCI controller object as the entry points see it: `isInactive` is
what `isInactive()` returns, `st` the fields of the filter and of the
dispatcher. -/
structure EHCIController where
  isInactive : Bool
  _onCardBus : Bool
  _pcCardEjected : Bool
  _controllerAvailable : Bool
  _filterInterruptActive : Bool
  st : EHCIState

/-- What `AppleUSBEHCI::PrimaryInterruptFilter` returns, and what its call
of `FilterInterrupt` put out when it made one. -/
structure EHCIPrimaryOut where
  result : Bool
  FilterInterrupt : Option FilterOut

/-- `AppleUSBEHCI::PrimaryInterruptFilter`, lines 195-218; `owner` is `none`
for a `NULL` controller. -/
def AppleUSBEHCI.PrimaryInterruptFilter (K : EHCIParams) (fuel : Nat)
    (hw : EHCIHw) (owner : Option EHCIController) :
    Res (Option EHCIController × EHCIPrimaryOut) :=
  match owner with
  | none => Res.ok (none, { result := false, FilterInterrupt := none })
  | some controller =>
    if controller.isInactive
        || (controller._onCardBus && controller._pcCardEjected)
        || !controller._controllerAvailable then
      Res.ok (some controller, { result := false, FilterInterrupt := none })
    else
      match AppleUSBEHCI.FilterInterrupt K fuel hw controller.st with
      | Res.ok (st2, out) =>
        Res.ok (some { controller with
            _filterInterruptActive := false
            st := st2 },
          { result := out.result, FilterInterrupt := some out })
      | Res.fault => Res.fault
      | Res.timeout => Res.timeout

/-- `AppleUSBEHCI::InterruptHandler`, lines 163-184; `emitted` is the static
variable of the function. Returns `emitted`, the controller, and the calls
out of `PollInterrupts` when it was called. -/
def AppleUSBEHCI.InterruptHandler (hw : EHCIPollHw) (emitted : Bool)
    (owner : Option EHCIController) :
    Bool × Option EHCIController × Option (List PollEvent) :=
  match owner with
  | none => (emitted, none, none)
  | some controller =>
    if controller.isInactive
        || (controller._onCardBus && controller._pcCardEjected)
        || !controller._controllerAvailable then
      (emitted, some controller, none)
    else
      let r := AppleUSBEHCI.PollInterrupts hw controller.st
      (true, some { controller with st := r.1 }, some r.2)

/-- The OHCI controller object as the entry points see it. -/
structure OHCIController where
  isInactive : Bool
  _onCardBus : Bool
  _pcCardEjected : Bool
  st : OHCIState

/-- What `AppleUSBOHCI::PrimaryInterruptFilter` returns, and what its call
of `FilterInterrupt` put out when it made one. -/
structure OHCIPrimaryOut where
  result : Bool
  FilterInterrupt : Option OHCIFilterOut

/-- `AppleUSBOHCI::PrimaryInterruptFilter`, lines 135-151. -/
def AppleUSBOHCI.PrimaryInterruptFilter (P : OHCIParams) (fuel : Nat)
    (hw : OHCIHw) (owner : Option OHCIController) :
    Res (Option OHCIController × OHCIPrimaryOut) :=
  match owner with
  | none => Res.ok (none, { result := false, FilterInterrupt := none })
  | some controller =>
    if controller.isInactive
        || (controller._onCardBus && controller._pcCardEjected) then
      Res.ok (some controller, { result := false, FilterInterrupt := none })
    else
      match AppleUSBOHCI.FilterInterrupt P fuel hw controller.st with
      | Res.ok (st2, out) =>
        Res.ok (some { controller with st := st2 },
          { result := out.result, FilterInterrupt := some out })
      | Res.fault => Res.fault
      | Res.timeout => Res.timeout

/-- What `AppleUSBOHCI::InterruptHandler` calls: the number of calls of
`finishPending`, and the calls out of `PollInterrupts` when it was
called. -/
structure OHCIHandlerOut where
  finishPending : Nat
  PollInterrupts : Option (List OHCIPollEvent)

/-- `AppleUSBOHCI::InterruptHandler`, lines 104-119. -/
def AppleUSBOHCI.InterruptHandler (env : OHCIPollHw)
    (owner : Option OHCIController) : Option OHCIController × OHCIHandlerOut :=
  match owner with
  | none => (none, { finishPending := 0, PollInterrupts := none })
  | some controller =>
    if controller.isInactive
        || (controller._onCardBus && controller._pcCardEjected) then
      (some controller, { finishPending := 0, PollInterrupts := none })
    else
      let r := AppleUSBOHCI.PollInterrupts env controller.st
      (some { controller with st := { r.1 with _filterInterruptCount := 0 } },
        { finishPending := 1, PollInterrupts := some r.2 })

/-! ## Vocabulary of the statements -/

/-- Following `next` from `p` visits exactly the addresses of `l`, in this
order, and then arrives at `q`. -/
def Chain (next : Ptr → Option Ptr) : Option Ptr → List Ptr → Option Ptr → Prop
  | p, [], q => p = q
  | p, x :: xs, q => p = some x ∧ Chain next (next x) xs q

instance Chain.instDecidable (next : Ptr → Option Ptr) :
    ∀ (p : Option Ptr) (l : List Ptr) (q : Option Ptr),
      Decidable (Chain next p l q)
  | p, [], q => inferInstanceAs (Decidable (p = q))
  | p, x :: xs, q =>
    @instDecidableAnd (p = some x) _ _ (Chain.instDecidable next (next x) xs q)

/-- The `_logicalNext` link of the element at `x`. -/
def nextOf (st : EHCIState) (x : Ptr) : Option Ptr :=
  (st.elements x)._logicalNext

/-- The `_doneQueueLink` link of the element at `x`. -/
def linkOf (st : EHCIState) (x : Ptr) : Option Ptr :=
  (st.elements x)._doneQueueLink

/-- The element at `x` passes the cast to the isochronous list element. -/
def isIsoch (st : EHCIState) (x : Ptr) : Bool :=
  decide ((st.elements x).kind ≠ ElemKind.other)

/-- The deferral condition for the element at `x` when slot `s` is walked
in a pass that reads `frIndex`: a split descriptor whose endpoint wraps,
the slot after `s` is the current slot, and the micro frame is below 2. -/
def deferredIn (K : EHCIParams) (frIndex : Nat) (st : EHCIState) (s : Nat)
    (x : Ptr) : Bool :=
  cannotRetire st (st.elements x) (nextSlotOf K s) (curSlotOf K frIndex)
    (curMicroFrameOf frIndex) == some true

/-- The slots a sweep walks: from `outSlot` forward modulo `N`, up to but
excluding `curSlot`. -/
def walkedSlots (N outSlot curSlot : Nat) : List Nat :=
  (List.range ((curSlot + N - outSlot) % N)).map (fun i => (outSlot + i) % N)

/-- The inner loop on the list of elements it visits: `d` tells which
elements are deferred. -/
def walkList (testSlot timeStamp : Nat) (d : Ptr → Bool) :
    List Ptr → Option Ptr → Bool → SweepState → Bool × SweepState
  | [], _, needToRescavenge, w => (needToRescavenge, w)
  | x :: xs, prevThing, needToRescavenge, w =>
    if d x then walkList testSlot timeStamp d xs (some x) true w
    else
      walkList testSlot timeStamp d xs prevThing needToRescavenge
        (retireElement testSlot timeStamp x prevThing w)

/-- Putting `x` on a backward queue given by its links and its head. -/
def pushDone (q : (Ptr → Option Ptr) × Option Ptr) (x : Ptr) :
    (Ptr → Option Ptr) × Option Ptr :=
  (Function.update q.1 x q.2, some x)

/-- The slots `S` are those visited by the outer loop from `t` until it
reaches `c`. -/
def SlotPath (K : EHCIParams) (c : Nat) : Nat → List Nat → Prop
  | t, [] => t = c
  | t, s :: S => t ≠ c ∧ s = t ∧ SlotPath K c (nextSlotOf K t) S

/-- The fields of the driver state that the sweep never writes agree. -/
structure SweepFrame (a b : EHCIState) : Prop where
  kind : ∀ y, (b.elements y).kind = (a.elements y).kind
  pEndpoint : ∀ y, (b.elements y)._pEndpoint = (a.elements y)._pEndpoint
  lowLatency : ∀ y, (b.elements y)._lowLatency = (a.elements y)._lowLatency
  useBackPtr : ∀ e, (b.endpoints e).useBackPtr = (a.endpoints e).useBackPtr
  frameNumber : b._frameNumber = a._frameNumber
  tempAnchorFrame : b._tempAnchorFrame = a._tempAnchorFrame
  tempAnchorTime : b._tempAnchorTime = a._tempAnchorTime
  anchorFrame : b._anchorFrame = a._anchorFrame
  anchorTime : b._anchorTime = a._anchorTime
  frameRollover : b._frameRolloverInterrupt = a._frameRolloverInterrupt
  asyncAdvance : b._asyncAdvanceInterrupt = a._asyncAdvanceInterrupt
  hostError : b._hostErrorInterrupt = a._hostErrorInterrupt
  portChange : b._portChangeInterrupt = a._portChangeInterrupt
  error : b._errorInterrupt = a._errorInterrupt
  complete : b._completeInterrupt = a._completeInterrupt
  errors : b._errors = a._errors
  errata : b.errataNECIncompleteWrite = a.errataNECIncompleteWrite
  inAbort : b._inAbortIsochEP = a._inAbortIsochEP
  portResumed : b._rhPortBeingResumed = a._rhPortBeingResumed

/-- The leading run of slot `s`: following `_logicalNext` from the head of
the slot visits `lead`, all isochronous, and arrives at `stop`, which is
`NULL` or not isochronous; a split descriptor of `lead` has an endpoint. -/
structure LeadOK (st : EHCIState) (s : Nat) (lead : List Ptr)
    (stop : Option Ptr) : Prop where
  chain : Chain (nextOf st) (st._logicalPeriodicList s) lead stop
  isoch : ∀ x ∈ lead, (st.elements x).kind ≠ ElemKind.other
  stops : ∀ y ∈ stop, (st.elements y).kind = ElemKind.other
  endpoint : ∀ x ∈ lead, (st.elements x).kind = ElemKind.splitIsoch →
    (st.elements x)._pEndpoint ≠ none

/-- The link that points at the element the inner loop examines: the head
of slot `testSlot` when there is no predecessor, else the `_logicalNext` of
the predecessor. -/
def cursorOf (testSlot : Nat) (prevThing : Option Ptr) (st : EHCIState) :
    Option Ptr :=
  match prevThing with
  | none => st._logicalPeriodicList testSlot
  | some q => nextOf st q

/-- The producer count after `n` increments of the 32-bit counter. -/
def bumpProducer (p : Nat) : Nat → Nat
  | 0 => p
  | n + 1 => bumpProducer (toUInt32 (p + 1)) n

/-- The elements a sweep over the slots `S` puts on the done queue, first
one first: slot after slot, the elements of the leading run of the slot
that are not deferred. -/
def retiredOf (lead : Nat → List Ptr) (d : Nat → Ptr → Bool) :
    List Nat → List Ptr
  | [] => []
  | s :: S => (lead s).filter (fun x => !d s x) ++ retiredOf lead d S

/-- What the outer loop, started at slot `t` in state `w`, has done when it
stops in state `w2` after the slots `S`. -/
structure SweepPost (c : Nat) (lead : Nat → List Ptr)
    (stop : Nat → Option Ptr) (d : Nat → Ptr → Bool) (S : List Nat) (t : Nat)
    (w w2 : SweepState) : Prop where
  frame : SweepFrame w.st w2.st
  retired : w2.retired = w.retired ++ retiredOf lead d S
  links : (linkOf w2.st, w2.cachedHead)
    = (retiredOf lead d S).foldl pushDone (linkOf w.st, w.cachedHead)
  producer : w2.cachedProducer
    = bumpProducer w.cachedProducer (retiredOf lead d S).length
  head : w2.st._savedDoneQueueHead = w.st._savedDoneQueueHead
    ∧ w2.st._producerCount = w.st._producerCount
  outSlot : w2.st._outSlot =
    match S.getLast? with
    | none => t
    | some l => if (lead l).any (d l) then l else c
  slotsOther : ∀ u, u ∉ S →
    w2.st._logicalPeriodicList u = w.st._logicalPeriodicList u
  slotsWalked : ∀ s ∈ S,
    Chain (nextOf w2.st) (w2.st._logicalPeriodicList s)
      ((lead s).filter (d s)) (stop s)
  next : ∀ y, (∀ s ∈ S, y ∉ (lead s).filter (d s)) →
    nextOf w2.st y = nextOf w.st y
  elements : ∀ y, (∀ s ∈ S, y ∉ lead s) → w2.st.elements y = w.st.elements y

/-- The part of the driver state the sweep works on agrees. -/
structure RingEq (a b : EHCIState) : Prop where
  elements : b.elements = a.elements
  endpoints : b.endpoints = a.endpoints
  slots : b._logicalPeriodicList = a._logicalPeriodicList
  periodicList : b._periodicList = a._periodicList
  outSlot : b._outSlot = a._outSlot
  head : b._savedDoneQueueHead = a._savedDoneQueueHead
  producer : b._producerCount = a._producerCount
  inAbort : b._inAbortIsochEP = a._inAbortIsochEP

/-- What a sweep over the slots `S` has done to the state `st`, giving
`st2` after it put the elements `retired` on the done queue. -/
structure RingPost (c : Nat) (lead : Nat → List Ptr)
    (stop : Nat → Option Ptr) (d : Nat → Ptr → Bool) (S : List Nat)
    (st st2 : EHCIState) (retired : List Ptr) : Prop where
  kind : ∀ y, (st2.elements y).kind = (st.elements y).kind
  pEndpoint : ∀ y, (st2.elements y)._pEndpoint = (st.elements y)._pEndpoint
  lowLatency : ∀ y, (st2.elements y)._lowLatency = (st.elements y)._lowLatency
  useBackPtr : ∀ e, (st2.endpoints e).useBackPtr = (st.endpoints e).useBackPtr
  inAbort : st2._inAbortIsochEP = st._inAbortIsochEP
  retired : retired = retiredOf lead d S
  links : (linkOf st2, st2._savedDoneQueueHead)
    = (retiredOf lead d S).foldl pushDone (linkOf st, st._savedDoneQueueHead)
  producer : st2._producerCount
    = bumpProducer st._producerCount (retiredOf lead d S).length
  outSlot : st2._outSlot =
    match S.getLast? with
    | none => st._outSlot
    | some l => if (lead l).any (d l) then l else c
  slotsOther : ∀ u, u ∉ S →
    st2._logicalPeriodicList u = st._logicalPeriodicList u
  slotsWalked : ∀ s ∈ S,
    Chain (nextOf st2) (st2._logicalPeriodicList s)
      ((lead s).filter (d s)) (stop s)
  next : ∀ y, (∀ s ∈ S, y ∉ (lead s).filter (d s)) →
    nextOf st2 y = nextOf st y
  elements : ∀ y, (∀ s ∈ S, y ∉ lead s) → st2.elements y = st.elements y

/-- The locals of `FilterInterrupt` when it reaches the completion branch. -/
def beforeComplete (K : EHCIParams) (hw : EHCIHw) (st : EHCIState) :
    FilterPass :=
  let activeInterrupts := hw.USBIntr &&& hw.USBSTS
  errorInterrupt activeInterrupts
    (portChangeInterrupt hw activeInterrupts
      (hostErrorInterrupt activeInterrupts
        (asyncAdvanceInterrupt activeInterrupts
          (frameRolloverInterrupt K hw activeInterrupts
            { st := st, needSignal := false, regWrites := [] }))))

/-- One host error activation: the filter has left `_hostErrorInterrupt`
pending and `PollInterrupts` runs. -/
def hostErrorActivation (hw : EHCIPollHw) (st : EHCIState) :
    EHCIState × List PollEvent :=
  AppleUSBEHCI.PollInterrupts hw
    { st with _hostErrorInterrupt := kEHCIHostErrorIntBit }

/-- The state after `n` consecutive host error activations, `hw i` being
what the hardware returns to the reads of the run after `i` activations. -/
def afterActivations (hw : Nat → EHCIPollHw) (st : EHCIState) :
    Nat → EHCIState
  | 0 => st
  | n + 1 => (hostErrorActivation (hw n) (afterActivations hw st n)).1

/-- The `k`-th activation, counted from 1, logs the host system error. -/
def logsAtActivation (hw : Nat → EHCIPollHw) (st : EHCIState) (k : Nat) :
    Prop :=
  PollEvent.hostSystemErrorLog ∈
    (hostErrorActivation (hw (k - 1)) (afterActivations hw st (k - 1))).2

/-! ## States and hardware answers used as examples -/

/-- A ring of 8 slots. -/
def ring8 : EHCIParams :=
  { kEHCIPeriodicListEntries := 8
    kEHCIFRIndexRolloverBit := 8192
    kEHCIFrameNumberIncrement := 2048 }

/-- An element that is not isochronous and links to nothing. -/
def plainElement : ListElement :=
  { kind := ElemKind.other
    _logicalNext := none
    physicalLink := 1
    _pEndpoint := none
    _lowLatency := false
    _doneQueueLink := none }

/-- A driver state with an empty ring and nothing pending. -/
def idleState : EHCIState :=
  { _frameNumber := 0
    _tempAnchorFrame := 0
    _tempAnchorTime := 0
    _anchorFrame := 0
    _anchorTime := 0
    _frameRolloverInterrupt := 0
    _asyncAdvanceInterrupt := 0
    _hostErrorInterrupt := 0
    _portChangeInterrupt := 0
    _errorInterrupt := 0
    _completeInterrupt := 0
    _errors := { hostSystemError := 0, displayed := 0 }
    errataNECIncompleteWrite := false
    _inAbortIsochEP := false
    _outSlot := 0
    _logicalPeriodicList := fun _ => none
    _periodicList := fun _ => 1
    _savedDoneQueueHead := none
    _producerCount := 0
    _rhPortBeingResumed := fun _ => false
    elements := fun _ => plainElement
    endpoints := fun _ =>
      { useBackPtr := true, onProducerQ := 0, scheduledTDs := 0 } }

/-- The hardware with every interrupt enabled, `status` active, the
periodic schedule running, and the frame index at `frIndex`. -/
def hwAt (status frIndex : Nat) : EHCIHw :=
  { USBIntr := 63
    USBSTS := status
    USBCMD := 16
    FRIndexRollover := frIndex
    uptimeRollover := 1000
    USBSTSReread := fun _ => 0
    uptimeComplete := 1000
    FRIndex := frIndex }

/-- The port registers of a controller without ports. -/
def noPorts : EHCIPollHw := { HCSParams := 0, PortSC := fun _ => 0 }

/-- An isochronous element without endpoint that links to `next`. -/
def isochElement (next : Option Ptr) : ListElement :=
  { kind := ElemKind.isoch
    _logicalNext := next
    physicalLink := 1
    _pEndpoint := none
    _lowLatency := false
    _doneQueueLink := none }

/-- A split isochronous element of endpoint 0 that links to `next`. -/
def splitElement (next : Option Ptr) : ListElement :=
  { kind := ElemKind.splitIsoch
    _logicalNext := next
    physicalLink := 1
    _pEndpoint := some 0
    _lowLatency := false
    _doneQueueLink := none }

/-- Slot 0 holds the isochronous element 1, which is also what
`_savedDoneQueueHead` still points at. -/
def staleHeadState : EHCIState :=
  { idleState with
    _logicalPeriodicList := fun s => if s = 0 then some 1 else none
    _savedDoneQueueHead := some 1
    elements := fun x => if x = 1 then isochElement none else plainElement }

/-- The result `r` is a value that satisfies `p`. -/
def Res.holds {α : Type} (r : Res α) (p : α → Prop) : Prop :=
  match r with
  | Res.ok a => p a
  | Res.fault => False
  | Res.timeout => False

instance Res.instDecidableHolds {α : Type} (r : Res α) (p : α → Prop)
    [inst : ∀ a, Decidable (p a)] : Decidable (Res.holds r p) :=
  match r with
  | Res.ok a => inst a
  | Res.fault => isFalse (fun h => h)
  | Res.timeout => isFalse (fun h => h)

/-- The element 1 is not isochronous and links to the wrapping split
element 2, which links to the isochronous element 3. Slot 0 starts at 1,
slot 1 starts at 2. -/
def aliasedState : EHCIState :=
  { idleState with
    _logicalPeriodicList := fun s =>
      if s = 0 then some 1 else if s = 1 then some 2 else none
    elements := fun x =>
      if x = 1 then { plainElement with _logicalNext := some 2 }
      else if x = 2 then splitElement (some 3)
      else if x = 3 then isochElement none
      else plainElement }

/-- The result of a pass for slot `s`, whose list before the pass was `l`:
afterwards the list of the slot is the deferred elements of the leading
isochronous run of `l` followed by the remainder of `l`, and no element of
the remainder was written. -/
def SlotResult (K : EHCIParams) (frIndex : Nat) (st st2 : EHCIState) (s : Nat)
    (l : List Ptr) : Prop :=
  Chain (nextOf st2) (st2._logicalPeriodicList s)
      ((l.takeWhile (isIsoch st)).filter (deferredIn K frIndex st s)
        ++ l.dropWhile (isIsoch st)) none
    ∧ ∀ x ∈ l.dropWhile (isIsoch st), st2.elements x = st.elements x

instance SlotResult.instDecidable (K : EHCIParams) (frIndex : Nat)
    (st st2 : EHCIState) (s : Nat) (l : List Ptr) :
    Decidable (SlotResult K frIndex st st2 s l) :=
  inferInstanceAs (Decidable (_ ∧ _))

instance LeadOK.instDecidable (st : EHCIState) (s : Nat) (lead : List Ptr)
    (stop : Option Ptr) : Decidable (LeadOK st s lead stop) :=
  decidable_of_iff
    (Chain (nextOf st) (st._logicalPeriodicList s) lead stop
      ∧ (∀ x ∈ lead, (st.elements x).kind ≠ ElemKind.other)
      ∧ (∀ y ∈ stop, (st.elements y).kind = ElemKind.other)
      ∧ (∀ x ∈ lead, (st.elements x).kind = ElemKind.splitIsoch →
          (st.elements x)._pEndpoint ≠ none))
    ⟨fun h => ⟨h.1, h.2.1, h.2.2.1, h.2.2.2⟩,
      fun h => ⟨h.chain, h.isoch, h.stops, h.endpoint⟩⟩

/-- The state a pass returned, or `st` when it did not return. -/
def passState (r : Res (EHCIState × FilterOut)) (st : EHCIState) : EHCIState :=
  match r with
  | Res.ok a => a.1
  | Res.fault => st
  | Res.timeout => st

/-- What a pass put out, or nothing when it did not return. -/
def passOut (r : Res (EHCIState × FilterOut)) : FilterOut :=
  match r with
  | Res.ok a => a.2
  | Res.fault =>
    { result := false, signalInterrupt := 0, regWrites := []
      UpdateFrameList := [], retired := [] }
  | Res.timeout =>
    { result := false, signalInterrupt := 0, regWrites := []
      UpdateFrameList := [], retired := [] }

/-- Slot 0 holds the isochronous element 1 and then the non-isochronous
element 4; slot 1 holds the wrapping split element 2, the isochronous
element 3 and then the non-isochronous element 5. -/
def scenarioState : EHCIState :=
  { idleState with
    _logicalPeriodicList := fun s =>
      if s = 0 then some 1 else if s = 1 then some 2 else none
    elements := fun x =>
      if x = 1 then isochElement (some 4)
      else if x = 2 then splitElement (some 3)
      else if x = 3 then isochElement (some 5)
      else plainElement }

/-- The slot lists of `scenarioState`. -/
def scenarioLists (s : Nat) : List Ptr :=
  if s = 0 then [1, 4] else if s = 1 then [2, 3, 5] else []

/-- The leading runs of `scenarioState`. -/
def scenarioLead (s : Nat) : List Ptr :=
  if s = 0 then [1] else if s = 1 then [2, 3] else []

/-- The ends of the leading runs of `scenarioState`. -/
def scenarioStop (s : Nat) : Option Ptr :=
  if s = 0 then some 4 else if s = 1 then some 5 else none

/-- The state `scenarioState` after the pass at frame index 16, which is
slot 2, micro frame 0. -/
def scenarioState1 : EHCIState :=
  passState (AppleUSBEHCI.FilterInterrupt ring8 8 (hwAt 1 16) scenarioState)
    scenarioState

/-- The leading runs after that pass. -/
def scenarioLead1 (s : Nat) : List Ptr := if s = 1 then [2] else []

/-- Slot 0 holds the isochronous element 1, slot 1 the wrapping split
element 2, and nothing else is linked. -/
def threeSlotState : EHCIState :=
  { idleState with
    _logicalPeriodicList := fun s =>
      if s = 0 then some 1 else if s = 1 then some 2 else none
    elements := fun x =>
      if x = 1 then isochElement none
      else if x = 2 then splitElement none
      else plainElement }

/-- Values for the constants of the OHCI driver, used as an example. -/
def exampleOHCIParams : OHCIParams :=
  { kOHCIFmNumberMask := 65535
    kOHCIBit15 := 32768
    kOHCIFrameOverflowBit := 65536
    kOHCIHeadPMask := 4294967280
    kOHCIIsochronousInLowLatencyType := 5
    kOHCIIsochronousOutLowLatencyType := 6
    kOHCIITDControl_FC := 117440512
    kOHCIITDControl_FCPhase := 24
    kUSBLowLatencyIsochTransferKey := 1819044212
    kOHCIITDOffset_CC := 57344
    kOHCIITDOffset_CCPhase := 13
    kOHCIITDOffsetConditionNotAccessed := 7
    kOHCIITDConditionNotAccessedReturn := 15
    kOHCIITDPSW_CC := 61440
    kOHCIITDPSW_CCPhase := 12
    kOHCIITDPSW_Size := 2047
    kIOReturnSuccess := 0
    TranslateStatusToUSBError := fun n => Int.ofNat n }

/-- An OHCI driver state with nothing pending and no descriptors. -/
def ohciIdleState : OHCIState :=
  { _errors :=
      { frameNumberOverflow := 0, scheduleOverrun := 0, ownershipChange := 0
        unrecoverableError := 0 }
    _frameNumber := 0
    _rootHubStatusChangeInterrupt := 0
    _unrecoverableErrorInterrupt := 0
    _resumeDetectedInterrupt := 0
    _writeDoneHeadInterrupt := 0
    _filterInterruptCount := 0
    _filterTimeStamp := 0
    _filterTimeStamp2 := 0
    _lowLatencyIsochTDsProcessed := 0
    _framesUpdated := 0
    _framesError := 0
    _savedDoneQueueHead := 0
    _producerCount := 0
    _timeElapsed := 0
    _remote_wakeup_occurred := false
    _idleSuspend := false
    GetLogicalAddress := fun _ => none
    descriptors := fun _ =>
      { flags := 0, nextTD := 0, pType := 0, pIsocFrame := 0, frameNum := 0
        offset := fun _ => 0 }
    frames := fun _ _ =>
      { frStatus := 0, frReqCount := 0, frActCount := 0, frTimeStamp := 0 } }

/-- The OHCI hardware with the master enable and write-done-head enabled
and `status` in the status register. -/
def ohciHwAt (status : Nat) : OHCIHw :=
  { hcInterruptEnable := 2147483650
    hcInterruptStatus := status
    HCCAFrameNumber := 0
    HCCADoneHead := 0
    uptime := 1000 }

/-! ## Runs of passes -/

/-- One step of the EHCI driver: a whole `FilterInterrupt` pass or a whole
`PollInterrupts` run, with what the hardware returns to it. -/
inductive EHCIStep where
  | filter (hw : EHCIHw)
  | poll (hw : EHCIPollHw)

/-- The state after one step. -/
def ehciStep (K : EHCIParams) (fuel : Nat) (e : EHCIStep) (st : EHCIState) :
    Res EHCIState :=
  match e with
  | EHCIStep.filter hw =>
    match AppleUSBEHCI.FilterInterrupt K fuel hw st with
    | Res.ok r => Res.ok r.1
    | Res.fault => Res.fault
    | Res.timeout => Res.timeout
  | EHCIStep.poll hw => Res.ok (AppleUSBEHCI.PollInterrupts hw st).1

/-- The state after the steps of `steps`, one after the other. -/
def ehciRun (K : EHCIParams) (fuel : Nat) :
    List EHCIStep → EHCIState → Res EHCIState
  | [], st => Res.ok st
  | e :: steps, st =>
    match ehciStep K fuel e st with
    | Res.ok st1 => ehciRun K fuel steps st1
    | Res.fault => Res.fault
    | Res.timeout => Res.timeout

/-- One step of the OHCI driver. -/
inductive OHCIStep where
  | filter (hw : OHCIHw)
  | poll (env : OHCIPollHw)

/-- The state after one step. -/
def ohciStep (P : OHCIParams) (fuel : Nat) (e : OHCIStep) (st : OHCIState) :
    Res OHCIState :=
  match e with
  | OHCIStep.filter hw =>
    match AppleUSBOHCI.FilterInterrupt P fuel hw st with
    | Res.ok r => Res.ok r.1
    | Res.fault => Res.fault
    | Res.timeout => Res.timeout
  | OHCIStep.poll env => Res.ok (AppleUSBOHCI.PollInterrupts env st).1

/-- The state after the steps of `steps`, one after the other. -/
def ohciRun (P : OHCIParams) (fuel : Nat) :
    List OHCIStep → OHCIState → Res OHCIState
  | [], st => Res.ok st
  | e :: steps, st =>
    match ohciStep P fuel e st with
    | Res.ok st1 => ohciRun P fuel steps st1
    | Res.fault => Res.fault
    | Res.timeout => Res.timeout

/-! ## Vocabulary of the statements on flags, anchors and registers -/

/-- The anchor pair a reader sees. -/
def anchorPair (st : EHCIState) : Nat × Nat := (st._anchorTime, st._anchorFrame)

/-- The anchor pair staged for the dispatcher. -/
def tempAnchorPair (st : EHCIState) : Nat × Nat :=
  (st._tempAnchorTime, st._tempAnchorFrame)

/-- The pair of time and frame that the pass with the hardware answers `hw`
stages in state `st`: the clock sample of lines 253 and the frame number of
lines 249-252, both of this pass; `none` when frame rollover is not
active. -/
def stagedBy (K : EHCIParams) (hw : EHCIHw) (st : EHCIState) :
    Option (Nat × Nat) :=
  if (hw.USBIntr &&& hw.USBSTS) &&& kEHCIFrListRolloverIntBit ≠ 0 then
    let frameNumber :=
      if hw.FRIndexRollover < K.kEHCIFRIndexRolloverBit then
        toUInt64 (st._frameNumber + K.kEHCIFrameNumberIncrement)
      else st._frameNumber
    some (hw.uptimeRollover, toUInt64 (frameNumber + (hw.FRIndexRollover >>> 3)))
  else none

/-- The pairs staged by the filter passes of a run, each by one pass. -/
def stagedPairs (K : EHCIParams) (fuel : Nat) :
    List EHCIStep → EHCIState → List (Nat × Nat)
  | [], _ => []
  | e :: steps, st =>
    let here : List (Nat × Nat) :=
      match e with
      | EHCIStep.filter hw => (stagedBy K hw st).toList
      | EHCIStep.poll _ => []
    match ehciStep K fuel e st with
    | Res.ok st1 => here ++ stagedPairs K fuel steps st1
    | Res.fault => here
    | Res.timeout => here

/-- The cause bits of the EHCI status register that the filter handles. -/
def ehciCauseBits : List Nat :=
  [kEHCIFrListRolloverIntBit, kEHCIAAEIntBit, kEHCIHostErrorIntBit,
    kEHCIPortChangeIntBit, kEHCIErrorIntBit, kEHCICompleteIntBit]

/-- The cause bits of the OHCI status register that the filter handles. -/
def ohciCauseBits : List Nat :=
  [kOHCIHcInterrupt_FNO, kOHCIHcInterrupt_SO, kOHCIHcInterrupt_SF,
    kOHCIHcInterrupt_OC, kOHCIHcInterrupt_RHSC, kOHCIHcInterrupt_UE,
    kOHCIHcInterrupt_RD, kOHCIHcInterrupt_WDH]

/-- The number of reads of `USBSTS`, among the first ten after the port
change bit was cleared, that still show the bit before one shows it
clear. -/
def stuckRereads (hw : EHCIHw) : Nat :=
  ((List.range 10).takeWhile
    (fun i => decide (hw.USBSTSReread i &&& kEHCIPortChangeIntBit ≠ 0))).length

/-- The pending flag of the EHCI cause with bit `b`. -/
def ehciPendingFlag (b : Nat) (st : EHCIState) : Nat :=
  if b = kEHCIFrListRolloverIntBit then st._frameRolloverInterrupt
  else if b = kEHCIAAEIntBit then st._asyncAdvanceInterrupt
  else if b = kEHCIHostErrorIntBit then st._hostErrorInterrupt
  else if b = kEHCIPortChangeIntBit then st._portChangeInterrupt
  else if b = kEHCIErrorIntBit then st._errorInterrupt
  else if b = kEHCICompleteIntBit then st._completeInterrupt
  else 0

/-- Every pending flag of the EHCI driver is 0 or its own cause bit. -/
def EHCIFlagsOK (st : EHCIState) : Prop :=
  ∀ b ∈ ehciCauseBits, ehciPendingFlag b st = 0 ∨ ehciPendingFlag b st = b

/-- The cause bits that have a pending flag in the OHCI driver. -/
def ohciFlagBits : List Nat :=
  [kOHCIHcInterrupt_WDH, kOHCIHcInterrupt_RD, kOHCIHcInterrupt_UE,
    kOHCIHcInterrupt_RHSC]

/-- The pending flag of the OHCI cause with bit `b`. -/
def ohciPendingFlag (b : Nat) (st : OHCIState) : Nat :=
  if b = kOHCIHcInterrupt_WDH then st._writeDoneHeadInterrupt
  else if b = kOHCIHcInterrupt_RD then st._resumeDetectedInterrupt
  else if b = kOHCIHcInterrupt_UE then st._unrecoverableErrorInterrupt
  else if b = kOHCIHcInterrupt_RHSC then st._rootHubStatusChangeInterrupt
  else 0

/-- Every pending flag of the OHCI driver is 0 or its own cause bit. -/
def OHCIFlagsOK (st : OHCIState) : Prop :=
  ∀ b ∈ ohciFlagBits, ohciPendingFlag b st = 0 ∨ ohciPendingFlag b st = b

/-- The EHCI entry points ignore the interrupt: the controller is `NULL`,
inactive, ejected from a card bus, or not available. -/
def ehciTornDown (owner : Option EHCIController) : Prop :=
  match owner with
  | none => True
  | some c =>
    c.isInactive = true ∨ (c._onCardBus = true ∧ c._pcCardEjected = true)
      ∨ c._controllerAvailable = false

/-- The OHCI entry points ignore the interrupt: the controller is `NULL`,
inactive, or ejected from a card bus. -/
def ohciTornDown (owner : Option OHCIController) : Prop :=
  match owner with
  | none => True
  | some c =>
    c.isInactive = true ∨ (c._onCardBus = true ∧ c._pcCardEjected = true)

/-- The descriptor that the bus address `a` names, its low bits masked off
as at line 365. -/
def tdAt (P : OHCIParams) (st : OHCIState) (a : Nat) : Option Ptr :=
  st.GetLogicalAddress (a &&& P.kOHCIHeadPMask)

/-- The descriptor that follows `t` on a done queue, lines 365-366. -/
def tdNext (P : OHCIParams) (st : OHCIState) (t : Ptr) : Option Ptr :=
  tdAt P st (st.descriptors t).nextTD

/-- The descriptors reachable from the bus address `a` through `nextTD` are
those of `l`, in this order, and the last one links to nothing. -/
def DoneList (P : OHCIParams) (st : OHCIState) (a : Nat) (l : List Ptr) :
    Prop :=
  Chain (tdNext P st) (tdAt P st a) l none

instance DoneList.instDecidable (P : OHCIParams) (st : OHCIState) (a : Nat)
    (l : List Ptr) : Decidable (DoneList P st a l) :=
  inferInstanceAs (Decidable (Chain _ _ _ _))

/-- What holds of the locals of a sweep at every point, `st0` being the
state the sweep started from and `ts` its time stamp. -/
structure SweepInv (st0 : EHCIState) (ts : Nat) (w : SweepState) : Prop where
  frame : SweepFrame st0 w.st
  producer :
    w.cachedProducer = bumpProducer st0._producerCount w.retired.length
  calls : w.UpdateFrameList
    = (w.retired.filter (fun x => (st0.elements x)._lowLatency)).map
        (fun x => (x, ts))

/-- The locals of `FilterInterrupt` after the six causes were examined and
before the sweep. -/
def afterCauses (K : EHCIParams) (hw : EHCIHw) (st : EHCIState) : FilterPass :=
  if hw.USBIntr &&& hw.USBSTS ≠ 0 then
    if (hw.USBIntr &&& hw.USBSTS) &&& kEHCICompleteIntBit ≠ 0 then
      { st := { (beforeComplete K hw st).st with
          _completeInterrupt := kEHCICompleteIntBit }
        regWrites := (beforeComplete K hw st).regWrites
          ++ [EHCIRegWrite.USBSTS kEHCICompleteIntBit]
        needSignal := true }
    else beforeComplete K hw st
  else { st := st, needSignal := false, regWrites := [] }

/-- The value a piece of code returned, or `d` when it did not return. -/
def Res.valueOr {α : Type} (r : Res α) (d : α) : α :=
  match r with
  | Res.ok a => a
  | Res.fault => d
  | Res.timeout => d

/-- The locals of the OHCI `FilterInterrupt` when it reaches the writeback
done head branch. -/
def ohciBeforeWDH (P : OHCIParams) (hw : OHCIHw) (st : OHCIState) : OHCIPass :=
  let activeInterrupts := hw.hcInterruptEnable &&& hw.hcInterruptStatus
  ohciResumeDetected activeInterrupts
    (ohciUnrecoverableError activeInterrupts
      (ohciRootHubStatusChange activeInterrupts
        (ohciOwnershipChange activeInterrupts
          (ohciStartOfFrame activeInterrupts
            (ohciSchedulingOverrun activeInterrupts
              (ohciFrameNumberOverflow P hw activeInterrupts
                { st := st, writes := [] }))))))

/-- The OHCI filter processes its causes: the master interrupt enable bit
is set and some enabled cause is active. -/
def ohciProcesses (hw : OHCIHw) : Prop :=
  hw.hcInterruptEnable &&& kOHCIHcInterrupt_MIE ≠ 0
    ∧ hw.hcInterruptEnable &&& hw.hcInterruptStatus ≠ 0

instance ohciProcesses.instDecidable (hw : OHCIHw) :
    Decidable (ohciProcesses hw) :=
  inferInstanceAs (Decidable (_ ∧ _))

/-- The driver state `b` differs from `a` at most in the debugging counters
and in the frame records, and every frame record of `b` is as in `a` or
carries the time stamp `ts`: what a walk of the done queue with time stamp
`ts` may change. -/
def OHCIWalked (ts : Nat) (a b : OHCIState) : Prop :=
  b = { a with
      _lowLatencyIsochTDsProcessed := b._lowLatencyIsochTDsProcessed
      _framesUpdated := b._framesUpdated
      _framesError := b._framesError
      frames := b.frames }
    ∧ ∀ addr i, b.frames addr i = a.frames addr i
        ∨ (b.frames addr i).frTimeStamp = ts

/-- Lines 302-345: the state after the bookkeeping of the writeback done
head branch, before the done queue is walked. -/
def ohciWDHBook (hw : OHCIHw) (st : OHCIState) : OHCIState :=
  { st with
    _filterInterruptCount := toUInt32 (st._filterInterruptCount + 1)
    _filterTimeStamp2 := toUInt64 (hw.uptime + 2 ^ 64 - st._filterTimeStamp)
    _filterTimeStamp := hw.uptime
    _writeDoneHeadInterrupt := kOHCIHcInterrupt_WDH }

/-- Lines 444-445: the descriptors after the last one of `l`, if there is
one, was linked to the bus address `oldHead`. -/
def linkLast (descriptors : Ptr → OHCITransferDescriptor) (l : List Ptr)
    (oldHead : Nat) : Ptr → OHCITransferDescriptor :=
  match l.getLast? with
  | none => descriptors
  | some t =>
    Function.update descriptors t { descriptors t with nextTD := oldHead }

/-- The values written to `USBSTS`, in program order. -/
def ehciStatusWrites (ws : List EHCIRegWrite) : List Nat :=
  ws.map (fun w => match w with | EHCIRegWrite.USBSTS v => v)

/-- The values written to `HcInterruptStatus`, in program order. -/
def ohciStatusWrites (ws : List OHCIWrite) : List Nat :=
  ws.filterMap (fun w =>
    match w with
    | OHCIWrite.hcInterruptStatus v => some v
    | OHCIWrite.hcInterruptDisable _ => none
    | OHCIWrite.HCCADoneHead _ => none)

/-- The number of times a pass of the EHCI filter writes the active cause
bit `b` to `USBSTS`: once, and with the NEC errata once more for each stuck
read of the port change bit. -/
def ehciClears (hw : EHCIHw) (st : EHCIState) (b : Nat) : Nat :=
  if b = kEHCIPortChangeIntBit ∧ st.errataNECIncompleteWrite = true then
    1 + stuckRereads hw
  else 1

/-- The number of times a run of the EHCI `PollInterrupts` from `st` enters
the branch of the cause with bit `b`: once when the flag of the cause is
pending, else not at all. -/
def ehciBranchRuns (b : Nat) (st : EHCIState) : Nat :=
  if ehciPendingFlag b st &&& b ≠ 0 then 1 else 0

/-- The number of times a run of the OHCI `PollInterrupts` from `st` enters
the branch of the cause with bit `b`. -/
def ohciBranchRuns (b : Nat) (st : OHCIState) : Nat :=
  if ohciPendingFlag b st &&& b ≠ 0 then 1 else 0

/-- The event is the start of a thread that resumes a port. -/
def isResumePortThread (e : PollEvent) : Bool :=
  match e with
  | PollEvent.resumePortThread _ => true
  | _ => false

/-! ## More states and hardware answers used as examples -/

/-- A driver state with a frame rollover pending and the pair (7, 9)
staged. -/
def rolloverPendingState : EHCIState :=
  { idleState with
    _frameRolloverInterrupt := kEHCIFrListRolloverIntBit
    _tempAnchorTime := 7
    _tempAnchorFrame := 9 }

/-- A pass with frame rollover active followed by a run of
`PollInterrupts`. -/
def rolloverSteps : List EHCIStep :=
  [EHCIStep.filter (hwAt 8 16), EHCIStep.poll noPorts]

/-- The OHCI hardware with writeback done head enabled and active, and the
master interrupt enable bit clear. -/
def ohciHwNoMIE : OHCIHw :=
  { hcInterruptEnable := 2
    hcInterruptStatus := 2
    HCCAFrameNumber := 0
    HCCADoneHead := 0
    uptime := 1000 }

/-- The OHCI hardware with the master enable and writeback done head
enabled, writeback done head active and `head` in the done head word. -/
def ohciDoneHw (head : Nat) : OHCIHw :=
  { hcInterruptEnable := 2147483650
    hcInterruptStatus := 2
    HCCAFrameNumber := 0
    HCCADoneHead := head
    uptime := 1000 }

/-- An OHCI driver state with an empty done queue, in which the bus address
16 names the descriptor 1, a low latency isochronous descriptor of one
frame, with its frame list at address 32, that links to nothing. -/
def ohciOneTD : OHCIState :=
  { ohciIdleState with
    GetLogicalAddress := fun a => if a = 16 then some 1 else none
    descriptors := fun _ =>
      { flags := 0, nextTD := 0, pType := 5, pIsocFrame := 32, frameNum := 0
        offset := fun _ => 0 } }

/-- The state `ohciOneTD` with `_savedDoneQueueHead` still naming the
descriptor 1 and `_producerCount` at the largest 32-bit value. -/
def ohciStaleHeadState : OHCIState :=
  { ohciOneTD with
    _savedDoneQueueHead := 16
    _producerCount := 4294967295 }

/-- A driver state with the NEC errata. -/
def errataState : EHCIState :=
  { idleState with errataNECIncompleteWrite := true }

/-- The hardware with port change active and the bit stuck in every read
of `USBSTS`. -/
def stuckPortHw : EHCIHw :=
  { hwAt 4 0 with USBSTSReread := fun _ => 4 }

/-- Slot 0 holds the low latency isochronous element 1, and
`_producerCount` is at the largest 32-bit value. -/
def wrapState : EHCIState :=
  { idleState with
    _logicalPeriodicList := fun s => if s = 0 then some 1 else none
    _producerCount := 4294967295
    elements := fun x =>
      if x = 1 then { isochElement none with _lowLatency := true }
      else plainElement }

/-- An EHCI controller on a card bus that was ejected. -/
def ejectedEHCI : EHCIController :=
  { isInactive := false
    _onCardBus := true
    _pcCardEjected := true
    _controllerAvailable := true
    _filterInterruptActive := false
    st := idleState }

/-- An OHCI controller that is inactive. -/
def inactiveOHCI : OHCIController :=
  { isInactive := true
    _onCardBus := false
    _pcCardEjected := false
    st := ohciIdleState }

/-- The state and the output a pass of the OHCI filter returned, or `st`
and no output when it did not return. -/
def ohciPass (r : Res (OHCIState × OHCIFilterOut)) (st : OHCIState) :
    OHCIState × OHCIFilterOut :=
  r.valueOr (st, { result := false, signalInterrupt := 0, writes := [] })

/-! ## Vocabulary of the statements on ports, endpoints and frame records -/

/-- The test of lines 128-131 for the port with index `p`, on the state the
run of `PollInterrupts` started from: the port is not being resumed and its
status has the resume bit. -/
def portResumes (hw : EHCIPollHw) (st : EHCIState) (p : Nat) : Bool :=
  !st._rhPortBeingResumed p && decide (hw.PortSC p &&& kEHCIPortSC_Resume ≠ 0)

/-- The starts of resume threads that the loop of lines 126-138 makes over
the ports `port .. port + n - 1`, in program order. -/
def resumeThreads (hw : EHCIPollHw) (st : EHCIState) (port n : Nat) :
    List PollEvent :=
  ((List.range' port n).filter (portResumes hw st)).map
    (fun p => PollEvent.resumePortThread (p + 1))
/-- The number of entries of the list `retired` of retired elements whose
owning endpoint, `_pEndpoint` in the state `st`, is `e`. -/
def retiredFor (st : EHCIState) (e : Nat) (retired : List Ptr) : Nat :=
  (retired.filter
    (fun x => decide ((st.elements x)._pEndpoint = some e))).length

/-- The count `scheduledTDs` after `n` decrements of the signed 32-bit
counter. -/
def dropScheduled (z : Int) : Nat → Int
  | 0 => z
  | n + 1 => dropScheduled (toSInt32 (z - 1)) n

/-- The endpoints of the sweep state `w` are those of `st0` after the
counters of each were moved once for every retired element it owns. -/
def EndpointsCounted (st0 : EHCIState) (w : SweepState) : Prop :=
  ∀ e, w.st.endpoints e =
    { useBackPtr := (st0.endpoints e).useBackPtr
      onProducerQ :=
        bumpProducer (st0.endpoints e).onProducerQ (retiredFor st0 e w.retired)
      scheduledTDs :=
        dropScheduled (st0.endpoints e).scheduledTDs
          (retiredFor st0 e w.retired) }
/-- The elements that the inner loop of lines 343-393 examines, in the
order it examines them: the values of `thing` at line 345. -/
def walkSlotVisits (testSlot nextSlot curSlot curMicroFrame timeStamp : Nat) :
    Nat → Option Ptr → Option Ptr → SweepState → List Ptr
  | 0, _, _, _ => []
  | fuel + 1, thing, prevThing, w =>
    match thing with
    | none => []
    | some t =>
      let el := w.st.elements t
      let nextThing := el._logicalNext
      if el.kind = ElemKind.other then [t]
      else
        match cannotRetire w.st el nextSlot curSlot curMicroFrame with
        | none => [t]
        | some true =>
          t :: walkSlotVisits testSlot nextSlot curSlot curMicroFrame timeStamp
            fuel nextThing (some t) w
        | some false =>
          t :: walkSlotVisits testSlot nextSlot curSlot curMicroFrame timeStamp
            fuel nextThing prevThing
            (retireElement testSlot timeStamp t prevThing w)

/-- The values of `testSlot` for which the body of the outer loop of lines
333-397 runs, in order, each with the elements its inner loop examines. -/
def sweepVisits (K : EHCIParams) (curSlot curMicroFrame timeStamp fuel : Nat) :
    Nat → Nat → SweepState → List (Nat × List Ptr)
  | 0, _, _ => []
  | slots + 1, testSlot, w =>
    if testSlot = curSlot then []
    else
      let nextSlot := nextSlotOf K testSlot
      (testSlot,
        walkSlotVisits testSlot nextSlot curSlot curMicroFrame timeStamp fuel
          (w.st._logicalPeriodicList testSlot) none w) ::
        match walkSlot testSlot nextSlot curSlot curMicroFrame timeStamp fuel
            (w.st._logicalPeriodicList testSlot) none false w with
        | Res.ok (needToRescavenge, w1) =>
          let w2 : SweepState :=
            if needToRescavenge then w1
            else { w1 with st := { w1.st with _outSlot := nextSlot } }
          sweepVisits K curSlot curMicroFrame timeStamp fuel slots nextSlot w2
        | Res.fault => []
        | Res.timeout => []

/-- The locals of the sweep when it enters the outer loop, lines 329-331. -/
def sweepStart (st : EHCIState) : SweepState :=
  { st := st
    cachedHead := st._savedDoneQueueHead
    cachedProducer := st._producerCount
    UpdateFrameList := []
    retired := [] }

/-- The slots walked by the sweep of lines 319-403, each with the elements
examined in it. -/
def periodicSweepVisits (K : EHCIParams) (fuel : Nat) (hw : EHCIHw)
    (st : EHCIState) : List (Nat × List Ptr) :=
  sweepVisits K (curSlotOf K hw.FRIndex) (curMicroFrameOf hw.FRIndex)
    hw.uptimeComplete fuel fuel (toUInt16 st._outSlot) (sweepStart st)
/-- The frame count field of the first word of an isochronous descriptor,
line 388. -/
def frameCountOf (P : OHCIParams) (td : OHCITransferDescriptor) : Nat :=
  (td.flags &&& P.kOHCIITDControl_FC) >>> P.kOHCIITDControl_FCPhase

/-- The descriptor is a low latency isochronous one, in or out, the test of
lines 368-369. -/
def isLowLatencyTD (P : OHCIParams) (td : OHCITransferDescriptor) : Bool :=
  decide (td.pType = P.kOHCIIsochronousInLowLatencyType
    ∨ td.pType = P.kOHCIIsochronousOutLowLatencyType)

/-- The record `idx` of the frame list at `addr` is one of the frames of
the low latency descriptor `td`: those at the indices `frameNum` to
`frameNum + FC` of its frame list. -/
def coversFrame (P : OHCIParams) (td : OHCITransferDescriptor)
    (addr idx : Nat) : Bool :=
  isLowLatencyTD P td && decide (addr = td.pIsocFrame)
    && decide (td.frameNum ≤ idx) && decide (idx ≤ td.frameNum + frameCountOf P td)

/-- The decoding of one frame as the statement words it: from the offset
word `offset` of a descriptor of type `pType`, the record that replaces
`fr`. With the condition code not accessed the count is 0 and the status
the translated not accessed error; otherwise the status is the translated
condition code, and the count is the requested count when the status is
success and the type is low latency out, else the size field of the offset
word. The record carries the time stamp `ts` of the pass. -/
def decodedFrame (P : OHCIParams) (ts pType offset : Nat)
    (fr : LowLatencyIsocFrame) : LowLatencyIsocFrame :=
  if (offset &&& P.kOHCIITDOffset_CC) >>> P.kOHCIITDOffset_CCPhase
      = P.kOHCIITDOffsetConditionNotAccessed then
    { frStatus :=
        P.TranslateStatusToUSBError P.kOHCIITDConditionNotAccessedReturn
      frReqCount := fr.frReqCount
      frActCount := 0
      frTimeStamp := ts }
  else
    { frStatus :=
        P.TranslateStatusToUSBError
          ((offset &&& P.kOHCIITDPSW_CC) >>> P.kOHCIITDPSW_CCPhase)
      frReqCount := fr.frReqCount
      frActCount :=
        if P.TranslateStatusToUSBError
              ((offset &&& P.kOHCIITDPSW_CC) >>> P.kOHCIITDPSW_CCPhase)
            = P.kIOReturnSuccess
            ∧ pType = P.kOHCIIsochronousOutLowLatencyType then
          fr.frReqCount
        else offset &&& P.kOHCIITDPSW_Size
      frTimeStamp := ts }

/-- The frame records as the statement says the descriptor `td` leaves
them: the records it covers are decoded, each from its own offset word, and
every other record is as before. -/
def decodedFrames (P : OHCIParams) (ts : Nat) (td : OHCITransferDescriptor)
    (frames : Ptr → Nat → LowLatencyIsocFrame) :
    Ptr → Nat → LowLatencyIsocFrame :=
  fun addr idx =>
    if coversFrame P td addr idx then
      decodedFrame P ts td.pType (toUInt16 (td.offset (idx - td.frameNum)))
        (frames addr idx)
    else frames addr idx

/-- The number of frame records the descriptor `td` has updated: `FC + 1`
for a low latency descriptor, none for any other. -/
def framesCounted (P : OHCIParams) (td : OHCITransferDescriptor) : Nat :=
  if isLowLatencyTD P td then frameCountOf P td + 1 else 0
/-! ## Further states and hardware answers used as examples -/

/-- The OHCI hardware with the master enable and the seven causes of the
low bits enabled, `status` in the status register, and the frame number 100
in the communication area. -/
def ohciCausesHw (status : Nat) : OHCIHw :=
  { hcInterruptEnable := 2147483775
    hcInterruptStatus := status
    HCCAFrameNumber := 100
    HCCADoneHead := 0
    uptime := 1000 }

/-- An OHCI driver state in which the bus address 16 names the descriptor
1, a low latency isochronous out descriptor with frame count field 1 and
`frameNum` 2, whose first offset word has the condition code not accessed
and whose second has the condition code 0 and the size 100; its frame list
is at address 32, and every record asks for 64 bytes. -/
def ohciTwoFrameTD : OHCIState :=
  { ohciIdleState with
    GetLogicalAddress := fun a => if a = 16 then some 1 else none
    descriptors := fun _ =>
      { flags := 16777216, nextTD := 0, pType := 6, pIsocFrame := 32
        frameNum := 2, offset := fun i => if i = 0 then 57344 else 100 }
    frames := fun _ _ =>
      { frStatus := 1819044212, frReqCount := 64, frActCount := 0
        frTimeStamp := 0 } }

/-- The hardware with complete active and the periodic schedule disabled in
`USBCMD`. -/
def hwPeriodicOff : EHCIHw :=
  { hwAt 1 16 with USBCMD := 0 }

/-- The port registers of a controller with two ports, of which the second
has the resume bit in its status. -/
def twoPorts : EHCIPollHw :=
  { HCSParams := 2, PortSC := fun p => if p = 1 then 64 else 0 }

/-- A driver state with a port change pending. -/
def portChangePendingState : EHCIState :=
  { idleState with _portChangeInterrupt := kEHCIPortChangeIntBit }

/-- A clock whose absolute time is in nanoseconds. -/
def nanosecondClock : OHCIPollHw :=
  { absolutetime_to_nanoseconds := fun t => t }

/-! ## Lemmas on chains -/

theorem Chain.congr {next next2 : Ptr → Option Ptr} :
    ∀ (l : List Ptr) (p q : Option Ptr), (∀ x ∈ l, next2 x = next x) →
      Chain next p l q → Chain next2 p l q
  | [], _, _, _, h => h
  | x :: xs, p, q, hx, h => by
    obtain ⟨h1, h2⟩ := h
    refine ⟨h1, ?_⟩
    rw [hx x (List.mem_cons_self _ _)]
    exact Chain.congr xs _ _ (fun y hy => hx y (List.mem_cons_of_mem _ hy)) h2

theorem Chain.append {next : Ptr → Option Ptr} :
    ∀ (l1 l2 : List Ptr) (p q r : Option Ptr),
      Chain next p l1 q → Chain next q l2 r → Chain next p (l1 ++ l2) r
  | [], _, _, _, _, h1, h2 => by
    have : _ = _ := h1
    subst this
    exact h2
  | x :: xs, l2, p, q, r, h1, h2 =>
    ⟨h1.1, Chain.append xs l2 _ q r h1.2 h2⟩

theorem Chain.split {next : Ptr → Option Ptr} :
    ∀ (l1 l2 : List Ptr) (p r : Option Ptr),
      Chain next p (l1 ++ l2) r →
        ∃ q, Chain next p l1 q ∧ Chain next q l2 r
  | [], _, p, _, h => ⟨p, rfl, h⟩
  | x :: xs, l2, _, r, h => by
    obtain ⟨q, hq1, hq2⟩ := Chain.split xs l2 _ r h.2
    exact ⟨q, ⟨h.1, hq1⟩, hq2⟩

/-- Two chains from the same start whose elements all satisfy `a` and which
both arrive at an end not satisfying `a` are the same. -/
theorem Chain.unique {next : Ptr → Option Ptr} (a : Ptr → Prop) :
    ∀ (l1 l2 : List Ptr) (p q1 q2 : Option Ptr),
      Chain next p l1 q1 → Chain next p l2 q2 →
      (∀ x ∈ l1, a x) → (∀ x ∈ l2, a x) →
      (∀ y, q1 = some y → ¬ a y) → (∀ y, q2 = some y → ¬ a y) →
      l1 = l2 ∧ q1 = q2
  | [], [], p, q1, q2, h1, h2, _, _, _, _ => by
    have e1 : p = q1 := h1
    have e2 : p = q2 := h2
    exact ⟨rfl, e1 ▸ e2⟩
  | [], y :: ys, p, q1, q2, h1, h2, _, a2, n1, _ => by
    have e1 : p = q1 := h1
    exact absurd (a2 y (List.mem_cons_self _ _)) (n1 y (e1 ▸ h2.1))
  | x :: xs, [], p, q1, q2, h1, h2, a1, _, _, n2 => by
    have e2 : p = q2 := h2
    exact absurd (a1 x (List.mem_cons_self _ _)) (n2 x (e2 ▸ h1.1))
  | x :: xs, y :: ys, p, q1, q2, h1, h2, a1, a2, n1, n2 => by
    have e : x = y := Option.some.inj (h1.1.symm.trans h2.1)
    subst e
    obtain ⟨hl, hq⟩ := Chain.unique a xs ys _ q1 q2 h1.2 h2.2
      (fun z hz => a1 z (List.mem_cons_of_mem _ hz))
      (fun z hz => a2 z (List.mem_cons_of_mem _ hz)) n1 n2
    exact ⟨by rw [hl], hq⟩

/-- A chain whose elements satisfy `a` and whose end does not visits no
address twice. -/
theorem Chain.nodup {next : Ptr → Option Ptr} (a : Ptr → Prop) :
    ∀ (l : List Ptr) (p q : Option Ptr), Chain next p l q →
      (∀ x ∈ l, a x) → (∀ y, q = some y → ¬ a y) → l.Nodup
  | [], _, _, _, _, _ => List.nodup_nil
  | x :: xs, p, q, h, ha, hn => by
    have hxs := Chain.nodup a xs _ q h.2
      (fun z hz => ha z (List.mem_cons_of_mem _ hz)) hn
    refine List.nodup_cons.mpr ⟨?_, hxs⟩
    intro hmem
    obtain ⟨l1, l2, hl⟩ := List.append_of_mem hmem
    have h2 := h.2
    rw [hl] at h2
    obtain ⟨q0, hq1, hq2⟩ := Chain.split l1 (x :: l2) _ q h2
    have hfull : Chain next (some x) (x :: xs) q := ⟨rfl, h.2⟩
    have hsub : Chain next (some x) (x :: l2) q := ⟨rfl, hq2.2⟩
    have hall2 : ∀ z ∈ x :: l2, a z := by
      intro z hz
      apply ha
      rcases List.mem_cons.mp hz with hz | hz
      · exact hz ▸ List.mem_cons_self _ _
      · exact List.mem_cons_of_mem _ (hl ▸ List.mem_append_right _
          (List.mem_cons_of_mem _ hz))
    have := (Chain.unique a _ _ _ _ _ hfull hsub ha hall2 hn hn).1
    have hlen := congrArg List.length this
    rw [hl] at hlen
    simp at hlen
    omega

/-! ## Lemmas on `retireElement` -/

theorem sweepFrame_refl (a : EHCIState) : SweepFrame a a := by
  constructor <;> intros <;> rfl

theorem sweepFrame_trans {a b c : EHCIState} (h1 : SweepFrame a b)
    (h2 : SweepFrame b c) : SweepFrame a c := by
  constructor
  · intro y; rw [h2.kind, h1.kind]
  · intro y; rw [h2.pEndpoint, h1.pEndpoint]
  · intro y; rw [h2.lowLatency, h1.lowLatency]
  · intro y; rw [h2.useBackPtr, h1.useBackPtr]
  · rw [h2.frameNumber, h1.frameNumber]
  · rw [h2.tempAnchorFrame, h1.tempAnchorFrame]
  · rw [h2.tempAnchorTime, h1.tempAnchorTime]
  · rw [h2.anchorFrame, h1.anchorFrame]
  · rw [h2.anchorTime, h1.anchorTime]
  · rw [h2.frameRollover, h1.frameRollover]
  · rw [h2.asyncAdvance, h1.asyncAdvance]
  · rw [h2.hostError, h1.hostError]
  · rw [h2.portChange, h1.portChange]
  · rw [h2.error, h1.error]
  · rw [h2.complete, h1.complete]
  · rw [h2.errors, h1.errors]
  · rw [h2.errata, h1.errata]
  · rw [h2.inAbort, h1.inAbort]
  · rw [h2.portResumed, h1.portResumed]

theorem unlinkElement_frame (testSlot x : Nat) (prev : Option Ptr)
    (st : EHCIState) : SweepFrame st (unlinkElement testSlot x prev st) := by
  cases prev <;> constructor <;> intros <;>
    simp [unlinkElement] <;> simp [Function.update_apply] <;>
    split_ifs <;> simp_all

theorem setDoneQueueLink_frame (x : Nat) (hd : Option Ptr)
    (st : EHCIState) : SweepFrame st (setDoneQueueLink x hd st) := by
  constructor <;> intros <;>
    simp [setDoneQueueLink] <;> simp [Function.update_apply] <;>
    split_ifs <;> simp_all

theorem countOnProducerQ_frame (ep : Option Nat)
    (st : EHCIState) : SweepFrame st (countOnProducerQ ep st) := by
  cases ep <;> constructor <;> intros <;>
    simp [countOnProducerQ] <;> simp [Function.update_apply] <;>
    split_ifs <;> simp_all

theorem countOnProducerQ_elements (ep : Option Nat) (st : EHCIState) :
    (countOnProducerQ ep st).elements = st.elements := by
  cases ep <;> rfl

theorem countOnProducerQ_slots (ep : Option Nat) (st : EHCIState) :
    (countOnProducerQ ep st)._logicalPeriodicList = st._logicalPeriodicList := by
  cases ep <;> rfl

theorem unlinkElement_next (testSlot x : Nat) (prev : Option Ptr)
    (st : EHCIState) (y : Ptr) :
    nextOf (unlinkElement testSlot x prev st) y =
      if prev = some y then nextOf st x else nextOf st y := by
  cases prev <;> simp [unlinkElement, nextOf] <;>
    simp [Function.update_apply] <;> split_ifs <;> simp_all

theorem unlinkElement_link (testSlot x : Nat) (prev : Option Ptr)
    (st : EHCIState) (y : Ptr) :
    linkOf (unlinkElement testSlot x prev st) y = linkOf st y := by
  cases prev <;> simp [unlinkElement, linkOf] <;>
    simp [Function.update_apply] <;> split_ifs <;> simp_all

theorem unlinkElement_elements (testSlot x : Nat) (prev : Option Ptr)
    (st : EHCIState) (y : Ptr) (hp : prev ≠ some y) :
    (unlinkElement testSlot x prev st).elements y = st.elements y := by
  cases prev with
  | none => rfl
  | some p =>
    have hne : y ≠ p := fun h => hp (by rw [h])
    simp [unlinkElement, Function.update_apply, hne]

theorem unlinkElement_slots (testSlot x : Nat) (prev : Option Ptr)
    (st : EHCIState) (t : Nat) :
    (unlinkElement testSlot x prev st)._logicalPeriodicList t =
      if prev = none ∧ t = testSlot then nextOf st x
      else st._logicalPeriodicList t := by
  cases prev <;> simp [unlinkElement, nextOf] <;>
    simp [Function.update_apply]

theorem retireElement_st (testSlot ts x : Nat) (prev : Option Ptr)
    (w : SweepState) :
    (retireElement testSlot ts x prev w).st =
      countOnProducerQ
        ((setDoneQueueLink x w.cachedHead
          (unlinkElement testSlot x prev w.st)).elements x)._pEndpoint
        (setDoneQueueLink x w.cachedHead
          (unlinkElement testSlot x prev w.st)) := rfl

theorem retireElement_frame (testSlot ts x : Nat) (prev : Option Ptr)
    (w : SweepState) :
    SweepFrame w.st (retireElement testSlot ts x prev w).st := by
  rw [retireElement_st]
  exact sweepFrame_trans (sweepFrame_trans (unlinkElement_frame _ _ _ _)
    (setDoneQueueLink_frame _ _ _)) (countOnProducerQ_frame _ _)

theorem retireElement_next (testSlot ts x : Nat) (prev : Option Ptr)
    (w : SweepState) (y : Ptr) :
    nextOf (retireElement testSlot ts x prev w).st y =
      if prev = some y then nextOf w.st x else nextOf w.st y := by
  rw [retireElement_st, ← unlinkElement_next testSlot x prev w.st y]
  simp only [nextOf, countOnProducerQ_elements, setDoneQueueLink]
  simp [Function.update_apply]
  split_ifs <;> simp_all

theorem retireElement_slots (testSlot ts x : Nat) (prev : Option Ptr)
    (w : SweepState) (t : Nat) :
    (retireElement testSlot ts x prev w).st._logicalPeriodicList t =
      if prev = none ∧ t = testSlot then nextOf w.st x
      else w.st._logicalPeriodicList t := by
  rw [retireElement_st, ← unlinkElement_slots testSlot x prev w.st t,
    countOnProducerQ_slots]
  rfl

theorem retireElement_link (testSlot ts x : Nat) (prev : Option Ptr)
    (w : SweepState) :
    linkOf (retireElement testSlot ts x prev w).st =
      Function.update (linkOf w.st) x w.cachedHead := by
  funext y
  rw [retireElement_st]
  simp only [linkOf, countOnProducerQ_elements, setDoneQueueLink]
  simp only [Function.update_apply]
  split_ifs
  · rfl
  · exact unlinkElement_link testSlot x prev w.st y

theorem retireElement_elements (testSlot ts x : Nat) (prev : Option Ptr)
    (w : SweepState) (y : Ptr) (hx : y ≠ x) (hp : prev ≠ some y) :
    (retireElement testSlot ts x prev w).st.elements y = w.st.elements y := by
  rw [retireElement_st, countOnProducerQ_elements]
  simp only [setDoneQueueLink, Function.update_apply, if_neg hx]
  exact unlinkElement_elements testSlot x prev w.st y hp

theorem retireElement_outSlot (testSlot ts x : Nat) (prev : Option Ptr)
    (w : SweepState) :
    (retireElement testSlot ts x prev w).st._outSlot = w.st._outSlot := by
  rw [retireElement_st]
  generalize ((setDoneQueueLink x w.cachedHead
    (unlinkElement testSlot x prev w.st)).elements x)._pEndpoint = ep
  cases ep <;> cases prev <;> rfl

theorem retireElement_head (testSlot ts x : Nat) (prev : Option Ptr)
    (w : SweepState) :
    (retireElement testSlot ts x prev w).st._savedDoneQueueHead
        = w.st._savedDoneQueueHead
      ∧ (retireElement testSlot ts x prev w).st._producerCount
        = w.st._producerCount := by
  rw [retireElement_st]
  generalize ((setDoneQueueLink x w.cachedHead
    (unlinkElement testSlot x prev w.st)).elements x)._pEndpoint = ep
  cases ep <;> cases prev <;> exact ⟨rfl, rfl⟩

/-! ## The inner loop -/

theorem cannotRetire_frame {a b : EHCIState} (h : SweepFrame a b) (y : Ptr)
    (ns c mf : Nat) :
    cannotRetire b (b.elements y) ns c mf
      = cannotRetire a (a.elements y) ns c mf := by
  unfold cannotRetire
  rw [h.kind, h.pEndpoint]
  split_ifs
  · cases (a.elements y)._pEndpoint with
    | none => rfl
    | some ep => simp [h.useBackPtr]
  · rfl

theorem walkSlot_eq_walkList (testSlot nextSlot curSlot mf ts : Nat)
    (d : Ptr → Bool) (r : Option Ptr) :
    ∀ (P : List Ptr) (fuel : Nat) (thing prev : Option Ptr) (resc : Bool)
      (w : SweepState),
      Chain (nextOf w.st) thing P r →
      (∀ x ∈ P, (w.st.elements x).kind ≠ ElemKind.other) →
      (∀ y, r = some y → (w.st.elements y).kind = ElemKind.other) →
      (∀ x ∈ P, cannotRetire w.st (w.st.elements x) nextSlot curSlot mf
        = some (d x)) →
      P.Nodup → (∀ q, prev = some q → q ∉ P) → P.length < fuel →
      walkSlot testSlot nextSlot curSlot mf ts fuel thing prev resc w
        = Res.ok (walkList testSlot ts d P prev resc w)
  | [], fuel, thing, prev, resc, w, hc, _, hr, _, _, _, hf => by
    have e : thing = r := hc
    obtain ⟨f, rfl⟩ : ∃ f, fuel = f + 1 := ⟨fuel - 1, by simp at hf; omega⟩
    cases hthing : thing with
    | none => simp [walkSlot, walkList]
    | some y =>
      have hk := hr y (e ▸ hthing)
      simp [walkSlot, walkList, hk]
  | x :: xs, fuel, thing, prev, resc, w, hc, hk, hr, hd, hn, hp, hf => by
    obtain ⟨f, rfl⟩ : ∃ f, fuel = f + 1 := ⟨fuel - 1, by simp at hf; omega⟩
    have e : thing = some x := hc.1
    subst e
    have hkx := hk x (List.mem_cons_self _ _)
    have hdx := hd x (List.mem_cons_self _ _)
    have hn2 := List.nodup_cons.mp hn
    have hlen : xs.length < f := by simp at hf; omega
    cases hdv : d x with
    | true =>
      rw [hdv] at hdx
      simp only [walkSlot, hkx, if_false, hdx, walkList, hdv, if_true]
      exact walkSlot_eq_walkList testSlot nextSlot curSlot mf ts d r xs f _ _ _ w
        hc.2 (fun z hz => hk z (List.mem_cons_of_mem _ hz)) hr
        (fun z hz => hd z (List.mem_cons_of_mem _ hz)) hn2.2
        (fun q hq => by cases hq; exact hn2.1) hlen
    | false =>
      rw [hdv] at hdx
      simp only [walkSlot, hkx, if_false, hdx, walkList, hdv]
      have hfr := retireElement_frame testSlot ts x prev w
      refine walkSlot_eq_walkList testSlot nextSlot curSlot mf ts d r xs f _ _ _ _
        ?_ ?_ ?_ ?_ hn2.2 (fun q hq => fun hm => hp q hq (List.mem_cons_of_mem _ hm))
        hlen
      · refine Chain.congr xs _ _ ?_ hc.2
        intro z hz
        rw [retireElement_next, if_neg]
        intro hpz
        exact hp z hpz (List.mem_cons_of_mem _ hz)
      · intro z hz
        rw [hfr.kind]
        exact hk z (List.mem_cons_of_mem _ hz)
      · intro y hy
        rw [hfr.kind]
        exact hr y hy
      · intro z hz
        rw [cannotRetire_frame hfr]
        exact hd z (List.mem_cons_of_mem _ hz)

theorem walkList_frame (testSlot ts : Nat) (d : Ptr → Bool) :
    ∀ (P : List Ptr) (prev : Option Ptr) (resc : Bool) (w : SweepState),
      SweepFrame w.st (walkList testSlot ts d P prev resc w).2.st
  | [], _, _, w => sweepFrame_refl _
  | x :: xs, prev, resc, w => by
    unfold walkList
    split_ifs
    · exact walkList_frame testSlot ts d xs _ _ w
    · exact sweepFrame_trans (retireElement_frame testSlot ts x prev w)
        (walkList_frame testSlot ts d xs _ _ _)

theorem walkList_resc (testSlot ts : Nat) (d : Ptr → Bool) :
    ∀ (P : List Ptr) (prev : Option Ptr) (resc : Bool) (w : SweepState),
      (walkList testSlot ts d P prev resc w).1 = (resc || P.any d)
  | [], _, resc, w => by simp [walkList]
  | x :: xs, prev, resc, w => by
    unfold walkList
    split_ifs with h
    · rw [walkList_resc testSlot ts d xs]; simp [h]
    · rw [walkList_resc testSlot ts d xs]; simp [h]

theorem walkList_retired (testSlot ts : Nat) (d : Ptr → Bool) :
    ∀ (P : List Ptr) (prev : Option Ptr) (resc : Bool) (w : SweepState),
      (walkList testSlot ts d P prev resc w).2.retired
        = w.retired ++ P.filter (fun x => !d x)
  | [], _, resc, w => by simp [walkList]
  | x :: xs, prev, resc, w => by
    unfold walkList
    split_ifs with h
    · rw [walkList_retired testSlot ts d xs]; simp [h]
    · rw [walkList_retired testSlot ts d xs]; simp [h, retireElement]

theorem walkList_links (testSlot ts : Nat) (d : Ptr → Bool) :
    ∀ (P : List Ptr) (prev : Option Ptr) (resc : Bool) (w : SweepState),
      (linkOf (walkList testSlot ts d P prev resc w).2.st,
          (walkList testSlot ts d P prev resc w).2.cachedHead)
        = (P.filter (fun x => !d x)).foldl pushDone
            (linkOf w.st, w.cachedHead)
  | [], _, resc, w => by simp [walkList]
  | x :: xs, prev, resc, w => by
    unfold walkList
    split_ifs with h
    · rw [walkList_links testSlot ts d xs]; simp [h]
    · rw [walkList_links testSlot ts d xs, retireElement_link]
      simp [h, pushDone, retireElement]

theorem bumpProducer_add (p a : Nat) :
    ∀ b, bumpProducer p (a + b) = bumpProducer (bumpProducer p a) b := by
  induction a generalizing p with
  | zero => intro b; simp [bumpProducer]
  | succ a ih =>
    intro b
    rw [Nat.succ_add]
    simp only [bumpProducer]
    exact ih _ b

theorem bumpProducer_mod (n : Nat) :
    ∀ p, bumpProducer p n % 2 ^ 32 = (p + n) % 2 ^ 32 := by
  induction n with
  | zero => intro p; simp [bumpProducer]
  | succ n ih =>
    intro p
    simp only [bumpProducer]
    rw [ih]
    unfold toUInt32
    omega

theorem walkList_producer (testSlot ts : Nat) (d : Ptr → Bool) :
    ∀ (P : List Ptr) (prev : Option Ptr) (resc : Bool) (w : SweepState),
      (walkList testSlot ts d P prev resc w).2.cachedProducer
        = bumpProducer w.cachedProducer (P.filter (fun x => !d x)).length
  | [], _, resc, w => by simp [walkList, bumpProducer]
  | x :: xs, prev, resc, w => by
    unfold walkList
    split_ifs with h
    · rw [walkList_producer testSlot ts d xs]; simp [h]
    · rw [walkList_producer testSlot ts d xs]
      simp [h, retireElement, bumpProducer]

theorem walkList_scalars (testSlot ts : Nat) (d : Ptr → Bool) :
    ∀ (P : List Ptr) (prev : Option Ptr) (resc : Bool) (w : SweepState),
      (walkList testSlot ts d P prev resc w).2.st._outSlot = w.st._outSlot
      ∧ (walkList testSlot ts d P prev resc w).2.st._savedDoneQueueHead
        = w.st._savedDoneQueueHead
      ∧ (walkList testSlot ts d P prev resc w).2.st._producerCount
        = w.st._producerCount
  | [], _, resc, w => by simp [walkList]
  | x :: xs, prev, resc, w => by
    unfold walkList
    split_ifs with h
    · exact walkList_scalars testSlot ts d xs _ _ _
    · obtain ⟨h1, h2, h3⟩ := walkList_scalars testSlot ts d xs prev resc
        (retireElement testSlot ts x prev w)
      rw [h1, h2, h3, retireElement_outSlot, (retireElement_head _ _ _ _ _).1,
        (retireElement_head _ _ _ _ _).2]
      exact ⟨rfl, rfl, rfl⟩

theorem walkList_elements (testSlot ts : Nat) (d : Ptr → Bool) (y : Ptr) :
    ∀ (P : List Ptr) (prev : Option Ptr) (resc : Bool) (w : SweepState),
      y ∉ P → prev ≠ some y →
      (walkList testSlot ts d P prev resc w).2.st.elements y = w.st.elements y
  | [], _, resc, w, _, _ => by simp [walkList]
  | x :: xs, prev, resc, w, hy, hp => by
    have hyx : y ≠ x := fun e => hy (e ▸ List.mem_cons_self _ _)
    have hys : y ∉ xs := fun m => hy (List.mem_cons_of_mem _ m)
    unfold walkList
    split_ifs with h
    · exact walkList_elements testSlot ts d y xs _ _ _ hys
        (fun e => hyx (Option.some.inj e).symm)
    · rw [walkList_elements testSlot ts d y xs _ _ _ hys hp]
      exact retireElement_elements _ _ _ _ _ _ hyx hp

theorem walkList_next (testSlot ts : Nat) (d : Ptr → Bool) (y : Ptr) :
    ∀ (P : List Ptr) (prev : Option Ptr) (resc : Bool) (w : SweepState),
      y ∉ P.filter d → prev ≠ some y →
      nextOf (walkList testSlot ts d P prev resc w).2.st y = nextOf w.st y
  | [], _, resc, w, _, _ => by simp [walkList]
  | x :: xs, prev, resc, w, hy, hp => by
    unfold walkList
    split_ifs with h
    · have hy2 : y ∉ x :: xs.filter d := by simpa [List.filter, h] using hy
      exact walkList_next testSlot ts d y xs _ _ _
        (fun m => hy2 (List.mem_cons_of_mem _ m))
        (fun e => hy2 ((Option.some.inj e) ▸ List.mem_cons_self _ _))
    · have hy2 : y ∉ xs.filter d := by simpa [List.filter, h] using hy
      rw [walkList_next testSlot ts d y xs _ _ _ hy2 hp, retireElement_next,
        if_neg hp]

theorem walkList_slots (testSlot ts : Nat) (d : Ptr → Bool) (t : Nat) :
    ∀ (P : List Ptr) (prev : Option Ptr) (resc : Bool) (w : SweepState),
      t ≠ testSlot ∨ prev ≠ none →
      (walkList testSlot ts d P prev resc w).2.st._logicalPeriodicList t
        = w.st._logicalPeriodicList t
  | [], _, resc, w, _ => by simp [walkList]
  | x :: xs, prev, resc, w, ht => by
    unfold walkList
    split_ifs with h
    · exact walkList_slots testSlot ts d t xs _ _ _ (Or.inr (by simp))
    · rw [walkList_slots testSlot ts d t xs _ _ _ ht, retireElement_slots,
        if_neg]
      rintro ⟨h1, h2⟩
      rcases ht with ht | ht
      · exact ht h2
      · exact ht h1

theorem walkList_chain (testSlot ts : Nat) (d : Ptr → Bool) (r : Option Ptr) :
    ∀ (P : List Ptr) (prev : Option Ptr) (resc : Bool) (w : SweepState),
      Chain (nextOf w.st) (cursorOf testSlot prev w.st) P r →
      P.Nodup → (∀ q, prev = some q → q ∉ P) →
      Chain (nextOf (walkList testSlot ts d P prev resc w).2.st)
        (cursorOf testSlot prev (walkList testSlot ts d P prev resc w).2.st)
        (P.filter d) r
  | [], _, resc, w, hc, _, _ => by simpa [walkList] using hc
  | x :: xs, prev, resc, w, hc, hn, hp => by
    have hn2 := List.nodup_cons.mp hn
    unfold walkList
    split_ifs with h
    · have ih := walkList_chain testSlot ts d r xs (some x) true w hc.2 hn2.2
        (fun q hq => by cases hq; exact hn2.1)
      rw [List.filter_cons_of_pos h]
      refine ⟨Eq.trans ?_ hc.1, ih⟩
      cases prev with
      | none =>
        exact walkList_slots testSlot ts d testSlot xs _ _ _ (Or.inr (by simp))
      | some q =>
        have hq := hp q rfl
        refine walkList_next testSlot ts d q xs _ _ _ ?_ ?_
        · intro m
          exact hq (List.mem_cons_of_mem _ (List.mem_of_mem_filter m))
        · intro e
          exact hq ((Option.some.inj e) ▸ List.mem_cons_self _ _)
    · rw [List.filter_cons_of_neg h]
      refine walkList_chain testSlot ts d r xs prev resc _ ?_ hn2.2
        (fun q hq => fun hm => hp q hq (List.mem_cons_of_mem _ hm))
      have hcur : cursorOf testSlot prev (retireElement testSlot ts x prev w).st
          = nextOf w.st x := by
        cases prev with
        | none => simp [cursorOf, retireElement_slots]
        | some q => simp [cursorOf, retireElement_next]
      rw [hcur]
      refine Chain.congr xs _ _ ?_ hc.2
      intro z hz
      rw [retireElement_next, if_neg]
      intro hpz
      exact hp z hpz (List.mem_cons_of_mem _ hz)

/-! ## The outer loop -/

theorem cannotRetire_other_slot {st : EHCIState} {el : ListElement}
    {ns c mf : Nat} {b : Bool} (hne : ns ≠ c)
    (h : cannotRetire st el ns c mf = some b) : b = false := by
  unfold cannotRetire at h
  split_ifs at h
  · cases hep : el._pEndpoint with
    | none => simp [hep] at h
    | some ep =>
      simp [hep, hne] at h
      exact h
  · exact (Option.some.inj h).symm

theorem sweepSlots_done (K : EHCIParams) (c mf ts fuel : Nat) (w : SweepState) :
    ∀ m, sweepSlots K c mf ts fuel m c w = Res.ok w
  | 0 => by simp [sweepSlots]
  | m + 1 => by simp [sweepSlots]

theorem sweepSlots_step (K : EHCIParams) (c mf ts fuel m t : Nat)
    (w w1 : SweepState) (resc : Bool) (htc : t ≠ c)
    (hw : walkSlot t (nextSlotOf K t) c mf ts fuel
      (w.st._logicalPeriodicList t) none false w = Res.ok (resc, w1)) :
    sweepSlots K c mf ts fuel (m + 1) t w
      = sweepSlots K c mf ts fuel m (nextSlotOf K t)
          (if resc then w1
           else { w1 with st := { w1.st with _outSlot := nextSlotOf K t } }) := by
  simp [sweepSlots, htc, hw]

theorem sweepSlots_spec (K : EHCIParams) (c mf ts fuel : Nat)
    (lead : Nat → List Ptr) (stop : Nat → Option Ptr) (d : Nat → Ptr → Bool) :
    ∀ (S : List Nat) (slotsFuel t : Nat) (w : SweepState),
      SlotPath K c t S → S.Nodup → S.length ≤ slotsFuel →
      w.st._outSlot = t →
      (∀ s ∈ S, LeadOK w.st s (lead s) (stop s)) →
      (∀ s ∈ S, ∀ x ∈ lead s,
        cannotRetire w.st (w.st.elements x) (nextSlotOf K s) c mf
          = some (d s x)) →
      (∀ s ∈ S, (lead s).length < fuel) →
      ∃ w2, sweepSlots K c mf ts fuel slotsFuel t w = Res.ok w2
        ∧ SweepPost c lead stop d S t w w2
  | [], slotsFuel, t, w, hp, _, _, ho, _, _, _ => by
    have e : t = c := hp
    subst e
    refine ⟨w, sweepSlots_done K t mf ts fuel w slotsFuel, ?_⟩
    constructor
    · exact sweepFrame_refl _
    · simp [retiredOf]
    · simp [retiredOf]
    · simp [retiredOf, bumpProducer]
    · exact ⟨rfl, rfl⟩
    · simpa using ho
    · intro u _; rfl
    · intro s hs; cases hs
    · intro y _; rfl
    · intro y _; rfl
  | s :: S, slotsFuel, t, w, hp, hn, hf, ho, hl, hd, hlen => by
    obtain ⟨htc, rfl, hp2⟩ := hp
    obtain ⟨m, rfl⟩ : ∃ m, slotsFuel = m + 1 :=
      ⟨slotsFuel - 1, by simp at hf; omega⟩
    have hn2 := List.nodup_cons.mp hn
    have hL := hl s (List.mem_cons_self _ _)
    have hds := hd s (List.mem_cons_self _ _)
    have hnd : (lead s).Nodup :=
      Chain.nodup (fun x => (w.st.elements x).kind ≠ ElemKind.other) _ _ _
        hL.chain hL.isoch (fun y hy => by simp [hL.stops y hy])
    have hwalk := walkSlot_eq_walkList s (nextSlotOf K s) c mf ts (d s) (stop s)
      (lead s) fuel _ none false w hL.chain hL.isoch hL.stops hds hnd
      (by simp) (hlen s (List.mem_cons_self _ _))
    rw [← Prod.mk.eta (p := walkList s ts (d s) (lead s) none false w)] at hwalk
    rw [sweepSlots_step K c mf ts fuel m s w _ _ htc hwalk, walkList_resc]
    have hfr := walkList_frame s ts (d s) (lead s) none false w
    have hsc := walkList_scalars s ts (d s) (lead s) none false w
    have hch := walkList_chain s ts (d s) (stop s) (lead s) none false w
      hL.chain hnd (by simp)
    simp only [Bool.false_or]
    cases S with
    | nil =>
      have e : nextSlotOf K s = c := hp2
      rw [e, sweepSlots_done]
      refine ⟨_, rfl, ?_⟩
      cases hany : (lead s).any (d s) with
      | true =>
        simp only [if_true]
        constructor
        · exact hfr
        · simp [retiredOf, walkList_retired]
        · simp [retiredOf, walkList_links]
        · simp [retiredOf, walkList_producer]
        · exact ⟨hsc.2.1, hsc.2.2⟩
        · simp [hany, hsc.1, ho]
        · intro u hu
          exact walkList_slots s ts (d s) u _ _ _ _
            (Or.inl (fun e => hu (by simp [e])))
        · intro u hu
          have : u = s := by simpa using hu
          subst this
          exact hch
        · intro y hy
          exact walkList_next s ts (d s) y _ _ _ _
            (hy s (List.mem_cons_self _ _)) (by simp)
        · intro y hy
          exact walkList_elements s ts (d s) y _ _ _ _
            (hy s (List.mem_cons_self _ _)) (by simp)
      | false =>
        simp only [Bool.false_eq_true, if_false]
        constructor
        · exact ⟨hfr.kind, hfr.pEndpoint, hfr.lowLatency, hfr.useBackPtr,
            hfr.frameNumber, hfr.tempAnchorFrame, hfr.tempAnchorTime,
            hfr.anchorFrame, hfr.anchorTime, hfr.frameRollover,
            hfr.asyncAdvance, hfr.hostError, hfr.portChange, hfr.error,
            hfr.complete, hfr.errors, hfr.errata, hfr.inAbort, hfr.portResumed⟩
        · simp [retiredOf, walkList_retired]
        · simpa [retiredOf] using walkList_links s ts (d s) (lead s) none false w
        · simp [retiredOf, walkList_producer]
        · exact ⟨hsc.2.1, hsc.2.2⟩
        · simp [hany]
        · intro u hu
          exact walkList_slots s ts (d s) u _ _ _ _
            (Or.inl (fun e => hu (by simp [e])))
        · intro u hu
          have : u = s := by simpa using hu
          subst this
          exact hch
        · intro y hy
          exact walkList_next s ts (d s) y _ _ _ _
            (hy s (List.mem_cons_self _ _)) (by simp)
        · intro y hy
          exact walkList_elements s ts (d s) y _ _ _ _
            (hy s (List.mem_cons_self _ _)) (by simp)
    | cons s2 S2 =>
      have hne : nextSlotOf K s ≠ c := hp2.1
      have hs2 : s2 = nextSlotOf K s := hp2.2.1
      have hnodefer : ∀ x ∈ lead s, d s x = false := fun x hx =>
        cannotRetire_other_slot hne (hds x hx)
      have hany : (lead s).any (d s) = false := by
        rw [List.any_eq_false]
        intro x hx
        simp [hnodefer x hx]
      have hfilter : (lead s).filter (d s) = [] := by
        rw [List.filter_eq_nil_iff]
        intro x hx
        simp [hnodefer x hx]
      rw [hany]
      simp only [Bool.false_eq_true, if_false]
      have hnext : ∀ y, nextOf (walkList s ts (d s) (lead s) none false w).2.st y
          = nextOf w.st y := fun y =>
        walkList_next s ts (d s) y _ _ _ _ (by simp [hfilter]) (by simp)
      obtain ⟨w2, hrun, post⟩ := sweepSlots_spec K c mf ts fuel lead stop d
        (s2 :: S2) m (nextSlotOf K s)
        { (walkList s ts (d s) (lead s) none false w).2 with
          st := { (walkList s ts (d s) (lead s) none false w).2.st with
            _outSlot := nextSlotOf K s } }
        hp2 hn2.2 (by simp at hf ⊢; omega) rfl
        (fun u hu => by
          have hu0 := hl u (List.mem_cons_of_mem _ hu)
          have hus : u ≠ s := fun e => hn2.1 (e ▸ hu)
          constructor
          · have : (walkList s ts (d s) (lead s) none false w).2.st._logicalPeriodicList u
                = w.st._logicalPeriodicList u :=
              walkList_slots s ts (d s) u _ _ _ _ (Or.inl hus)
            show Chain _ ((walkList s ts (d s) (lead s) none false w).2.st._logicalPeriodicList u) _ _
            rw [this]
            exact Chain.congr _ _ _ (fun y _ => hnext y) hu0.chain
          · intro x hx
            show ((walkList s ts (d s) (lead s) none false w).2.st.elements x).kind ≠ _
            rw [hfr.kind]
            exact hu0.isoch x hx
          · intro y hy
            show ((walkList s ts (d s) (lead s) none false w).2.st.elements y).kind = _
            rw [hfr.kind]
            exact hu0.stops y hy
          · intro x hx
            show ((walkList s ts (d s) (lead s) none false w).2.st.elements x).kind = _ →
              ((walkList s ts (d s) (lead s) none false w).2.st.elements x)._pEndpoint ≠ _
            rw [hfr.kind, hfr.pEndpoint]
            exact hu0.endpoint x hx)
        (fun u hu x hx => by
          have := cannotRetire_frame hfr x (nextSlotOf K u) c mf
          exact this.trans (hd u (List.mem_cons_of_mem _ hu) x hx))
        (fun u hu => hlen u (List.mem_cons_of_mem _ hu))
      refine ⟨w2, hrun, ?_⟩
      have hfr2 : SweepFrame w.st w2.st := by
        refine sweepFrame_trans ?_ post.frame
        exact ⟨hfr.kind, hfr.pEndpoint, hfr.lowLatency, hfr.useBackPtr,
            hfr.frameNumber, hfr.tempAnchorFrame, hfr.tempAnchorTime,
            hfr.anchorFrame, hfr.anchorTime, hfr.frameRollover,
            hfr.asyncAdvance, hfr.hostError, hfr.portChange, hfr.error,
            hfr.complete, hfr.errors, hfr.errata, hfr.inAbort, hfr.portResumed⟩
      constructor
      · exact hfr2
      · rw [post.retired]
        simp [retiredOf, walkList_retired]
      · rw [post.links]
        show List.foldl pushDone
          (linkOf (walkList s ts (d s) (lead s) none false w).2.st,
            (walkList s ts (d s) (lead s) none false w).2.cachedHead) _ = _
        rw [walkList_links]
        simp [retiredOf]
      · rw [post.producer]
        show bumpProducer (walkList s ts (d s) (lead s) none false w).2.cachedProducer _ = _
        rw [walkList_producer]
        simp only [retiredOf, List.length_append]
        rw [← bumpProducer_add]
      · rw [post.head.1, post.head.2]
        exact ⟨hsc.2.1, hsc.2.2⟩
      · rw [post.outSlot, List.getLast?_cons_cons]
        cases hlast : (s2 :: S2).getLast? with
        | none => simp at hlast
        | some l => rfl
      · intro u hu
        rw [post.slotsOther u (fun m => hu (List.mem_cons_of_mem _ m))]
        exact walkList_slots s ts (d s) u _ _ _ _
          (Or.inl (fun e => hu (by simp [e])))
      · intro u hu
        rcases List.mem_cons.mp hu with e | hu2
        · subst e
          rw [hfilter]
          show w2.st._logicalPeriodicList u = stop u
          rw [post.slotsOther u hn2.1]
          rw [hfilter] at hch
          exact hch
        · exact post.slotsWalked u hu2
      · intro y hy
        rw [post.next y (fun u hu => hy u (List.mem_cons_of_mem _ hu))]
        exact hnext y
      · intro y hy
        rw [post.elements y (fun u hu => hy u (List.mem_cons_of_mem _ hu))]
        exact walkList_elements s ts (d s) y _ _ _ _
          (hy s (List.mem_cons_self _ _)) (by simp)

/-! ## Slot arithmetic -/

theorem mod_two_cases (a n : Nat) (_hn : 0 < n) (h : a < 2 * n) :
    a % n = if a < n then a else a - n := by
  split_ifs with h1
  · exact Nat.mod_eq_of_lt h1
  · rw [Nat.mod_eq_sub_mod (by omega)]
    exact Nat.mod_eq_of_lt (by omega)

theorem nextSlotOf_eq (K : EHCIParams) (k t : Nat)
    (hN : K.kEHCIPeriodicListEntries = 2 ^ k) (hk : k ≤ 16) :
    nextSlotOf K t = (t + 1) % K.kEHCIPeriodicListEntries := by
  unfold nextSlotOf toUInt16
  rw [hN, Nat.and_pow_two_sub_one_eq_mod]
  apply Nat.mod_eq_of_lt
  have h1 : (t + 1) % 2 ^ k < 2 ^ k := Nat.mod_lt _ (Nat.two_pow_pos _)
  have h2 : 2 ^ k ≤ 2 ^ 16 := Nat.pow_le_pow_right (by decide) hk
  omega

theorem curSlotOf_eq (K : EHCIParams) (k f : Nat)
    (hN : K.kEHCIPeriodicListEntries = 2 ^ k) (hk : k ≤ 16) :
    curSlotOf K f = (f >>> 3) % K.kEHCIPeriodicListEntries := by
  unfold curSlotOf toUInt16
  rw [hN, Nat.and_pow_two_sub_one_eq_mod]
  apply Nat.mod_eq_of_lt
  have h1 : (f >>> 3) % 2 ^ k < 2 ^ k := Nat.mod_lt _ (Nat.two_pow_pos _)
  have h2 : 2 ^ k ≤ 2 ^ 16 := Nat.pow_le_pow_right (by decide) hk
  omega

theorem curSlotOf_lt (K : EHCIParams) (k f : Nat)
    (hN : K.kEHCIPeriodicListEntries = 2 ^ k) (hk : k ≤ 16) :
    curSlotOf K f < K.kEHCIPeriodicListEntries := by
  rw [curSlotOf_eq K k f hN hk]
  exact Nat.mod_lt _ (by rw [hN]; exact Nat.two_pow_pos _)

theorem walkedSlots_self (n c : Nat) : walkedSlots n c c = [] := by
  simp [walkedSlots]

theorem walkedSlots_dist_succ (n t c : Nat) (ht : t < n) (hc : c < n)
    (hne : t ≠ c) :
    (c + n - t) % n = (c + n - (t + 1) % n) % n + 1 := by
  have hn : 0 < n := by omega
  have h1 := mod_two_cases (c + n - t) n hn (by omega)
  have h2 := mod_two_cases (t + 1) n hn (by omega)
  have h3 := mod_two_cases (c + n - (t + 1) % n) n hn
    (by have := Nat.mod_lt (t + 1) hn; omega)
  split_ifs at h1 h2 h3 <;> omega

theorem walkedSlots_succ (n t c : Nat) (ht : t < n) (hc : c < n)
    (hne : t ≠ c) :
    walkedSlots n t c = t :: walkedSlots n ((t + 1) % n) c := by
  unfold walkedSlots
  rw [walkedSlots_dist_succ n t c ht hc hne, List.range_succ_eq_map,
    List.map_cons, List.map_map]
  congr 1
  · simp [Nat.mod_eq_of_lt ht]
  · apply List.map_congr_left
    intro i _
    simp only [Function.comp, Nat.succ_eq_add_one]
    rw [Nat.mod_add_mod]
    congr 1
    omega

theorem walkedSlots_path (K : EHCIParams) (k c : Nat)
    (hN : K.kEHCIPeriodicListEntries = 2 ^ k) (hk : k ≤ 16)
    (hc : c < K.kEHCIPeriodicListEntries) :
    ∀ (n t : Nat), t < K.kEHCIPeriodicListEntries →
      (c + K.kEHCIPeriodicListEntries - t) % K.kEHCIPeriodicListEntries = n →
      SlotPath K c t (walkedSlots K.kEHCIPeriodicListEntries t c)
  | 0, t, ht, hd => by
    have hn : 0 < K.kEHCIPeriodicListEntries := by omega
    have h1 := mod_two_cases (c + K.kEHCIPeriodicListEntries - t) _ hn (by omega)
    have e : t = c := by split_ifs at h1 <;> omega
    subst e
    rw [walkedSlots_self]
    rfl
  | n + 1, t, ht, hd => by
    have hn : 0 < K.kEHCIPeriodicListEntries := by omega
    have hne : t ≠ c := by
      intro e
      subst e
      simp at hd
    rw [walkedSlots_succ _ t c ht hc hne]
    refine ⟨hne, rfl, ?_⟩
    rw [nextSlotOf_eq K k t hN hk]
    apply walkedSlots_path K k c hN hk hc n _ (Nat.mod_lt _ hn)
    have := walkedSlots_dist_succ _ t c ht hc hne
    omega

theorem walkedSlots_length (n t c : Nat) :
    (walkedSlots n t c).length = (c + n - t) % n := by
  simp [walkedSlots]

theorem walkedSlots_nodup (n t c : Nat) (ht : t < n) :
    (walkedSlots n t c).Nodup := by
  unfold walkedSlots
  have hn : 0 < n := by omega
  refine List.Nodup.map_on ?_ (List.nodup_range _)
  intro i hi j hj hij
  have hi2 : i < n := lt_trans (List.mem_range.mp hi) (Nat.mod_lt _ hn)
  have hj2 : j < n := lt_trans (List.mem_range.mp hj) (Nat.mod_lt _ hn)
  have h1 := mod_two_cases (t + i) n hn (by omega)
  have h2 := mod_two_cases (t + j) n hn (by omega)
  split_ifs at h1 h2 <;> omega

theorem walkedSlots_getLast (n c : Nat) (hc : c < n) :
    ∀ (m t : Nat), t < n → (c + n - t) % n = m →
      (walkedSlots n t c).getLast?
        = if t = c then none else some ((c + n - 1) % n)
  | 0, t, ht, hd => by
    have hn : 0 < n := by omega
    have h1 := mod_two_cases (c + n - t) _ hn (by omega)
    have e : t = c := by split_ifs at h1 <;> omega
    subst e
    simp [walkedSlots_self]
  | m + 1, t, ht, hd => by
    have hn : 0 < n := by omega
    have hne : t ≠ c := by
      intro e
      subst e
      simp at hd
    have ht2 : (t + 1) % n < n := Nat.mod_lt _ hn
    have hdist := walkedSlots_dist_succ _ t c ht hc hne
    have ih := walkedSlots_getLast n c hc m ((t + 1) % n) ht2 (by omega)
    rw [walkedSlots_succ _ t c ht hc hne, if_neg hne]
    by_cases h2 : (t + 1) % n = c
    · rw [h2, walkedSlots_self]
      simp only [List.getLast?_singleton]
      congr 1
      have h3 := mod_two_cases (t + 1) n hn (by omega)
      have h4 := mod_two_cases (c + n - 1) n hn (by omega)
      split_ifs at h3 h4 <;> omega
    · rw [if_neg h2] at ih
      rw [walkedSlots_succ _ _ c ht2 hc h2] at ih ⊢
      rw [List.getLast?_cons_cons, ih]

theorem walkedSlots_lt (n t c s : Nat) (ht : t < n)
    (hs : s ∈ walkedSlots n t c) : s < n := by
  unfold walkedSlots at hs
  obtain ⟨i, _, rfl⟩ := List.mem_map.mp hs
  exact Nat.mod_lt _ (by omega)

/-! ## The pass around the sweep -/

theorem ringEq_refl (a : EHCIState) : RingEq a a := by
  constructor <;> rfl

theorem ringEq_trans {a b c : EHCIState} (h1 : RingEq a b) (h2 : RingEq b c) :
    RingEq a c := by
  constructor
  · rw [h2.elements, h1.elements]
  · rw [h2.endpoints, h1.endpoints]
  · rw [h2.slots, h1.slots]
  · rw [h2.periodicList, h1.periodicList]
  · rw [h2.outSlot, h1.outSlot]
  · rw [h2.head, h1.head]
  · rw [h2.producer, h1.producer]
  · rw [h2.inAbort, h1.inAbort]

theorem frameRolloverInterrupt_ring (K : EHCIParams) (hw : EHCIHw) (a : Nat)
    (p : FilterPass) : RingEq p.st (frameRolloverInterrupt K hw a p).st := by
  unfold frameRolloverInterrupt
  split_ifs <;> constructor <;> rfl

theorem asyncAdvanceInterrupt_ring (a : Nat) (p : FilterPass) :
    RingEq p.st (asyncAdvanceInterrupt a p).st := by
  unfold asyncAdvanceInterrupt
  split_ifs <;> constructor <;> rfl

theorem hostErrorInterrupt_ring (a : Nat) (p : FilterPass) :
    RingEq p.st (hostErrorInterrupt a p).st := by
  unfold hostErrorInterrupt
  split_ifs <;> constructor <;> rfl

theorem portChangeInterrupt_ring (hw : EHCIHw) (a : Nat) (p : FilterPass) :
    RingEq p.st (portChangeInterrupt hw a p).st := by
  unfold portChangeInterrupt
  split_ifs <;> constructor <;> rfl

theorem errorInterrupt_ring (a : Nat) (p : FilterPass) :
    RingEq p.st (errorInterrupt a p).st := by
  unfold errorInterrupt
  split_ifs <;> constructor <;> rfl

theorem beforeComplete_ring (K : EHCIParams) (hw : EHCIHw) (st : EHCIState) :
    RingEq st (beforeComplete K hw st).st := by
  show RingEq st (errorInterrupt _ (portChangeInterrupt hw _
    (hostErrorInterrupt _ (asyncAdvanceInterrupt _
      (frameRolloverInterrupt K hw _
        { st := st, needSignal := false, regWrites := [] }))))).st
  have h1 := frameRolloverInterrupt_ring K hw (hw.USBIntr &&& hw.USBSTS)
    { st := st, needSignal := false, regWrites := [] }
  exact ringEq_trans (ringEq_trans (ringEq_trans
    (ringEq_trans h1 (asyncAdvanceInterrupt_ring _ _))
    (hostErrorInterrupt_ring _ _))
    (portChangeInterrupt_ring hw _ _)) (errorInterrupt_ring _ _)

theorem frameRolloverInterrupt_needSignal (K : EHCIParams) (hw : EHCIHw)
    (a : Nat) (p : FilterPass) :
    (frameRolloverInterrupt K hw a p).needSignal = p.needSignal := by
  unfold frameRolloverInterrupt
  split_ifs <;> rfl

theorem asyncAdvanceInterrupt_needSignal (a : Nat) (p : FilterPass) :
    (asyncAdvanceInterrupt a p).needSignal
      = (p.needSignal || decide (a &&& kEHCIAAEIntBit ≠ 0)) := by
  unfold asyncAdvanceInterrupt
  split_ifs with h <;> simp [h]

theorem hostErrorInterrupt_needSignal (a : Nat) (p : FilterPass) :
    (hostErrorInterrupt a p).needSignal
      = (p.needSignal || decide (a &&& kEHCIHostErrorIntBit ≠ 0)) := by
  unfold hostErrorInterrupt
  split_ifs with h <;> simp [h]

theorem portChangeInterrupt_needSignal (hw : EHCIHw) (a : Nat)
    (p : FilterPass) :
    (portChangeInterrupt hw a p).needSignal
      = (p.needSignal || decide (a &&& kEHCIPortChangeIntBit ≠ 0)) := by
  unfold portChangeInterrupt
  split_ifs with h <;> simp [h]

theorem errorInterrupt_needSignal (a : Nat) (p : FilterPass) :
    (errorInterrupt a p).needSignal
      = (p.needSignal || decide (a &&& kEHCIErrorIntBit ≠ 0)) := by
  unfold errorInterrupt
  split_ifs with h <;> simp [h]

theorem beforeComplete_needSignal (K : EHCIParams) (hw : EHCIHw)
    (st : EHCIState) :
    (beforeComplete K hw st).needSignal = true ↔
      ((hw.USBIntr &&& hw.USBSTS) &&& kEHCIAAEIntBit ≠ 0
        ∨ (hw.USBIntr &&& hw.USBSTS) &&& kEHCIHostErrorIntBit ≠ 0
        ∨ (hw.USBIntr &&& hw.USBSTS) &&& kEHCIPortChangeIntBit ≠ 0
        ∨ (hw.USBIntr &&& hw.USBSTS) &&& kEHCIErrorIntBit ≠ 0) := by
  show (errorInterrupt _ (portChangeInterrupt hw _
    (hostErrorInterrupt _ (asyncAdvanceInterrupt _
      (frameRolloverInterrupt K hw _
        { st := st, needSignal := false, regWrites := [] }))))).needSignal
          = true ↔ _
  rw [errorInterrupt_needSignal, portChangeInterrupt_needSignal,
    hostErrorInterrupt_needSignal, asyncAdvanceInterrupt_needSignal,
    frameRolloverInterrupt_needSignal]
  simp [or_assoc]

theorem FilterInterrupt_eq (K : EHCIParams) (fuel : Nat) (hw : EHCIHw)
    (st : EHCIState) :
    AppleUSBEHCI.FilterInterrupt K fuel hw st =
      if hw.USBIntr &&& hw.USBSTS ≠ 0 then
        match completeInterrupt K fuel hw (hw.USBIntr &&& hw.USBSTS)
            (beforeComplete K hw st) with
        | Res.ok (p6, calls, retired) =>
          Res.ok (p6.st,
            { result := false
              signalInterrupt := if p6.needSignal then 1 else 0
              regWrites := p6.regWrites
              UpdateFrameList := calls
              retired := retired })
        | Res.fault => Res.fault
        | Res.timeout => Res.timeout
      else
        Res.ok (st,
          { result := false
            signalInterrupt := 0
            regWrites := []
            UpdateFrameList := []
            retired := [] }) := rfl

theorem cannotRetire_deferredIn (K : EHCIParams) (f : Nat) (st : EHCIState)
    (s : Nat) (x : Ptr)
    (h : (st.elements x).kind = ElemKind.splitIsoch →
      (st.elements x)._pEndpoint ≠ none) :
    cannotRetire st (st.elements x) (nextSlotOf K s) (curSlotOf K f)
        (curMicroFrameOf f)
      = some (deferredIn K f st s x) := by
  unfold deferredIn
  cases hc : cannotRetire st (st.elements x) (nextSlotOf K s) (curSlotOf K f)
      (curMicroFrameOf f) with
  | none =>
    exfalso
    unfold cannotRetire at hc
    split_ifs at hc with hk
    cases hep : (st.elements x)._pEndpoint with
    | none => exact h hk hep
    | some ep => simp [hep] at hc
  | some b => cases b <;> rfl

theorem periodicSweep_spec (K : EHCIParams) (k fuel : Nat) (hw : EHCIHw)
    (st : EHCIState) (lead : Nat → List Ptr) (stop : Nat → Option Ptr)
    (hN : K.kEHCIPeriodicListEntries = 2 ^ k) (hk : k ≤ 16)
    (ho : st._outSlot < K.kEHCIPeriodicListEntries)
    (hlead : ∀ s ∈ walkedSlots K.kEHCIPeriodicListEntries st._outSlot
        (curSlotOf K hw.FRIndex), LeadOK st s (lead s) (stop s))
    (hf1 : K.kEHCIPeriodicListEntries ≤ fuel)
    (hf2 : ∀ s ∈ walkedSlots K.kEHCIPeriodicListEntries st._outSlot
        (curSlotOf K hw.FRIndex), (lead s).length < fuel) :
    ∃ w2, periodicSweep K fuel hw st = Res.ok w2
      ∧ SweepFrame st w2.st
      ∧ RingPost (curSlotOf K hw.FRIndex) lead stop
          (deferredIn K hw.FRIndex st)
          (walkedSlots K.kEHCIPeriodicListEntries st._outSlot
            (curSlotOf K hw.FRIndex)) st w2.st w2.retired := by
  have hc := curSlotOf_lt K k hw.FRIndex hN hk
  have h16 : st._outSlot < 2 ^ 16 := by
    have : 2 ^ k ≤ 2 ^ 16 := Nat.pow_le_pow_right (by decide) hk
    omega
  have ht : toUInt16 st._outSlot = st._outSlot := Nat.mod_eq_of_lt h16
  obtain ⟨w2, hrun, post⟩ := sweepSlots_spec K (curSlotOf K hw.FRIndex)
    (curMicroFrameOf hw.FRIndex) hw.uptimeComplete fuel lead stop
    (deferredIn K hw.FRIndex st)
    (walkedSlots K.kEHCIPeriodicListEntries st._outSlot (curSlotOf K hw.FRIndex))
    fuel st._outSlot
    { st := st
      cachedHead := st._savedDoneQueueHead
      cachedProducer := st._producerCount
      UpdateFrameList := []
      retired := [] }
    (walkedSlots_path K k _ hN hk hc _ _ ho rfl)
    (walkedSlots_nodup _ _ _ ho)
    (by
      rw [walkedSlots_length]
      have := Nat.mod_lt (curSlotOf K hw.FRIndex + K.kEHCIPeriodicListEntries
        - st._outSlot) (show 0 < K.kEHCIPeriodicListEntries by omega)
      omega)
    rfl hlead
    (fun s hs x hx =>
      cannotRetire_deferredIn K hw.FRIndex st s x ((hlead s hs).endpoint x hx))
    hf2
  refine ⟨{ w2 with
      st := { w2.st with
        _savedDoneQueueHead := w2.cachedHead
        _producerCount := w2.cachedProducer } }, ?_, ?_, ?_⟩
  · unfold periodicSweep
    simp only [ht, hrun]
  · exact ⟨post.frame.kind, post.frame.pEndpoint, post.frame.lowLatency,
      post.frame.useBackPtr, post.frame.frameNumber, post.frame.tempAnchorFrame,
      post.frame.tempAnchorTime, post.frame.anchorFrame, post.frame.anchorTime,
      post.frame.frameRollover, post.frame.asyncAdvance, post.frame.hostError,
      post.frame.portChange, post.frame.error, post.frame.complete,
      post.frame.errors, post.frame.errata, post.frame.inAbort,
      post.frame.portResumed⟩
  · constructor
    · exact post.frame.kind
    · exact post.frame.pEndpoint
    · exact post.frame.lowLatency
    · exact post.frame.useBackPtr
    · exact post.frame.inAbort
    · simpa using post.retired
    · exact post.links
    · exact post.producer
    · exact post.outSlot
    · exact post.slotsOther
    · exact post.slotsWalked
    · exact post.next
    · exact post.elements

theorem nextOf_ringEq {a b : EHCIState} (h : RingEq a b) :
    nextOf b = nextOf a := by
  funext y
  simp [nextOf, h.elements]

theorem linkOf_ringEq {a b : EHCIState} (h : RingEq a b) :
    linkOf b = linkOf a := by
  funext y
  simp [linkOf, h.elements]

theorem deferredIn_ringEq (K : EHCIParams) (f : Nat) {a b : EHCIState}
    (h : RingEq a b) : deferredIn K f b = deferredIn K f a := by
  funext s x
  simp [deferredIn, cannotRetire, h.elements, h.endpoints]

theorem leadOK_ringEq {a b : EHCIState} (h : RingEq a b) {s : Nat}
    {lead : List Ptr} {stop : Option Ptr} (hl : LeadOK a s lead stop) :
    LeadOK b s lead stop := by
  constructor
  · rw [nextOf_ringEq h, h.slots]; exact hl.chain
  · rw [h.elements]; exact hl.isoch
  · rw [h.elements]; exact hl.stops
  · rw [h.elements]; exact hl.endpoint

theorem ringPost_ringEq {a b st2 : EHCIState} (h : RingEq a b) {c : Nat}
    {lead : Nat → List Ptr} {stop : Nat → Option Ptr} {d : Nat → Ptr → Bool}
    {S : List Nat} {r : List Ptr} (hp : RingPost c lead stop d S b st2 r) :
    RingPost c lead stop d S a st2 r := by
  constructor
  · have := hp.kind; rwa [h.elements] at this
  · have := hp.pEndpoint; rwa [h.elements] at this
  · have := hp.lowLatency; rwa [h.elements] at this
  · have := hp.useBackPtr; rwa [h.endpoints] at this
  · have := hp.inAbort; rwa [h.inAbort] at this
  · exact hp.retired
  · have := hp.links; rwa [linkOf_ringEq h, h.head] at this
  · have := hp.producer; rwa [h.producer] at this
  · have := hp.outSlot; rwa [h.outSlot] at this
  · have := hp.slotsOther; rwa [h.slots] at this
  · exact hp.slotsWalked
  · have := hp.next; rwa [nextOf_ringEq h] at this
  · have := hp.elements; rwa [h.elements] at this

theorem FilterInterrupt_sweep (K : EHCIParams) (k fuel : Nat) (hw : EHCIHw)
    (st : EHCIState) (lead : Nat → List Ptr) (stop : Nat → Option Ptr)
    (hN : K.kEHCIPeriodicListEntries = 2 ^ k) (hk : k ≤ 16)
    (ha : (hw.USBIntr &&& hw.USBSTS) &&& kEHCICompleteIntBit ≠ 0)
    (hr : sweepRuns K hw st = true)
    (hlead : ∀ s ∈ walkedSlots K.kEHCIPeriodicListEntries st._outSlot
        (curSlotOf K hw.FRIndex), LeadOK st s (lead s) (stop s))
    (hf1 : K.kEHCIPeriodicListEntries ≤ fuel)
    (hf2 : ∀ s ∈ walkedSlots K.kEHCIPeriodicListEntries st._outSlot
        (curSlotOf K hw.FRIndex), (lead s).length < fuel) :
    ∃ st2 out, AppleUSBEHCI.FilterInterrupt K fuel hw st = Res.ok (st2, out)
      ∧ RingPost (curSlotOf K hw.FRIndex) lead stop
          (deferredIn K hw.FRIndex st)
          (walkedSlots K.kEHCIPeriodicListEntries st._outSlot
            (curSlotOf K hw.FRIndex)) st st2 out.retired
      ∧ st2._completeInterrupt = kEHCICompleteIntBit
      ∧ out.signalInterrupt = 1 ∧ out.result = false := by
  have hact : hw.USBIntr &&& hw.USBSTS ≠ 0 := by
    intro h0
    rw [h0] at ha
    exact ha (by simp)
  have hring0 := beforeComplete_ring K hw st
  have hring : RingEq st
      { (beforeComplete K hw st).st with
        _completeInterrupt := kEHCICompleteIntBit } :=
    ringEq_trans hring0 (by constructor <;> rfl)
  have hr2 : sweepRuns K hw
      { (beforeComplete K hw st).st with
        _completeInterrupt := kEHCICompleteIntBit } = true := by
    have e : sweepRuns K hw
        { (beforeComplete K hw st).st with
          _completeInterrupt := kEHCICompleteIntBit } = sweepRuns K hw st := by
      unfold sweepRuns
      rw [hring.inAbort, hring.outSlot]
    rw [e, hr]
  have ho : st._outSlot < K.kEHCIPeriodicListEntries := by
    unfold sweepRuns at hr
    simp at hr
    exact hr.2
  have ho2 := hring.outSlot
  obtain ⟨w2, hrun, hframe, post⟩ := periodicSweep_spec K k fuel hw
    { (beforeComplete K hw st).st with
      _completeInterrupt := kEHCICompleteIntBit } lead stop hN hk
    (by rw [ho2]; exact ho)
    (by rw [ho2]; exact fun s hs => leadOK_ringEq hring (hlead s hs))
    hf1 (by rw [ho2]; exact hf2)
  rw [ho2, deferredIn_ringEq K hw.FRIndex hring] at post
  refine ⟨w2.st,
    { result := false
      signalInterrupt := 1
      regWrites := (beforeComplete K hw st).regWrites
        ++ [EHCIRegWrite.USBSTS kEHCICompleteIntBit]
      UpdateFrameList := w2.UpdateFrameList
      retired := w2.retired }, ?_, ringPost_ringEq hring post, ?_, rfl, rfl⟩
  · rw [FilterInterrupt_eq, if_pos hact]
    simp only [completeInterrupt, ha, ne_eq, not_false_eq_true, if_true, hr2,
      hrun]
  · rw [hframe.complete]

/-! ## Claims on the filter as a whole -/

theorem completeInterrupt_skip (K : EHCIParams) (fuel : Nat) (hw : EHCIHw)
    (a : Nat) (p : FilterPass)
    (h : a &&& kEHCICompleteIntBit = 0 ∨ sweepRuns K hw p.st = false) :
    ∃ p6, completeInterrupt K fuel hw a p = Res.ok (p6, [], [])
      ∧ (p6.needSignal = true ↔
          (p.needSignal = true ∨ a &&& kEHCICompleteIntBit ≠ 0)) := by
  unfold completeInterrupt
  by_cases hc : a &&& kEHCICompleteIntBit = 0
  · exact ⟨p, by simp [hc], by simp [hc]⟩
  · have hs : sweepRuns K hw p.st = false := h.resolve_left hc
    have hs2 : sweepRuns K hw
        { p.st with _completeInterrupt := kEHCICompleteIntBit } = false := hs
    refine ⟨_, by simp only [ne_eq, hc, not_false_eq_true, if_true, hs2]; rfl, ?_⟩
    simp [hc]

theorem completeInterrupt_needSignal (K : EHCIParams) (fuel : Nat)
    (hw : EHCIHw) (a : Nat) (p p6 : FilterPass) (calls : List (Ptr × Nat))
    (retired : List Ptr)
    (h : completeInterrupt K fuel hw a p = Res.ok (p6, calls, retired)) :
    p6.needSignal = true ↔
      (p.needSignal = true ∨ a &&& kEHCICompleteIntBit ≠ 0) := by
  unfold completeInterrupt at h
  by_cases hc : a &&& kEHCICompleteIntBit = 0
  · simp [hc] at h
    rw [← h.1]
    simp [hc]
  · simp only [ne_eq, hc, not_false_eq_true, if_true] at h
    split at h
    · split at h
      · cases h
        simp [hc]
      · cases h
      · cases h
    · cases h
      simp [hc]

/-- C9: a pass of the EHCI filter that returns, returns `false` and calls
`signalInterrupt` exactly when async advance, host error, port change,
error or complete is active; it returns whenever the sweep is not entered,
and whenever the leading runs of the walked slots are finite and their
split descriptors have endpoints; a pass with frame rollover alone sets
`_frameRolloverInterrupt` and does not signal. -/
theorem ehci_filter_signalling (K : EHCIParams) (fuel : Nat) (hw : EHCIHw)
    (st : EHCIState) :
    (∀ st2 out, AppleUSBEHCI.FilterInterrupt K fuel hw st = Res.ok (st2, out) →
      out.result = false
      ∧ (out.signalInterrupt = 1 ↔
          ((hw.USBIntr &&& hw.USBSTS) &&& kEHCIAAEIntBit ≠ 0
            ∨ (hw.USBIntr &&& hw.USBSTS) &&& kEHCIHostErrorIntBit ≠ 0
            ∨ (hw.USBIntr &&& hw.USBSTS) &&& kEHCIPortChangeIntBit ≠ 0
            ∨ (hw.USBIntr &&& hw.USBSTS) &&& kEHCIErrorIntBit ≠ 0
            ∨ (hw.USBIntr &&& hw.USBSTS) &&& kEHCICompleteIntBit ≠ 0))
      ∧ (out.signalInterrupt = 0 ∨ out.signalInterrupt = 1))
    ∧ (((hw.USBIntr &&& hw.USBSTS) &&& kEHCICompleteIntBit = 0
          ∨ sweepRuns K hw st = false) →
        ∃ st2 out, AppleUSBEHCI.FilterInterrupt K fuel hw st = Res.ok (st2, out))
    ∧ (∀ (k : Nat) (lead : Nat → List Ptr) (stop : Nat → Option Ptr),
        K.kEHCIPeriodicListEntries = 2 ^ k → k ≤ 16 →
        (hw.USBIntr &&& hw.USBSTS) &&& kEHCICompleteIntBit ≠ 0 →
        sweepRuns K hw st = true →
        (∀ s ∈ walkedSlots K.kEHCIPeriodicListEntries st._outSlot
          (curSlotOf K hw.FRIndex), LeadOK st s (lead s) (stop s)) →
        K.kEHCIPeriodicListEntries ≤ fuel →
        (∀ s ∈ walkedSlots K.kEHCIPeriodicListEntries st._outSlot
          (curSlotOf K hw.FRIndex), (lead s).length < fuel) →
        ∃ st2 out, AppleUSBEHCI.FilterInterrupt K fuel hw st = Res.ok (st2, out))
    ∧ (hw.USBIntr &&& hw.USBSTS = kEHCIFrListRolloverIntBit →
        ∃ st2 out, AppleUSBEHCI.FilterInterrupt K fuel hw st = Res.ok (st2, out)
          ∧ st2._frameRolloverInterrupt = kEHCIFrListRolloverIntBit
          ∧ out.signalInterrupt = 0) := by
  refine ⟨?_, ?_, ?_, ?_⟩
  · intro st2 out h
    rw [FilterInterrupt_eq] at h
    by_cases hact : hw.USBIntr &&& hw.USBSTS = 0
    · simp only [hact, ne_eq, not_true_eq_false, if_false] at h
      cases h
      simp [hact]
    · simp only [ne_eq, hact, not_false_eq_true, if_true] at h
      cases hci : completeInterrupt K fuel hw (hw.USBIntr &&& hw.USBSTS)
          (beforeComplete K hw st) with
      | fault => simp [hci] at h
      | timeout => simp [hci] at h
      | ok r =>
        obtain ⟨p6, calls, retired⟩ := r
        simp only [hci] at h
        cases h
        have hs := completeInterrupt_needSignal K fuel hw _ _ _ _ _ hci
        rw [beforeComplete_needSignal] at hs
        refine ⟨rfl, ?_, ?_⟩
        · simp only []
          by_cases hn : p6.needSignal = true
          · simp only [hn, if_true, true_iff]
            have := hs.mp hn
            tauto
          · simp only [hn]
            simp only [Bool.false_eq_true, if_false, zero_ne_one, false_iff]
            intro hb
            exact hn (hs.mpr (by tauto))
        · simp only []
          by_cases hn : p6.needSignal = true
          · simp [hn]
          · simp [hn]
  · intro h
    rw [FilterInterrupt_eq]
    by_cases hact : hw.USBIntr &&& hw.USBSTS = 0
    · simp [hact]
    · have h2 : (hw.USBIntr &&& hw.USBSTS) &&& kEHCICompleteIntBit = 0
          ∨ sweepRuns K hw (beforeComplete K hw st).st = false := by
        rcases h with h | h
        · exact Or.inl h
        · right
          have hr := beforeComplete_ring K hw st
          unfold sweepRuns at h ⊢
          rw [hr.inAbort, hr.outSlot]
          exact h
      obtain ⟨p6, hp6, _⟩ := completeInterrupt_skip K fuel hw _ _ h2
      simp [hact, hp6]
  · intro k lead stop hN hk ha hr hlead hf1 hf2
    obtain ⟨st2, out, h, _⟩ :=
      FilterInterrupt_sweep K k fuel hw st lead stop hN hk ha hr hlead hf1 hf2
    exact ⟨st2, out, h⟩
  · intro h
    have h1 : (8 : Nat) &&& 1 = 0 := by decide
    have h2 : (8 : Nat) &&& 2 = 0 := by decide
    have h4 : (8 : Nat) &&& 4 = 0 := by decide
    have h16 : (8 : Nat) &&& 16 = 0 := by decide
    have h32 : (8 : Nat) &&& 32 = 0 := by decide
    have h8 : (8 : Nat) &&& 8 = 8 := by decide
    rw [FilterInterrupt_eq, h]
    simp [kEHCIFrListRolloverIntBit, completeInterrupt, kEHCICompleteIntBit,
      beforeComplete, h, errorInterrupt, portChangeInterrupt, hostErrorInterrupt,
      asyncAdvanceInterrupt, frameRolloverInterrupt, kEHCIErrorIntBit,
      kEHCIPortChangeIntBit, kEHCIHostErrorIntBit, kEHCIAAEIntBit,
      h1, h2, h4, h16, h32, h8]
    exact ⟨_, _, ⟨rfl, rfl⟩, rfl, rfl⟩

/-- C10: when no enabled interrupt is active, the EHCI and the OHCI filter
leave the driver state as it is and write no register. -/
theorem filter_noop_when_inactive :
    (∀ (K : EHCIParams) (fuel : Nat) (hw : EHCIHw) (st : EHCIState),
      hw.USBIntr &&& hw.USBSTS = 0 →
      ∃ out, AppleUSBEHCI.FilterInterrupt K fuel hw st = Res.ok (st, out)
        ∧ out.regWrites = [] ∧ out.UpdateFrameList = [] ∧ out.retired = []
        ∧ out.result = false)
    ∧ (∀ (P : OHCIParams) (fuel : Nat) (hw : OHCIHw) (st : OHCIState),
      hw.hcInterruptEnable &&& hw.hcInterruptStatus = 0 →
      ∃ out, AppleUSBOHCI.FilterInterrupt P fuel hw st = Res.ok (st, out)
        ∧ out.writes = [] ∧ out.result = false) := by
  constructor
  · intro K fuel hw st h
    rw [FilterInterrupt_eq]
    simp [h]
  · intro P fuel hw st h
    unfold AppleUSBOHCI.FilterInterrupt
    simp [h]

theorem FilterInterrupt_skip (K : EHCIParams) (fuel : Nat) (hw : EHCIHw)
    (st : EHCIState)
    (ha : (hw.USBIntr &&& hw.USBSTS) &&& kEHCICompleteIntBit ≠ 0)
    (hr : sweepRuns K hw st = false) :
    AppleUSBEHCI.FilterInterrupt K fuel hw st =
      Res.ok
        ({ (beforeComplete K hw st).st with
            _completeInterrupt := kEHCICompleteIntBit },
          { result := false
            signalInterrupt := 1
            regWrites := (beforeComplete K hw st).regWrites
              ++ [EHCIRegWrite.USBSTS kEHCICompleteIntBit]
            UpdateFrameList := []
            retired := [] }) := by
  have hact : hw.USBIntr &&& hw.USBSTS ≠ 0 := by
    intro h0
    rw [h0] at ha
    exact ha (by simp)
  have hring := beforeComplete_ring K hw st
  have hr2 : sweepRuns K hw
      { (beforeComplete K hw st).st with
        _completeInterrupt := kEHCICompleteIntBit } = false := by
    have e : sweepRuns K hw
        { (beforeComplete K hw st).st with
          _completeInterrupt := kEHCICompleteIntBit } = sweepRuns K hw st := by
      unfold sweepRuns
      show (!(beforeComplete K hw st).st._inAbortIsochEP
        && decide (hw.USBCMD &&& kEHCICMDPeriodicEnable ≠ 0)
        && decide ((beforeComplete K hw st).st._outSlot
          < K.kEHCIPeriodicListEntries)) = _
      rw [hring.inAbort, hring.outSlot]
    rw [e, hr]
  rw [FilterInterrupt_eq, if_pos hact]
  simp only [completeInterrupt, ha, ne_eq, not_false_eq_true, if_true, hr2]
  rfl

theorem retiredOf_nil (d : Nat → Ptr → Bool) :
    ∀ S : List Nat, retiredOf (fun _ => []) d S = []
  | [] => rfl
  | s :: S => by simp [retiredOf, retiredOf_nil d S]

/-- C6: with every slot of the periodic ring empty, a pass whose active
causes are exactly the completion bit sets `_completeInterrupt`, leaves
`_savedDoneQueueHead` and `_producerCount` as they are, and calls
`signalInterrupt`. -/
theorem ehci_complete_with_empty_ring (K : EHCIParams) (k fuel : Nat)
    (hw : EHCIHw) (st : EHCIState)
    (hN : K.kEHCIPeriodicListEntries = 2 ^ k) (hk : k ≤ 16)
    (hempty : ∀ s, s < K.kEHCIPeriodicListEntries →
      st._logicalPeriodicList s = none)
    (hactive : hw.USBIntr &&& hw.USBSTS = kEHCICompleteIntBit)
    (hfuel : K.kEHCIPeriodicListEntries ≤ fuel) :
    ∃ st2 out, AppleUSBEHCI.FilterInterrupt K fuel hw st = Res.ok (st2, out)
      ∧ st2._completeInterrupt = kEHCICompleteIntBit
      ∧ st2._savedDoneQueueHead = st._savedDoneQueueHead
      ∧ st2._producerCount = st._producerCount
      ∧ out.signalInterrupt = 1 := by
  have ha : (hw.USBIntr &&& hw.USBSTS) &&& kEHCICompleteIntBit ≠ 0 := by
    rw [hactive]
    decide
  cases hr : sweepRuns K hw st with
  | false =>
    have hring := beforeComplete_ring K hw st
    exact ⟨_, _, FilterInterrupt_skip K fuel hw st ha hr, rfl, hring.head,
      hring.producer, rfl⟩
  | true =>
    have ho : st._outSlot < K.kEHCIPeriodicListEntries := by
      unfold sweepRuns at hr
      simp at hr
      exact hr.2
    obtain ⟨st2, out, hrun, post, hc, hs, _⟩ :=
      FilterInterrupt_sweep K k fuel hw st (fun _ => []) (fun _ => none) hN hk
        ha hr
        (fun s hs => by
          have hlt := walkedSlots_lt _ _ _ _ ho hs
          exact ⟨hempty s hlt, by simp, by simp, by simp⟩)
        hfuel
        (fun s _ => by
          have : 0 < K.kEHCIPeriodicListEntries := by omega
          simp
          omega)
    refine ⟨st2, out, hrun, hc, ?_, ?_, hs⟩
    · have := congrArg Prod.snd post.links
      simpa [retiredOf_nil] using this
    · have := post.producer
      simpa [retiredOf_nil, bumpProducer] using this

/-! ## The host error log of `PollInterrupts` -/

theorem pollPorts_log (hw : EHCIPollHw) :
    ∀ (n port : Nat) (p : PollPass),
      (pollPorts hw n port p).st._errors = p.st._errors
      ∧ (PollEvent.hostSystemErrorLog ∈ (pollPorts hw n port p).events ↔
          PollEvent.hostSystemErrorLog ∈ p.events)
  | 0, _, p => ⟨rfl, Iff.rfl⟩
  | n + 1, port, p => by
    have ih := pollPorts_log hw n (port + 1)
    simp only [pollPorts]
    split_ifs
    · obtain ⟨h1, h2⟩ := ih
        { st := { p.st with
            _rhPortBeingResumed :=
              Function.update p.st._rhPortBeingResumed port true }
          events := p.events ++ [PollEvent.resumePortThread (port + 1)] }
      exact ⟨h1, h2.trans (by simp)⟩
    all_goals exact ih p

theorem pollTail_log (hw : EHCIPollHw) (p : PollPass) :
    (pollFrameRollover (pollAsyncAdvance (pollPortChange hw
        (pollComplete (pollError p))))).st._errors = p.st._errors
      ∧ (PollEvent.hostSystemErrorLog ∈
          (pollFrameRollover (pollAsyncAdvance (pollPortChange hw
            (pollComplete (pollError p))))).events ↔
          PollEvent.hostSystemErrorLog ∈ p.events) := by
  have h1 : (pollError p).st._errors = p.st._errors
      ∧ (PollEvent.hostSystemErrorLog ∈ (pollError p).events ↔
          PollEvent.hostSystemErrorLog ∈ p.events) := by
    unfold pollError
    split_ifs <;> simp
  have h2 : ∀ q : PollPass, (pollComplete q).st._errors = q.st._errors
      ∧ (PollEvent.hostSystemErrorLog ∈ (pollComplete q).events ↔
          PollEvent.hostSystemErrorLog ∈ q.events) := by
    intro q
    unfold pollComplete
    split_ifs <;> simp
  have h3 : ∀ q : PollPass, (pollPortChange hw q).st._errors = q.st._errors
      ∧ (PollEvent.hostSystemErrorLog ∈ (pollPortChange hw q).events ↔
          PollEvent.hostSystemErrorLog ∈ q.events) := by
    intro q
    unfold pollPortChange
    split_ifs
    · obtain ⟨e1, e2⟩ := pollPorts_log hw (hw.HCSParams &&& kEHCINumPortsMask) 0
        { st := { q.st with _portChangeInterrupt := 0 }
          events := q.events ++ [PollEvent.EnsureUsability] }
      exact ⟨e1, e2.trans (by simp)⟩
    · exact ⟨rfl, Iff.rfl⟩
  have h4 : ∀ q : PollPass, (pollAsyncAdvance q).st._errors = q.st._errors
      ∧ (pollAsyncAdvance q).events = q.events := by
    intro q
    unfold pollAsyncAdvance
    split_ifs <;> simp
  have h5 : ∀ q : PollPass, (pollFrameRollover q).st._errors = q.st._errors
      ∧ (pollFrameRollover q).events = q.events := by
    intro q
    unfold pollFrameRollover
    split_ifs <;> simp
  constructor
  · rw [(h5 _).1, (h4 _).1, (h3 _).1, (h2 _).1, h1.1]
  · rw [(h5 _).2, (h4 _).2, (h3 _).2, (h2 _).2, h1.2]

theorem hostErrorActivation_spec (hw : EHCIPollHw) (st : EHCIState) :
    (hostErrorActivation hw st).1._errors.hostSystemError
        = toUInt32 (st._errors.hostSystemError + 1)
      ∧ (hostErrorActivation hw st).1._errors.displayed
        = (if toUInt32 (st._errors.hostSystemError + 1)
              = toUInt32 (1 <<< st._errors.displayed)
            then toUInt32 (st._errors.displayed + 1)
            else st._errors.displayed)
      ∧ (PollEvent.hostSystemErrorLog ∈ (hostErrorActivation hw st).2 ↔
          toUInt32 (st._errors.hostSystemError + 1)
            = toUInt32 (1 <<< st._errors.displayed)) := by
  unfold hostErrorActivation AppleUSBEHCI.PollInterrupts
  simp only []
  obtain ⟨h1, h2⟩ := pollTail_log hw (pollHostError
    { st := { st with _hostErrorInterrupt := kEHCIHostErrorIntBit }
      events := [] })
  rw [h1, h2]
  unfold pollHostError
  have hb : kEHCIHostErrorIntBit &&& kEHCIHostErrorIntBit ≠ 0 := by decide
  simp only [hb, ne_eq, not_false_eq_true, if_true]
  split_ifs with hc <;> simp [hc]

/-- The counters after `k` activations from zero, for `k` below `2 ^ 32`. -/
theorem afterActivations_counters (hw : Nat → EHCIPollHw) (st : EHCIState)
    (h0 : st._errors.hostSystemError = 0) (hd : st._errors.displayed = 0) :
    ∀ k, k < 2 ^ 32 →
      (afterActivations hw st k)._errors.hostSystemError = k
      ∧ (afterActivations hw st k)._errors.displayed ≤ 32
      ∧ (k = 0 → (afterActivations hw st k)._errors.displayed = 0)
      ∧ (1 ≤ k →
          2 ^ ((afterActivations hw st k)._errors.displayed - 1) ≤ k
          ∧ k < 2 ^ (afterActivations hw st k)._errors.displayed
          ∧ 1 ≤ (afterActivations hw st k)._errors.displayed)
  | 0, _ => by simp [afterActivations, h0, hd]
  | k + 1, hk => by
    obtain ⟨ih1, ih2, ih3, ih4⟩ :=
      afterActivations_counters hw st h0 hd k (by omega)
    obtain ⟨s1, s2, _⟩ := hostErrorActivation_spec (hw k) (afterActivations hw st k)
    have e1 : (afterActivations hw st (k + 1))._errors.hostSystemError = k + 1 := by
      show (hostErrorActivation (hw k) (afterActivations hw st k)).1._errors.hostSystemError = _
      rw [s1, ih1]
      exact Nat.mod_eq_of_lt hk
    have e2 : (afterActivations hw st (k + 1))._errors.displayed
        = (if k + 1 = toUInt32 (1 <<< (afterActivations hw st k)._errors.displayed)
            then toUInt32 ((afterActivations hw st k)._errors.displayed + 1)
            else (afterActivations hw st k)._errors.displayed) := by
      show (hostErrorActivation (hw k) (afterActivations hw st k)).1._errors.displayed = _
      rw [s2, ih1]
      have : toUInt32 (k + 1) = k + 1 := Nat.mod_eq_of_lt hk
      rw [this]
    generalize (afterActivations hw st k)._errors.displayed = d at ih2 ih3 ih4 e2
    generalize (afterActivations hw st (k + 1))._errors.displayed = d2 at e2
    refine ⟨e1, ?_⟩
    rw [Nat.one_shiftLeft] at e2
    rcases Nat.lt_or_ge d 32 with hlt | hge
    · have hpow : 2 ^ d < 2 ^ 32 := Nat.pow_lt_pow_right (by decide) hlt
      have hmod : toUInt32 (2 ^ d) = 2 ^ d := Nat.mod_eq_of_lt hpow
      have hmod2 : toUInt32 (d + 1) = d + 1 := Nat.mod_eq_of_lt (by omega)
      rw [hmod, hmod2] at e2
      by_cases hfire : k + 1 = 2 ^ d
      · rw [if_pos hfire] at e2
        subst e2
        refine ⟨by omega, by omega, ?_⟩
        intro _
        simp only [Nat.add_sub_cancel]
        refine ⟨by omega, ?_, by omega⟩
        rw [Nat.pow_succ]
        omega
      · rw [if_neg hfire] at e2
        subst e2
        refine ⟨by omega, by omega, ?_⟩
        intro _
        rcases Nat.eq_zero_or_pos k with hk0 | hkpos
        · exfalso
          have := ih3 hk0
          subst this
          subst hk0
          exact hfire (by simp)
        · obtain ⟨a, b, c⟩ := ih4 hkpos
          exact ⟨by omega, by omega, c⟩
    · have hd32 : d = 32 := by omega
      subst hd32
      have hmod : toUInt32 (2 ^ 32) = 0 := by decide
      rw [hmod, if_neg (by omega)] at e2
      subst e2
      refine ⟨by omega, by omega, ?_⟩
      intro _
      rcases Nat.eq_zero_or_pos k with hk0 | hkpos
      · have := ih3 hk0
        omega
      · obtain ⟨a, b, c⟩ := ih4 hkpos
        exact ⟨by omega, by omega, c⟩

theorem pow_two_between (d j m : Nat) (h1 : 2 ^ (d - 1) < m) (h2 : m ≤ 2 ^ d)
    (hm : m = 2 ^ j) (hd : 1 ≤ d) : j = d := by
  subst hm
  have a : d - 1 < j := (Nat.pow_lt_pow_iff_right (by decide)).mp h1
  have b : j ≤ d := (Nat.pow_le_pow_iff_right (by decide)).mp h2
  omega

/-- C8: starting from `hostSystemError = 0` and `displayed = 0`, the `k`-th
consecutive host error activation logs if and only if `k` is a power of two
(for `k` below `2 ^ 31`); among the first 20 it logs at 1, 2, 4, 8 and 16
only; and after `k` activations the count is `k` and lies between
`2 ^ (displayed - 1)` and `2 ^ displayed`. -/
theorem ehci_host_error_backoff (hw : Nat → EHCIPollHw) (st : EHCIState)
    (h0 : st._errors.hostSystemError = 0) (hd : st._errors.displayed = 0)
    (k : Nat) (hk1 : 1 ≤ k) (hk31 : k < 2 ^ 31) :
    (logsAtActivation hw st k ↔ ∃ j, k = 2 ^ j)
    ∧ (k ≤ 20 → (logsAtActivation hw st k ↔ k ∈ [1, 2, 4, 8, 16]))
    ∧ (afterActivations hw st k)._errors.hostSystemError = k
    ∧ 2 ^ ((afterActivations hw st k)._errors.displayed - 1) ≤ k
    ∧ k < 2 ^ (afterActivations hw st k)._errors.displayed := by
  have hk2 : k < 2 ^ 32 := by omega
  obtain ⟨c1, _, _, c4⟩ := afterActivations_counters hw st h0 hd k hk2
  obtain ⟨c5, c6, _⟩ := c4 hk1
  obtain ⟨m, rfl⟩ : ∃ m, k = m + 1 := ⟨k - 1, by omega⟩
  obtain ⟨p1, p2, p3, p4⟩ := afterActivations_counters hw st h0 hd m (by omega)
  have hlog : logsAtActivation hw st (m + 1) ↔
      m + 1 = toUInt32 (2 ^ (afterActivations hw st m)._errors.displayed) := by
    unfold logsAtActivation
    simp only [Nat.add_sub_cancel]
    rw [(hostErrorActivation_spec _ _).2.2, p1, Nat.one_shiftLeft]
    have : toUInt32 (m + 1) = m + 1 := Nat.mod_eq_of_lt hk2
    rw [this]
  have hiff : logsAtActivation hw st (m + 1) ↔ ∃ j, m + 1 = 2 ^ j := by
    rw [hlog]
    generalize (afterActivations hw st m)._errors.displayed = d at p2 p3 p4
    rcases Nat.lt_or_ge d 32 with hlt | hge
    · have hpow : 2 ^ d < 2 ^ 32 := Nat.pow_lt_pow_right (by decide) hlt
      have hmod : toUInt32 (2 ^ d) = 2 ^ d := Nat.mod_eq_of_lt hpow
      rw [hmod]
      constructor
      · intro h
        exact ⟨d, h⟩
      · rintro ⟨j, hj⟩
        rcases Nat.eq_zero_or_pos m with hm0 | hmpos
        · have := p3 hm0
          subst this
          subst hm0
          rfl
        · obtain ⟨a, b, c⟩ := p4 hmpos
          have := pow_two_between d j (m + 1) (by omega) (by omega) hj c
          rw [hj, this]
    · have hd32 : d = 32 := by omega
      subst hd32
      have hmod : toUInt32 (2 ^ 32) = 0 := by decide
      rw [hmod]
      constructor
      · intro h
        omega
      · rintro ⟨j, hj⟩
        exfalso
        have hmpos : 1 ≤ m := by
          rcases Nat.eq_zero_or_pos m with hm0 | hmpos
          · have := p3 hm0
            omega
          · exact hmpos
        obtain ⟨a, b, c⟩ := p4 hmpos
        have := pow_two_between 32 j (m + 1) (by simpa using (by omega : 2 ^ 31 < m + 1))
          (by omega) hj (by decide)
        subst this
        omega
  refine ⟨hiff, ?_, c1, c5, c6⟩
  intro h20
  rw [hiff]
  constructor
  · rintro ⟨j, hj⟩
    have hj5 : j < 5 := by
      by_contra hcon
      have : 2 ^ 5 ≤ 2 ^ j := Nat.pow_le_pow_right (by decide) (by omega)
      omega
    interval_cases j <;> simp_all
  · intro hmem
    simp only [List.mem_cons, List.mem_singleton, List.not_mem_nil, or_false] at hmem
    rcases hmem with h | h | h | h | h
    · exact ⟨0, by omega⟩
    · exact ⟨1, by omega⟩
    · exact ⟨2, by omega⟩
    · exact ⟨3, by omega⟩
    · exact ⟨4, by omega⟩

/-! ## Claims on the sweep -/

theorem deferredIn_nextSlot (K : EHCIParams) (f : Nat) (st : EHCIState)
    (s : Nat) (x : Ptr) (h : deferredIn K f st s x = true) :
    nextSlotOf K s = curSlotOf K f ∧ curMicroFrameOf f < 2
      ∧ (st.elements x).kind = ElemKind.splitIsoch := by
  unfold deferredIn cannotRetire at h
  split_ifs at h with hk
  · cases hep : (st.elements x)._pEndpoint with
    | none => simp [hep] at h
    | some ep =>
      simp [hep] at h
      exact ⟨h.1.2, h.2, hk⟩
  · simp at h

theorem sweepRuns_outSlot {K : EHCIParams} {hw : EHCIHw} {st : EHCIState}
    (hr : sweepRuns K hw st = true) :
    st._outSlot < K.kEHCIPeriodicListEntries := by
  unfold sweepRuns at hr
  simp at hr
  exact hr.2

theorem slot_before (n s c : Nat) (hs : s < n) (hc : c < n)
    (h : (s + 1) % n = c) : s = (c + n - 1) % n := by
  have hn : 0 < n := by omega
  have h1 := mod_two_cases (s + 1) n hn (by omega)
  have h2 := mod_two_cases (c + n - 1) n hn (by omega)
  split_ifs at h1 h2 <;> omega

/-- C3: after a sweep, `_outSlot` is the current slot when no element was
deferred; an element can only be deferred in the slot before the current
slot, and then `_outSlot` is that slot, whose list still holds the element. -/
theorem ehci_sweep_cursor_rule (K : EHCIParams) (k fuel : Nat) (hw : EHCIHw)
    (st : EHCIState) (lead : Nat → List Ptr) (stop : Nat → Option Ptr)
    (hN : K.kEHCIPeriodicListEntries = 2 ^ k) (hk : k ≤ 16)
    (ha : (hw.USBIntr &&& hw.USBSTS) &&& kEHCICompleteIntBit ≠ 0)
    (hr : sweepRuns K hw st = true)
    (hlead : ∀ s ∈ walkedSlots K.kEHCIPeriodicListEntries st._outSlot
        (curSlotOf K hw.FRIndex), LeadOK st s (lead s) (stop s))
    (hf1 : K.kEHCIPeriodicListEntries ≤ fuel)
    (hf2 : ∀ s ∈ walkedSlots K.kEHCIPeriodicListEntries st._outSlot
        (curSlotOf K hw.FRIndex), (lead s).length < fuel) :
    ∃ st2 out, AppleUSBEHCI.FilterInterrupt K fuel hw st = Res.ok (st2, out)
      ∧ ((∀ s ∈ walkedSlots K.kEHCIPeriodicListEntries st._outSlot
            (curSlotOf K hw.FRIndex), ∀ x ∈ lead s,
            deferredIn K hw.FRIndex st s x = false) →
          st2._outSlot = curSlotOf K hw.FRIndex)
      ∧ (∀ s ∈ walkedSlots K.kEHCIPeriodicListEntries st._outSlot
            (curSlotOf K hw.FRIndex), ∀ x ∈ lead s,
            deferredIn K hw.FRIndex st s x = true →
          s = (curSlotOf K hw.FRIndex + K.kEHCIPeriodicListEntries - 1)
                % K.kEHCIPeriodicListEntries
          ∧ st2._outSlot = s
          ∧ x ∈ (lead s).filter (deferredIn K hw.FRIndex st s)
          ∧ Chain (nextOf st2) (st2._logicalPeriodicList s)
              ((lead s).filter (deferredIn K hw.FRIndex st s)) (stop s)) := by
  obtain ⟨st2, out, hrun, post, _, _, _⟩ :=
    FilterInterrupt_sweep K k fuel hw st lead stop hN hk ha hr hlead hf1 hf2
  have ho := sweepRuns_outSlot hr
  have hc := curSlotOf_lt K k hw.FRIndex hN hk
  have hlast := walkedSlots_getLast _ _ hc _ _ ho rfl
  have hout := post.outSlot
  rw [hlast] at hout
  refine ⟨st2, out, hrun, ?_, ?_⟩
  · intro hnone
    by_cases htc : st._outSlot = curSlotOf K hw.FRIndex
    · rw [if_pos htc] at hout
      rw [hout, htc]
    · rw [if_neg htc] at hout
      simp only [] at hout
      have hmem : (curSlotOf K hw.FRIndex + K.kEHCIPeriodicListEntries - 1)
          % K.kEHCIPeriodicListEntries
          ∈ walkedSlots K.kEHCIPeriodicListEntries st._outSlot
            (curSlotOf K hw.FRIndex) := by
        apply List.mem_of_mem_getLast?
        rw [hlast, if_neg htc]
        rfl
      have hany : (lead ((curSlotOf K hw.FRIndex + K.kEHCIPeriodicListEntries - 1)
          % K.kEHCIPeriodicListEntries)).any
          (deferredIn K hw.FRIndex st
            ((curSlotOf K hw.FRIndex + K.kEHCIPeriodicListEntries - 1)
              % K.kEHCIPeriodicListEntries)) = false := by
        rw [List.any_eq_false]
        intro x hx
        simp [hnone _ hmem x hx]
      rw [hany] at hout
      simpa using hout
  · intro s hs x hx hdx
    have hslt := walkedSlots_lt _ _ _ _ ho hs
    have hnext := (deferredIn_nextSlot K hw.FRIndex st s x hdx).1
    rw [nextSlotOf_eq K k s hN hk] at hnext
    have hsl := slot_before _ s _ hslt hc hnext
    have htc : st._outSlot ≠ curSlotOf K hw.FRIndex := by
      intro e
      rw [e, walkedSlots_self] at hs
      cases hs
    rw [if_neg htc] at hout
    simp only [] at hout
    rw [← hsl] at hout
    have hany : (lead s).any (deferredIn K hw.FRIndex st s) = true := by
      rw [List.any_eq_true]
      exact ⟨x, hx, hdx⟩
    rw [hany] at hout
    refine ⟨hsl, by simpa using hout, ?_, post.slotsWalked s hs⟩
    exact List.mem_filter.mpr ⟨hx, hdx⟩

theorem deferredIn_of_kind_isoch (K : EHCIParams) (f : Nat) (st : EHCIState)
    (s : Nat) (x : Ptr) (h : (st.elements x).kind = ElemKind.isoch) :
    deferredIn K f st s x = false := by
  unfold deferredIn cannotRetire
  simp [h]

theorem deferredIn_of_microFrame (K : EHCIParams) (f : Nat) (st : EHCIState)
    (s : Nat) (x : Ptr) (h : 2 ≤ curMicroFrameOf f) :
    deferredIn K f st s x = false := by
  cases hd : deferredIn K f st s x with
  | false => rfl
  | true =>
    have := (deferredIn_nextSlot K f st s x hd).2.1
    omega

/-- C7: with slot `A` holding one plain isochronous element `a`, the next
slot `B` holding one wrapping split element `b`, `_outSlot = A`, the current
slot being the slot after `B` and the micro frame 5, one sweep retires `a`
and then `b`: both slots become empty, the done queue becomes `b`, `a`, then
the old queue, `_producerCount` grows by 2 and `_outSlot` ends at the
current slot. -/
theorem ehci_three_slot_scenario (K : EHCIParams) (k fuel : Nat) (hw : EHCIHw)
    (st : EHCIState) (A a b e : Nat)
    (hN : K.kEHCIPeriodicListEntries = 2 ^ k) (hk : k ≤ 16) (hk2 : 2 ≤ k)
    (hA : A < K.kEHCIPeriodicListEntries)
    (hout : st._outSlot = A)
    (hsa : st._logicalPeriodicList A = some a)
    (hka : (st.elements a).kind = ElemKind.isoch)
    (hna : (st.elements a)._logicalNext = none)
    (hsb : st._logicalPeriodicList ((A + 1) % K.kEHCIPeriodicListEntries)
      = some b)
    (hkb : (st.elements b).kind = ElemKind.splitIsoch)
    (hnb : (st.elements b)._logicalNext = none)
    (heb : (st.elements b)._pEndpoint = some e)
    (_hwrap : (st.endpoints e).useBackPtr = true)
    (hab : a ≠ b)
    (hcur : curSlotOf K hw.FRIndex
      = ((A + 1) % K.kEHCIPeriodicListEntries + 1) % K.kEHCIPeriodicListEntries)
    (hmf : curMicroFrameOf hw.FRIndex = 5)
    (ha : (hw.USBIntr &&& hw.USBSTS) &&& kEHCICompleteIntBit ≠ 0)
    (hr : sweepRuns K hw st = true)
    (hf : K.kEHCIPeriodicListEntries ≤ fuel) :
    ∃ st2 out, AppleUSBEHCI.FilterInterrupt K fuel hw st = Res.ok (st2, out)
      ∧ out.retired = [a, b]
      ∧ st2._logicalPeriodicList A = none
      ∧ st2._logicalPeriodicList ((A + 1) % K.kEHCIPeriodicListEntries) = none
      ∧ st2._savedDoneQueueHead = some b
      ∧ linkOf st2 b = some a
      ∧ linkOf st2 a = st._savedDoneQueueHead
      ∧ (∀ y, y ≠ a → y ≠ b → linkOf st2 y = linkOf st y)
      ∧ st2._producerCount = (st._producerCount + 2) % 2 ^ 32
      ∧ st2._outSlot
        = ((A + 1) % K.kEHCIPeriodicListEntries + 1)
            % K.kEHCIPeriodicListEntries := by
  have h4 : 4 ≤ K.kEHCIPeriodicListEntries := by
    rw [hN]
    calc 4 = 2 ^ 2 := by norm_num
      _ ≤ 2 ^ k := Nat.pow_le_pow_right (by decide) hk2
  have hn : 0 < K.kEHCIPeriodicListEntries := by omega
  have hB : (A + 1) % K.kEHCIPeriodicListEntries < K.kEHCIPeriodicListEntries :=
    Nat.mod_lt _ hn
  have hC : ((A + 1) % K.kEHCIPeriodicListEntries + 1)
      % K.kEHCIPeriodicListEntries < K.kEHCIPeriodicListEntries :=
    Nat.mod_lt _ hn
  have m1 := mod_two_cases (A + 1) _ hn (by omega)
  have m2 := mod_two_cases ((A + 1) % K.kEHCIPeriodicListEntries + 1) _ hn
    (by omega)
  have hAB : (A + 1) % K.kEHCIPeriodicListEntries ≠ A := by
    split_ifs at m1 <;> omega
  have hAC : A ≠ ((A + 1) % K.kEHCIPeriodicListEntries + 1)
      % K.kEHCIPeriodicListEntries := by
    split_ifs at m1 m2 <;> omega
  have hBC : (A + 1) % K.kEHCIPeriodicListEntries
      ≠ ((A + 1) % K.kEHCIPeriodicListEntries + 1)
        % K.kEHCIPeriodicListEntries := by
    split_ifs at m1 m2 <;> omega
  have hwalk : walkedSlots K.kEHCIPeriodicListEntries st._outSlot
      (curSlotOf K hw.FRIndex) = [A, (A + 1) % K.kEHCIPeriodicListEntries] := by
    rw [hout, hcur, walkedSlots_succ _ A _ hA hC hAC,
      walkedSlots_succ _ _ _ hB hC hBC, walkedSlots_self]
  obtain ⟨st2, out, hrun, post, _, _, _⟩ :=
    FilterInterrupt_sweep K k fuel hw st
      (fun s => if s = A then [a]
        else if s = (A + 1) % K.kEHCIPeriodicListEntries then [b] else [])
      (fun _ => none) hN hk ha hr
      (by
        rw [hwalk]
        intro s hs
        simp only [List.mem_cons, List.mem_singleton, List.not_mem_nil,
          or_false] at hs
        rcases hs with rfl | rfl
        · simp only [if_true]
          exact ⟨⟨hsa, hna⟩, by simp [hka], by simp, by simp [hka]⟩
        · simp only [if_neg hAB, if_true]
          exact ⟨⟨hsb, hnb⟩, by simp [hkb], by simp, by simp [heb]⟩)
      hf
      (by
        intro s _
        show (if s = A then [a]
          else if s = (A + 1) % K.kEHCIPeriodicListEntries then [b]
          else []).length < fuel
        split_ifs <;> simp <;> omega)
  rw [hwalk] at post
  have hda : deferredIn K hw.FRIndex st A a = false :=
    deferredIn_of_kind_isoch K _ st A a hka
  have hdb : deferredIn K hw.FRIndex st
      ((A + 1) % K.kEHCIPeriodicListEntries) b = false :=
    deferredIn_of_microFrame K _ st _ b (by omega)
  have hret : retiredOf
      (fun s => if s = A then [a]
        else if s = (A + 1) % K.kEHCIPeriodicListEntries then [b] else [])
      (deferredIn K hw.FRIndex st)
      [A, (A + 1) % K.kEHCIPeriodicListEntries] = [a, b] := by
    simp [retiredOf, hAB, hda, hdb]
  have hlinks := post.links
  rw [hret] at hlinks
  simp only [List.foldl, pushDone] at hlinks
  have hl1 := congrArg Prod.fst hlinks
  have hl2 := congrArg Prod.snd hlinks
  simp only [] at hl1 hl2
  refine ⟨st2, out, hrun, by rw [post.retired, hret], ?_, ?_, hl2, ?_, ?_, ?_,
    ?_, ?_⟩
  · have := post.slotsWalked A (by simp)
    simpa [hda] using this
  · have := post.slotsWalked ((A + 1) % K.kEHCIPeriodicListEntries) (by simp)
    simpa [hAB, hdb] using this
  · rw [hl1]
    simp
  · rw [hl1]
    simp [Function.update_apply, hab]
  · intro y hya hyb
    rw [hl1]
    simp [Function.update_apply, hya, hyb]
  · rw [post.producer, hret]
    simp only [List.length_cons, List.length_nil, bumpProducer, toUInt32]
    omega
  · rw [post.outSlot]
    simp [hAB, hdb, hcur]

theorem Res.holds_exists {α : Type} {r : Res α} {p : α → Prop}
    (h : Res.holds r p) : ∃ a, r = Res.ok a ∧ p a := by
  cases r with
  | ok a => exact ⟨a, rfl, h⟩
  | fault => exact absurd h (fun h => h)
  | timeout => exact absurd h (fun h => h)

theorem Chain.start {next : Ptr → Option Ptr} {q : Option Ptr}
    {l : List Ptr} (h : Chain next q l none) : q = l.head? := by
  cases l with
  | nil => exact h
  | cons x xs => exact h.1

theorem Chain.nodup_of_null {next : Ptr → Option Ptr} {p : Option Ptr}
    {l : List Ptr} (h : Chain next p l none) : l.Nodup :=
  Chain.nodup (fun _ => True) l p none h (fun _ _ => trivial)
    (fun y hy => by cases hy)

theorem foldl_pushDone_frame :
    ∀ (l : List Ptr) (lk : Ptr → Option Ptr) (hd : Option Ptr) (y : Ptr),
      y ∉ l → (l.foldl pushDone (lk, hd)).1 y = lk y
  | [], _, _, _, _ => rfl
  | x :: xs, lk, hd, y, hy => by
    simp only [List.foldl, pushDone]
    rw [foldl_pushDone_frame xs _ _ y (fun m => hy (List.mem_cons_of_mem _ m))]
    have hne : y ≠ x := fun e => hy (by rw [e]; exact List.mem_cons_self _ _)
    exact Function.update_noteq hne _ _

theorem foldl_pushDone_chain :
    ∀ (l : List Ptr) (lk : Ptr → Option Ptr) (hd : Option Ptr), l.Nodup →
      Chain (l.foldl pushDone (lk, hd)).1 (l.foldl pushDone (lk, hd)).2
        l.reverse hd
  | [], _, _, _ => rfl
  | x :: xs, lk, hd, hn => by
    have hn2 := List.nodup_cons.mp hn
    simp only [List.foldl, pushDone, List.reverse_cons]
    refine Chain.append _ _ _ (some x) _
      (foldl_pushDone_chain xs _ _ hn2.2) ⟨rfl, ?_⟩
    rw [foldl_pushDone_frame xs _ _ x hn2.1]
    exact Function.update_same _ _ _

/-- C2, amended: when the elements a sweep retires are pairwise distinct,
following `_doneQueueLink` from the new `_savedDoneQueueHead` visits them
last one first and arrives at the old head; the links of all other elements
are as before, so a list that was reachable from the old head and holds
none of them follows unchanged; `_producerCount` has grown by their number
modulo `2 ^ 32`. The elements retired are, slot after slot, the elements of
the leading run that are not deferred. -/
theorem ehci_done_queue_publication (K : EHCIParams) (k fuel : Nat)
    (hw : EHCIHw) (st : EHCIState) (lead : Nat → List Ptr)
    (stop : Nat → Option Ptr)
    (hN : K.kEHCIPeriodicListEntries = 2 ^ k) (hk : k ≤ 16)
    (ha : (hw.USBIntr &&& hw.USBSTS) &&& kEHCICompleteIntBit ≠ 0)
    (hr : sweepRuns K hw st = true)
    (hlead : ∀ s ∈ walkedSlots K.kEHCIPeriodicListEntries st._outSlot
        (curSlotOf K hw.FRIndex), LeadOK st s (lead s) (stop s))
    (hf1 : K.kEHCIPeriodicListEntries ≤ fuel)
    (hf2 : ∀ s ∈ walkedSlots K.kEHCIPeriodicListEntries st._outSlot
        (curSlotOf K hw.FRIndex), (lead s).length < fuel)
    (hnodup : (retiredOf lead (deferredIn K hw.FRIndex st)
      (walkedSlots K.kEHCIPeriodicListEntries st._outSlot
        (curSlotOf K hw.FRIndex))).Nodup) :
    ∃ st2 out, AppleUSBEHCI.FilterInterrupt K fuel hw st = Res.ok (st2, out)
      ∧ out.retired = retiredOf lead (deferredIn K hw.FRIndex st)
          (walkedSlots K.kEHCIPeriodicListEntries st._outSlot
            (curSlotOf K hw.FRIndex))
      ∧ Chain (linkOf st2) st2._savedDoneQueueHead out.retired.reverse
          st._savedDoneQueueHead
      ∧ (∀ y, y ∉ out.retired → linkOf st2 y = linkOf st y)
      ∧ (∀ (D : List Ptr) (q : Option Ptr),
          Chain (linkOf st) st._savedDoneQueueHead D q →
          (∀ y ∈ D, y ∉ out.retired) →
          Chain (linkOf st2) st2._savedDoneQueueHead
            (out.retired.reverse ++ D) q)
      ∧ st2._producerCount % 2 ^ 32
          = (st._producerCount + out.retired.length) % 2 ^ 32 := by
  obtain ⟨st2, out, hrun, post, _, _, _⟩ :=
    FilterInterrupt_sweep K k fuel hw st lead stop hN hk ha hr hlead hf1 hf2
  have hl1 := congrArg Prod.fst post.links
  have hl2 := congrArg Prod.snd post.links
  simp only [] at hl1 hl2
  have hret := post.retired
  have hchain : Chain (linkOf st2) st2._savedDoneQueueHead out.retired.reverse
      st._savedDoneQueueHead := by
    rw [hl1, hl2, hret]
    exact foldl_pushDone_chain _ _ _ hnodup
  have hframe : ∀ y, y ∉ out.retired → linkOf st2 y = linkOf st y := by
    intro y hy
    rw [hl1]
    exact foldl_pushDone_frame _ _ _ y (hret ▸ hy)
  refine ⟨st2, out, hrun, hret, hchain, hframe, ?_, ?_⟩
  · intro D q hD hdis
    exact Chain.append _ _ _ _ _ hchain
      (Chain.congr D _ _ (fun y hy => hframe y (hdis y hy)) hD)
  · rw [post.producer, bumpProducer_mod, hret]

/-- C2, as stated, fails: slot 0 holds the element 1, which the old
`_savedDoneQueueHead` still points at. The pass retires 1 and links it to
itself, so the new queue is not 1 followed by the old list. -/
theorem ehci_done_queue_publication_counterexample :
    ∃ st2 out, AppleUSBEHCI.FilterInterrupt ring8 8 (hwAt 1 8) staleHeadState
        = Res.ok (st2, out)
      ∧ out.retired = [1]
      ∧ Chain (linkOf staleHeadState) staleHeadState._savedDoneQueueHead [1] none
      ∧ ¬ Chain (linkOf st2) st2._savedDoneQueueHead
          (out.retired.reverse ++ [1]) none := by
  obtain ⟨⟨st2, out⟩, h, hp⟩ := Res.holds_exists
    (r := AppleUSBEHCI.FilterInterrupt ring8 8 (hwAt 1 8) staleHeadState)
    (p := fun a => a.2.retired = [1]
      ∧ Chain (linkOf staleHeadState) staleHeadState._savedDoneQueueHead [1] none
      ∧ ¬ Chain (linkOf a.1) a.1._savedDoneQueueHead
          (a.2.retired.reverse ++ [1]) none) (by decide)
  exact ⟨st2, out, h, hp⟩

theorem isIsoch_iff (st : EHCIState) (x : Ptr) :
    isIsoch st x = true ↔ (st.elements x).kind ≠ ElemKind.other := by
  simp [isIsoch]

theorem FilterInterrupt_lists (K : EHCIParams) (k fuel : Nat) (hw : EHCIHw)
    (st : EHCIState) (L : Nat → List Ptr)
    (hN : K.kEHCIPeriodicListEntries = 2 ^ k) (hk : k ≤ 16)
    (ha : (hw.USBIntr &&& hw.USBSTS) &&& kEHCICompleteIntBit ≠ 0)
    (hr : sweepRuns K hw st = true)
    (hlist : ∀ s ∈ walkedSlots K.kEHCIPeriodicListEntries st._outSlot
        (curSlotOf K hw.FRIndex),
        Chain (nextOf st) (st._logicalPeriodicList s) (L s) none)
    (hep : ∀ s ∈ walkedSlots K.kEHCIPeriodicListEntries st._outSlot
        (curSlotOf K hw.FRIndex), ∀ x ∈ (L s).takeWhile (isIsoch st),
        (st.elements x).kind = ElemKind.splitIsoch →
          (st.elements x)._pEndpoint ≠ none)
    (hsep : ∀ s ∈ walkedSlots K.kEHCIPeriodicListEntries st._outSlot
        (curSlotOf K hw.FRIndex),
        ∀ t ∈ walkedSlots K.kEHCIPeriodicListEntries st._outSlot
          (curSlotOf K hw.FRIndex), s ≠ t →
        ∀ x ∈ (L t).takeWhile (isIsoch st), x ∉ (L s).dropWhile (isIsoch st))
    (hf1 : K.kEHCIPeriodicListEntries ≤ fuel)
    (hf2 : ∀ s ∈ walkedSlots K.kEHCIPeriodicListEntries st._outSlot
        (curSlotOf K hw.FRIndex), (L s).length < fuel) :
    ∃ st2 out, AppleUSBEHCI.FilterInterrupt K fuel hw st = Res.ok (st2, out)
      ∧ RingPost (curSlotOf K hw.FRIndex)
          (fun s => (L s).takeWhile (isIsoch st))
          (fun s => ((L s).dropWhile (isIsoch st)).head?)
          (deferredIn K hw.FRIndex st)
          (walkedSlots K.kEHCIPeriodicListEntries st._outSlot
            (curSlotOf K hw.FRIndex)) st st2 out.retired
      ∧ ∀ s ∈ walkedSlots K.kEHCIPeriodicListEntries st._outSlot
          (curSlotOf K hw.FRIndex),
        SlotResult K hw.FRIndex st st2 s (L s)
        ∧ ∀ x ∈ (L s).takeWhile (isIsoch st),
            deferredIn K hw.FRIndex st s x = false →
            x ∉ ((L s).takeWhile (isIsoch st)).filter
                  (deferredIn K hw.FRIndex st s)
                ++ (L s).dropWhile (isIsoch st) := by
  have hsplit : ∀ s ∈ walkedSlots K.kEHCIPeriodicListEntries st._outSlot
      (curSlotOf K hw.FRIndex),
      Chain (nextOf st) (st._logicalPeriodicList s)
          ((L s).takeWhile (isIsoch st)) ((L s).dropWhile (isIsoch st)).head?
        ∧ Chain (nextOf st) ((L s).dropWhile (isIsoch st)).head?
          ((L s).dropWhile (isIsoch st)) none := by
    intro s hs
    have h := hlist s hs
    rw [← List.takeWhile_append_dropWhile (isIsoch st) (L s)] at h
    obtain ⟨q, h1, h2⟩ := Chain.split _ _ _ _ h
    rw [Chain.start h2] at h1 h2
    exact ⟨h1, h2⟩
  have hdisj : ∀ s ∈ walkedSlots K.kEHCIPeriodicListEntries st._outSlot
      (curSlotOf K hw.FRIndex),
      ∀ t ∈ walkedSlots K.kEHCIPeriodicListEntries st._outSlot
        (curSlotOf K hw.FRIndex),
      ∀ x ∈ (L s).dropWhile (isIsoch st), x ∉ (L t).takeWhile (isIsoch st) := by
    intro s hs t ht x hx hxt
    by_cases hst : s = t
    · subst hst
      have hnd := Chain.nodup_of_null (hlist s hs)
      rw [← List.takeWhile_append_dropWhile (isIsoch st) (L s)] at hnd
      exact (List.nodup_append.mp hnd).2.2 hxt hx
    · exact hsep s hs t ht hst x hxt hx
  obtain ⟨st2, out, hrun, post, _, _, _⟩ :=
    FilterInterrupt_sweep K k fuel hw st
      (fun s => (L s).takeWhile (isIsoch st))
      (fun s => ((L s).dropWhile (isIsoch st)).head?) hN hk ha hr
      (fun s hs => by
        refine ⟨(hsplit s hs).1, ?_, ?_, hep s hs⟩
        · intro x hx
          exact (isIsoch_iff st x).mp (List.mem_takeWhile_imp hx)
        · intro y hy
          have hy2 : ((L s).dropWhile (isIsoch st)).head? = some y := hy
          have := List.head?_dropWhile_not (isIsoch st) (L s)
          rw [hy2] at this
          simpa [isIsoch] using this)
      hf1
      (fun s hs => lt_of_le_of_lt
        (List.Sublist.length_le (List.takeWhile_sublist _)) (hf2 s hs))
  refine ⟨st2, out, hrun, post, ?_⟩
  intro s hs
  refine ⟨⟨?_, ?_⟩, ?_⟩
  · refine Chain.append _ _ _ _ _ (post.slotsWalked s hs) ?_
    refine Chain.congr _ _ _ ?_ (hsplit s hs).2
    intro x hx
    exact post.next x (fun t ht hm =>
      hdisj s hs t ht x hx (List.mem_of_mem_filter hm))
  · intro x hx
    exact post.elements x (fun t ht hm => hdisj s hs t ht x hx hm)
  · intro x hx hd hm
    rcases List.mem_append.mp hm with h | h
    · have := (List.mem_filter.mp h).2
      rw [hd] at this
      cases this
    · exact hdisj s hs s hs x h hx


/-- C1, amended: when no element of the leading isochronous run of a walked
slot lies at or after the first non-isochronous element of another walked
slot, then after the pass the list of every walked slot is the deferred
elements of its leading run, in their order, followed by the remainder
unchanged; no element of the remainder was written, and the elements of the
leading run that were not deferred are no longer in the slot. -/
theorem ehci_sweep_slot_result (K : EHCIParams) (k fuel : Nat) (hw : EHCIHw)
    (st : EHCIState) (L : Nat → List Ptr)
    (hN : K.kEHCIPeriodicListEntries = 2 ^ k) (hk : k ≤ 16)
    (ha : (hw.USBIntr &&& hw.USBSTS) &&& kEHCICompleteIntBit ≠ 0)
    (hr : sweepRuns K hw st = true)
    (hlist : ∀ s ∈ walkedSlots K.kEHCIPeriodicListEntries st._outSlot
        (curSlotOf K hw.FRIndex),
        Chain (nextOf st) (st._logicalPeriodicList s) (L s) none)
    (hep : ∀ s ∈ walkedSlots K.kEHCIPeriodicListEntries st._outSlot
        (curSlotOf K hw.FRIndex), ∀ x ∈ (L s).takeWhile (isIsoch st),
        (st.elements x).kind = ElemKind.splitIsoch →
          (st.elements x)._pEndpoint ≠ none)
    (hsep : ∀ s ∈ walkedSlots K.kEHCIPeriodicListEntries st._outSlot
        (curSlotOf K hw.FRIndex),
        ∀ t ∈ walkedSlots K.kEHCIPeriodicListEntries st._outSlot
          (curSlotOf K hw.FRIndex), s ≠ t →
        ∀ x ∈ (L t).takeWhile (isIsoch st), x ∉ (L s).dropWhile (isIsoch st))
    (hf1 : K.kEHCIPeriodicListEntries ≤ fuel)
    (hf2 : ∀ s ∈ walkedSlots K.kEHCIPeriodicListEntries st._outSlot
        (curSlotOf K hw.FRIndex), (L s).length < fuel) :
    ∃ st2 out, AppleUSBEHCI.FilterInterrupt K fuel hw st = Res.ok (st2, out)
      ∧ ∀ s ∈ walkedSlots K.kEHCIPeriodicListEntries st._outSlot
          (curSlotOf K hw.FRIndex),
        SlotResult K hw.FRIndex st st2 s (L s)
        ∧ ∀ x ∈ (L s).takeWhile (isIsoch st),
            deferredIn K hw.FRIndex st s x = false →
            x ∉ ((L s).takeWhile (isIsoch st)).filter
                  (deferredIn K hw.FRIndex st s)
                ++ (L s).dropWhile (isIsoch st) := by
  obtain ⟨st2, out, hrun, _, hres⟩ :=
    FilterInterrupt_lists K k fuel hw st L hN hk ha hr hlist hep hsep hf1 hf2
  exact ⟨st2, out, hrun, hres⟩

/-- C1, as stated, fails: slot 0 is the non-isochronous element 1 followed
by 2 and 3, slot 1 starts at the wrapping split element 2. The pass defers
2 in slot 1 and unlinks 3 behind it, which shortens the list of slot 0 past
its first non-isochronous element. -/
theorem ehci_sweep_slot_result_counterexample :
    ∃ st2 out, AppleUSBEHCI.FilterInterrupt ring8 8 (hwAt 1 16) aliasedState
        = Res.ok (st2, out)
      ∧ 0 ∈ walkedSlots ring8.kEHCIPeriodicListEntries aliasedState._outSlot
          (curSlotOf ring8 16)
      ∧ Chain (nextOf aliasedState) (aliasedState._logicalPeriodicList 0)
          [1, 2, 3] none
      ∧ ¬ SlotResult ring8 16 aliasedState st2 0 [1, 2, 3]
      ∧ Chain (nextOf st2) (st2._logicalPeriodicList 0) [1, 2] none := by
  obtain ⟨⟨st2, out⟩, h, hp⟩ := Res.holds_exists
    (r := AppleUSBEHCI.FilterInterrupt ring8 8 (hwAt 1 16) aliasedState)
    (p := fun a =>
      0 ∈ walkedSlots ring8.kEHCIPeriodicListEntries aliasedState._outSlot
          (curSlotOf ring8 16)
      ∧ Chain (nextOf aliasedState) (aliasedState._logicalPeriodicList 0)
          [1, 2, 3] none
      ∧ ¬ SlotResult ring8 16 aliasedState a.1 0 [1, 2, 3]
      ∧ Chain (nextOf a.1) (a.1._logicalPeriodicList 0) [1, 2] none)
    (by decide)
  exact ⟨st2, out, h, hp⟩

theorem mem_retiredOf (lead : Nat → List Ptr) (d : Nat → Ptr → Bool)
    (x : Ptr) :
    ∀ S : List Nat, x ∈ retiredOf lead d S ↔
      ∃ s ∈ S, x ∈ lead s ∧ d s x = false
  | [] => by simp [retiredOf]
  | s :: S => by
    simp only [retiredOf, List.mem_append, List.mem_filter, mem_retiredOf lead d x S,
      List.mem_cons, Bool.not_eq_true', exists_eq_or_imp]

theorem retiredOf_nodup (lead : Nat → List Ptr) (d : Nat → Ptr → Bool) :
    ∀ S : List Nat, S.Nodup → (∀ s ∈ S, (lead s).Nodup) →
      (∀ s ∈ S, ∀ t ∈ S, s ≠ t → ∀ x ∈ lead s, x ∉ lead t) →
      (retiredOf lead d S).Nodup
  | [], _, _, _ => List.nodup_nil
  | s :: S, hn, hl, hd => by
    have hn2 := List.nodup_cons.mp hn
    simp only [retiredOf]
    refine List.nodup_append.mpr
      ⟨(hl s (List.mem_cons_self _ _)).sublist (List.filter_sublist _),
        retiredOf_nodup lead d S hn2.2
          (fun t ht => hl t (List.mem_cons_of_mem _ ht))
          (fun t ht u hu => hd t (List.mem_cons_of_mem _ ht) u
            (List.mem_cons_of_mem _ hu)), ?_⟩
    intro x hx1 hx2
    obtain ⟨t, ht, hxt, _⟩ := (mem_retiredOf lead d x S).mp hx2
    have hst : s ≠ t := fun e => hn2.1 (e ▸ ht)
    exact hd s (List.mem_cons_self _ _) t (List.mem_cons_of_mem _ ht) hst x
      (List.mem_of_mem_filter hx1) hxt

/-- C4: when before the pass every element occurs in at most one slot list
and in no slot list if it is on the done queue, then after a sweep the slot
lists and the done queue are again lists without common elements, every
element that was in a slot list is either still in the list of that slot
and not on the done queue, or on the done queue and in no slot list, and
every element that was on the done queue is still on it. -/
theorem ehci_sweep_no_item_lost (K : EHCIParams) (k fuel : Nat) (hw : EHCIHw)
    (st : EHCIState) (L : Nat → List Ptr) (D : List Ptr)
    (hN : K.kEHCIPeriodicListEntries = 2 ^ k) (hk : k ≤ 16)
    (ha : (hw.USBIntr &&& hw.USBSTS) &&& kEHCICompleteIntBit ≠ 0)
    (hr : sweepRuns K hw st = true)
    (hlist : ∀ s, s < K.kEHCIPeriodicListEntries →
      Chain (nextOf st) (st._logicalPeriodicList s) (L s) none)
    (hdone : Chain (linkOf st) st._savedDoneQueueHead D none)
    (huniq : ∀ s, s < K.kEHCIPeriodicListEntries →
      ∀ t, t < K.kEHCIPeriodicListEntries → s ≠ t → ∀ x ∈ L s, x ∉ L t)
    (hapart : ∀ s, s < K.kEHCIPeriodicListEntries → ∀ x ∈ L s, x ∉ D)
    (hep : ∀ s ∈ walkedSlots K.kEHCIPeriodicListEntries st._outSlot
        (curSlotOf K hw.FRIndex), ∀ x ∈ (L s).takeWhile (isIsoch st),
        (st.elements x).kind = ElemKind.splitIsoch →
          (st.elements x)._pEndpoint ≠ none)
    (hf1 : K.kEHCIPeriodicListEntries ≤ fuel)
    (hf2 : ∀ s ∈ walkedSlots K.kEHCIPeriodicListEntries st._outSlot
        (curSlotOf K hw.FRIndex), (L s).length < fuel) :
    ∃ (st2 : EHCIState) (out : FilterOut) (L2 : Nat → List Ptr)
      (D2 : List Ptr),
      AppleUSBEHCI.FilterInterrupt K fuel hw st = Res.ok (st2, out)
      ∧ (∀ s, s < K.kEHCIPeriodicListEntries →
          Chain (nextOf st2) (st2._logicalPeriodicList s) (L2 s) none)
      ∧ Chain (linkOf st2) st2._savedDoneQueueHead D2 none
      ∧ (∀ s, s < K.kEHCIPeriodicListEntries → (L2 s).Nodup)
      ∧ D2.Nodup
      ∧ (∀ s, s < K.kEHCIPeriodicListEntries →
          ∀ t, t < K.kEHCIPeriodicListEntries → s ≠ t → ∀ x ∈ L2 s, x ∉ L2 t)
      ∧ (∀ s, s < K.kEHCIPeriodicListEntries → ∀ x ∈ L2 s, x ∉ D2)
      ∧ (∀ s, s < K.kEHCIPeriodicListEntries → ∀ x ∈ L s,
          (x ∈ L2 s ∧ x ∉ D2)
            ∨ (x ∈ D2 ∧ ∀ t, t < K.kEHCIPeriodicListEntries → x ∉ L2 t))
      ∧ (∀ x ∈ D, x ∈ D2) := by
  have ho := sweepRuns_outSlot hr
  have hlt : ∀ s ∈ walkedSlots K.kEHCIPeriodicListEntries st._outSlot
      (curSlotOf K hw.FRIndex), s < K.kEHCIPeriodicListEntries :=
    fun s hs => walkedSlots_lt _ _ _ s ho hs
  have htake : ∀ s x, x ∈ (L s).takeWhile (isIsoch st) → x ∈ L s :=
    fun s x hx => (List.takeWhile_sublist _).subset hx
  have hdrop : ∀ s x, x ∈ (L s).dropWhile (isIsoch st) → x ∈ L s :=
    fun s x hx => (List.dropWhile_sublist _).subset hx
  obtain ⟨st2, out, hrun, post, hres⟩ :=
    FilterInterrupt_lists K k fuel hw st L hN hk ha hr
      (fun s hs => hlist s (hlt s hs)) hep
      (fun s hs t ht hst x hx hx2 =>
        huniq t (hlt t ht) s (hlt s hs) (Ne.symm hst) x (htake t x hx)
          (hdrop s x hx2))
      hf1 hf2
  have hretmem : ∀ x, x ∈ out.retired ↔
      ∃ s ∈ walkedSlots K.kEHCIPeriodicListEntries st._outSlot
        (curSlotOf K hw.FRIndex),
        x ∈ (L s).takeWhile (isIsoch st)
          ∧ deferredIn K hw.FRIndex st s x = false := by
    intro x
    rw [post.retired]
    exact mem_retiredOf _ _ x _
  have hretnd : out.retired.Nodup := by
    rw [post.retired]
    refine retiredOf_nodup _ _ _ (walkedSlots_nodup _ _ _ ho) ?_ ?_
    · intro s hs
      exact (Chain.nodup_of_null (hlist s (hlt s hs))).sublist
        (List.takeWhile_sublist _)
    · intro s hs t ht hst x hx hx2
      exact huniq s (hlt s hs) t (hlt t ht) hst x (htake s x hx) (htake t x hx2)
  have hl1 := congrArg Prod.fst post.links
  have hl2 := congrArg Prod.snd post.links
  simp only [] at hl1 hl2
  rw [← post.retired] at hl1 hl2
  have hretD : ∀ x ∈ D, x ∉ out.retired := by
    intro x hx hm
    obtain ⟨s, hs, hxs, _⟩ := (hretmem x).mp hm
    exact hapart s (hlt s hs) x (htake s x hxs) hx
  have hD2 : Chain (linkOf st2) st2._savedDoneQueueHead
      (out.retired.reverse ++ D) none := by
    refine Chain.append _ _ _ st._savedDoneQueueHead _ ?_ ?_
    · rw [hl1, hl2]
      exact foldl_pushDone_chain _ _ _ hretnd
    · refine Chain.congr D _ _ ?_ hdone
      intro y hy
      rw [hl1]
      exact foldl_pushDone_frame _ _ _ y (hretD y hy)
  have hL2sub : ∀ s, ∀ x ∈ (if s ∈ walkedSlots K.kEHCIPeriodicListEntries
      st._outSlot (curSlotOf K hw.FRIndex)
      then ((L s).takeWhile (isIsoch st)).filter (deferredIn K hw.FRIndex st s)
        ++ (L s).dropWhile (isIsoch st) else L s), x ∈ L s := by
    intro s x hx
    split_ifs at hx
    · rcases List.mem_append.mp hx with h | h
      · exact htake s x (List.mem_of_mem_filter h)
      · exact hdrop s x h
    · exact hx
  have hL2chain : ∀ s, s < K.kEHCIPeriodicListEntries →
      Chain (nextOf st2) (st2._logicalPeriodicList s)
        (if s ∈ walkedSlots K.kEHCIPeriodicListEntries
          st._outSlot (curSlotOf K hw.FRIndex)
        then ((L s).takeWhile (isIsoch st)).filter (deferredIn K hw.FRIndex st s)
          ++ (L s).dropWhile (isIsoch st) else L s) none := by
    intro s hs
    split_ifs with hw2
    · exact (hres s hw2).1.1
    · rw [post.slotsOther s hw2]
      refine Chain.congr _ _ _ ?_ (hlist s hs)
      intro x hx
      refine post.next x (fun t ht hm => ?_)
      have hst : s ≠ t := fun e => hw2 (e ▸ ht)
      exact huniq s hs t (hlt t ht) hst x hx
        (htake t x (List.mem_of_mem_filter hm))
  have hL2D2 : ∀ s, s < K.kEHCIPeriodicListEntries →
      ∀ x ∈ (if s ∈ walkedSlots K.kEHCIPeriodicListEntries
        st._outSlot (curSlotOf K hw.FRIndex)
        then ((L s).takeWhile (isIsoch st)).filter (deferredIn K hw.FRIndex st s)
          ++ (L s).dropWhile (isIsoch st) else L s),
      x ∉ out.retired.reverse ++ D := by
    intro s hs x hx hm
    have hxL := hL2sub s x hx
    rcases List.mem_append.mp hm with h | h
    · obtain ⟨t, ht, hxt, hdt⟩ := (hretmem x).mp (List.mem_reverse.mp h)
      by_cases hst : s = t
      · subst hst
        rw [if_pos ht] at hx
        exact (hres s ht).2 x hxt hdt hx
      · exact huniq s hs t (hlt t ht) hst x hxL (htake t x hxt)
    · exact hapart s hs x hxL h
  refine ⟨st2, out, _, out.retired.reverse ++ D, hrun, hL2chain, hD2,
    fun s hs => Chain.nodup_of_null (hL2chain s hs), Chain.nodup_of_null hD2,
    ?_, hL2D2, ?_, ?_⟩
  · intro s hs t ht hst x hx hx2
    exact huniq s hs t ht hst x (hL2sub s x hx) (hL2sub t x hx2)
  · intro s hs x hx
    by_cases hw2 : s ∈ walkedSlots K.kEHCIPeriodicListEntries st._outSlot
        (curSlotOf K hw.FRIndex)
    · have hx2 := hx
      rw [← List.takeWhile_append_dropWhile (isIsoch st) (L s)] at hx2
      rcases List.mem_append.mp hx2 with h | h
      · cases hd : deferredIn K hw.FRIndex st s x with
        | true =>
          left
          have hin : x ∈ (if s ∈ walkedSlots K.kEHCIPeriodicListEntries
              st._outSlot (curSlotOf K hw.FRIndex)
              then ((L s).takeWhile (isIsoch st)).filter
                  (deferredIn K hw.FRIndex st s)
                ++ (L s).dropWhile (isIsoch st) else L s) := by
            rw [if_pos hw2]
            exact List.mem_append_left _ (List.mem_filter.mpr ⟨h, hd⟩)
          exact ⟨hin, hL2D2 s hs x hin⟩
        | false =>
          right
          refine ⟨List.mem_append_left _ (List.mem_reverse.mpr
            ((hretmem x).mpr ⟨s, hw2, h, hd⟩)), ?_⟩
          intro t ht hxt
          by_cases hst : s = t
          · subst hst
            rw [if_pos hw2] at hxt
            exact (hres s hw2).2 x h hd hxt
          · exact huniq s hs t ht hst x hx (hL2sub t x hxt)
      · left
        have hin : x ∈ (if s ∈ walkedSlots K.kEHCIPeriodicListEntries
            st._outSlot (curSlotOf K hw.FRIndex)
            then ((L s).takeWhile (isIsoch st)).filter
                (deferredIn K hw.FRIndex st s)
              ++ (L s).dropWhile (isIsoch st) else L s) := by
          rw [if_pos hw2]
          exact List.mem_append_right _ h
        exact ⟨hin, hL2D2 s hs x hin⟩
    · left
      have hin : x ∈ (if s ∈ walkedSlots K.kEHCIPeriodicListEntries
          st._outSlot (curSlotOf K hw.FRIndex)
          then ((L s).takeWhile (isIsoch st)).filter
              (deferredIn K hw.FRIndex st s)
            ++ (L s).dropWhile (isIsoch st) else L s) := by
        rw [if_neg hw2]
        exact hx
      exact ⟨hin, hL2D2 s hs x hin⟩
  · intro x hx
    exact List.mem_append_right _ hx

theorem deferredIn_false_of_not (K : EHCIParams) (k f : Nat) (st : EHCIState)
    (s : Nat) (x : Ptr)
    (hN : K.kEHCIPeriodicListEntries = 2 ^ k) (hk : k ≤ 16)
    (h : ¬ (curSlotOf K f = (s + 1) % K.kEHCIPeriodicListEntries
      ∧ curMicroFrameOf f < 2)) :
    deferredIn K f st s x = false := by
  cases hd : deferredIn K f st s x with
  | false => rfl
  | true =>
    exfalso
    obtain ⟨h1, h2, _⟩ := deferredIn_nextSlot K f st s x hd
    rw [nextSlotOf_eq K k s hN hk] at h1
    exact h ⟨h1.symm, h2⟩

/-- C5: when a sweep defers the element `x` in slot `s`, the slot list
still holds `x` and `_outSlot` is `s`; in the next pass that runs the sweep,
on a state with the same ring, with a current slot other than `s` and the
deferral condition false for slot `s`, the head of slot `s` moves to the end
of its leading run, `x` is put on the done queue, and `_outSlot` leaves
`s`. -/
theorem ehci_deferred_item_retired_next_pass (K : EHCIParams) (k fuel : Nat)
    (hw1 hw2 : EHCIHw) (st st1 st1b : EHCIState) (out1 : FilterOut)
    (lead1 lead2 : Nat → List Ptr) (stop1 stop2 : Nat → Option Ptr)
    (s : Nat) (x : Ptr)
    (hN : K.kEHCIPeriodicListEntries = 2 ^ k) (hk : k ≤ 16)
    (ha1 : (hw1.USBIntr &&& hw1.USBSTS) &&& kEHCICompleteIntBit ≠ 0)
    (hr1 : sweepRuns K hw1 st = true)
    (hlead1 : ∀ u ∈ walkedSlots K.kEHCIPeriodicListEntries st._outSlot
        (curSlotOf K hw1.FRIndex), LeadOK st u (lead1 u) (stop1 u))
    (hs : s ∈ walkedSlots K.kEHCIPeriodicListEntries st._outSlot
        (curSlotOf K hw1.FRIndex))
    (hx : x ∈ lead1 s)
    (hdef : deferredIn K hw1.FRIndex st s x = true)
    (hpass1 : AppleUSBEHCI.FilterInterrupt K fuel hw1 st = Res.ok (st1, out1))
    (hring : RingEq st1 st1b)
    (ha2 : (hw2.USBIntr &&& hw2.USBSTS) &&& kEHCICompleteIntBit ≠ 0)
    (hcmd2 : hw2.USBCMD &&& kEHCICMDPeriodicEnable ≠ 0)
    (hcur2 : curSlotOf K hw2.FRIndex ≠ s)
    (hnodefer : ¬ (curSlotOf K hw2.FRIndex
        = (s + 1) % K.kEHCIPeriodicListEntries
      ∧ curMicroFrameOf hw2.FRIndex < 2))
    (hlead2 : ∀ u ∈ walkedSlots K.kEHCIPeriodicListEntries s
        (curSlotOf K hw2.FRIndex), LeadOK st1b u (lead2 u) (stop2 u))
    (hf : K.kEHCIPeriodicListEntries ≤ fuel)
    (hf1 : ∀ u ∈ walkedSlots K.kEHCIPeriodicListEntries st._outSlot
        (curSlotOf K hw1.FRIndex), (lead1 u).length < fuel)
    (hf2 : ∀ u ∈ walkedSlots K.kEHCIPeriodicListEntries s
        (curSlotOf K hw2.FRIndex), (lead2 u).length < fuel) :
    st1._outSlot = s
    ∧ x ∈ lead2 s
    ∧ ∃ st2 out2,
        AppleUSBEHCI.FilterInterrupt K fuel hw2 st1b = Res.ok (st2, out2)
        ∧ x ∈ out2.retired
        ∧ st2._logicalPeriodicList s = stop2 s
        ∧ stop2 s ≠ some x
        ∧ st2._outSlot ≠ s
        ∧ (st2._outSlot = curSlotOf K hw2.FRIndex
            ∨ st2._outSlot
              = (curSlotOf K hw2.FRIndex + K.kEHCIPeriodicListEntries - 1)
                  % K.kEHCIPeriodicListEntries)
        ∧ (out2.retired.Nodup →
            Chain (linkOf st2) st2._savedDoneQueueHead out2.retired.reverse
              st1b._savedDoneQueueHead)
        ∧ (∀ rest, Chain (nextOf st1b) (stop2 s) rest none →
            (∀ u ∈ walkedSlots K.kEHCIPeriodicListEntries s
                (curSlotOf K hw2.FRIndex), ∀ y ∈ lead2 u,
              deferredIn K hw2.FRIndex st1b u y = true → y ∉ rest) →
            Chain (nextOf st2) (st2._logicalPeriodicList s) rest none
              ∧ x ∉ rest) := by
  have ho := sweepRuns_outSlot hr1
  have hslt := walkedSlots_lt _ _ _ s ho hs
  have hc1 := curSlotOf_lt K k hw1.FRIndex hN hk
  have hc2 := curSlotOf_lt K k hw2.FRIndex hN hk
  -- the first pass
  obtain ⟨st1c, out1c, hrun1, post1, _, _, _⟩ :=
    FilterInterrupt_sweep K k fuel hw1 st lead1 stop1 hN hk ha1 hr1 hlead1 hf hf1
  rw [hpass1] at hrun1
  have e1 : st1 = st1c := by
    have := Res.ok.inj hrun1
    exact (Prod.mk.inj this).1
  subst e1
  have hnext := (deferredIn_nextSlot K hw1.FRIndex st s x hdef)
  have hnx := hnext.1
  rw [nextSlotOf_eq K k s hN hk] at hnx
  have hsl := slot_before _ s _ hslt hc1 hnx
  have htc : st._outSlot ≠ curSlotOf K hw1.FRIndex := by
    intro e
    rw [e, walkedSlots_self] at hs
    cases hs
  have hout1 : st1._outSlot = s := by
    have h := post1.outSlot
    rw [walkedSlots_getLast _ _ hc1 _ _ ho rfl, if_neg htc] at h
    simp only [] at h
    rw [← hsl] at h
    have hany : (lead1 s).any (deferredIn K hw1.FRIndex st s) = true := by
      rw [List.any_eq_true]
      exact ⟨x, hx, hdef⟩
    rw [hany] at h
    simpa using h
  have hout1b : st1b._outSlot = s := by rw [hring.outSlot, hout1]
  have hs2 : s ∈ walkedSlots K.kEHCIPeriodicListEntries s
      (curSlotOf K hw2.FRIndex) := by
    rw [walkedSlots_succ _ s _ hslt hc2 (Ne.symm hcur2)]
    exact List.mem_cons_self _ _
  -- the leading run of slot `s` between the passes
  have hL2 := hlead2 s hs2
  have hL1 := hlead1 s hs
  have hchain1 : Chain (nextOf st1b) (st1b._logicalPeriodicList s)
      ((lead1 s).filter (deferredIn K hw1.FRIndex st s)) (stop1 s) := by
    rw [nextOf_ringEq hring, hring.slots]
    exact post1.slotsWalked s hs
  have hkind : ∀ y, (st1b.elements y).kind = (st.elements y).kind := by
    intro y
    rw [hring.elements]
    exact post1.kind y
  have hsame := Chain.unique (fun y => (st1b.elements y).kind ≠ ElemKind.other)
    _ _ _ _ _ hchain1 hL2.chain
    (fun y hy => by
      show (st1b.elements y).kind ≠ ElemKind.other
      rw [hkind]
      exact hL1.isoch y (List.mem_of_mem_filter hy))
    hL2.isoch
    (fun y hy => by
      show ¬ (st1b.elements y).kind ≠ ElemKind.other
      rw [hkind]
      simp [hL1.stops y hy])
    (fun y hy => by
      show ¬ (st1b.elements y).kind ≠ ElemKind.other
      simp [hL2.stops y hy])
  have hx2 : x ∈ lead2 s := by
    rw [← hsame.1]
    exact List.mem_filter.mpr ⟨hx, hdef⟩
  refine ⟨hout1, hx2, ?_⟩
  -- the second pass
  have hr2 : sweepRuns K hw2 st1b = true := by
    have hab : st._inAbortIsochEP = false := by
      unfold sweepRuns at hr1
      simp at hr1
      exact hr1.1.1
    unfold sweepRuns
    rw [hring.inAbort, post1.inAbort, hab, hout1b]
    simp [hcmd2, hslt]
  obtain ⟨st2, out2, hrun2, post2, _, _, _⟩ :=
    FilterInterrupt_sweep K k fuel hw2 st1b lead2 stop2 hN hk ha2 hr2
      (by rw [hout1b]; exact hlead2) hf (by rw [hout1b]; exact hf2)
  rw [hout1b] at post2
  have hnd : ∀ y, deferredIn K hw2.FRIndex st1b s y = false := fun y =>
    deferredIn_false_of_not K k _ st1b s y hN hk hnodefer
  have hfil : (lead2 s).filter (deferredIn K hw2.FRIndex st1b s) = [] := by
    rw [List.filter_eq_nil_iff]
    intro y _
    simp [hnd y]
  have hhead : st2._logicalPeriodicList s = stop2 s := by
    have h := post2.slotsWalked s hs2
    rw [hfil] at h
    exact h
  have hkx : (st1b.elements x).kind = ElemKind.splitIsoch := by
    rw [hkind]
    exact hnext.2.2
  refine ⟨st2, out2, hrun2, ?_, hhead, ?_, ?_, ?_, ?_, ?_⟩
  · rw [post2.retired]
    exact (mem_retiredOf _ _ x _).mpr ⟨s, hs2, hx2, hnd x⟩
  · intro e
    have := hL2.stops x e
    rw [hkx] at this
    cases this
  · have h := post2.outSlot
    rw [walkedSlots_getLast _ _ hc2 _ _ hslt rfl, if_neg (Ne.symm hcur2)] at h
    simp only [] at h
    by_cases hl : (curSlotOf K hw2.FRIndex + K.kEHCIPeriodicListEntries - 1)
        % K.kEHCIPeriodicListEntries = s
    · rw [hl] at h
      have hany : (lead2 s).any (deferredIn K hw2.FRIndex st1b s) = false := by
        rw [List.any_eq_false]
        intro y _
        simp [hnd y]
      rw [hany] at h
      rw [h]
      simpa using hcur2
    · rw [h]
      split_ifs
      · exact hl
      · exact hcur2
  · have h := post2.outSlot
    rw [walkedSlots_getLast _ _ hc2 _ _ hslt rfl, if_neg (Ne.symm hcur2)] at h
    simp only [] at h
    rw [h]
    split_ifs
    · exact Or.inr rfl
    · exact Or.inl rfl
  · intro hnodup
    have hl1 := congrArg Prod.fst post2.links
    have hl2 := congrArg Prod.snd post2.links
    simp only [] at hl1 hl2
    rw [hl1, hl2, post2.retired]
    exact foldl_pushDone_chain _ _ _ (post2.retired ▸ hnodup)
  · intro rest hrest hsep
    have hfull : Chain (nextOf st1b) (st1b._logicalPeriodicList s)
        (lead2 s ++ rest) none := Chain.append _ _ _ _ _ hL2.chain hrest
    refine ⟨?_, ?_⟩
    · rw [hhead]
      refine Chain.congr rest _ _ ?_ hrest
      intro y hy
      refine post2.next y (fun u hu hm => ?_)
      have hm2 := List.mem_filter.mp hm
      exact hsep u hu y hm2.1 hm2.2 hy
    · intro hxr
      exact (List.nodup_append.mp (Chain.nodup_of_null hfull)).2.2 hx2 hxr

/-! ## What every pass does -/

theorem retireElement_inv (st0 : EHCIState) (testSlot ts x : Nat)
    (prev : Option Ptr) (w : SweepState) (h : SweepInv st0 ts w) :
    SweepInv st0 ts (retireElement testSlot ts x prev w) := by
  constructor
  · exact sweepFrame_trans h.frame (retireElement_frame _ _ _ _ _)
  · show toUInt32 (w.cachedProducer + 1)
      = bumpProducer st0._producerCount (w.retired ++ [x]).length
    rw [List.length_append, bumpProducer_add, ← h.producer]
    rfl
  · have hl : ((unlinkElement testSlot x prev w.st).elements x)._lowLatency
        = (st0.elements x)._lowLatency := by
      rw [(unlinkElement_frame testSlot x prev w.st).lowLatency,
        h.frame.lowLatency]
    show (if ((unlinkElement testSlot x prev w.st).elements x)._lowLatency
        then w.UpdateFrameList ++ [(x, ts)] else w.UpdateFrameList)
      = ((w.retired ++ [x]).filter
          (fun x => (st0.elements x)._lowLatency)).map (fun x => (x, ts))
    rw [hl, h.calls, List.filter_append, List.map_append]
    cases hb : (st0.elements x)._lowLatency <;> simp [hb]

theorem walkSlot_inv (st0 : EHCIState) (testSlot nextSlot curSlot mf ts : Nat) :
    ∀ (fuel : Nat) (thing prev : Option Ptr) (resc : Bool)
      (w : SweepState) (b : Bool) (w2 : SweepState),
      walkSlot testSlot nextSlot curSlot mf ts fuel thing prev resc w
        = Res.ok (b, w2) →
      SweepInv st0 ts w → SweepInv st0 ts w2
  | 0, thing, prev, resc, w, b, w2, h, hi => by
    cases thing with
    | none =>
      simp only [walkSlot] at h
      cases h
      exact hi
    | some t => simp [walkSlot] at h
  | fuel + 1, thing, prev, resc, w, b, w2, h, hi => by
    cases thing with
    | none =>
      simp only [walkSlot] at h
      cases h
      exact hi
    | some t =>
      simp only [walkSlot] at h
      split_ifs at h with hk
      · cases h
        exact hi
      · split at h
        · cases h
        · exact walkSlot_inv st0 testSlot nextSlot curSlot mf ts fuel _ _ _ _
            b w2 h hi
        · exact walkSlot_inv st0 testSlot nextSlot curSlot mf ts fuel _ _ _ _
            b w2 h (retireElement_inv st0 _ _ _ _ _ hi)

theorem sweepSlots_inv (K : EHCIParams) (st0 : EHCIState)
    (curSlot mf ts fuel : Nat) :
    ∀ (slots testSlot : Nat) (w w2 : SweepState),
      sweepSlots K curSlot mf ts fuel slots testSlot w = Res.ok w2 →
      SweepInv st0 ts w → SweepInv st0 ts w2
  | 0, testSlot, w, w2, h, hi => by
    simp only [sweepSlots] at h
    split_ifs at h
    cases h
    exact hi
  | slots + 1, testSlot, w, w2, h, hi => by
    simp only [sweepSlots] at h
    split_ifs at h with hc
    · cases h
      exact hi
    · split at h
      · next resc w1 hw1 =>
        have h1 := walkSlot_inv st0 _ _ _ _ _ _ _ _ _ _ _ _ hw1 hi
        refine sweepSlots_inv K st0 curSlot mf ts fuel slots _ _ w2 h ?_
        split_ifs
        · exact h1
        · exact ⟨sweepFrame_trans h1.frame (by constructor <;> intros <;> rfl),
            h1.producer, h1.calls⟩
      · cases h
      · cases h

theorem periodicSweep_inv (K : EHCIParams) (fuel : Nat) (hw : EHCIHw)
    (st : EHCIState) (w : SweepState)
    (h : periodicSweep K fuel hw st = Res.ok w) :
    SweepFrame st w.st
      ∧ w.st._producerCount = bumpProducer st._producerCount w.retired.length
      ∧ w.UpdateFrameList
        = (w.retired.filter (fun x => (st.elements x)._lowLatency)).map
            (fun x => (x, hw.uptimeComplete)) := by
  unfold periodicSweep at h
  simp only [] at h
  split at h
  · next w1 hw1 =>
    have hi := sweepSlots_inv K st _ _ hw.uptimeComplete fuel fuel _ _ w1 hw1
      ⟨sweepFrame_refl st, rfl, rfl⟩
    cases h
    exact ⟨sweepFrame_trans hi.frame (by constructor <;> intros <;> rfl),
      hi.producer, hi.calls⟩
  · cases h
  · cases h

theorem frameRolloverInterrupt_st (K : EHCIParams) (hw : EHCIHw) (a : Nat)
    (p : FilterPass) :
    (frameRolloverInterrupt K hw a p).st =
      { p.st with
        _frameNumber :=
          if a &&& kEHCIFrListRolloverIntBit ≠ 0 then
            if hw.FRIndexRollover < K.kEHCIFRIndexRolloverBit then
              toUInt64 (p.st._frameNumber + K.kEHCIFrameNumberIncrement)
            else p.st._frameNumber
          else p.st._frameNumber
        _tempAnchorFrame :=
          if a &&& kEHCIFrListRolloverIntBit ≠ 0 then
            toUInt64 ((if hw.FRIndexRollover < K.kEHCIFRIndexRolloverBit then
                toUInt64 (p.st._frameNumber + K.kEHCIFrameNumberIncrement)
              else p.st._frameNumber) + (hw.FRIndexRollover >>> 3))
          else p.st._tempAnchorFrame
        _tempAnchorTime :=
          if a &&& kEHCIFrListRolloverIntBit ≠ 0 then hw.uptimeRollover
          else p.st._tempAnchorTime
        _frameRolloverInterrupt :=
          if a &&& kEHCIFrListRolloverIntBit ≠ 0 then kEHCIFrListRolloverIntBit
          else p.st._frameRolloverInterrupt } := by
  unfold frameRolloverInterrupt
  simp only []
  split_ifs <;> rfl

theorem asyncAdvanceInterrupt_st (a : Nat) (p : FilterPass) :
    (asyncAdvanceInterrupt a p).st =
      { p.st with
        _asyncAdvanceInterrupt :=
          if a &&& kEHCIAAEIntBit ≠ 0 then kEHCIAAEIntBit
          else p.st._asyncAdvanceInterrupt } := by
  unfold asyncAdvanceInterrupt
  split_ifs <;> rfl

theorem hostErrorInterrupt_st (a : Nat) (p : FilterPass) :
    (hostErrorInterrupt a p).st =
      { p.st with
        _hostErrorInterrupt :=
          if a &&& kEHCIHostErrorIntBit ≠ 0 then kEHCIHostErrorIntBit
          else p.st._hostErrorInterrupt } := by
  unfold hostErrorInterrupt
  split_ifs <;> rfl

theorem portChangeInterrupt_st (hw : EHCIHw) (a : Nat) (p : FilterPass) :
    (portChangeInterrupt hw a p).st =
      { p.st with
        _portChangeInterrupt :=
          if a &&& kEHCIPortChangeIntBit ≠ 0 then kEHCIPortChangeIntBit
          else p.st._portChangeInterrupt } := by
  unfold portChangeInterrupt
  split_ifs <;> rfl

theorem errorInterrupt_st (a : Nat) (p : FilterPass) :
    (errorInterrupt a p).st =
      { p.st with
        _errorInterrupt :=
          if a &&& kEHCIErrorIntBit ≠ 0 then kEHCIErrorIntBit
          else p.st._errorInterrupt } := by
  unfold errorInterrupt
  split_ifs <;> rfl

theorem beforeComplete_st (K : EHCIParams) (hw : EHCIHw) (st : EHCIState) :
    (beforeComplete K hw st).st =
      { st with
        _frameNumber :=
          if (hw.USBIntr &&& hw.USBSTS) &&& kEHCIFrListRolloverIntBit ≠ 0 then
            if hw.FRIndexRollover < K.kEHCIFRIndexRolloverBit then
              toUInt64 (st._frameNumber + K.kEHCIFrameNumberIncrement)
            else st._frameNumber
          else st._frameNumber
        _tempAnchorFrame :=
          if (hw.USBIntr &&& hw.USBSTS) &&& kEHCIFrListRolloverIntBit ≠ 0 then
            toUInt64 ((if hw.FRIndexRollover < K.kEHCIFRIndexRolloverBit then
                toUInt64 (st._frameNumber + K.kEHCIFrameNumberIncrement)
              else st._frameNumber) + (hw.FRIndexRollover >>> 3))
          else st._tempAnchorFrame
        _tempAnchorTime :=
          if (hw.USBIntr &&& hw.USBSTS) &&& kEHCIFrListRolloverIntBit ≠ 0 then
            hw.uptimeRollover
          else st._tempAnchorTime
        _frameRolloverInterrupt :=
          if (hw.USBIntr &&& hw.USBSTS) &&& kEHCIFrListRolloverIntBit ≠ 0 then
            kEHCIFrListRolloverIntBit
          else st._frameRolloverInterrupt
        _asyncAdvanceInterrupt :=
          if (hw.USBIntr &&& hw.USBSTS) &&& kEHCIAAEIntBit ≠ 0 then
            kEHCIAAEIntBit
          else st._asyncAdvanceInterrupt
        _hostErrorInterrupt :=
          if (hw.USBIntr &&& hw.USBSTS) &&& kEHCIHostErrorIntBit ≠ 0 then
            kEHCIHostErrorIntBit
          else st._hostErrorInterrupt
        _portChangeInterrupt :=
          if (hw.USBIntr &&& hw.USBSTS) &&& kEHCIPortChangeIntBit ≠ 0 then
            kEHCIPortChangeIntBit
          else st._portChangeInterrupt
        _errorInterrupt :=
          if (hw.USBIntr &&& hw.USBSTS) &&& kEHCIErrorIntBit ≠ 0 then
            kEHCIErrorIntBit
          else st._errorInterrupt } := by
  show (errorInterrupt _ (portChangeInterrupt hw _
    (hostErrorInterrupt _ (asyncAdvanceInterrupt _
      (frameRolloverInterrupt K hw _
        { st := st, needSignal := false, regWrites := [] }))))).st = _
  rw [errorInterrupt_st, portChangeInterrupt_st, hostErrorInterrupt_st,
    asyncAdvanceInterrupt_st, frameRolloverInterrupt_st]

theorem portChangeRetry_eq (hw : EHCIHw) :
    ∀ r i, portChangeRetry hw r i (hw.USBSTSReread i)
      = List.replicate
          ((List.range' i r).takeWhile (fun j =>
            decide (hw.USBSTSReread j &&& kEHCIPortChangeIntBit ≠ 0))).length
          (EHCIRegWrite.USBSTS kEHCIPortChangeIntBit)
  | 0, i => by simp [portChangeRetry]
  | r + 1, i => by
    unfold portChangeRetry
    by_cases h : hw.USBSTSReread i &&& kEHCIPortChangeIntBit ≠ 0
    · rw [if_pos h, portChangeRetry_eq hw r (i + 1), List.range'_succ,
        List.takeWhile_cons_of_pos (by simpa using h)]
      rfl
    · rw [if_neg h, List.range'_succ,
        List.takeWhile_cons_of_neg (by simpa using h)]
      rfl

theorem portChangeRetry_stuck (hw : EHCIHw) :
    portChangeRetry hw 10 0 (hw.USBSTSReread 0)
      = List.replicate (stuckRereads hw)
          (EHCIRegWrite.USBSTS kEHCIPortChangeIntBit) := by
  rw [portChangeRetry_eq, stuckRereads, List.range_eq_range']

theorem stuckRereads_le (hw : EHCIHw) : stuckRereads hw ≤ 10 := by
  unfold stuckRereads
  have h := (List.takeWhile_sublist
    (fun i => decide (hw.USBSTSReread i &&& kEHCIPortChangeIntBit ≠ 0))
    (l := List.range 10)).length_le
  simpa using h

/-- The writes to `USBSTS` for the cause with bit `b`, once when active. -/
theorem frameRolloverInterrupt_regWrites (K : EHCIParams) (hw : EHCIHw)
    (a : Nat) (p : FilterPass) :
    (frameRolloverInterrupt K hw a p).regWrites =
      p.regWrites ++
        (if a &&& kEHCIFrListRolloverIntBit ≠ 0 then
          [EHCIRegWrite.USBSTS kEHCIFrListRolloverIntBit] else []) := by
  unfold frameRolloverInterrupt
  split_ifs <;> simp

theorem asyncAdvanceInterrupt_regWrites (a : Nat) (p : FilterPass) :
    (asyncAdvanceInterrupt a p).regWrites =
      p.regWrites ++
        (if a &&& kEHCIAAEIntBit ≠ 0 then
          [EHCIRegWrite.USBSTS kEHCIAAEIntBit] else []) := by
  unfold asyncAdvanceInterrupt
  split_ifs <;> simp

theorem hostErrorInterrupt_regWrites (a : Nat) (p : FilterPass) :
    (hostErrorInterrupt a p).regWrites =
      p.regWrites ++
        (if a &&& kEHCIHostErrorIntBit ≠ 0 then
          [EHCIRegWrite.USBSTS kEHCIHostErrorIntBit] else []) := by
  unfold hostErrorInterrupt
  split_ifs <;> simp

theorem portChangeInterrupt_regWrites (hw : EHCIHw) (a : Nat)
    (p : FilterPass) :
    (portChangeInterrupt hw a p).regWrites =
      p.regWrites ++
        (if a &&& kEHCIPortChangeIntBit ≠ 0 then
          EHCIRegWrite.USBSTS kEHCIPortChangeIntBit ::
            (if p.st.errataNECIncompleteWrite then
              List.replicate (stuckRereads hw)
                (EHCIRegWrite.USBSTS kEHCIPortChangeIntBit)
            else [])
        else []) := by
  unfold portChangeInterrupt
  split_ifs <;> simp [portChangeRetry_stuck]

theorem errorInterrupt_regWrites (a : Nat) (p : FilterPass) :
    (errorInterrupt a p).regWrites =
      p.regWrites ++
        (if a &&& kEHCIErrorIntBit ≠ 0 then
          [EHCIRegWrite.USBSTS kEHCIErrorIntBit] else []) := by
  unfold errorInterrupt
  split_ifs <;> simp

theorem beforeComplete_regWrites (K : EHCIParams) (hw : EHCIHw)
    (st : EHCIState) :
    (beforeComplete K hw st).regWrites =
      (if (hw.USBIntr &&& hw.USBSTS) &&& kEHCIFrListRolloverIntBit ≠ 0 then
          [EHCIRegWrite.USBSTS kEHCIFrListRolloverIntBit] else [])
        ++ (if (hw.USBIntr &&& hw.USBSTS) &&& kEHCIAAEIntBit ≠ 0 then
          [EHCIRegWrite.USBSTS kEHCIAAEIntBit] else [])
        ++ (if (hw.USBIntr &&& hw.USBSTS) &&& kEHCIHostErrorIntBit ≠ 0 then
          [EHCIRegWrite.USBSTS kEHCIHostErrorIntBit] else [])
        ++ (if (hw.USBIntr &&& hw.USBSTS) &&& kEHCIPortChangeIntBit ≠ 0 then
          EHCIRegWrite.USBSTS kEHCIPortChangeIntBit ::
            (if st.errataNECIncompleteWrite then
              List.replicate (stuckRereads hw)
                (EHCIRegWrite.USBSTS kEHCIPortChangeIntBit)
            else [])
          else [])
        ++ (if (hw.USBIntr &&& hw.USBSTS) &&& kEHCIErrorIntBit ≠ 0 then
          [EHCIRegWrite.USBSTS kEHCIErrorIntBit] else []) := by
  show (errorInterrupt _ (portChangeInterrupt hw _
    (hostErrorInterrupt _ (asyncAdvanceInterrupt _
      (frameRolloverInterrupt K hw _
        { st := st, needSignal := false, regWrites := [] }))))).regWrites = _
  rw [errorInterrupt_regWrites, portChangeInterrupt_regWrites,
    hostErrorInterrupt_regWrites, asyncAdvanceInterrupt_regWrites,
    frameRolloverInterrupt_regWrites, hostErrorInterrupt_st,
    asyncAdvanceInterrupt_st, frameRolloverInterrupt_st]
  simp only [List.nil_append]

theorem FilterInterrupt_post (K : EHCIParams) (fuel : Nat) (hw : EHCIHw)
    (st st2 : EHCIState) (out : FilterOut)
    (h : AppleUSBEHCI.FilterInterrupt K fuel hw st = Res.ok (st2, out)) :
    SweepFrame (afterCauses K hw st).st st2
      ∧ out.regWrites = (afterCauses K hw st).regWrites
      ∧ st2._producerCount
        = bumpProducer st._producerCount out.retired.length
      ∧ out.UpdateFrameList
        = (out.retired.filter (fun x => (st.elements x)._lowLatency)).map
            (fun x => (x, hw.uptimeComplete))
      ∧ (((hw.USBIntr &&& hw.USBSTS) &&& kEHCICompleteIntBit = 0
          ∨ sweepRuns K hw st = false) →
            out.retired = [] ∧ RingEq st st2) := by
  have hring := beforeComplete_ring K hw st
  rw [FilterInterrupt_eq] at h
  unfold afterCauses
  by_cases hact : hw.USBIntr &&& hw.USBSTS = 0
  · simp only [hact, ne_eq, not_true_eq_false, if_false] at h ⊢
    cases h
    exact ⟨sweepFrame_refl _, rfl, rfl, rfl, fun _ => ⟨rfl, ringEq_refl _⟩⟩
  · simp only [ne_eq, hact, not_false_eq_true, if_true] at h ⊢
    unfold completeInterrupt at h
    by_cases hc : (hw.USBIntr &&& hw.USBSTS) &&& kEHCICompleteIntBit = 0
    · simp only [hc, ne_eq, not_true_eq_false, if_false] at h ⊢
      cases h
      exact ⟨sweepFrame_refl _, rfl, hring.producer, rfl,
        fun _ => ⟨rfl, hring⟩⟩
    · simp only [ne_eq, hc, not_false_eq_true, if_true] at h ⊢
      have hring1 : RingEq st
          { (beforeComplete K hw st).st with
            _completeInterrupt := kEHCICompleteIntBit } :=
        ringEq_trans hring (by constructor <;> rfl)
      have hruns : sweepRuns K hw
          { (beforeComplete K hw st).st with
            _completeInterrupt := kEHCICompleteIntBit } = sweepRuns K hw st := by
        unfold sweepRuns
        rw [hring1.inAbort, hring1.outSlot]
      cases hr : sweepRuns K hw st with
      | false =>
        rw [hruns, hr] at h
        simp only [Bool.false_eq_true, if_false] at h
        cases h
        exact ⟨sweepFrame_refl _, rfl, hring1.producer, rfl,
          fun _ => ⟨rfl, hring1⟩⟩
      | true =>
        rw [hruns, hr] at h
        simp only [if_true] at h
        cases hs : periodicSweep K fuel hw
            { (beforeComplete K hw st).st with
              _completeInterrupt := kEHCICompleteIntBit } with
        | fault => simp [hs] at h
        | timeout => simp [hs] at h
        | ok w =>
          simp only [hs] at h
          cases h
          obtain ⟨f1, f2, f3⟩ := periodicSweep_inv K fuel hw _ w hs
          refine ⟨f1, rfl, ?_, ?_, ?_⟩
          · rw [f2, hring1.producer]
          · rw [f3, hring1.elements]
          · intro hcase
            rcases hcase with hcase | hcase
            · exact hcase.elim
            · cases hcase

theorem land_zero_left (b : Nat) : (0 : Nat) &&& b = 0 := by simp

theorem afterCauses_st (K : EHCIParams) (hw : EHCIHw) (st : EHCIState) :
    (afterCauses K hw st).st =
      { (beforeComplete K hw st).st with
        _completeInterrupt :=
          if (hw.USBIntr &&& hw.USBSTS) &&& kEHCICompleteIntBit ≠ 0 then
            kEHCICompleteIntBit
          else st._completeInterrupt } := by
  unfold afterCauses
  by_cases hact : hw.USBIntr &&& hw.USBSTS = 0
  · rw [beforeComplete_st]
    simp [hact]
  · simp only [ne_eq, hact, not_false_eq_true, if_true]
    split_ifs
    all_goals first
      | rfl
      | rw [beforeComplete_st]

theorem afterCauses_regWrites (K : EHCIParams) (hw : EHCIHw) (st : EHCIState) :
    (afterCauses K hw st).regWrites =
      (beforeComplete K hw st).regWrites
        ++ (if (hw.USBIntr &&& hw.USBSTS) &&& kEHCICompleteIntBit ≠ 0 then
          [EHCIRegWrite.USBSTS kEHCICompleteIntBit] else []) := by
  unfold afterCauses
  by_cases hact : hw.USBIntr &&& hw.USBSTS = 0
  · rw [beforeComplete_regWrites]
    simp [hact]
  · simp only [ne_eq, hact, not_false_eq_true, if_true]
    split_ifs <;> simp

/-- The flags and the frame counters after a pass that returned. -/
theorem FilterInterrupt_scalars (K : EHCIParams) (fuel : Nat) (hw : EHCIHw)
    (st st2 : EHCIState) (out : FilterOut)
    (h : AppleUSBEHCI.FilterInterrupt K fuel hw st = Res.ok (st2, out)) :
    (∀ b ∈ ehciCauseBits, ehciPendingFlag b st2 =
        if (hw.USBIntr &&& hw.USBSTS) &&& b ≠ 0 then b
        else ehciPendingFlag b st)
      ∧ anchorPair st2 = anchorPair st
      ∧ tempAnchorPair st2 = (stagedBy K hw st).getD (tempAnchorPair st)
      ∧ st2._frameNumber =
          (if (hw.USBIntr &&& hw.USBSTS) &&& kEHCIFrListRolloverIntBit ≠ 0 then
            if hw.FRIndexRollover < K.kEHCIFRIndexRolloverBit then
              toUInt64 (st._frameNumber + K.kEHCIFrameNumberIncrement)
            else st._frameNumber
          else st._frameNumber)
      ∧ st2._errors = st._errors
      ∧ st2._rhPortBeingResumed = st._rhPortBeingResumed
      ∧ st2.errataNECIncompleteWrite = st.errataNECIncompleteWrite := by
  obtain ⟨hf, _⟩ := FilterInterrupt_post K fuel hw st st2 out h
  rw [afterCauses_st, beforeComplete_st] at hf
  refine ⟨?_, ?_, ?_, ?_, ?_, ?_, ?_⟩
  · intro b hb
    simp only [ehciCauseBits, List.mem_cons, List.mem_singleton,
      List.not_mem_nil, or_false] at hb
    rcases hb with rfl | rfl | rfl | rfl | rfl | rfl
    · exact hf.frameRollover
    · exact hf.asyncAdvance
    · exact hf.hostError
    · exact hf.portChange
    · exact hf.error
    · exact hf.complete
  · unfold anchorPair
    rw [hf.anchorTime, hf.anchorFrame]
  · unfold tempAnchorPair stagedBy
    rw [hf.tempAnchorTime, hf.tempAnchorFrame]
    split_ifs <;> rfl
  · exact hf.frameNumber
  · exact hf.errors
  · exact hf.portResumed
  · exact hf.errata

/-! ## What every run of `PollInterrupts` does -/

theorem pollHostError_st (p : PollPass) :
    (pollHostError p).st =
      { p.st with
        _hostErrorInterrupt :=
          if p.st._hostErrorInterrupt &&& kEHCIHostErrorIntBit ≠ 0 then 0
          else p.st._hostErrorInterrupt
        _errors :=
          if p.st._hostErrorInterrupt &&& kEHCIHostErrorIntBit ≠ 0 then
            { hostSystemError := toUInt32 (p.st._errors.hostSystemError + 1)
              displayed :=
                if toUInt32 (p.st._errors.hostSystemError + 1)
                    = toUInt32 (1 <<< p.st._errors.displayed) then
                  toUInt32 (p.st._errors.displayed + 1)
                else p.st._errors.displayed }
          else p.st._errors } := by
  unfold pollHostError
  simp only []
  split_ifs <;> rfl

theorem pollError_st (p : PollPass) :
    (pollError p).st =
      { p.st with
        _errorInterrupt :=
          if p.st._errorInterrupt &&& kEHCIErrorIntBit ≠ 0 then 0
          else p.st._errorInterrupt } := by
  unfold pollError
  split_ifs <;> rfl

theorem pollComplete_st (p : PollPass) :
    (pollComplete p).st =
      { p.st with
        _completeInterrupt :=
          if p.st._completeInterrupt &&& kEHCICompleteIntBit ≠ 0 then 0
          else p.st._completeInterrupt } := by
  unfold pollComplete
  split_ifs <;> rfl

theorem pollPorts_st (hw : EHCIPollHw) :
    ∀ (n port : Nat) (p : PollPass),
      ∃ rh, (pollPorts hw n port p).st
        = { p.st with _rhPortBeingResumed := rh }
  | 0, _, p => ⟨p.st._rhPortBeingResumed, rfl⟩
  | n + 1, port, p => by
    simp only [pollPorts]
    split_ifs
    · obtain ⟨rh, h⟩ := pollPorts_st hw n (port + 1)
        { st := { p.st with
            _rhPortBeingResumed :=
              Function.update p.st._rhPortBeingResumed port true }
          events := p.events ++ [PollEvent.resumePortThread (port + 1)] }
      exact ⟨rh, h⟩
    all_goals exact pollPorts_st hw n (port + 1) p

theorem pollPortChange_st (hw : EHCIPollHw) (p : PollPass) :
    ∃ rh, (pollPortChange hw p).st =
      { p.st with
        _portChangeInterrupt :=
          if p.st._portChangeInterrupt &&& kEHCIPortChangeIntBit ≠ 0 then 0
          else p.st._portChangeInterrupt
        _rhPortBeingResumed := rh } := by
  unfold pollPortChange
  split_ifs
  · obtain ⟨rh, h⟩ := pollPorts_st hw (hw.HCSParams &&& kEHCINumPortsMask) 0
      { st := { p.st with _portChangeInterrupt := 0 }
        events := p.events ++ [PollEvent.EnsureUsability] }
    exact ⟨rh, h⟩
  · exact ⟨p.st._rhPortBeingResumed, rfl⟩

theorem pollAsyncAdvance_st (p : PollPass) :
    (pollAsyncAdvance p).st =
      { p.st with
        _asyncAdvanceInterrupt :=
          if p.st._asyncAdvanceInterrupt &&& kEHCIAAEIntBit ≠ 0 then 0
          else p.st._asyncAdvanceInterrupt } := by
  unfold pollAsyncAdvance
  split_ifs <;> rfl

theorem pollFrameRollover_st (p : PollPass) :
    (pollFrameRollover p).st =
      { p.st with
        _frameRolloverInterrupt :=
          if p.st._frameRolloverInterrupt &&& kEHCIFrListRolloverIntBit ≠ 0
          then 0 else p.st._frameRolloverInterrupt
        _anchorTime :=
          if p.st._frameRolloverInterrupt &&& kEHCIFrListRolloverIntBit ≠ 0
          then p.st._tempAnchorTime else p.st._anchorTime
        _anchorFrame :=
          if p.st._frameRolloverInterrupt &&& kEHCIFrListRolloverIntBit ≠ 0
          then p.st._tempAnchorFrame else p.st._anchorFrame } := by
  unfold pollFrameRollover
  split_ifs <;> rfl

theorem PollInterrupts_st (hw : EHCIPollHw) (st : EHCIState) :
    ∃ rh, (AppleUSBEHCI.PollInterrupts hw st).1 =
      { st with
        _hostErrorInterrupt :=
          if st._hostErrorInterrupt &&& kEHCIHostErrorIntBit ≠ 0 then 0
          else st._hostErrorInterrupt
        _errors :=
          if st._hostErrorInterrupt &&& kEHCIHostErrorIntBit ≠ 0 then
            { hostSystemError := toUInt32 (st._errors.hostSystemError + 1)
              displayed :=
                if toUInt32 (st._errors.hostSystemError + 1)
                    = toUInt32 (1 <<< st._errors.displayed) then
                  toUInt32 (st._errors.displayed + 1)
                else st._errors.displayed }
          else st._errors
        _errorInterrupt :=
          if st._errorInterrupt &&& kEHCIErrorIntBit ≠ 0 then 0
          else st._errorInterrupt
        _completeInterrupt :=
          if st._completeInterrupt &&& kEHCICompleteIntBit ≠ 0 then 0
          else st._completeInterrupt
        _portChangeInterrupt :=
          if st._portChangeInterrupt &&& kEHCIPortChangeIntBit ≠ 0 then 0
          else st._portChangeInterrupt
        _rhPortBeingResumed := rh
        _asyncAdvanceInterrupt :=
          if st._asyncAdvanceInterrupt &&& kEHCIAAEIntBit ≠ 0 then 0
          else st._asyncAdvanceInterrupt
        _frameRolloverInterrupt :=
          if st._frameRolloverInterrupt &&& kEHCIFrListRolloverIntBit ≠ 0
          then 0 else st._frameRolloverInterrupt
        _anchorTime :=
          if st._frameRolloverInterrupt &&& kEHCIFrListRolloverIntBit ≠ 0
          then st._tempAnchorTime else st._anchorTime
        _anchorFrame :=
          if st._frameRolloverInterrupt &&& kEHCIFrListRolloverIntBit ≠ 0
          then st._tempAnchorFrame else st._anchorFrame } := by
  obtain ⟨rh, h⟩ := pollPortChange_st hw
    (pollComplete (pollError (pollHostError { st := st, events := [] })))
  refine ⟨rh, ?_⟩
  show (pollFrameRollover (pollAsyncAdvance (pollPortChange hw
    (pollComplete (pollError (pollHostError
      { st := st, events := [] })))))).st = _
  rw [pollFrameRollover_st, pollAsyncAdvance_st, h, pollComplete_st,
    pollError_st, pollHostError_st]

theorem Res.valueOr_eq {α : Type} {r : Res α} {d : α}
    (h : Res.holds r (fun _ => True)) : r = Res.ok (r.valueOr d) := by
  cases r with
  | ok a => rfl
  | fault => exact absurd h (fun h => h)
  | timeout => exact absurd h (fun h => h)

/-! ## The anchor pair -/

/-- C12: a run of the EHCI `PollInterrupts` that finds
`_frameRolloverInterrupt` pending copies `_tempAnchorTime` and
`_tempAnchorFrame` to `_anchorTime` and `_anchorFrame` and clears the flag;
a run that does not find it pending leaves the anchor and the flag as they
are; no run changes `_tempAnchorTime`, `_tempAnchorFrame` or
`_frameNumber`. -/
theorem ehci_poll_frame_rollover (hw : EHCIPollHw) (st : EHCIState) :
    (st._frameRolloverInterrupt &&& kEHCIFrListRolloverIntBit ≠ 0 →
        (AppleUSBEHCI.PollInterrupts hw st).1._anchorTime = st._tempAnchorTime
        ∧ (AppleUSBEHCI.PollInterrupts hw st).1._anchorFrame
            = st._tempAnchorFrame
        ∧ (AppleUSBEHCI.PollInterrupts hw st).1._frameRolloverInterrupt = 0)
    ∧ (st._frameRolloverInterrupt &&& kEHCIFrListRolloverIntBit = 0 →
        (AppleUSBEHCI.PollInterrupts hw st).1._anchorTime = st._anchorTime
        ∧ (AppleUSBEHCI.PollInterrupts hw st).1._anchorFrame = st._anchorFrame
        ∧ (AppleUSBEHCI.PollInterrupts hw st).1._frameRolloverInterrupt
            = st._frameRolloverInterrupt)
    ∧ (AppleUSBEHCI.PollInterrupts hw st).1._tempAnchorTime
        = st._tempAnchorTime
    ∧ (AppleUSBEHCI.PollInterrupts hw st).1._tempAnchorFrame
        = st._tempAnchorFrame
    ∧ (AppleUSBEHCI.PollInterrupts hw st).1._frameNumber = st._frameNumber := by
  obtain ⟨rh, h⟩ := PollInterrupts_st hw st
  rw [h]
  refine ⟨?_, ?_, rfl, rfl, rfl⟩
  · intro hp
    simp only [hp, ne_eq, not_false_eq_true, if_true, and_self]
  · intro hp
    simp only [hp, ne_eq, not_true_eq_false, if_false, and_self]

theorem ehciStep_anchor (K : EHCIParams) (fuel : Nat) (e : EHCIStep)
    (st st1 : EHCIState) (h : ehciStep K fuel e st = Res.ok st1) :
    (anchorPair st1 = anchorPair st ∨ anchorPair st1 = tempAnchorPair st)
      ∧ (tempAnchorPair st1 = tempAnchorPair st
        ∨ ∃ hw, e = EHCIStep.filter hw
            ∧ stagedBy K hw st = some (tempAnchorPair st1)) := by
  cases e with
  | filter hw =>
    simp only [ehciStep] at h
    cases hp : AppleUSBEHCI.FilterInterrupt K fuel hw st with
    | fault => simp [hp] at h
    | timeout => simp [hp] at h
    | ok r =>
      obtain ⟨st2, out⟩ := r
      simp only [hp] at h
      obtain ⟨_, ha, ht, _⟩ := FilterInterrupt_scalars K fuel hw st st2 out hp
      cases h
      refine ⟨Or.inl ha, ?_⟩
      cases hs : stagedBy K hw st with
      | none =>
        rw [hs] at ht
        exact Or.inl ht
      | some pr =>
        rw [hs] at ht
        exact Or.inr ⟨hw, rfl, by rw [ht, hs]; rfl⟩
  | poll hw =>
    simp only [ehciStep] at h
    cases h
    obtain ⟨rh, hst⟩ := PollInterrupts_st hw st
    rw [hst]
    refine ⟨?_, Or.inl rfl⟩
    unfold anchorPair tempAnchorPair
    simp only []
    split_ifs
    · exact Or.inr rfl
    · exact Or.inl rfl

theorem ehciRun_anchor (K : EHCIParams) (fuel : Nat) :
    ∀ (steps : List EHCIStep) (st stN : EHCIState) (A : List (Nat × Nat)),
      anchorPair st ∈ A → tempAnchorPair st ∈ A →
      ehciRun K fuel steps st = Res.ok stN →
      anchorPair stN ∈ A ++ stagedPairs K fuel steps st
        ∧ tempAnchorPair stN ∈ A ++ stagedPairs K fuel steps st
  | [], st, stN, A, ha, ht, h => by
    simp only [ehciRun] at h
    cases h
    simp [stagedPairs, ha, ht]
  | e :: steps, st, stN, A, ha, ht, h => by
    simp only [ehciRun] at h
    cases hs : ehciStep K fuel e st with
    | fault => simp [hs] at h
    | timeout => simp [hs] at h
    | ok st1 =>
      simp only [hs] at h
      obtain ⟨h1, h2⟩ := ehciStep_anchor K fuel e st st1 hs
      have ha1 : anchorPair st1 ∈ A := by
        rcases h1 with h1 | h1
        · rw [h1]; exact ha
        · rw [h1]; exact ht
      simp only [stagedPairs, hs]
      rcases h2 with h2 | ⟨hw, rfl, h2⟩
      · obtain ⟨r1, r2⟩ := ehciRun_anchor K fuel steps st1 stN A ha1
          (by rw [h2]; exact ht) h
        constructor
        · rw [List.mem_append] at r1 ⊢
          rcases r1 with r1 | r1
          · exact Or.inl r1
          · exact Or.inr (List.mem_append_right _ r1)
        · rw [List.mem_append] at r2 ⊢
          rcases r2 with r2 | r2
          · exact Or.inl r2
          · exact Or.inr (List.mem_append_right _ r2)
      · obtain ⟨r1, r2⟩ := ehciRun_anchor K fuel steps st1 stN
          (A ++ [tempAnchorPair st1])
          (List.mem_append_left _ ha1)
          (List.mem_append_right _ (List.mem_singleton_self _)) h
        simp only [h2, Option.toList, List.append_assoc] at r1 r2 ⊢
        exact ⟨r1, r2⟩

/-- C13: in every run of whole `FilterInterrupt` passes and whole
`PollInterrupts` runs that starts with the anchor pair equal to the staged
pair, the anchor pair a reader sees at the end is the initial pair or a pair
of time and frame staged by one single pass of the run. -/
theorem ehci_anchor_pair_consistent (K : EHCIParams) (fuel : Nat)
    (steps : List EHCIStep) (st stN : EHCIState)
    (h0 : anchorPair st = tempAnchorPair st)
    (hrun : ehciRun K fuel steps st = Res.ok stN) :
    anchorPair stN = anchorPair st
      ∨ anchorPair stN ∈ stagedPairs K fuel steps st := by
  obtain ⟨r1, _⟩ := ehciRun_anchor K fuel steps st stN [anchorPair st]
    (List.mem_singleton_self _) (by rw [← h0]; exact List.mem_singleton_self _)
    hrun
  simpa using r1

/-! ## What every pass of the OHCI filter does -/

theorem OHCIFilterInterrupt_eq (P : OHCIParams) (fuel : Nat) (hw : OHCIHw)
    (st : OHCIState) :
    AppleUSBOHCI.FilterInterrupt P fuel hw st =
      if ohciProcesses hw then
        match ohciWriteDoneHead P fuel hw
            (hw.hcInterruptEnable &&& hw.hcInterruptStatus)
            (ohciBeforeWDH P hw st) with
        | Res.ok p8 =>
          Res.ok (p8.st,
            { result := false, signalInterrupt := 1, writes := p8.writes })
        | Res.fault => Res.fault
        | Res.timeout => Res.timeout
      else
        Res.ok (st, { result := false, signalInterrupt := 1, writes := [] }) :=
  rfl

theorem ohciFrameNumberOverflow_st (P : OHCIParams) (hw : OHCIHw) (a : Nat)
    (p : OHCIPass) :
    (ohciFrameNumberOverflow P hw a p).st =
      { p.st with
        _errors := { p.st._errors with
          frameNumberOverflow :=
            if a &&& kOHCIHcInterrupt_FNO ≠ 0 then
              toUInt32 (p.st._errors.frameNumberOverflow + 1)
            else p.st._errors.frameNumberOverflow }
        _frameNumber :=
          if a &&& kOHCIHcInterrupt_FNO ≠ 0 then
            if toUInt16 hw.HCCAFrameNumber &&& P.kOHCIFmNumberMask
                < P.kOHCIBit15 then
              toUInt64 (p.st._frameNumber + P.kOHCIFrameOverflowBit)
            else p.st._frameNumber
          else p.st._frameNumber } := by
  unfold ohciFrameNumberOverflow
  simp only []
  split_ifs <;> rfl

theorem ohciSchedulingOverrun_st (a : Nat) (p : OHCIPass) :
    (ohciSchedulingOverrun a p).st =
      { p.st with
        _errors := { p.st._errors with
          scheduleOverrun :=
            if a &&& kOHCIHcInterrupt_SO ≠ 0 then
              toUInt32 (p.st._errors.scheduleOverrun + 1)
            else p.st._errors.scheduleOverrun } } := by
  unfold ohciSchedulingOverrun
  split_ifs <;> rfl

theorem ohciStartOfFrame_st (a : Nat) (p : OHCIPass) :
    (ohciStartOfFrame a p).st = p.st := by
  unfold ohciStartOfFrame
  split_ifs <;> rfl

theorem ohciOwnershipChange_st (a : Nat) (p : OHCIPass) :
    (ohciOwnershipChange a p).st =
      { p.st with
        _errors := { p.st._errors with
          ownershipChange :=
            if a &&& kOHCIHcInterrupt_OC ≠ 0 then
              toUInt32 (p.st._errors.ownershipChange + 1)
            else p.st._errors.ownershipChange } } := by
  unfold ohciOwnershipChange
  split_ifs <;> rfl

theorem ohciRootHubStatusChange_st (a : Nat) (p : OHCIPass) :
    (ohciRootHubStatusChange a p).st =
      { p.st with
        _rootHubStatusChangeInterrupt :=
          if a &&& kOHCIHcInterrupt_RHSC ≠ 0 then kOHCIHcInterrupt_RHSC
          else p.st._rootHubStatusChangeInterrupt } := by
  unfold ohciRootHubStatusChange
  split_ifs <;> rfl

theorem ohciUnrecoverableError_st (a : Nat) (p : OHCIPass) :
    (ohciUnrecoverableError a p).st =
      { p.st with
        _errors := { p.st._errors with
          unrecoverableError :=
            if a &&& kOHCIHcInterrupt_UE ≠ 0 then
              toUInt32 (p.st._errors.unrecoverableError + 1)
            else p.st._errors.unrecoverableError }
        _unrecoverableErrorInterrupt :=
          if a &&& kOHCIHcInterrupt_UE ≠ 0 then kOHCIHcInterrupt_UE
          else p.st._unrecoverableErrorInterrupt } := by
  unfold ohciUnrecoverableError
  split_ifs <;> rfl

theorem ohciResumeDetected_st (a : Nat) (p : OHCIPass) :
    (ohciResumeDetected a p).st =
      { p.st with
        _resumeDetectedInterrupt :=
          if a &&& kOHCIHcInterrupt_RD ≠ 0 then kOHCIHcInterrupt_RD
          else p.st._resumeDetectedInterrupt } := by
  unfold ohciResumeDetected
  split_ifs <;> rfl

theorem ohciBeforeWDH_st (P : OHCIParams) (hw : OHCIHw) (st : OHCIState) :
    (ohciBeforeWDH P hw st).st =
      { st with
        _errors :=
          { frameNumberOverflow :=
              if (hw.hcInterruptEnable &&& hw.hcInterruptStatus)
                  &&& kOHCIHcInterrupt_FNO ≠ 0 then
                toUInt32 (st._errors.frameNumberOverflow + 1)
              else st._errors.frameNumberOverflow
            scheduleOverrun :=
              if (hw.hcInterruptEnable &&& hw.hcInterruptStatus)
                  &&& kOHCIHcInterrupt_SO ≠ 0 then
                toUInt32 (st._errors.scheduleOverrun + 1)
              else st._errors.scheduleOverrun
            ownershipChange :=
              if (hw.hcInterruptEnable &&& hw.hcInterruptStatus)
                  &&& kOHCIHcInterrupt_OC ≠ 0 then
                toUInt32 (st._errors.ownershipChange + 1)
              else st._errors.ownershipChange
            unrecoverableError :=
              if (hw.hcInterruptEnable &&& hw.hcInterruptStatus)
                  &&& kOHCIHcInterrupt_UE ≠ 0 then
                toUInt32 (st._errors.unrecoverableError + 1)
              else st._errors.unrecoverableError }
        _frameNumber :=
          if (hw.hcInterruptEnable &&& hw.hcInterruptStatus)
              &&& kOHCIHcInterrupt_FNO ≠ 0 then
            if toUInt16 hw.HCCAFrameNumber &&& P.kOHCIFmNumberMask
                < P.kOHCIBit15 then
              toUInt64 (st._frameNumber + P.kOHCIFrameOverflowBit)
            else st._frameNumber
          else st._frameNumber
        _rootHubStatusChangeInterrupt :=
          if (hw.hcInterruptEnable &&& hw.hcInterruptStatus)
              &&& kOHCIHcInterrupt_RHSC ≠ 0 then kOHCIHcInterrupt_RHSC
          else st._rootHubStatusChangeInterrupt
        _unrecoverableErrorInterrupt :=
          if (hw.hcInterruptEnable &&& hw.hcInterruptStatus)
              &&& kOHCIHcInterrupt_UE ≠ 0 then kOHCIHcInterrupt_UE
          else st._unrecoverableErrorInterrupt
        _resumeDetectedInterrupt :=
          if (hw.hcInterruptEnable &&& hw.hcInterruptStatus)
              &&& kOHCIHcInterrupt_RD ≠ 0 then kOHCIHcInterrupt_RD
          else st._resumeDetectedInterrupt } := by
  show (ohciResumeDetected _ (ohciUnrecoverableError _
    (ohciRootHubStatusChange _ (ohciOwnershipChange _ (ohciStartOfFrame _
      (ohciSchedulingOverrun _ (ohciFrameNumberOverflow P hw _
        { st := st, writes := [] }))))))).st = _
  rw [ohciResumeDetected_st, ohciUnrecoverableError_st,
    ohciRootHubStatusChange_st, ohciOwnershipChange_st, ohciStartOfFrame_st,
    ohciSchedulingOverrun_st, ohciFrameNumberOverflow_st]

theorem ohciBeforeWDH_writes (P : OHCIParams) (hw : OHCIHw) (st : OHCIState) :
    (ohciBeforeWDH P hw st).writes =
      (if (hw.hcInterruptEnable &&& hw.hcInterruptStatus)
            &&& kOHCIHcInterrupt_FNO ≠ 0 then
          [OHCIWrite.hcInterruptStatus kOHCIHcInterrupt_FNO] else [])
        ++ (if (hw.hcInterruptEnable &&& hw.hcInterruptStatus)
            &&& kOHCIHcInterrupt_SO ≠ 0 then
          [OHCIWrite.hcInterruptStatus kOHCIHcInterrupt_SO] else [])
        ++ (if (hw.hcInterruptEnable &&& hw.hcInterruptStatus)
            &&& kOHCIHcInterrupt_SF ≠ 0 then
          [OHCIWrite.hcInterruptStatus kOHCIHcInterrupt_SF,
            OHCIWrite.hcInterruptDisable kOHCIHcInterrupt_SF] else [])
        ++ (if (hw.hcInterruptEnable &&& hw.hcInterruptStatus)
            &&& kOHCIHcInterrupt_OC ≠ 0 then
          [OHCIWrite.hcInterruptStatus kOHCIHcInterrupt_OC] else [])
        ++ (if (hw.hcInterruptEnable &&& hw.hcInterruptStatus)
            &&& kOHCIHcInterrupt_RHSC ≠ 0 then
          [OHCIWrite.hcInterruptDisable kOHCIHcInterrupt_RHSC,
            OHCIWrite.hcInterruptStatus kOHCIHcInterrupt_RHSC] else [])
        ++ (if (hw.hcInterruptEnable &&& hw.hcInterruptStatus)
            &&& kOHCIHcInterrupt_UE ≠ 0 then
          [OHCIWrite.hcInterruptStatus kOHCIHcInterrupt_UE] else [])
        ++ (if (hw.hcInterruptEnable &&& hw.hcInterruptStatus)
            &&& kOHCIHcInterrupt_RD ≠ 0 then
          [OHCIWrite.hcInterruptStatus kOHCIHcInterrupt_RD] else []) := by
  have h1 : ∀ (a : Nat) (p : OHCIPass),
      (ohciFrameNumberOverflow P hw a p).writes = p.writes ++
        (if a &&& kOHCIHcInterrupt_FNO ≠ 0 then
          [OHCIWrite.hcInterruptStatus kOHCIHcInterrupt_FNO] else []) := by
    intro a p
    unfold ohciFrameNumberOverflow
    split_ifs <;> simp
  have h2 : ∀ (a : Nat) (p : OHCIPass),
      (ohciSchedulingOverrun a p).writes = p.writes ++
        (if a &&& kOHCIHcInterrupt_SO ≠ 0 then
          [OHCIWrite.hcInterruptStatus kOHCIHcInterrupt_SO] else []) := by
    intro a p
    unfold ohciSchedulingOverrun
    split_ifs <;> simp
  have h3 : ∀ (a : Nat) (p : OHCIPass),
      (ohciStartOfFrame a p).writes = p.writes ++
        (if a &&& kOHCIHcInterrupt_SF ≠ 0 then
          [OHCIWrite.hcInterruptStatus kOHCIHcInterrupt_SF,
            OHCIWrite.hcInterruptDisable kOHCIHcInterrupt_SF] else []) := by
    intro a p
    unfold ohciStartOfFrame
    split_ifs <;> simp
  have h4 : ∀ (a : Nat) (p : OHCIPass),
      (ohciOwnershipChange a p).writes = p.writes ++
        (if a &&& kOHCIHcInterrupt_OC ≠ 0 then
          [OHCIWrite.hcInterruptStatus kOHCIHcInterrupt_OC] else []) := by
    intro a p
    unfold ohciOwnershipChange
    split_ifs <;> simp
  have h5 : ∀ (a : Nat) (p : OHCIPass),
      (ohciRootHubStatusChange a p).writes = p.writes ++
        (if a &&& kOHCIHcInterrupt_RHSC ≠ 0 then
          [OHCIWrite.hcInterruptDisable kOHCIHcInterrupt_RHSC,
            OHCIWrite.hcInterruptStatus kOHCIHcInterrupt_RHSC] else []) := by
    intro a p
    unfold ohciRootHubStatusChange
    split_ifs <;> simp
  have h6 : ∀ (a : Nat) (p : OHCIPass),
      (ohciUnrecoverableError a p).writes = p.writes ++
        (if a &&& kOHCIHcInterrupt_UE ≠ 0 then
          [OHCIWrite.hcInterruptStatus kOHCIHcInterrupt_UE] else []) := by
    intro a p
    unfold ohciUnrecoverableError
    split_ifs <;> simp
  have h7 : ∀ (a : Nat) (p : OHCIPass),
      (ohciResumeDetected a p).writes = p.writes ++
        (if a &&& kOHCIHcInterrupt_RD ≠ 0 then
          [OHCIWrite.hcInterruptStatus kOHCIHcInterrupt_RD] else []) := by
    intro a p
    unfold ohciResumeDetected
    split_ifs <;> simp
  show (ohciResumeDetected _ (ohciUnrecoverableError _
    (ohciRootHubStatusChange _ (ohciOwnershipChange _ (ohciStartOfFrame _
      (ohciSchedulingOverrun _ (ohciFrameNumberOverflow P hw _
        { st := st, writes := [] }))))))).writes = _
  rw [h7, h6, h5, h4, h3, h2, h1]
  simp only [List.nil_append]

/-! ## The walk of the OHCI done queue -/

theorem ohciWalked_refl (ts : Nat) (a : OHCIState) : OHCIWalked ts a a :=
  ⟨rfl, fun _ _ => Or.inl rfl⟩

theorem ohciWalked_trans {ts : Nat} {a b c : OHCIState}
    (h1 : OHCIWalked ts a b) (h2 : OHCIWalked ts b c) : OHCIWalked ts a c := by
  refine ⟨?_, ?_⟩
  · have e1 := h1.1
    have e2 := h2.1
    rw [e1] at e2
    exact e2
  · intro addr i
    rcases h2.2 addr i with h | h
    · rw [h]
      exact h1.2 addr i
    · exact Or.inr h

theorem updateLowLatencyFrame_walked (P : OHCIParams) (ts : Nat)
    (td : OHCITransferDescriptor) (i : Nat) (st : OHCIState) :
    OHCIWalked ts st (updateLowLatencyFrame P ts td i st) := by
  refine ⟨rfl, ?_⟩
  intro addr j
  unfold updateLowLatencyFrame
  simp only [Function.update_apply]
  by_cases ha : addr = td.pIsocFrame
  · by_cases hj : j = td.frameNum + i
    · right
      simp only [ha, hj, if_true]
      split_ifs <;> simp
    · left
      simp [ha, hj]
  · left
    simp [ha]

theorem foldl_updateLowLatencyFrame_walked (P : OHCIParams) (ts : Nat)
    (td : OHCITransferDescriptor) :
    ∀ (l : List Nat) (st : OHCIState),
      OHCIWalked ts st
        (l.foldl (fun s i => updateLowLatencyFrame P ts td i s) st)
  | [], st => ohciWalked_refl ts st
  | i :: l, st =>
    ohciWalked_trans (updateLowLatencyFrame_walked P ts td i st)
      (foldl_updateLowLatencyFrame_walked P ts td l _)

theorem updateLowLatencyTD_walked (P : OHCIParams) (ts : Nat)
    (td : OHCITransferDescriptor) (st : OHCIState) :
    OHCIWalked ts st (updateLowLatencyTD P ts td st) := by
  unfold updateLowLatencyTD
  split_ifs
  · exact ohciWalked_trans (b := { st with
        _lowLatencyIsochTDsProcessed :=
          toUInt32 (st._lowLatencyIsochTDsProcessed + 1) })
      ⟨rfl, fun _ _ => Or.inl rfl⟩
      (foldl_updateLowLatencyFrame_walked P ts td _ _)
  · exact ohciWalked_refl ts st

theorem tdNext_walked (P : OHCIParams) {ts : Nat} {a b : OHCIState}
    (h : OHCIWalked ts a b) : tdNext P b = tdNext P a := by
  funext t
  unfold tdNext tdAt
  rw [h.1]

theorem getLast?_or_cons (x : Ptr) (xs : List Ptr) (a b : Option Ptr) :
    (x :: xs).getLast?.or a = (x :: xs).getLast?.or b := by
  cases h : (x :: xs).getLast? with
  | none => simp at h
  | some y => rfl

theorem walkDoneQueue_ok (P : OHCIParams) (ts : Nat) :
    ∀ (fuel : Nat) (thing prev : Option Ptr) (n : Nat) (st : OHCIState)
      (prev2 : Option Ptr) (n2 : Nat) (st2 : OHCIState),
      walkDoneQueue P ts fuel thing prev n st = Res.ok (prev2, n2, st2) →
      ∃ l, Chain (tdNext P st) thing l none
        ∧ prev2 = l.getLast?.or prev
        ∧ n2 = bumpProducer n l.length
        ∧ OHCIWalked ts st st2
  | 0, thing, prev, n, st, prev2, n2, st2, h => by
    cases thing with
    | none =>
      simp only [walkDoneQueue] at h
      cases h
      exact ⟨[], rfl, rfl, rfl, ohciWalked_refl ts st⟩
    | some t => simp [walkDoneQueue] at h
  | fuel + 1, thing, prev, n, st, prev2, n2, st2, h => by
    cases thing with
    | none =>
      simp only [walkDoneQueue] at h
      cases h
      exact ⟨[], rfl, rfl, rfl, ohciWalked_refl ts st⟩
    | some t =>
      simp only [walkDoneQueue] at h
      have hw := updateLowLatencyTD_walked P ts (st.descriptors t) st
      obtain ⟨l, hc, hp, hn, hwalk⟩ :=
        walkDoneQueue_ok P ts fuel _ _ _ _ prev2 n2 st2 h
      rw [tdNext_walked P hw] at hc
      refine ⟨t :: l, ⟨rfl, hc⟩, ?_, ?_, ohciWalked_trans hw hwalk⟩
      · rw [hp]
        cases l with
        | nil => rfl
        | cons x xs => exact getLast?_or_cons x xs _ _
      · rw [hn]
        rfl

theorem walkDoneQueue_chain (P : OHCIParams) (ts : Nat) :
    ∀ (l : List Ptr) (fuel : Nat) (thing prev : Option Ptr) (n : Nat)
      (st : OHCIState),
      Chain (tdNext P st) thing l none → l.length < fuel →
      ∃ st2, walkDoneQueue P ts fuel thing prev n st
          = Res.ok (l.getLast?.or prev, bumpProducer n l.length, st2)
        ∧ OHCIWalked ts st st2
  | [], fuel, thing, prev, n, st, hc, hf => by
    have e : thing = none := hc
    subst e
    obtain ⟨f, rfl⟩ : ∃ f, fuel = f + 1 := ⟨fuel - 1, by simp at hf; omega⟩
    exact ⟨st, rfl, ohciWalked_refl ts st⟩
  | t :: l, fuel, thing, prev, n, st, hc, hf => by
    obtain ⟨e, hc2⟩ := hc
    subst e
    obtain ⟨f, rfl⟩ : ∃ f, fuel = f + 1 :=
      ⟨fuel - 1, by simp at hf; omega⟩
    have hw := updateLowLatencyTD_walked P ts (st.descriptors t) st
    rw [← tdNext_walked P hw] at hc2
    obtain ⟨st2, hrun, hwalk⟩ := walkDoneQueue_chain P ts l f _ (some t)
      (toUInt32 (n + 1)) _ hc2 (by simp at hf; omega)
    refine ⟨st2, ?_, ohciWalked_trans hw hwalk⟩
    simp only [walkDoneQueue]
    have e1 : tdNext P st t = st.GetLogicalAddress
        ((st.descriptors t).nextTD &&& P.kOHCIHeadPMask) := rfl
    have e2 : tdNext P (updateLowLatencyTD P ts (st.descriptors t) st) t
        = tdNext P st t := by rw [tdNext_walked P hw]
    rw [← e1, ← e2, hrun]
    congr 2
    cases l with
    | nil => rfl
    | cons x xs => exact getLast?_or_cons x xs _ _

theorem toUInt32_add_bump (p n : Nat) :
    toUInt32 (p + bumpProducer 0 n) = toUInt32 (p + n) := by
  have h := bumpProducer_mod n 0
  unfold toUInt32
  omega

theorem ohciWriteDoneHead_eq (P : OHCIParams) (fuel : Nat) (hw : OHCIHw)
    (a : Nat) (p : OHCIPass) :
    ohciWriteDoneHead P fuel hw a p =
      if a &&& kOHCIHcInterrupt_WDH ≠ 0 then
        match walkDoneQueue P hw.uptime fuel
            (tdAt P p.st (toUInt32 hw.HCCADoneHead)) none 0
            (ohciWDHBook hw p.st) with
        | Res.ok (prevTD, numberOfTDs, st2) =>
          Res.ok
            { st := { st2 with
                descriptors :=
                  match prevTD with
                  | none => st2.descriptors
                  | some t =>
                    Function.update st2.descriptors t
                      { st2.descriptors t with
                        nextTD := p.st._savedDoneQueueHead }
                _savedDoneQueueHead :=
                  toUInt32 hw.HCCADoneHead &&& P.kOHCIHeadPMask
                _producerCount := toUInt32 (st2._producerCount + numberOfTDs) }
              writes := p.writes ++ [OHCIWrite.HCCADoneHead 0,
                OHCIWrite.hcInterruptStatus kOHCIHcInterrupt_WDH] }
        | Res.fault => Res.fault
        | Res.timeout => Res.timeout
      else Res.ok p := by
  unfold ohciWriteDoneHead
  split_ifs
  · show (match walkDoneQueue P hw.uptime fuel
        (tdAt P p.st (toUInt32 hw.HCCADoneHead)) none 0
        (ohciWDHBook hw p.st) with
      | Res.ok (prevTD, numberOfTDs, st2) => _
      | Res.fault => Res.fault
      | Res.timeout => Res.timeout) = _
    cases walkDoneQueue P hw.uptime fuel
        (tdAt P p.st (toUInt32 hw.HCCADoneHead)) none 0
        (ohciWDHBook hw p.st) with
    | fault => rfl
    | timeout => rfl
    | ok r =>
      obtain ⟨prev2, n2, s2⟩ := r
      cases prev2 <;> rfl
  · rfl

theorem ohciWriteDoneHead_ok (P : OHCIParams) (fuel : Nat) (hw : OHCIHw)
    (a : Nat) (p p8 : OHCIPass) (ha : a &&& kOHCIHcInterrupt_WDH ≠ 0)
    (h : ohciWriteDoneHead P fuel hw a p = Res.ok p8) :
    ∃ (l : List Ptr) (s2 : OHCIState),
      DoneList P p.st (toUInt32 hw.HCCADoneHead) l
      ∧ OHCIWalked hw.uptime (ohciWDHBook hw p.st) s2
      ∧ p8.st = { s2 with
          descriptors := linkLast s2.descriptors l p.st._savedDoneQueueHead
          _savedDoneQueueHead := toUInt32 hw.HCCADoneHead &&& P.kOHCIHeadPMask
          _producerCount := toUInt32 (s2._producerCount + l.length) }
      ∧ p8.writes = p.writes ++ [OHCIWrite.HCCADoneHead 0,
          OHCIWrite.hcInterruptStatus kOHCIHcInterrupt_WDH] := by
  rw [ohciWriteDoneHead_eq, if_pos ha] at h
  cases hwalk : walkDoneQueue P hw.uptime fuel
      (tdAt P p.st (toUInt32 hw.HCCADoneHead)) none 0
      (ohciWDHBook hw p.st) with
  | fault =>
    rw [hwalk] at h
    cases h
  | timeout =>
    rw [hwalk] at h
    cases h
  | ok r =>
    obtain ⟨prev2, n2, s2⟩ := r
    obtain ⟨l, hc, hp, hn, hw2⟩ := walkDoneQueue_ok P hw.uptime fuel _ _ _ _
      prev2 n2 s2 hwalk
    have hp2 : prev2 = l.getLast? := by
      rw [hp]
      cases l.getLast? <;> rfl
    rw [hwalk] at h
    simp only [] at h
    cases h
    refine ⟨l, s2, hc, hw2, ?_, rfl⟩
    rw [hn, toUInt32_add_bump, hp2]
    rfl

theorem ohciWriteDoneHead_chain (P : OHCIParams) (fuel : Nat) (hw : OHCIHw)
    (a : Nat) (p : OHCIPass) (l : List Ptr)
    (hc : DoneList P p.st (toUInt32 hw.HCCADoneHead) l)
    (hf : l.length < fuel) :
    ∃ p8, ohciWriteDoneHead P fuel hw a p = Res.ok p8 := by
  rw [ohciWriteDoneHead_eq]
  split_ifs
  · obtain ⟨st2, hrun, _⟩ := walkDoneQueue_chain P hw.uptime l fuel
      (tdAt P p.st (toUInt32 hw.HCCADoneHead)) none 0
      (ohciWDHBook hw p.st) hc hf
    rw [hrun]
    exact ⟨_, rfl⟩
  · exact ⟨p, rfl⟩

theorem OHCIFilterInterrupt_idle (P : OHCIParams) (fuel : Nat) (hw : OHCIHw)
    (st : OHCIState) (h : ¬ ohciProcesses hw) :
    AppleUSBOHCI.FilterInterrupt P fuel hw st =
      Res.ok (st, { result := false, signalInterrupt := 1, writes := [] }) := by
  rw [OHCIFilterInterrupt_eq, if_neg h]

theorem OHCIFilterInterrupt_nowdh (P : OHCIParams) (fuel : Nat) (hw : OHCIHw)
    (st : OHCIState) (h : ohciProcesses hw)
    (ha : (hw.hcInterruptEnable &&& hw.hcInterruptStatus)
      &&& kOHCIHcInterrupt_WDH = 0) :
    AppleUSBOHCI.FilterInterrupt P fuel hw st =
      Res.ok ((ohciBeforeWDH P hw st).st,
        { result := false, signalInterrupt := 1
          writes := (ohciBeforeWDH P hw st).writes }) := by
  rw [OHCIFilterInterrupt_eq, if_pos h, ohciWriteDoneHead_eq,
    if_neg (by simpa using ha)]

theorem doneList_beforeWDH (P : OHCIParams) (hw : OHCIHw) (st : OHCIState)
    (a : Nat) (l : List Ptr) :
    DoneList P (ohciBeforeWDH P hw st).st a l ↔ DoneList P st a l := by
  unfold DoneList tdNext tdAt
  rw [ohciBeforeWDH_st]

/-- A pass of the OHCI filter that returns with writeback done head
active: the descriptors `l` it walked, and the state it leaves. -/
theorem OHCIFilterInterrupt_wdh (P : OHCIParams) (fuel : Nat) (hw : OHCIHw)
    (st st2 : OHCIState) (out : OHCIFilterOut) (hp : ohciProcesses hw)
    (ha : (hw.hcInterruptEnable &&& hw.hcInterruptStatus)
      &&& kOHCIHcInterrupt_WDH ≠ 0)
    (h : AppleUSBOHCI.FilterInterrupt P fuel hw st = Res.ok (st2, out)) :
    ∃ (l : List Ptr) (s2 : OHCIState),
      DoneList P st (toUInt32 hw.HCCADoneHead) l
      ∧ OHCIWalked hw.uptime (ohciWDHBook hw (ohciBeforeWDH P hw st).st) s2
      ∧ st2 = { s2 with
          descriptors := linkLast s2.descriptors l st._savedDoneQueueHead
          _savedDoneQueueHead := toUInt32 hw.HCCADoneHead &&& P.kOHCIHeadPMask
          _producerCount := toUInt32 (s2._producerCount + l.length) }
      ∧ out = { result := false, signalInterrupt := 1
                writes := (ohciBeforeWDH P hw st).writes ++
                  [OHCIWrite.HCCADoneHead 0,
                    OHCIWrite.hcInterruptStatus kOHCIHcInterrupt_WDH] } := by
  rw [OHCIFilterInterrupt_eq, if_pos hp] at h
  cases hr : ohciWriteDoneHead P fuel hw
      (hw.hcInterruptEnable &&& hw.hcInterruptStatus)
      (ohciBeforeWDH P hw st) with
  | fault =>
    rw [hr] at h
    cases h
  | timeout =>
    rw [hr] at h
    cases h
  | ok p8 =>
    rw [hr] at h
    simp only [] at h
    obtain ⟨l, s2, hc, hw2, hst, hwr⟩ :=
      ohciWriteDoneHead_ok P fuel hw _ _ p8 ha hr
    have hhead : (ohciBeforeWDH P hw st).st._savedDoneQueueHead
        = st._savedDoneQueueHead := by
      rw [ohciBeforeWDH_st]
    cases h
    refine ⟨l, s2, (doneList_beforeWDH P hw st _ l).mp hc, hw2, ?_, ?_⟩
    · rw [hst, hhead]
    · rw [hwr]

theorem OHCIFilterInterrupt_returns (P : OHCIParams) (fuel : Nat) (hw : OHCIHw)
    (st : OHCIState) (l : List Ptr)
    (hc : DoneList P st (toUInt32 hw.HCCADoneHead) l) (hf : l.length < fuel) :
    ∃ st2 out, AppleUSBOHCI.FilterInterrupt P fuel hw st = Res.ok (st2, out) := by
  rw [OHCIFilterInterrupt_eq]
  split_ifs
  · obtain ⟨p8, h8⟩ := ohciWriteDoneHead_chain P fuel hw
      (hw.hcInterruptEnable &&& hw.hcInterruptStatus) (ohciBeforeWDH P hw st) l
      ((doneList_beforeWDH P hw st _ l).mpr hc) hf
    rw [h8]
    exact ⟨_, _, rfl⟩
  · exact ⟨_, _, rfl⟩

/-- The fields of the state that a pass with writeback done head active
leaves, in terms of the state before the pass. -/
theorem OHCIFilterInterrupt_wdh_fields (P : OHCIParams) (fuel : Nat)
    (hw : OHCIHw) (st st2 : OHCIState) (out : OHCIFilterOut)
    (hp : ohciProcesses hw)
    (ha : (hw.hcInterruptEnable &&& hw.hcInterruptStatus)
      &&& kOHCIHcInterrupt_WDH ≠ 0)
    (h : AppleUSBOHCI.FilterInterrupt P fuel hw st = Res.ok (st2, out)) :
    ∃ l : List Ptr,
      DoneList P st (toUInt32 hw.HCCADoneHead) l
      ∧ st2.GetLogicalAddress = st.GetLogicalAddress
      ∧ st2.descriptors = linkLast st.descriptors l st._savedDoneQueueHead
      ∧ st2._savedDoneQueueHead
          = toUInt32 hw.HCCADoneHead &&& P.kOHCIHeadPMask
      ∧ st2._producerCount = toUInt32 (st._producerCount + l.length)
      ∧ st2._writeDoneHeadInterrupt = kOHCIHcInterrupt_WDH
      ∧ st2._rootHubStatusChangeInterrupt
          = (ohciBeforeWDH P hw st).st._rootHubStatusChangeInterrupt
      ∧ st2._unrecoverableErrorInterrupt
          = (ohciBeforeWDH P hw st).st._unrecoverableErrorInterrupt
      ∧ st2._resumeDetectedInterrupt
          = (ohciBeforeWDH P hw st).st._resumeDetectedInterrupt
      ∧ st2._errors = (ohciBeforeWDH P hw st).st._errors
      ∧ (∀ addr i, st2.frames addr i = st.frames addr i
          ∨ (st2.frames addr i).frTimeStamp = hw.uptime) := by
  obtain ⟨l, s2, hc, hw2, hst, _⟩ :=
    OHCIFilterInterrupt_wdh P fuel hw st st2 out hp ha h
  obtain ⟨e, hfr⟩ := hw2
  have hb := ohciBeforeWDH_st P hw st
  refine ⟨l, hc, ?_, ?_, ?_, ?_, ?_, ?_, ?_, ?_, ?_, ?_⟩
  · rw [hst, e]
    show (ohciBeforeWDH P hw st).st.GetLogicalAddress = st.GetLogicalAddress
    rw [hb]
  · rw [hst, e]
    show linkLast (ohciBeforeWDH P hw st).st.descriptors l _ = _
    rw [hb]
  · rw [hst]
  · rw [hst, e]
    show toUInt32 ((ohciBeforeWDH P hw st).st._producerCount + l.length) = _
    rw [hb]
  · rw [hst, e]; rfl
  · rw [hst, e]; rfl
  · rw [hst, e]; rfl
  · rw [hst, e]; rfl
  · rw [hst, e]; rfl
  · intro addr i
    have hfa : (s2.frames addr i = (ohciBeforeWDH P hw st).st.frames addr i
        ∨ (s2.frames addr i).frTimeStamp = hw.uptime) := hfr addr i
    rw [hb] at hfa
    rw [hst]
    exact hfa

/-! ## Claims on signalling, time stamps and status bits -/

/-- C11: every pass of the OHCI filter that returns calls `signalInterrupt`
once and returns `false`, whatever causes are active; a pass with no
enabled cause active, or with the master interrupt enable bit clear,
returns, leaves the driver state as it is, writes no register, and calls
`signalInterrupt` all the same. -/
theorem ohci_filter_signalling (P : OHCIParams) (fuel : Nat) (hw : OHCIHw)
    (st : OHCIState) :
    (∀ st2 out, AppleUSBOHCI.FilterInterrupt P fuel hw st = Res.ok (st2, out) →
      out.signalInterrupt = 1 ∧ out.result = false)
    ∧ ((hw.hcInterruptEnable &&& hw.hcInterruptStatus = 0
          ∨ hw.hcInterruptEnable &&& kOHCIHcInterrupt_MIE = 0) →
        AppleUSBOHCI.FilterInterrupt P fuel hw st =
          Res.ok (st,
            { result := false, signalInterrupt := 1, writes := [] })) := by
  constructor
  · intro st2 out h
    rw [OHCIFilterInterrupt_eq] at h
    split_ifs at h
    · split at h
      · cases h
        exact ⟨rfl, rfl⟩
      · cases h
      · cases h
    · cases h
      exact ⟨rfl, rfl⟩
  · intro h
    refine OHCIFilterInterrupt_idle P fuel hw st ?_
    intro hp
    rcases h with h | h
    · exact hp.2 h
    · exact hp.1 h

/-- C15: in a pass of the EHCI filter that returns, `UpdateFrameList` is
called exactly for the elements put on the done queue whose `_lowLatency`
is set, in that order, each time with the clock sample of the pass; when
the leading runs of the walked slots are apart, a deferred element is not
put on the done queue and gets no call. In a pass of the OHCI filter that
returns, every frame record is as before the pass or carries the clock
sample of the pass. -/
theorem one_timestamp_per_pass :
    (∀ (K : EHCIParams) (fuel : Nat) (hw : EHCIHw) (st st2 : EHCIState)
        (out : FilterOut),
      AppleUSBEHCI.FilterInterrupt K fuel hw st = Res.ok (st2, out) →
      out.UpdateFrameList
          = (out.retired.filter (fun x => (st.elements x)._lowLatency)).map
              (fun x => (x, hw.uptimeComplete))
        ∧ ∀ x ts, (x, ts) ∈ out.UpdateFrameList ↔
            (x ∈ out.retired ∧ (st.elements x)._lowLatency = true
              ∧ ts = hw.uptimeComplete))
    ∧ (∀ (K : EHCIParams) (k fuel : Nat) (hw : EHCIHw) (st : EHCIState)
        (lead : Nat → List Ptr) (stop : Nat → Option Ptr),
      K.kEHCIPeriodicListEntries = 2 ^ k → k ≤ 16 →
      (hw.USBIntr &&& hw.USBSTS) &&& kEHCICompleteIntBit ≠ 0 →
      sweepRuns K hw st = true →
      (∀ s ∈ walkedSlots K.kEHCIPeriodicListEntries st._outSlot
        (curSlotOf K hw.FRIndex), LeadOK st s (lead s) (stop s)) →
      (∀ s ∈ walkedSlots K.kEHCIPeriodicListEntries st._outSlot
        (curSlotOf K hw.FRIndex),
        ∀ t ∈ walkedSlots K.kEHCIPeriodicListEntries st._outSlot
          (curSlotOf K hw.FRIndex), s ≠ t → ∀ x ∈ lead s, x ∉ lead t) →
      K.kEHCIPeriodicListEntries ≤ fuel →
      (∀ s ∈ walkedSlots K.kEHCIPeriodicListEntries st._outSlot
        (curSlotOf K hw.FRIndex), (lead s).length < fuel) →
      ∃ st2 out, AppleUSBEHCI.FilterInterrupt K fuel hw st = Res.ok (st2, out)
        ∧ ∀ s ∈ walkedSlots K.kEHCIPeriodicListEntries st._outSlot
            (curSlotOf K hw.FRIndex), ∀ x ∈ lead s,
            deferredIn K hw.FRIndex st s x = true →
              x ∉ out.retired ∧ ∀ ts, (x, ts) ∉ out.UpdateFrameList)
    ∧ (∀ (P : OHCIParams) (fuel : Nat) (hw : OHCIHw) (st st2 : OHCIState)
        (out : OHCIFilterOut),
      AppleUSBOHCI.FilterInterrupt P fuel hw st = Res.ok (st2, out) →
      ∀ addr i, st2.frames addr i = st.frames addr i
        ∨ (st2.frames addr i).frTimeStamp = hw.uptime) := by
  have hmem : ∀ (K : EHCIParams) (fuel : Nat) (hw : EHCIHw)
      (st st2 : EHCIState) (out : FilterOut),
      AppleUSBEHCI.FilterInterrupt K fuel hw st = Res.ok (st2, out) →
      ∀ x ts, (x, ts) ∈ out.UpdateFrameList ↔
        (x ∈ out.retired ∧ (st.elements x)._lowLatency = true
          ∧ ts = hw.uptimeComplete) := by
    intro K fuel hw st st2 out h x ts
    obtain ⟨_, _, _, hcalls, _⟩ := FilterInterrupt_post K fuel hw st st2 out h
    rw [hcalls]
    simp only [List.mem_map, List.mem_filter, Prod.mk.injEq]
    constructor
    · rintro ⟨y, ⟨hy1, hy2⟩, rfl, rfl⟩
      exact ⟨hy1, hy2, rfl⟩
    · rintro ⟨h1, h2, rfl⟩
      exact ⟨x, ⟨h1, h2⟩, rfl, rfl⟩
  refine ⟨?_, ?_, ?_⟩
  · intro K fuel hw st st2 out h
    exact ⟨(FilterInterrupt_post K fuel hw st st2 out h).2.2.2.1,
      hmem K fuel hw st st2 out h⟩
  · intro K k fuel hw st lead stop hN hk ha hr hlead hdisj hf1 hf2
    obtain ⟨st2, out, hrun, post, _⟩ :=
      FilterInterrupt_sweep K k fuel hw st lead stop hN hk ha hr hlead hf1 hf2
    refine ⟨st2, out, hrun, ?_⟩
    intro s hs x hx hd
    have hnot : x ∉ out.retired := by
      rw [post.retired]
      intro hmem2
      obtain ⟨t, ht, hxt, hdt⟩ := (mem_retiredOf _ _ x _).mp hmem2
      by_cases hst : s = t
      · subst hst
        rw [hd] at hdt
        cases hdt
      · exact hdisj s hs t ht hst x hx hxt
    refine ⟨hnot, ?_⟩
    intro ts hcall
    exact hnot ((hmem K fuel hw st st2 out hrun x ts).mp hcall).1
  · intro P fuel hw st st2 out h addr i
    by_cases hp : ohciProcesses hw
    · by_cases ha : (hw.hcInterruptEnable &&& hw.hcInterruptStatus)
          &&& kOHCIHcInterrupt_WDH = 0
      · rw [OHCIFilterInterrupt_nowdh P fuel hw st hp ha] at h
        cases h
        left
        rw [ohciBeforeWDH_st]
      · obtain ⟨l, _, _, _, _, _, _, _, _, _, _, hfr⟩ :=
          OHCIFilterInterrupt_wdh_fields P fuel hw st st2 out hp ha h
        exact hfr addr i
    · rw [OHCIFilterInterrupt_idle P fuel hw st hp] at h
      cases h
      exact Or.inl rfl

theorem filter_cons_append {α : Type} (p : α → Bool) (x : α) (xs : List α) :
    (x :: xs).filter p = (if p x = true then [x] else []) ++ xs.filter p := by
  by_cases h : p x = true <;> simp [List.filter_cons, h]

theorem count_filter_nodup (p : Nat → Bool) :
    ∀ (L : List Nat), L.Nodup → ∀ b,
      List.count b (L.filter p) = if b ∈ L ∧ p b = true then 1 else 0
  | [], _, b => by simp
  | x :: xs, hn, b => by
    have hn2 := List.nodup_cons.mp hn
    rw [filter_cons_append, List.count_append, count_filter_nodup p xs hn2.2 b]
    by_cases hbx : b = x
    · subst hbx
      by_cases hp : p b = true <;> simp [hp, hn2.1]
    · have hxb : x ≠ b := fun e => hbx e.symm
      by_cases hp : p x = true <;> by_cases hm : b ∈ xs <;>
        simp [hp, hm, hbx, hxb, List.count_cons]

theorem count_flatMap_replicate (n : Nat → Nat) :
    ∀ (L : List Nat), L.Nodup → ∀ b,
      List.count b (L.flatMap (fun x => List.replicate (n x) x))
        = if b ∈ L then n b else 0
  | [], _, b => by simp
  | x :: xs, hn, b => by
    have hn2 := List.nodup_cons.mp hn
    rw [List.flatMap_cons, List.count_append,
      count_flatMap_replicate n xs hn2.2 b, List.count_replicate]
    by_cases hbx : b = x
    · subst hbx
      simp [hn2.1]
    · have hxb : x ≠ b := fun e => hbx e.symm
      by_cases hm : b ∈ xs <;> simp [hm, hbx, hxb]

theorem ehciStatusWrites_afterCauses (K : EHCIParams) (hw : EHCIHw)
    (st : EHCIState) :
    ehciStatusWrites (afterCauses K hw st).regWrites =
      (ehciCauseBits.filter
        (fun b => decide ((hw.USBIntr &&& hw.USBSTS) &&& b ≠ 0))).flatMap
        (fun b => List.replicate (ehciClears hw st b) b) := by
  rw [afterCauses_regWrites, beforeComplete_regWrites]
  unfold ehciCauseBits
  simp only [filter_cons_append, List.filter_nil, List.append_nil,
    List.flatMap_append, ehciStatusWrites, List.map_append,
    decide_eq_true_eq]
  have e : ∀ (c : Prop) [Decidable c] (b : Nat),
      List.flatMap (if c then [b] else [])
          (fun b => List.replicate (ehciClears hw st b) b)
        = if c then List.replicate (ehciClears hw st b) b else [] := by
    intro c _ b
    split_ifs <;> simp
  have m : ∀ (c : Prop) [Decidable c] (l : List EHCIRegWrite),
      List.map (fun w => match w with | EHCIRegWrite.USBSTS v => v)
          (if c then l else [])
        = if c then l.map (fun w => match w with | EHCIRegWrite.USBSTS v => v)
          else [] := by
    intro c _ l
    split_ifs <;> simp
  simp only [e, m, List.append_assoc]
  have c1 : ehciClears hw st kEHCIFrListRolloverIntBit = 1 := by
    simp [ehciClears, kEHCIFrListRolloverIntBit, kEHCIPortChangeIntBit]
  have c2 : ehciClears hw st kEHCIAAEIntBit = 1 := by
    simp [ehciClears, kEHCIAAEIntBit, kEHCIPortChangeIntBit]
  have c3 : ehciClears hw st kEHCIHostErrorIntBit = 1 := by
    simp [ehciClears, kEHCIHostErrorIntBit, kEHCIPortChangeIntBit]
  have c4 : ehciClears hw st kEHCIPortChangeIntBit
      = if st.errataNECIncompleteWrite = true then 1 + stuckRereads hw
        else 1 := by
    simp [ehciClears]
  have c5 : ehciClears hw st kEHCIErrorIntBit = 1 := by
    simp [ehciClears, kEHCIErrorIntBit, kEHCIPortChangeIntBit]
  have c6 : ehciClears hw st kEHCICompleteIntBit = 1 := by
    simp [ehciClears, kEHCICompleteIntBit, kEHCIPortChangeIntBit]
  rw [c1, c2, c3, c4, c5, c6]
  congr 1
  congr 1
  congr 1
  congr 1
  all_goals (split_ifs <;> simp [List.replicate_succ, Nat.add_comm])

theorem ohciStatusWrites_pass (P : OHCIParams) (hw : OHCIHw) (st : OHCIState) :
    ohciStatusWrites ((ohciBeforeWDH P hw st).writes ++
        (if (hw.hcInterruptEnable &&& hw.hcInterruptStatus)
            &&& kOHCIHcInterrupt_WDH ≠ 0 then
          [OHCIWrite.HCCADoneHead 0,
            OHCIWrite.hcInterruptStatus kOHCIHcInterrupt_WDH]
        else [])) =
      ohciCauseBits.filter
        (fun b => decide
          ((hw.hcInterruptEnable &&& hw.hcInterruptStatus) &&& b ≠ 0)) := by
  rw [ohciBeforeWDH_writes]
  unfold ohciCauseBits
  have fm : ∀ (c : Prop) [Decidable c] (l : List OHCIWrite),
      ohciStatusWrites (if c then l else [])
        = if c then ohciStatusWrites l else [] := by
    intro c _ l
    split_ifs <;> rfl
  have ap : ∀ l1 l2 : List OHCIWrite,
      ohciStatusWrites (l1 ++ l2)
        = ohciStatusWrites l1 ++ ohciStatusWrites l2 := by
    intro l1 l2
    unfold ohciStatusWrites
    rw [List.filterMap_append]
  simp only [filter_cons_append, List.filter_nil, List.append_nil, ap, fm,
    decide_eq_true_eq, List.append_assoc]
  rfl

theorem ehciCauseBits_nodup : ehciCauseBits.Nodup := by decide

theorem ohciCauseBits_nodup : ohciCauseBits.Nodup := by decide

/-- C16: a pass of the EHCI filter that returns writes to `USBSTS` the
active cause bits in program order, each exactly once, except that with the
NEC errata the port change bit is written once more for each of the reads
of `USBSTS`, ten at most, that still shows it set; it writes no other value.
A pass of the OHCI filter that returns with the master interrupt enable bit
set writes to `HcInterruptStatus` the active cause bits in program order,
each exactly once, and no other value; with the bit clear it writes
nothing. -/
theorem status_bits_cleared :
    (∀ (K : EHCIParams) (fuel : Nat) (hw : EHCIHw) (st st2 : EHCIState)
        (out : FilterOut),
      AppleUSBEHCI.FilterInterrupt K fuel hw st = Res.ok (st2, out) →
      ehciStatusWrites out.regWrites =
          (ehciCauseBits.filter
            (fun b => decide ((hw.USBIntr &&& hw.USBSTS) &&& b ≠ 0))).flatMap
            (fun b => List.replicate (ehciClears hw st b) b)
      ∧ (∀ b ∈ ehciCauseBits,
          (ehciStatusWrites out.regWrites).count b =
            if (hw.USBIntr &&& hw.USBSTS) &&& b ≠ 0 then ehciClears hw st b
            else 0)
      ∧ (∀ v ∈ ehciStatusWrites out.regWrites,
          v ∈ ehciCauseBits ∧ (hw.USBIntr &&& hw.USBSTS) &&& v ≠ 0)
      ∧ (∀ b, (b ≠ kEHCIPortChangeIntBit ∨ st.errataNECIncompleteWrite = false
            → ehciClears hw st b = 1)
          ∧ 1 ≤ ehciClears hw st b ∧ ehciClears hw st b ≤ 11))
    ∧ (∀ (P : OHCIParams) (fuel : Nat) (hw : OHCIHw) (st st2 : OHCIState)
        (out : OHCIFilterOut),
      AppleUSBOHCI.FilterInterrupt P fuel hw st = Res.ok (st2, out) →
      (hw.hcInterruptEnable &&& kOHCIHcInterrupt_MIE ≠ 0 →
        ohciStatusWrites out.writes =
            ohciCauseBits.filter (fun b => decide
              ((hw.hcInterruptEnable &&& hw.hcInterruptStatus) &&& b ≠ 0))
        ∧ (∀ b ∈ ohciCauseBits,
            (ohciStatusWrites out.writes).count b =
              if (hw.hcInterruptEnable &&& hw.hcInterruptStatus) &&& b ≠ 0
              then 1 else 0)
        ∧ (∀ v ∈ ohciStatusWrites out.writes,
            v ∈ ohciCauseBits
              ∧ (hw.hcInterruptEnable &&& hw.hcInterruptStatus) &&& v ≠ 0))
      ∧ (hw.hcInterruptEnable &&& kOHCIHcInterrupt_MIE = 0 →
          out.writes = [])) := by
  constructor
  · intro K fuel hw st st2 out h
    obtain ⟨_, hwr, _⟩ := FilterInterrupt_post K fuel hw st st2 out h
    have heq := ehciStatusWrites_afterCauses K hw st
    rw [← hwr] at heq
    refine ⟨heq, ?_, ?_, ?_⟩
    · intro b hb
      rw [heq, count_flatMap_replicate _ _
        (ehciCauseBits_nodup.filter _)]
      simp only [List.mem_filter, hb, true_and, decide_eq_true_eq]
    · intro v hv
      rw [heq] at hv
      simp only [List.mem_flatMap, List.mem_filter, decide_eq_true_eq] at hv
      obtain ⟨b, ⟨hb1, hb2⟩, hv2⟩ := hv
      have := (List.mem_replicate.mp hv2).2
      subst this
      exact ⟨hb1, hb2⟩
    · intro b
      have hs := stuckRereads_le hw
      unfold ehciClears
      refine ⟨?_, ?_, ?_⟩
      · intro hcase
        rw [if_neg]
        rintro ⟨h1, h2⟩
        rcases hcase with hcase | hcase
        · exact hcase h1
        · rw [h2] at hcase
          cases hcase
      · split_ifs <;> omega
      · split_ifs <;> omega
  · intro P fuel hw st st2 out h
    constructor
    · intro hmie
      have heq : ohciStatusWrites out.writes =
          ohciCauseBits.filter (fun b => decide
            ((hw.hcInterruptEnable &&& hw.hcInterruptStatus) &&& b ≠ 0)) := by
        by_cases hact : hw.hcInterruptEnable &&& hw.hcInterruptStatus = 0
        · have hno : ¬ ohciProcesses hw := fun hp => hp.2 hact
          rw [OHCIFilterInterrupt_idle P fuel hw st hno] at h
          cases h
          rw [hact]
          simp [ohciStatusWrites]
        · have hp : ohciProcesses hw := ⟨hmie, hact⟩
          rw [← ohciStatusWrites_pass P hw st]
          by_cases ha : (hw.hcInterruptEnable &&& hw.hcInterruptStatus)
              &&& kOHCIHcInterrupt_WDH = 0
          · rw [OHCIFilterInterrupt_nowdh P fuel hw st hp ha] at h
            cases h
            simp [ha]
          · obtain ⟨l, s2, _, _, _, ho⟩ :=
              OHCIFilterInterrupt_wdh P fuel hw st st2 out hp ha h
            rw [ho]
            simp [ha]
      refine ⟨heq, ?_, ?_⟩
      · intro b hb
        rw [heq, count_filter_nodup _ _ ohciCauseBits_nodup]
        simp only [hb, true_and, decide_eq_true_eq]
      · intro v hv
        rw [heq] at hv
        simpa using hv
    · intro hmie
      have hno : ¬ ohciProcesses hw := fun hp => hp.1 hmie
      rw [OHCIFilterInterrupt_idle P fuel hw st hno] at h
      cases h
      rfl

/-! ## The calls of `PollInterrupts` -/

theorem pollPorts_events (hw : EHCIPollHw) :
    ∀ (n port : Nat) (p : PollPass),
      ∃ rs, (∀ e ∈ rs, isResumePortThread e = true)
        ∧ (pollPorts hw n port p).events = p.events ++ rs
  | 0, _, p => ⟨[], by simp, by simp [pollPorts]⟩
  | n + 1, port, p => by
    simp only [pollPorts]
    split_ifs
    · obtain ⟨rs, h1, h2⟩ := pollPorts_events hw n (port + 1)
        { st := { p.st with
            _rhPortBeingResumed :=
              Function.update p.st._rhPortBeingResumed port true }
          events := p.events ++ [PollEvent.resumePortThread (port + 1)] }
      refine ⟨PollEvent.resumePortThread (port + 1) :: rs, ?_, ?_⟩
      · intro e he
        rcases List.mem_cons.mp he with rfl | he
        · rfl
        · exact h1 e he
      · rw [h2]
        simp
    all_goals exact pollPorts_events hw n (port + 1) p

theorem PollInterrupts_events (hw : EHCIPollHw) (st : EHCIState) :
    ∃ rs, (∀ e ∈ rs, isResumePortThread e = true)
      ∧ (AppleUSBEHCI.PollInterrupts hw st).2 =
        (if toUInt32 (st._errors.hostSystemError + 1)
              = toUInt32 (1 <<< st._errors.displayed) then
            List.replicate (ehciBranchRuns kEHCIHostErrorIntBit st)
              PollEvent.hostSystemErrorLog
          else [])
        ++ List.replicate (ehciBranchRuns kEHCIErrorIntBit st)
            PollEvent.scavengeCompletedTransactions
        ++ List.replicate (ehciBranchRuns kEHCICompleteIntBit st)
            PollEvent.scavengeCompletedTransactions
        ++ (if ehciBranchRuns kEHCIPortChangeIntBit st = 1 then
            PollEvent.EnsureUsability :: rs
          else []) := by
  have h1 : ∀ p : PollPass, (pollHostError p).events = p.events ++
      (if toUInt32 (p.st._errors.hostSystemError + 1)
            = toUInt32 (1 <<< p.st._errors.displayed) then
          List.replicate (ehciBranchRuns kEHCIHostErrorIntBit p.st)
            PollEvent.hostSystemErrorLog
        else []) := by
    intro p
    unfold pollHostError ehciBranchRuns
    have e : ehciPendingFlag kEHCIHostErrorIntBit p.st
        = p.st._hostErrorInterrupt := rfl
    rw [e]
    simp only []
    split_ifs <;> simp
  have h2 : ∀ p : PollPass, (pollError p).events = p.events ++
      List.replicate (ehciBranchRuns kEHCIErrorIntBit p.st)
        PollEvent.scavengeCompletedTransactions := by
    intro p
    unfold pollError ehciBranchRuns
    have e : ehciPendingFlag kEHCIErrorIntBit p.st = p.st._errorInterrupt := rfl
    rw [e]
    split_ifs <;> simp
  have h3 : ∀ p : PollPass, (pollComplete p).events = p.events ++
      List.replicate (ehciBranchRuns kEHCICompleteIntBit p.st)
        PollEvent.scavengeCompletedTransactions := by
    intro p
    unfold pollComplete ehciBranchRuns
    have e : ehciPendingFlag kEHCICompleteIntBit p.st
        = p.st._completeInterrupt := rfl
    rw [e]
    split_ifs <;> simp
  have h4 : ∀ p : PollPass, ∃ rs, (∀ e ∈ rs, isResumePortThread e = true)
      ∧ (pollPortChange hw p).events = p.events ++
        (if ehciBranchRuns kEHCIPortChangeIntBit p.st = 1 then
          PollEvent.EnsureUsability :: rs
        else []) := by
    intro p
    unfold pollPortChange ehciBranchRuns
    have e : ehciPendingFlag kEHCIPortChangeIntBit p.st
        = p.st._portChangeInterrupt := rfl
    rw [e]
    by_cases hc : p.st._portChangeInterrupt &&& kEHCIPortChangeIntBit ≠ 0
    · obtain ⟨rs, r1, r2⟩ := pollPorts_events hw
        (hw.HCSParams &&& kEHCINumPortsMask) 0
        { st := { p.st with _portChangeInterrupt := 0 }
          events := p.events ++ [PollEvent.EnsureUsability] }
      refine ⟨rs, r1, ?_⟩
      simp only [hc, ne_eq, not_false_eq_true, if_true]
      rw [r2]
      simp
    · exact ⟨[], by simp, by simp [hc]⟩
  have h5 : ∀ p : PollPass, (pollAsyncAdvance p).events = p.events := by
    intro p
    unfold pollAsyncAdvance
    split_ifs <;> rfl
  have h6 : ∀ p : PollPass, (pollFrameRollover p).events = p.events := by
    intro p
    unfold pollFrameRollover
    split_ifs <;> rfl
  obtain ⟨rs, r1, r2⟩ := h4
    (pollComplete (pollError (pollHostError { st := st, events := [] })))
  refine ⟨rs, r1, ?_⟩
  show (pollFrameRollover (pollAsyncAdvance (pollPortChange hw
    (pollComplete (pollError (pollHostError
      { st := st, events := [] })))))).events = _
  rw [h6, h5, r2, h3, h2, h1, pollComplete_st, pollError_st, pollHostError_st]
  simp only [List.nil_append]
  rfl

theorem OHCIPollInterrupts_st (env : OHCIPollHw) (st : OHCIState) :
    (AppleUSBOHCI.PollInterrupts env st).1 =
      { st with
        _timeElapsed := env.absolutetime_to_nanoseconds st._filterTimeStamp2
        _writeDoneHeadInterrupt :=
          if st._writeDoneHeadInterrupt &&& kOHCIHcInterrupt_WDH ≠ 0 then 0
          else st._writeDoneHeadInterrupt
        _resumeDetectedInterrupt :=
          if st._resumeDetectedInterrupt &&& kOHCIHcInterrupt_RD ≠ 0 then 0
          else st._resumeDetectedInterrupt
        _unrecoverableErrorInterrupt :=
          if st._unrecoverableErrorInterrupt &&& kOHCIHcInterrupt_UE ≠ 0 then 0
          else st._unrecoverableErrorInterrupt
        _errors := { st._errors with
          unrecoverableError :=
            if st._unrecoverableErrorInterrupt &&& kOHCIHcInterrupt_UE ≠ 0 then
              toUInt32 (st._errors.unrecoverableError + 1)
            else st._errors.unrecoverableError }
        _rootHubStatusChangeInterrupt :=
          if st._rootHubStatusChangeInterrupt &&& kOHCIHcInterrupt_RHSC ≠ 0
          then 0 else st._rootHubStatusChangeInterrupt
        _remote_wakeup_occurred :=
          if st._rootHubStatusChangeInterrupt &&& kOHCIHcInterrupt_RHSC ≠ 0
          then true
          else if st._resumeDetectedInterrupt &&& kOHCIHcInterrupt_RD ≠ 0
          then true else st._remote_wakeup_occurred } := by
  have h1 : ∀ p : OHCIPollPass, (ohciPollWriteDoneHead p).st =
      { p.st with
        _writeDoneHeadInterrupt :=
          if p.st._writeDoneHeadInterrupt &&& kOHCIHcInterrupt_WDH ≠ 0 then 0
          else p.st._writeDoneHeadInterrupt } := by
    intro p
    unfold ohciPollWriteDoneHead
    split_ifs <;> rfl
  have h2 : ∀ p : OHCIPollPass, (ohciPollResumeDetected p).st =
      { p.st with
        _resumeDetectedInterrupt :=
          if p.st._resumeDetectedInterrupt &&& kOHCIHcInterrupt_RD ≠ 0 then 0
          else p.st._resumeDetectedInterrupt
        _remote_wakeup_occurred :=
          if p.st._resumeDetectedInterrupt &&& kOHCIHcInterrupt_RD ≠ 0
          then true else p.st._remote_wakeup_occurred } := by
    intro p
    unfold ohciPollResumeDetected
    split_ifs <;> rfl
  have h3 : ∀ p : OHCIPollPass, (ohciPollUnrecoverableError p).st =
      { p.st with
        _unrecoverableErrorInterrupt :=
          if p.st._unrecoverableErrorInterrupt &&& kOHCIHcInterrupt_UE ≠ 0
          then 0 else p.st._unrecoverableErrorInterrupt
        _errors := { p.st._errors with
          unrecoverableError :=
            if p.st._unrecoverableErrorInterrupt &&& kOHCIHcInterrupt_UE ≠ 0
            then toUInt32 (p.st._errors.unrecoverableError + 1)
            else p.st._errors.unrecoverableError } } := by
    intro p
    unfold ohciPollUnrecoverableError
    split_ifs <;> rfl
  have h4 : ∀ p : OHCIPollPass, (ohciPollRootHubStatusChange p).st =
      { p.st with
        _rootHubStatusChangeInterrupt :=
          if p.st._rootHubStatusChangeInterrupt &&& kOHCIHcInterrupt_RHSC ≠ 0
          then 0 else p.st._rootHubStatusChangeInterrupt
        _remote_wakeup_occurred :=
          if p.st._rootHubStatusChangeInterrupt &&& kOHCIHcInterrupt_RHSC ≠ 0
          then true else p.st._remote_wakeup_occurred } := by
    intro p
    unfold ohciPollRootHubStatusChange
    split_ifs <;> rfl
  show (ohciPollRootHubStatusChange (ohciPollUnrecoverableError
    (ohciPollResumeDetected (ohciPollWriteDoneHead
      { st := { st with
          _timeElapsed :=
            env.absolutetime_to_nanoseconds st._filterTimeStamp2 }
        events := [] })))).st = _
  rw [h4, h3, h2, h1]

theorem OHCIPollInterrupts_events (env : OHCIPollHw) (st : OHCIState) :
    (AppleUSBOHCI.PollInterrupts env st).2 =
      List.replicate (ohciBranchRuns kOHCIHcInterrupt_WDH st)
          OHCIPollEvent.UIMProcessDoneQueue
        ++ (if st._idleSuspend = true then
            List.replicate (ohciBranchRuns kOHCIHcInterrupt_RD st)
              OHCIPollEvent.setPowerStateRunning
          else [])
        ++ (if ohciBranchRuns kOHCIHcInterrupt_UE st = 1 then
            [OHCIPollEvent.hcCommandStatus kOHCIHcCommandStatus_HCR,
              OHCIPollEvent.delay,
              OHCIPollEvent.hcControl
                ((kOHCIFunctionalState_Operational
                    <<< kOHCIHcControl_HCFSPhase) ||| kOHCIHcControl_PLE)]
          else [])
        ++ (if ohciBranchRuns kOHCIHcInterrupt_RHSC st = 1 then
            [OHCIPollEvent.UIMRootHubStatusChange false,
              OHCIPollEvent.LastRootHubPortStatusChanged true,
              OHCIPollEvent.hcInterruptEnable kOHCIHcInterrupt_RHSC]
          else []) := by
  unfold AppleUSBOHCI.PollInterrupts ohciPollRootHubStatusChange
    ohciPollUnrecoverableError ohciPollResumeDetected ohciPollWriteDoneHead
    ohciBranchRuns
  have e1 : ohciPendingFlag kOHCIHcInterrupt_WDH st
      = st._writeDoneHeadInterrupt := rfl
  have e2 : ohciPendingFlag kOHCIHcInterrupt_RD st
      = st._resumeDetectedInterrupt := rfl
  have e3 : ohciPendingFlag kOHCIHcInterrupt_UE st
      = st._unrecoverableErrorInterrupt := rfl
  have e4 : ohciPendingFlag kOHCIHcInterrupt_RHSC st
      = st._rootHubStatusChangeInterrupt := rfl
  rw [e1, e2, e3, e4]
  simp only []
  split_ifs <;> simp_all

/-! ## The pending flags -/

theorem ehciCauseBits_land_self : ∀ b ∈ ehciCauseBits, b &&& b ≠ 0 := by
  decide

theorem ohciFlagBits_land_self : ∀ b ∈ ohciFlagBits, b &&& b ≠ 0 := by
  decide

theorem PollInterrupts_flags (hw : EHCIPollHw) (st : EHCIState) :
    ∀ b ∈ ehciCauseBits,
      ehciPendingFlag b (AppleUSBEHCI.PollInterrupts hw st).1 =
        if ehciPendingFlag b st &&& b ≠ 0 then 0 else ehciPendingFlag b st := by
  intro b hb
  obtain ⟨rh, h⟩ := PollInterrupts_st hw st
  rw [h]
  simp only [ehciCauseBits, List.mem_cons, List.mem_singleton,
    List.not_mem_nil, or_false] at hb
  rcases hb with rfl | rfl | rfl | rfl | rfl | rfl <;> rfl

theorem OHCIPollInterrupts_flags (env : OHCIPollHw) (st : OHCIState) :
    ∀ b ∈ ohciFlagBits,
      ohciPendingFlag b (AppleUSBOHCI.PollInterrupts env st).1 =
        if ohciPendingFlag b st &&& b ≠ 0 then 0 else ohciPendingFlag b st := by
  intro b hb
  rw [OHCIPollInterrupts_st]
  simp only [ohciFlagBits, List.mem_cons, List.mem_singleton,
    List.not_mem_nil, or_false] at hb
  rcases hb with rfl | rfl | rfl | rfl <;> rfl

theorem OHCIFilterInterrupt_flags (P : OHCIParams) (fuel : Nat) (hw : OHCIHw)
    (st st2 : OHCIState) (out : OHCIFilterOut)
    (h : AppleUSBOHCI.FilterInterrupt P fuel hw st = Res.ok (st2, out)) :
    ∀ b ∈ ohciFlagBits,
      ohciPendingFlag b st2 =
        if ohciProcesses hw
            ∧ (hw.hcInterruptEnable &&& hw.hcInterruptStatus) &&& b ≠ 0
        then b else ohciPendingFlag b st := by
  intro b hb
  simp only [ohciFlagBits, List.mem_cons, List.mem_singleton,
    List.not_mem_nil, or_false] at hb
  by_cases hp : ohciProcesses hw
  · simp only [hp, true_and]
    have hbw := ohciBeforeWDH_st P hw st
    by_cases ha : (hw.hcInterruptEnable &&& hw.hcInterruptStatus)
        &&& kOHCIHcInterrupt_WDH = 0
    · rw [OHCIFilterInterrupt_nowdh P fuel hw st hp ha] at h
      cases h
      rw [hbw]
      rcases hb with rfl | rfl | rfl | rfl
      · show st._writeDoneHeadInterrupt = _
        rw [if_neg (by simpa using ha)]
        rfl
      · rfl
      · rfl
      · rfl
    · obtain ⟨l, _, _, _, _, _, f1, f2, f3, f4, _⟩ :=
        OHCIFilterInterrupt_wdh_fields P fuel hw st st2 out hp ha h
      rw [hbw] at f2 f3 f4
      rcases hb with rfl | rfl | rfl | rfl
      · rw [if_pos ha]
        exact f1
      · exact f4
      · exact f3
      · exact f2
  · rw [OHCIFilterInterrupt_idle P fuel hw st hp] at h
    cases h
    simp [hp]

theorem ehciStep_flagsOK (K : EHCIParams) (fuel : Nat) (e : EHCIStep)
    (st st1 : EHCIState) (h : ehciStep K fuel e st = Res.ok st1)
    (hf : EHCIFlagsOK st) : EHCIFlagsOK st1 := by
  intro b hb
  cases e with
  | filter hw =>
    simp only [ehciStep] at h
    cases hp : AppleUSBEHCI.FilterInterrupt K fuel hw st with
    | fault => simp [hp] at h
    | timeout => simp [hp] at h
    | ok r =>
      obtain ⟨st2, out⟩ := r
      simp only [hp] at h
      obtain ⟨hfl, _⟩ := FilterInterrupt_scalars K fuel hw st st2 out hp
      cases h
      rw [hfl b hb]
      split_ifs
      · exact Or.inr rfl
      · exact hf b hb
  | poll hw =>
    simp only [ehciStep] at h
    cases h
    rw [PollInterrupts_flags hw st b hb]
    split_ifs
    · exact Or.inl rfl
    · exact hf b hb

theorem ehciRun_flagsOK (K : EHCIParams) (fuel : Nat) :
    ∀ (steps : List EHCIStep) (st stN : EHCIState),
      EHCIFlagsOK st → ehciRun K fuel steps st = Res.ok stN → EHCIFlagsOK stN
  | [], st, stN, hf, h => by
    simp only [ehciRun] at h
    cases h
    exact hf
  | e :: steps, st, stN, hf, h => by
    simp only [ehciRun] at h
    cases hs : ehciStep K fuel e st with
    | fault => simp [hs] at h
    | timeout => simp [hs] at h
    | ok st1 =>
      simp only [hs] at h
      exact ehciRun_flagsOK K fuel steps st1 stN
        (ehciStep_flagsOK K fuel e st st1 hs hf) h

theorem ohciStep_flagsOK (P : OHCIParams) (fuel : Nat) (e : OHCIStep)
    (st st1 : OHCIState) (h : ohciStep P fuel e st = Res.ok st1)
    (hf : OHCIFlagsOK st) : OHCIFlagsOK st1 := by
  intro b hb
  cases e with
  | filter hw =>
    simp only [ohciStep] at h
    cases hp : AppleUSBOHCI.FilterInterrupt P fuel hw st with
    | fault => simp [hp] at h
    | timeout => simp [hp] at h
    | ok r =>
      obtain ⟨st2, out⟩ := r
      simp only [hp] at h
      have hfl := OHCIFilterInterrupt_flags P fuel hw st st2 out hp b hb
      cases h
      rw [hfl]
      split_ifs
      · exact Or.inr rfl
      · exact hf b hb
  | poll env =>
    simp only [ohciStep] at h
    cases h
    rw [OHCIPollInterrupts_flags env st b hb]
    split_ifs
    · exact Or.inl rfl
    · exact hf b hb

theorem ohciRun_flagsOK (P : OHCIParams) (fuel : Nat) :
    ∀ (steps : List OHCIStep) (st stN : OHCIState),
      OHCIFlagsOK st → ohciRun P fuel steps st = Res.ok stN → OHCIFlagsOK stN
  | [], st, stN, hf, h => by
    simp only [ohciRun] at h
    cases h
    exact hf
  | e :: steps, st, stN, hf, h => by
    simp only [ohciRun] at h
    cases hs : ohciStep P fuel e st with
    | fault => simp [hs] at h
    | timeout => simp [hs] at h
    | ok st1 =>
      simp only [hs] at h
      exact ohciRun_flagsOK P fuel steps st1 stN
        (ohciStep_flagsOK P fuel e st st1 hs hf) h

theorem ehciRun_sticky (K : EHCIParams) (fuel : Nat) (b : Nat)
    (hb : b ∈ ehciCauseBits) :
    ∀ (hws : List EHCIHw) (st stk : EHCIState),
      (∀ hw ∈ hws, (hw.USBIntr &&& hw.USBSTS) &&& b ≠ 0) →
      (hws ≠ [] ∨ ehciPendingFlag b st = b) →
      ehciRun K fuel (hws.map EHCIStep.filter) st = Res.ok stk →
      ehciPendingFlag b stk = b
  | [], st, stk, _, h0, h => by
    simp only [List.map_nil, ehciRun] at h
    cases h
    rcases h0 with h0 | h0
    · exact absurd rfl h0
    · exact h0
  | hw :: hws, st, stk, ha, _, h => by
    simp only [List.map_cons, ehciRun, ehciStep] at h
    cases hp : AppleUSBEHCI.FilterInterrupt K fuel hw st with
    | fault => simp [hp] at h
    | timeout => simp [hp] at h
    | ok r =>
      obtain ⟨st2, out⟩ := r
      simp only [hp] at h
      obtain ⟨hfl, _⟩ := FilterInterrupt_scalars K fuel hw st st2 out hp
      refine ehciRun_sticky K fuel b hb hws st2 stk
        (fun x hx => ha x (List.mem_cons_of_mem _ hx)) (Or.inr ?_) h
      rw [hfl b hb, if_pos (ha hw (List.mem_cons_self _ _))]

theorem ohciRun_sticky (P : OHCIParams) (fuel : Nat) (b : Nat)
    (hb : b ∈ ohciFlagBits) :
    ∀ (hws : List OHCIHw) (st stk : OHCIState),
      (∀ hw ∈ hws, hw.hcInterruptEnable &&& kOHCIHcInterrupt_MIE ≠ 0
        ∧ (hw.hcInterruptEnable &&& hw.hcInterruptStatus) &&& b ≠ 0) →
      (hws ≠ [] ∨ ohciPendingFlag b st = b) →
      ohciRun P fuel (hws.map OHCIStep.filter) st = Res.ok stk →
      ohciPendingFlag b stk = b
  | [], st, stk, _, h0, h => by
    simp only [List.map_nil, ohciRun] at h
    cases h
    rcases h0 with h0 | h0
    · exact absurd rfl h0
    · exact h0
  | hw :: hws, st, stk, ha, _, h => by
    simp only [List.map_cons, ohciRun, ohciStep] at h
    cases hp : AppleUSBOHCI.FilterInterrupt P fuel hw st with
    | fault => simp [hp] at h
    | timeout => simp [hp] at h
    | ok r =>
      obtain ⟨st2, out⟩ := r
      simp only [hp] at h
      have hfl := OHCIFilterInterrupt_flags P fuel hw st st2 out hp b hb
      refine ohciRun_sticky P fuel b hb hws st2 stk
        (fun x hx => ha x (List.mem_cons_of_mem _ hx)) (Or.inr ?_) h
      obtain ⟨h1, h2⟩ := ha hw (List.mem_cons_self _ _)
      have hact : hw.hcInterruptEnable &&& hw.hcInterruptStatus ≠ 0 := by
        intro h0
        rw [h0] at h2
        exact h2 (by simp)
      rw [hfl, if_pos ⟨⟨h1, hact⟩, h2⟩]

/-- C17: after one or more passes of the EHCI filter in which a cause is
active, the flag of the cause is its cause bit and the next run of
`PollInterrupts` enters the branch of the cause once, whatever the number
of passes; in every run of passes and of `PollInterrupts` from a state whose
flags are 0 or their cause bit the flags stay so, and after a run of
`PollInterrupts` all of them are 0; a run of `PollInterrupts` clears the
flag of a cause and performs its action once when it enters the branch, and
does neither otherwise. The same holds of the OHCI driver, for passes with
the master interrupt enable bit set. -/
theorem pending_flags_sticky :
    (∀ (K : EHCIParams) (fuel : Nat) (hws : List EHCIHw) (st stk : EHCIState)
        (b : Nat), b ∈ ehciCauseBits → hws ≠ [] →
      (∀ hw ∈ hws, (hw.USBIntr &&& hw.USBSTS) &&& b ≠ 0) →
      ehciRun K fuel (hws.map EHCIStep.filter) st = Res.ok stk →
      ehciPendingFlag b stk = b ∧ ehciBranchRuns b stk = 1)
    ∧ (∀ (K : EHCIParams) (fuel : Nat) (steps : List EHCIStep)
        (st stN : EHCIState), EHCIFlagsOK st →
      ehciRun K fuel steps st = Res.ok stN →
      EHCIFlagsOK stN
        ∧ ∀ hwp, ∀ b ∈ ehciCauseBits,
            ehciPendingFlag b (AppleUSBEHCI.PollInterrupts hwp stN).1 = 0)
    ∧ (∀ (hwp : EHCIPollHw) (st : EHCIState),
      (∀ b ∈ ehciCauseBits,
        ehciPendingFlag b (AppleUSBEHCI.PollInterrupts hwp st).1 =
          if ehciBranchRuns b st = 1 then 0 else ehciPendingFlag b st)
      ∧ (AppleUSBEHCI.PollInterrupts hwp st).1._errors.hostSystemError =
          (if ehciBranchRuns kEHCIHostErrorIntBit st = 1 then
            toUInt32 (st._errors.hostSystemError + 1)
          else st._errors.hostSystemError)
      ∧ anchorPair (AppleUSBEHCI.PollInterrupts hwp st).1 =
          (if ehciBranchRuns kEHCIFrListRolloverIntBit st = 1 then
            tempAnchorPair st
          else anchorPair st)
      ∧ ∃ rs, (∀ e ∈ rs, isResumePortThread e = true)
        ∧ (AppleUSBEHCI.PollInterrupts hwp st).2 =
          (if toUInt32 (st._errors.hostSystemError + 1)
                = toUInt32 (1 <<< st._errors.displayed) then
              List.replicate (ehciBranchRuns kEHCIHostErrorIntBit st)
                PollEvent.hostSystemErrorLog
            else [])
          ++ List.replicate (ehciBranchRuns kEHCIErrorIntBit st)
              PollEvent.scavengeCompletedTransactions
          ++ List.replicate (ehciBranchRuns kEHCICompleteIntBit st)
              PollEvent.scavengeCompletedTransactions
          ++ (if ehciBranchRuns kEHCIPortChangeIntBit st = 1 then
              PollEvent.EnsureUsability :: rs
            else []))
    ∧ (∀ (P : OHCIParams) (fuel : Nat) (hws : List OHCIHw) (st stk : OHCIState)
        (b : Nat), b ∈ ohciFlagBits → hws ≠ [] →
      (∀ hw ∈ hws, hw.hcInterruptEnable &&& kOHCIHcInterrupt_MIE ≠ 0
        ∧ (hw.hcInterruptEnable &&& hw.hcInterruptStatus) &&& b ≠ 0) →
      ohciRun P fuel (hws.map OHCIStep.filter) st = Res.ok stk →
      ohciPendingFlag b stk = b ∧ ohciBranchRuns b stk = 1)
    ∧ (∀ (P : OHCIParams) (fuel : Nat) (steps : List OHCIStep)
        (st stN : OHCIState), OHCIFlagsOK st →
      ohciRun P fuel steps st = Res.ok stN →
      OHCIFlagsOK stN
        ∧ ∀ env, ∀ b ∈ ohciFlagBits,
            ohciPendingFlag b (AppleUSBOHCI.PollInterrupts env stN).1 = 0)
    ∧ (∀ (env : OHCIPollHw) (st : OHCIState),
      (∀ b ∈ ohciFlagBits,
        ohciPendingFlag b (AppleUSBOHCI.PollInterrupts env st).1 =
          if ohciBranchRuns b st = 1 then 0 else ohciPendingFlag b st)
      ∧ (AppleUSBOHCI.PollInterrupts env st).1._errors.unrecoverableError =
          (if ohciBranchRuns kOHCIHcInterrupt_UE st = 1 then
            toUInt32 (st._errors.unrecoverableError + 1)
          else st._errors.unrecoverableError)
      ∧ (AppleUSBOHCI.PollInterrupts env st).2 =
          List.replicate (ohciBranchRuns kOHCIHcInterrupt_WDH st)
              OHCIPollEvent.UIMProcessDoneQueue
            ++ (if st._idleSuspend = true then
                List.replicate (ohciBranchRuns kOHCIHcInterrupt_RD st)
                  OHCIPollEvent.setPowerStateRunning
              else [])
            ++ (if ohciBranchRuns kOHCIHcInterrupt_UE st = 1 then
                [OHCIPollEvent.hcCommandStatus kOHCIHcCommandStatus_HCR,
                  OHCIPollEvent.delay,
                  OHCIPollEvent.hcControl
                    ((kOHCIFunctionalState_Operational
                        <<< kOHCIHcControl_HCFSPhase) ||| kOHCIHcControl_PLE)]
              else [])
            ++ (if ohciBranchRuns kOHCIHcInterrupt_RHSC st = 1 then
                [OHCIPollEvent.UIMRootHubStatusChange false,
                  OHCIPollEvent.LastRootHubPortStatusChanged true,
                  OHCIPollEvent.hcInterruptEnable kOHCIHcInterrupt_RHSC]
              else [])) := by
  have runs_e : ∀ (b : Nat) (st : EHCIState) (x y : Nat),
      (if ehciBranchRuns b st = 1 then x else y)
        = if ehciPendingFlag b st &&& b ≠ 0 then x else y := by
    intro b st x y
    unfold ehciBranchRuns
    split_ifs <;> simp_all
  have runs_o : ∀ (b : Nat) (st : OHCIState) (x y : Nat),
      (if ohciBranchRuns b st = 1 then x else y)
        = if ohciPendingFlag b st &&& b ≠ 0 then x else y := by
    intro b st x y
    unfold ohciBranchRuns
    split_ifs <;> simp_all
  refine ⟨?_, ?_, ?_, ?_, ?_, ?_⟩
  · intro K fuel hws st stk b hb hne ha hrun
    have hfl := ehciRun_sticky K fuel b hb hws st stk ha (Or.inl hne) hrun
    refine ⟨hfl, ?_⟩
    unfold ehciBranchRuns
    rw [hfl, if_pos (ehciCauseBits_land_self b hb)]
  · intro K fuel steps st stN hf hrun
    have hfN := ehciRun_flagsOK K fuel steps st stN hf hrun
    refine ⟨hfN, ?_⟩
    intro hwp b hb
    rw [PollInterrupts_flags hwp stN b hb]
    rcases hfN b hb with h0 | h1
    · rw [h0]
      simp
    · rw [h1, if_pos (ehciCauseBits_land_self b hb)]
  · intro hwp st
    refine ⟨?_, ?_, ?_, PollInterrupts_events hwp st⟩
    · intro b hb
      rw [runs_e, PollInterrupts_flags hwp st b hb]
    · rw [runs_e]
      obtain ⟨rh, h⟩ := PollInterrupts_st hwp st
      rw [h]
      show (if st._hostErrorInterrupt &&& kEHCIHostErrorIntBit ≠ 0 then _
        else st._errors).hostSystemError = _
      have e : ehciPendingFlag kEHCIHostErrorIntBit st
          = st._hostErrorInterrupt := rfl
      rw [e]
      split_ifs <;> rfl
    · obtain ⟨rh, h⟩ := PollInterrupts_st hwp st
      rw [h]
      unfold ehciBranchRuns anchorPair tempAnchorPair
      have e : ehciPendingFlag kEHCIFrListRolloverIntBit st
          = st._frameRolloverInterrupt := rfl
      rw [e]
      simp only []
      split_ifs <;> simp_all
  · intro P fuel hws st stk b hb hne ha hrun
    have hfl := ohciRun_sticky P fuel b hb hws st stk ha (Or.inl hne) hrun
    refine ⟨hfl, ?_⟩
    unfold ohciBranchRuns
    rw [hfl, if_pos (ohciFlagBits_land_self b hb)]
  · intro P fuel steps st stN hf hrun
    have hfN := ohciRun_flagsOK P fuel steps st stN hf hrun
    refine ⟨hfN, ?_⟩
    intro env b hb
    rw [OHCIPollInterrupts_flags env stN b hb]
    rcases hfN b hb with h0 | h1
    · rw [h0]
      simp
    · rw [h1, if_pos (ohciFlagBits_land_self b hb)]
  · intro env st
    refine ⟨?_, ?_, OHCIPollInterrupts_events env st⟩
    · intro b hb
      rw [runs_o, OHCIPollInterrupts_flags env st b hb]
    · rw [runs_o, OHCIPollInterrupts_st]
      have e : ohciPendingFlag kOHCIHcInterrupt_UE st
          = st._unrecoverableErrorInterrupt := rfl
      rw [e]

/-! ## The entry points and the producer count -/

/-- C18: when the controller is `NULL`, inactive, ejected from a card bus
or, for EHCI, not available, `PrimaryInterruptFilter` returns `false`
without calling `FilterInterrupt` and `InterruptHandler` returns without
calling `PollInterrupts`, whatever the hardware would return, and the
controller is left as it is; otherwise the handlers make the call. -/
theorem torn_down_controller_noop :
    (∀ (K : EHCIParams) (fuel : Nat) (hw : EHCIHw)
        (owner : Option EHCIController), ehciTornDown owner →
      AppleUSBEHCI.PrimaryInterruptFilter K fuel hw owner =
        Res.ok (owner, { result := false, FilterInterrupt := none }))
    ∧ (∀ (hw : EHCIPollHw) (emitted : Bool) (owner : Option EHCIController),
      (ehciTornDown owner →
        AppleUSBEHCI.InterruptHandler hw emitted owner = (emitted, owner, none))
      ∧ (¬ ehciTornDown owner →
        (AppleUSBEHCI.InterruptHandler hw emitted owner).2.2 ≠ none))
    ∧ (∀ (P : OHCIParams) (fuel : Nat) (hw : OHCIHw)
        (owner : Option OHCIController), ohciTornDown owner →
      AppleUSBOHCI.PrimaryInterruptFilter P fuel hw owner =
        Res.ok (owner, { result := false, FilterInterrupt := none }))
    ∧ (∀ (env : OHCIPollHw) (owner : Option OHCIController),
      (ohciTornDown owner →
        AppleUSBOHCI.InterruptHandler env owner =
          (owner, { finishPending := 0, PollInterrupts := none }))
      ∧ (¬ ohciTornDown owner →
        (AppleUSBOHCI.InterruptHandler env owner).2.PollInterrupts ≠ none)) := by
  refine ⟨?_, ?_, ?_, ?_⟩
  · intro K fuel hw owner h
    cases owner with
    | none => rfl
    | some c =>
      have hc : (c.isInactive || (c._onCardBus && c._pcCardEjected)
          || !c._controllerAvailable) = true := by
        rcases h with h | ⟨h1, h2⟩ | h <;> simp_all
      simp only [AppleUSBEHCI.PrimaryInterruptFilter, hc, if_true]
  · intro hw emitted owner
    constructor
    · intro h
      cases owner with
      | none => rfl
      | some c =>
        have hc : (c.isInactive || (c._onCardBus && c._pcCardEjected)
            || !c._controllerAvailable) = true := by
          rcases h with h | ⟨h1, h2⟩ | h <;> simp_all
        simp only [AppleUSBEHCI.InterruptHandler, hc, if_true]
    · intro h
      cases owner with
      | none => exact absurd trivial h
      | some c =>
        have hc : (c.isInactive || (c._onCardBus && c._pcCardEjected)
            || !c._controllerAvailable) = false := by
          simp only [ehciTornDown] at h
          cases h1 : c.isInactive <;> cases h2 : c._onCardBus <;>
            cases h3 : c._pcCardEjected <;> cases h4 : c._controllerAvailable <;>
            simp_all
        simp [AppleUSBEHCI.InterruptHandler, hc]
  · intro P fuel hw owner h
    cases owner with
    | none => rfl
    | some c =>
      have hc : (c.isInactive || (c._onCardBus && c._pcCardEjected)) = true := by
        rcases h with h | ⟨h1, h2⟩ <;> simp_all
      simp only [AppleUSBOHCI.PrimaryInterruptFilter, hc, if_true]
  · intro env owner
    constructor
    · intro h
      cases owner with
      | none => rfl
      | some c =>
        have hc : (c.isInactive || (c._onCardBus && c._pcCardEjected))
            = true := by
          rcases h with h | ⟨h1, h2⟩ <;> simp_all
        simp only [AppleUSBOHCI.InterruptHandler, hc, if_true]
    · intro h
      cases owner with
      | none => exact absurd trivial h
      | some c =>
        have hc : (c.isInactive || (c._onCardBus && c._pcCardEjected))
            = false := by
          simp only [ohciTornDown] at h
          cases h1 : c.isInactive <;> cases h2 : c._onCardBus <;>
            cases h3 : c._pcCardEjected <;> simp_all
        simp [AppleUSBOHCI.InterruptHandler, hc]

theorem bumpProducer_small : ∀ (n p : Nat), p + n < 2 ^ 32 →
    bumpProducer p n = p + n
  | 0, p, _ => rfl
  | n + 1, p, h => by
    simp only [bumpProducer]
    have e : toUInt32 (p + 1) = p + 1 := Nat.mod_eq_of_lt (by omega)
    rw [e, bumpProducer_small n (p + 1) (by omega)]
    omega

theorem bumpProducer_toUInt32 (n p : Nat) (hp : p < 2 ^ 32) :
    bumpProducer p n = toUInt32 (p + n) := by
  cases n with
  | zero => exact (Nat.mod_eq_of_lt hp).symm
  | succ n =>
    have h := bumpProducer_mod (n + 1) p
    have hlt : bumpProducer p (n + 1) < 2 ^ 32 := by
      simp only [bumpProducer]
      have : ∀ m q, q < 2 ^ 32 → bumpProducer q m < 2 ^ 32 := by
        intro m
        induction m with
        | zero => intro q hq; exact hq
        | succ m ih =>
          intro q _
          simp only [bumpProducer]
          exact ih _ (Nat.mod_lt _ (by decide))
      exact this n _ (Nat.mod_lt _ (by decide))
    unfold toUInt32
    omega

/-- C19: a pass of the EHCI filter that returns leaves `_producerCount` at
its old value plus the number of elements it put on the done queue, counted
modulo `2 ^ 32`, so the count does not decrease unless the 32-bit counter
wraps; a pass of the OHCI filter that returns does the same with the number
of descriptors it walked when writeback done head is processed, and leaves
the count as it is otherwise; `PollInterrupts` never changes it. -/
theorem producer_count_modular :
    (∀ (K : EHCIParams) (fuel : Nat) (hw : EHCIHw) (st st2 : EHCIState)
        (out : FilterOut),
      AppleUSBEHCI.FilterInterrupt K fuel hw st = Res.ok (st2, out) →
      st2._producerCount
          = bumpProducer st._producerCount out.retired.length
      ∧ (st._producerCount < 2 ^ 32 →
          st2._producerCount
            = toUInt32 (st._producerCount + out.retired.length))
      ∧ (st._producerCount + out.retired.length < 2 ^ 32 →
          st2._producerCount = st._producerCount + out.retired.length
            ∧ st._producerCount ≤ st2._producerCount))
    ∧ (∀ (hwp : EHCIPollHw) (st : EHCIState),
      (AppleUSBEHCI.PollInterrupts hwp st).1._producerCount
        = st._producerCount)
    ∧ (∀ (P : OHCIParams) (fuel : Nat) (hw : OHCIHw) (st st2 : OHCIState)
        (out : OHCIFilterOut),
      AppleUSBOHCI.FilterInterrupt P fuel hw st = Res.ok (st2, out) →
      ((ohciProcesses hw
          ∧ (hw.hcInterruptEnable &&& hw.hcInterruptStatus)
            &&& kOHCIHcInterrupt_WDH ≠ 0) →
        ∃ l, DoneList P st (toUInt32 hw.HCCADoneHead) l
          ∧ st2._producerCount = toUInt32 (st._producerCount + l.length)
          ∧ (st._producerCount + l.length < 2 ^ 32 →
              st._producerCount ≤ st2._producerCount))
      ∧ (¬ (ohciProcesses hw
          ∧ (hw.hcInterruptEnable &&& hw.hcInterruptStatus)
            &&& kOHCIHcInterrupt_WDH ≠ 0) →
        st2._producerCount = st._producerCount))
    ∧ (∀ (env : OHCIPollHw) (st : OHCIState),
      (AppleUSBOHCI.PollInterrupts env st).1._producerCount
        = st._producerCount) := by
  refine ⟨?_, ?_, ?_, ?_⟩
  · intro K fuel hw st st2 out h
    obtain ⟨_, _, hp, _⟩ := FilterInterrupt_post K fuel hw st st2 out h
    refine ⟨hp, ?_, ?_⟩
    · intro hlt
      rw [hp, bumpProducer_toUInt32 _ _ hlt]
    · intro hlt
      rw [hp, bumpProducer_small _ _ hlt]
      exact ⟨rfl, Nat.le_add_right _ _⟩
  · intro hwp st
    obtain ⟨rh, h⟩ := PollInterrupts_st hwp st
    rw [h]
  · intro P fuel hw st st2 out h
    constructor
    · rintro ⟨hp, ha⟩
      obtain ⟨l, hl, _, _, _, hprod, _⟩ :=
        OHCIFilterInterrupt_wdh_fields P fuel hw st st2 out hp ha h
      refine ⟨l, hl, hprod, ?_⟩
      intro hlt
      rw [hprod]
      have e : toUInt32 (st._producerCount + l.length)
          = st._producerCount + l.length := Nat.mod_eq_of_lt hlt
      rw [e]
      exact Nat.le_add_right _ _
    · intro hn
      by_cases hp : ohciProcesses hw
      · have ha : (hw.hcInterruptEnable &&& hw.hcInterruptStatus)
            &&& kOHCIHcInterrupt_WDH = 0 := by
          by_contra hc
          exact hn ⟨hp, hc⟩
        rw [OHCIFilterInterrupt_nowdh P fuel hw st hp ha] at h
        cases h
        rw [ohciBeforeWDH_st]
      · rw [OHCIFilterInterrupt_idle P fuel hw st hp] at h
        cases h
        rfl
  · intro env st
    rw [OHCIPollInterrupts_st]

/-! ## The done queue of the OHCI filter -/

theorem Chain.relink {next next2 : Ptr → Option Ptr} :
    ∀ (l : List Ptr) (p q : Option Ptr) (hl : l ≠ []),
      Chain next p l none → l.Nodup →
      (∀ x ∈ l, x ≠ l.getLast hl → next2 x = next x) →
      next2 (l.getLast hl) = q → Chain next2 p l q
  | [], _, _, hl, _, _, _, _ => absurd rfl hl
  | [x], p, q, _, hc, _, _, hq => ⟨hc.1, hq⟩
  | x :: y :: ys, p, q, _, hc, hn, hx, hq => by
    have hn2 := List.nodup_cons.mp hn
    have hlast : (x :: y :: ys).getLast (List.cons_ne_nil _ _)
        = (y :: ys).getLast (List.cons_ne_nil _ _) :=
      List.getLast_cons (List.cons_ne_nil _ _)
    have hxne : x ≠ (y :: ys).getLast (List.cons_ne_nil _ _) := by
      intro e
      exact hn2.1 (e ▸ List.getLast_mem _)
    refine ⟨hc.1, ?_⟩
    rw [hx x (List.mem_cons_self _ _) (by rw [hlast]; exact hxne)]
    refine Chain.relink (y :: ys) _ q (List.cons_ne_nil _ _) hc.2 hn2.2 ?_ ?_
    · intro z hz hzne
      exact hx z (List.mem_cons_of_mem _ hz) (by rw [hlast]; exact hzne)
    · rw [← hlast]
      exact hq

theorem linkLast_last (d : Ptr → OHCITransferDescriptor) (l : List Ptr)
    (oldHead : Nat) (hl : l ≠ []) :
    (linkLast d l oldHead (l.getLast hl)).nextTD = oldHead
      ∧ ∀ t, t ≠ l.getLast hl → linkLast d l oldHead t = d t := by
  unfold linkLast
  rw [List.getLast?_eq_getLast _ hl]
  simp only []
  constructor
  · simp
  · intro t ht
    simp [Function.update_apply, ht]

theorem land_land_self (a m : Nat) : (a &&& m) &&& m = a &&& m := by
  rw [Nat.land_assoc, Nat.and_self]

/-- C20: a pass of the OHCI filter with the master interrupt enable bit set
and writeback done head active, whose done head heads the list `l` of one
or more descriptors ending in a null link, returns; afterwards
`_savedDoneQueueHead` is the masked done head, the last descriptor of `l`
links to the old `_savedDoneQueueHead`, every other descriptor is as
before, following `nextTD` from the new head visits `l` and arrives where
the old head pointed, a list that was reachable from the old head and does
not hold the last descriptor of `l` follows `l` unchanged, `_producerCount`
is the old value plus the length of `l` modulo `2 ^ 32`, the done head word
of the communication area was written 0 and `_writeDoneHeadInterrupt` is
set. -/
theorem ohci_write_done_head_chaining (P : OHCIParams) (fuel : Nat)
    (hw : OHCIHw) (st : OHCIState) (l : List Ptr)
    (hmie : hw.hcInterruptEnable &&& kOHCIHcInterrupt_MIE ≠ 0)
    (hwdh : (hw.hcInterruptEnable &&& hw.hcInterruptStatus)
      &&& kOHCIHcInterrupt_WDH ≠ 0)
    (hlist : DoneList P st (toUInt32 hw.HCCADoneHead) l)
    (hl : l ≠ []) (hfuel : l.length < fuel) :
    ∃ st2 out, AppleUSBOHCI.FilterInterrupt P fuel hw st = Res.ok (st2, out)
      ∧ st2._savedDoneQueueHead
          = toUInt32 hw.HCCADoneHead &&& P.kOHCIHeadPMask
      ∧ (st2.descriptors (l.getLast hl)).nextTD = st._savedDoneQueueHead
      ∧ (∀ t, t ≠ l.getLast hl → st2.descriptors t = st.descriptors t)
      ∧ Chain (tdNext P st2) (tdAt P st2 st2._savedDoneQueueHead) l
          (tdAt P st st._savedDoneQueueHead)
      ∧ (∀ old, DoneList P st st._savedDoneQueueHead old →
          l.getLast hl ∉ old →
          DoneList P st2 st2._savedDoneQueueHead (l ++ old))
      ∧ st2._producerCount = toUInt32 (st._producerCount + l.length)
      ∧ OHCIWrite.HCCADoneHead 0 ∈ out.writes
      ∧ st2._writeDoneHeadInterrupt = kOHCIHcInterrupt_WDH := by
  have hact : hw.hcInterruptEnable &&& hw.hcInterruptStatus ≠ 0 := by
    intro h0
    rw [h0] at hwdh
    exact hwdh (by simp)
  have hp : ohciProcesses hw := ⟨hmie, hact⟩
  obtain ⟨st2, out, hrun⟩ :=
    OHCIFilterInterrupt_returns P fuel hw st l hlist hfuel
  obtain ⟨l2, hl2, hG, hD, hH, hPc, hF, _⟩ :=
    OHCIFilterInterrupt_wdh_fields P fuel hw st st2 out hp hwdh hrun
  obtain ⟨_, _, _, _, _, hout⟩ :=
    OHCIFilterInterrupt_wdh P fuel hw st st2 out hp hwdh hrun
  have hsame : l2 = l :=
    (Chain.unique (fun _ => True) l2 l _ none none hl2 hlist
      (fun _ _ => trivial) (fun _ _ => trivial)
      (fun y hy => by cases hy) (fun y hy => by cases hy)).1
  subst hsame
  obtain ⟨hlast, hother⟩ := linkLast_last st.descriptors l2
    st._savedDoneQueueHead hl
  have hat : ∀ a, tdAt P st2 a = tdAt P st a := by
    intro a
    unfold tdAt
    rw [hG]
  have hnext : ∀ t, t ≠ l2.getLast hl → tdNext P st2 t = tdNext P st t := by
    intro t ht
    unfold tdNext
    rw [hat, hD, hother t ht]
  have hnextLast : tdNext P st2 (l2.getLast hl)
      = tdAt P st st._savedDoneQueueHead := by
    unfold tdNext
    rw [hat, hD, hlast]
  have hstart : tdAt P st2 st2._savedDoneQueueHead
      = tdAt P st (toUInt32 hw.HCCADoneHead) := by
    rw [hat, hH]
    unfold tdAt
    rw [land_land_self]
  have hchain : Chain (tdNext P st2) (tdAt P st2 st2._savedDoneQueueHead) l2
      (tdAt P st st._savedDoneQueueHead) := by
    rw [hstart]
    exact Chain.relink l2 _ _ hl hlist (Chain.nodup_of_null hlist)
      (fun x _ hx => hnext x hx) hnextLast
  refine ⟨st2, out, hrun, hH, ?_, ?_, hchain, ?_, hPc, ?_, hF⟩
  · rw [hD]
    exact hlast
  · intro t ht
    rw [hD]
    exact hother t ht
  · intro old hold hnot
    refine Chain.append _ _ _ _ _ hchain ?_
    refine Chain.congr old _ _ ?_ hold
    intro x hx
    exact hnext x (fun e => hnot (e ▸ hx))
  · rw [hout]
    simp

/-! ## More on what every pass does -/

theorem FilterInterrupt_returns_skip (K : EHCIParams) (fuel : Nat)
    (hw : EHCIHw) (st : EHCIState)
    (h : (hw.USBIntr &&& hw.USBSTS) &&& kEHCICompleteIntBit = 0
      ∨ sweepRuns K hw st = false) :
    ∃ st2 out, AppleUSBEHCI.FilterInterrupt K fuel hw st = Res.ok (st2, out) := by
  rw [FilterInterrupt_eq]
  by_cases hact : hw.USBIntr &&& hw.USBSTS = 0
  · simp [hact]
  · have h2 : (hw.USBIntr &&& hw.USBSTS) &&& kEHCICompleteIntBit = 0
        ∨ sweepRuns K hw (beforeComplete K hw st).st = false := by
      rcases h with h | h
      · exact Or.inl h
      · right
        have hr := beforeComplete_ring K hw st
        unfold sweepRuns at h ⊢
        rw [hr.inAbort, hr.outSlot]
        exact h
    obtain ⟨p6, hp6, _⟩ := completeInterrupt_skip K fuel hw _ _ h2
    simp [hact, hp6]

theorem FilterInterrupt_signal (K : EHCIParams) (fuel : Nat) (hw : EHCIHw)
    (st st2 : EHCIState) (out : FilterOut)
    (h : AppleUSBEHCI.FilterInterrupt K fuel hw st = Res.ok (st2, out)) :
    out.signalInterrupt =
      if (hw.USBIntr &&& hw.USBSTS) &&& kEHCIAAEIntBit ≠ 0
          ∨ (hw.USBIntr &&& hw.USBSTS) &&& kEHCIHostErrorIntBit ≠ 0
          ∨ (hw.USBIntr &&& hw.USBSTS) &&& kEHCIPortChangeIntBit ≠ 0
          ∨ (hw.USBIntr &&& hw.USBSTS) &&& kEHCIErrorIntBit ≠ 0
          ∨ (hw.USBIntr &&& hw.USBSTS) &&& kEHCICompleteIntBit ≠ 0 then 1
      else 0 := by
  rw [FilterInterrupt_eq] at h
  by_cases hact : hw.USBIntr &&& hw.USBSTS = 0
  · simp only [hact, ne_eq, not_true_eq_false, if_false] at h
    cases h
    simp [hact]
  · simp only [ne_eq, hact, not_false_eq_true, if_true] at h
    cases hci : completeInterrupt K fuel hw (hw.USBIntr &&& hw.USBSTS)
        (beforeComplete K hw st) with
    | fault => simp [hci] at h
    | timeout => simp [hci] at h
    | ok r =>
      obtain ⟨p6, calls, retired⟩ := r
      simp only [hci] at h
      cases h
      have hs := completeInterrupt_needSignal K fuel hw _ _ _ _ _ hci
      rw [beforeComplete_needSignal] at hs
      simp only []
      by_cases hn : p6.needSignal = true
      · have := hs.mp hn
        rw [if_pos hn, if_pos (by tauto)]
      · rw [if_neg hn, if_neg]
        intro hb
        exact hn (hs.mpr (by tauto))

theorem ehciStatusWrites_count (K : EHCIParams) (fuel : Nat) (hw : EHCIHw)
    (st st2 : EHCIState) (out : FilterOut)
    (h : AppleUSBEHCI.FilterInterrupt K fuel hw st = Res.ok (st2, out)) :
    ∀ b ∈ ehciCauseBits,
      (ehciStatusWrites out.regWrites).count b =
        if (hw.USBIntr &&& hw.USBSTS) &&& b ≠ 0 then ehciClears hw st b
        else 0 := by
  obtain ⟨_, hwr, _⟩ := FilterInterrupt_post K fuel hw st st2 out h
  have heq := ehciStatusWrites_afterCauses K hw st
  rw [← hwr] at heq
  intro b hb
  rw [heq, count_flatMap_replicate _ _ (ehciCauseBits_nodup.filter _)]
  simp only [List.mem_filter, hb, true_and, decide_eq_true_eq]

/-- The counters and the flags that the walk of the done queue leaves
alone, after a pass of the OHCI filter that processes its causes. -/
theorem OHCIFilterInterrupt_counters (P : OHCIParams) (fuel : Nat)
    (hw : OHCIHw) (st st2 : OHCIState) (out : OHCIFilterOut)
    (hp : ohciProcesses hw)
    (h : AppleUSBOHCI.FilterInterrupt P fuel hw st = Res.ok (st2, out)) :
    st2._frameNumber = (ohciBeforeWDH P hw st).st._frameNumber
      ∧ st2._errors = (ohciBeforeWDH P hw st).st._errors
      ∧ st2._unrecoverableErrorInterrupt
          = (ohciBeforeWDH P hw st).st._unrecoverableErrorInterrupt := by
  by_cases ha : (hw.hcInterruptEnable &&& hw.hcInterruptStatus)
      &&& kOHCIHcInterrupt_WDH = 0
  · rw [OHCIFilterInterrupt_nowdh P fuel hw st hp ha] at h
    cases h
    exact ⟨rfl, rfl, rfl⟩
  · obtain ⟨l, s2, _, hw2, hst, _⟩ :=
      OHCIFilterInterrupt_wdh P fuel hw st st2 out hp ha h
    obtain ⟨e, _⟩ := hw2
    refine ⟨?_, ?_, ?_⟩
    · rw [hst, e]; rfl
    · rw [hst, e]; rfl
    · rw [hst, e]; rfl

theorem OHCIFilterInterrupt_returns_nowdh (P : OHCIParams) (fuel : Nat)
    (hw : OHCIHw) (st : OHCIState)
    (ha : (hw.hcInterruptEnable &&& hw.hcInterruptStatus)
      &&& kOHCIHcInterrupt_WDH = 0) :
    ∃ st2 out, AppleUSBOHCI.FilterInterrupt P fuel hw st = Res.ok (st2, out) := by
  by_cases hp : ohciProcesses hw
  · exact ⟨_, _, OHCIFilterInterrupt_nowdh P fuel hw st hp ha⟩
  · exact ⟨_, _, OHCIFilterInterrupt_idle P fuel hw st hp⟩
/-! ## The frame counters and the unrecoverable error count -/

/-- C22: a pass of the EHCI filter that returns with frame list rollover
active leaves `_frameNumber` increased by `kEHCIFrameNumberIncrement`, as
the 64-bit value it is, when the frame index read is below
`kEHCIFRIndexRolloverBit`, and as it was otherwise, and stages in
`_tempAnchorFrame` the resulting `_frameNumber` plus `frindex >> 3`; such a
pass returns whenever the sweep is not entered. A pass of the OHCI filter
that returns with the master interrupt enable bit set and frame number
overflow active leaves `_frameNumber` increased by `kOHCIFrameOverflowBit`
when the masked frame number of the communication area is below
`kOHCIBit15`, and as it was otherwise, and `_errors.frameNumberOverflow`
increased by one either way; such a pass returns whenever writeback done
head is not active. -/
theorem frame_counter_midpoint_test :
    (∀ (K : EHCIParams) (fuel : Nat) (hw : EHCIHw) (st st2 : EHCIState)
        (out : FilterOut),
      AppleUSBEHCI.FilterInterrupt K fuel hw st = Res.ok (st2, out) →
      (hw.USBIntr &&& hw.USBSTS) &&& kEHCIFrListRolloverIntBit ≠ 0 →
      (hw.FRIndexRollover < K.kEHCIFRIndexRolloverBit →
          st2._frameNumber
            = toUInt64 (st._frameNumber + K.kEHCIFrameNumberIncrement)
          ∧ (st._frameNumber + K.kEHCIFrameNumberIncrement < 2 ^ 64 →
            st2._frameNumber
              = st._frameNumber + K.kEHCIFrameNumberIncrement))
        ∧ (¬ hw.FRIndexRollover < K.kEHCIFRIndexRolloverBit →
          st2._frameNumber = st._frameNumber)
        ∧ (0 < K.kEHCIFrameNumberIncrement →
          st._frameNumber + K.kEHCIFrameNumberIncrement < 2 ^ 64 →
          (st2._frameNumber = st._frameNumber + K.kEHCIFrameNumberIncrement
            ↔ hw.FRIndexRollover < K.kEHCIFRIndexRolloverBit))
        ∧ st2._tempAnchorFrame
            = toUInt64 (st2._frameNumber + (hw.FRIndexRollover >>> 3))
        ∧ (st2._frameNumber + (hw.FRIndexRollover >>> 3) < 2 ^ 64 →
          st2._tempAnchorFrame
            = st2._frameNumber + (hw.FRIndexRollover >>> 3)))
    ∧ (∀ (K : EHCIParams) (fuel : Nat) (hw : EHCIHw) (st : EHCIState),
      ((hw.USBIntr &&& hw.USBSTS) &&& kEHCICompleteIntBit = 0
          ∨ sweepRuns K hw st = false) →
        ∃ st2 out,
          AppleUSBEHCI.FilterInterrupt K fuel hw st = Res.ok (st2, out))
    ∧ (∀ (P : OHCIParams) (fuel : Nat) (hw : OHCIHw) (st st2 : OHCIState)
        (out : OHCIFilterOut),
      AppleUSBOHCI.FilterInterrupt P fuel hw st = Res.ok (st2, out) →
      hw.hcInterruptEnable &&& kOHCIHcInterrupt_MIE ≠ 0 →
      (hw.hcInterruptEnable &&& hw.hcInterruptStatus)
        &&& kOHCIHcInterrupt_FNO ≠ 0 →
      (toUInt16 hw.HCCAFrameNumber &&& P.kOHCIFmNumberMask < P.kOHCIBit15 →
          st2._frameNumber
            = toUInt64 (st._frameNumber + P.kOHCIFrameOverflowBit)
          ∧ (st._frameNumber + P.kOHCIFrameOverflowBit < 2 ^ 64 →
            st2._frameNumber = st._frameNumber + P.kOHCIFrameOverflowBit))
        ∧ (¬ toUInt16 hw.HCCAFrameNumber &&& P.kOHCIFmNumberMask
              < P.kOHCIBit15 →
          st2._frameNumber = st._frameNumber)
        ∧ (0 < P.kOHCIFrameOverflowBit →
          st._frameNumber + P.kOHCIFrameOverflowBit < 2 ^ 64 →
          (st2._frameNumber = st._frameNumber + P.kOHCIFrameOverflowBit
            ↔ toUInt16 hw.HCCAFrameNumber &&& P.kOHCIFmNumberMask
              < P.kOHCIBit15))
        ∧ st2._errors.frameNumberOverflow
            = toUInt32 (st._errors.frameNumberOverflow + 1)
        ∧ (st._errors.frameNumberOverflow + 1 < 2 ^ 32 →
          st2._errors.frameNumberOverflow
            = st._errors.frameNumberOverflow + 1))
    ∧ (∀ (P : OHCIParams) (fuel : Nat) (hw : OHCIHw) (st : OHCIState),
      (hw.hcInterruptEnable &&& hw.hcInterruptStatus)
          &&& kOHCIHcInterrupt_WDH = 0 →
        ∃ st2 out,
          AppleUSBOHCI.FilterInterrupt P fuel hw st = Res.ok (st2, out)) := by
  refine ⟨?_, ?_, ?_, ?_⟩
  · intro K fuel hw st st2 out h ha
    obtain ⟨hf, _⟩ := FilterInterrupt_post K fuel hw st st2 out h
    rw [afterCauses_st, beforeComplete_st] at hf
    have hfn := hf.frameNumber
    have hta := hf.tempAnchorFrame
    simp only [ha, ne_eq, not_false_eq_true, if_true] at hfn hta
    by_cases hlt : hw.FRIndexRollover < K.kEHCIFRIndexRolloverBit
    · simp only [hlt, if_true] at hfn hta
      refine ⟨fun _ => ⟨hfn, fun hb => ?_⟩, fun hn => absurd hlt hn,
        fun _ hb => ?_, ?_, fun hb => ?_⟩
      · rw [hfn]
        exact Nat.mod_eq_of_lt hb
      · rw [hfn]
        exact ⟨fun _ => hlt, fun _ => Nat.mod_eq_of_lt hb⟩
      · rw [hta, hfn]
      · rw [hta, ← hfn]
        exact Nat.mod_eq_of_lt hb
    · simp only [hlt, if_false] at hfn hta
      refine ⟨fun hl => absurd hl hlt, fun _ => hfn, fun hpos _ => ?_, ?_,
        fun hb => ?_⟩
      · rw [hfn]
        exact ⟨fun e => by omega, fun hl => absurd hl hlt⟩
      · rw [hta, hfn]
      · rw [hta, ← hfn]
        exact Nat.mod_eq_of_lt hb
  · intro K fuel hw st h
    exact FilterInterrupt_returns_skip K fuel hw st h
  · intro P fuel hw st st2 out h hmie ha
    have hact : hw.hcInterruptEnable &&& hw.hcInterruptStatus ≠ 0 := by
      intro h0
      rw [h0] at ha
      exact ha (by simp)
    obtain ⟨hfn, herr, _⟩ :=
      OHCIFilterInterrupt_counters P fuel hw st st2 out ⟨hmie, hact⟩ h
    rw [ohciBeforeWDH_st] at hfn herr
    simp only [ha, ne_eq, not_false_eq_true, if_true] at hfn
    have he : st2._errors.frameNumberOverflow
        = toUInt32 (st._errors.frameNumberOverflow + 1) := by
      rw [herr]
      simp only [ha, ne_eq, not_false_eq_true, if_true]
    by_cases hlt : toUInt16 hw.HCCAFrameNumber &&& P.kOHCIFmNumberMask
        < P.kOHCIBit15
    · simp only [hlt, if_true] at hfn
      refine ⟨fun _ => ⟨hfn, fun hb => ?_⟩, fun hn => absurd hlt hn,
        fun _ hb => ?_, he, fun hb => ?_⟩
      · rw [hfn]
        exact Nat.mod_eq_of_lt hb
      · rw [hfn]
        exact ⟨fun _ => hlt, fun _ => Nat.mod_eq_of_lt hb⟩
      · rw [he]
        exact Nat.mod_eq_of_lt hb
    · simp only [hlt, if_false] at hfn
      refine ⟨fun hl => absurd hl hlt, fun _ => hfn, fun hpos _ => ?_, he,
        fun hb => ?_⟩
      · rw [hfn]
        exact ⟨fun e => by omega, fun hl => absurd hl hlt⟩
      · rw [he]
        exact Nat.mod_eq_of_lt hb
  · intro P fuel hw st ha
    exact OHCIFilterInterrupt_returns_nowdh P fuel hw st ha

/-- C28: a pass of the OHCI filter that returns with the master interrupt
enable bit set and unrecoverable error active counts the error once and
leaves `_unrecoverableErrorInterrupt` pending; the run of `PollInterrupts`
that follows counts it once more and clears the flag, so that
`_errors.unrecoverableError` has increased by 2, as the 32-bit value it is,
and the run resets the controller; such a pass returns whenever writeback
done head is not active or the done queue is finite. -/
theorem ohci_unrecoverable_error_counted_twice :
    (∀ (P : OHCIParams) (fuel : Nat) (hw : OHCIHw) (env : OHCIPollHw)
        (st st2 : OHCIState) (out : OHCIFilterOut),
      AppleUSBOHCI.FilterInterrupt P fuel hw st = Res.ok (st2, out) →
      hw.hcInterruptEnable &&& kOHCIHcInterrupt_MIE ≠ 0 →
      (hw.hcInterruptEnable &&& hw.hcInterruptStatus)
        &&& kOHCIHcInterrupt_UE ≠ 0 →
      st2._errors.unrecoverableError
          = toUInt32 (st._errors.unrecoverableError + 1)
        ∧ st2._unrecoverableErrorInterrupt = kOHCIHcInterrupt_UE
        ∧ (AppleUSBOHCI.PollInterrupts env st2).1._errors.unrecoverableError
            = toUInt32 (st2._errors.unrecoverableError + 1)
        ∧ (AppleUSBOHCI.PollInterrupts env st2).1._errors.unrecoverableError
            = toUInt32 (st._errors.unrecoverableError + 2)
        ∧ (st._errors.unrecoverableError + 2 < 2 ^ 32 →
          (AppleUSBOHCI.PollInterrupts env st2).1._errors.unrecoverableError
            = st._errors.unrecoverableError + 2)
        ∧ (AppleUSBOHCI.PollInterrupts env st2).1._unrecoverableErrorInterrupt
            = 0
        ∧ [OHCIPollEvent.hcCommandStatus kOHCIHcCommandStatus_HCR,
              OHCIPollEvent.delay,
              OHCIPollEvent.hcControl
                ((kOHCIFunctionalState_Operational
                    <<< kOHCIHcControl_HCFSPhase) ||| kOHCIHcControl_PLE)]
            <:+: (AppleUSBOHCI.PollInterrupts env st2).2)
    ∧ (∀ (P : OHCIParams) (fuel : Nat) (hw : OHCIHw) (st : OHCIState),
      ((hw.hcInterruptEnable &&& hw.hcInterruptStatus)
            &&& kOHCIHcInterrupt_WDH = 0
          ∨ ∃ l, DoneList P st (toUInt32 hw.HCCADoneHead) l
              ∧ l.length < fuel) →
        ∃ st2 out,
          AppleUSBOHCI.FilterInterrupt P fuel hw st = Res.ok (st2, out)) := by
  constructor
  · intro P fuel hw env st st2 out h hmie ha
    have hact : hw.hcInterruptEnable &&& hw.hcInterruptStatus ≠ 0 := by
      intro h0
      rw [h0] at ha
      exact ha (by simp)
    obtain ⟨_, herr, hflag⟩ :=
      OHCIFilterInterrupt_counters P fuel hw st st2 out ⟨hmie, hact⟩ h
    rw [ohciBeforeWDH_st] at herr hflag
    simp only [ha, ne_eq, not_false_eq_true, if_true] at hflag
    have he : st2._errors.unrecoverableError
        = toUInt32 (st._errors.unrecoverableError + 1) := by
      rw [herr]
      simp only [ha, ne_eq, not_false_eq_true, if_true]
    have hpend : st2._unrecoverableErrorInterrupt &&& kOHCIHcInterrupt_UE ≠ 0 := by
      rw [hflag]
      decide
    have hpoll := OHCIPollInterrupts_st env st2
    have h3 : (AppleUSBOHCI.PollInterrupts env st2).1._errors.unrecoverableError
        = toUInt32 (st2._errors.unrecoverableError + 1) := by
      rw [hpoll]
      show (if st2._unrecoverableErrorInterrupt &&& kOHCIHcInterrupt_UE ≠ 0
        then toUInt32 (st2._errors.unrecoverableError + 1)
        else st2._errors.unrecoverableError) = _
      rw [if_pos hpend]
    have h4 : (AppleUSBOHCI.PollInterrupts env st2).1._errors.unrecoverableError
        = toUInt32 (st._errors.unrecoverableError + 2) := by
      rw [h3, he]
      unfold toUInt32
      omega
    refine ⟨he, hflag, h3, h4, ?_, ?_, ?_⟩
    · intro hb
      rw [h4]
      exact Nat.mod_eq_of_lt hb
    · rw [hpoll]
      show (if st2._unrecoverableErrorInterrupt &&& kOHCIHcInterrupt_UE ≠ 0
        then 0 else st2._unrecoverableErrorInterrupt) = 0
      rw [if_pos hpend]
    · rw [OHCIPollInterrupts_events]
      have hruns : ohciBranchRuns kOHCIHcInterrupt_UE st2 = 1 := by
        unfold ohciBranchRuns
        have e : ohciPendingFlag kOHCIHcInterrupt_UE st2
            = st2._unrecoverableErrorInterrupt := rfl
        rw [e, if_pos hpend]
      rw [if_pos hruns]
      exact ⟨List.replicate (ohciBranchRuns kOHCIHcInterrupt_WDH st2)
            OHCIPollEvent.UIMProcessDoneQueue
          ++ (if st2._idleSuspend = true then
              List.replicate (ohciBranchRuns kOHCIHcInterrupt_RD st2)
                OHCIPollEvent.setPowerStateRunning
            else []),
        (if ohciBranchRuns kOHCIHcInterrupt_RHSC st2 = 1 then
            [OHCIPollEvent.UIMRootHubStatusChange false,
              OHCIPollEvent.LastRootHubPortStatusChanged true,
              OHCIPollEvent.hcInterruptEnable kOHCIHcInterrupt_RHSC]
          else []), rfl⟩
  · intro P fuel hw st h
    rcases h with h | ⟨l, hl, hf⟩
    · exact OHCIFilterInterrupt_returns_nowdh P fuel hw st h
    · exact OHCIFilterInterrupt_returns P fuel hw st l hl hf
/-! ## The skipped sweep and the retry of the port change bit -/

/-- C25: in a pass with complete active in which `_inAbortIsochEP` is set,
or the periodic enable bit of `USBCMD` is clear, or `_outSlot` is not below
`kEHCIPeriodicListEntries`, the sweep is skipped: the pass returns, the
heads of the slots, the elements with their links, `_outSlot`,
`_savedDoneQueueHead`, `_producerCount` and the endpoints are as before,
nothing is put on the done queue and `UpdateFrameList` is not called, while
`_completeInterrupt` is set, the complete bit is written to `USBSTS` once,
as the last write of the pass, and `signalInterrupt` is called. -/
theorem ehci_sweep_skipped_when_not_safe (K : EHCIParams) (fuel : Nat)
    (hw : EHCIHw) (st : EHCIState)
    (ha : (hw.USBIntr &&& hw.USBSTS) &&& kEHCICompleteIntBit ≠ 0)
    (hskip : st._inAbortIsochEP = true
      ∨ hw.USBCMD &&& kEHCICMDPeriodicEnable = 0
      ∨ K.kEHCIPeriodicListEntries ≤ st._outSlot) :
    ∃ st2 out, AppleUSBEHCI.FilterInterrupt K fuel hw st = Res.ok (st2, out)
      ∧ st2._logicalPeriodicList = st._logicalPeriodicList
      ∧ st2._periodicList = st._periodicList
      ∧ st2.elements = st.elements
      ∧ st2._outSlot = st._outSlot
      ∧ st2._savedDoneQueueHead = st._savedDoneQueueHead
      ∧ st2._producerCount = st._producerCount
      ∧ st2.endpoints = st.endpoints
      ∧ out.retired = [] ∧ out.UpdateFrameList = []
      ∧ st2._completeInterrupt = kEHCICompleteIntBit
      ∧ out.regWrites.getLast? = some (EHCIRegWrite.USBSTS kEHCICompleteIntBit)
      ∧ (ehciStatusWrites out.regWrites).count kEHCICompleteIntBit = 1
      ∧ out.signalInterrupt = 1 ∧ out.result = false := by
  have hr : sweepRuns K hw st = false := by
    unfold sweepRuns
    rcases hskip with h | h | h
    · simp [h]
    · simp [h]
    · simp [Nat.not_lt.mpr h]
  have hrun := FilterInterrupt_skip K fuel hw st ha hr
  have hring := beforeComplete_ring K hw st
  have hcount := ehciStatusWrites_count K fuel hw st _ _ hrun
    kEHCICompleteIntBit (by decide)
  rw [if_pos ha] at hcount
  refine ⟨_, _, hrun, hring.slots, hring.periodicList, hring.elements,
    hring.outSlot, hring.head, hring.producer, hring.endpoints, rfl, rfl, rfl,
    ?_, ?_, rfl, rfl⟩
  · simp
  · rw [hcount]
    simp [ehciClears, kEHCICompleteIntBit, kEHCIPortChangeIntBit]

/-- C23: the retry loop of the port change bit is a function of the reads of
`USBSTS`, whatever they return: it writes the bit again once for each of the
first ten reads that still shows it set before one shows it clear, so ten
times at most, and stops at the first read that shows it clear. A pass that
returns with port change active and the NEC errata writes the bit to
`USBSTS` once and then that many times more, sets `_portChangeInterrupt` and
calls `signalInterrupt`, also when the bit is set in every read; such a
pass returns whenever the sweep is not entered. -/
theorem ehci_port_change_retry_bounded :
    (∀ hw : EHCIHw,
      portChangeRetry hw 10 0 (hw.USBSTSReread 0)
          = List.replicate (stuckRereads hw)
              (EHCIRegWrite.USBSTS kEHCIPortChangeIntBit)
        ∧ stuckRereads hw ≤ 10
        ∧ (∀ i, i < stuckRereads hw →
            hw.USBSTSReread i &&& kEHCIPortChangeIntBit ≠ 0)
        ∧ (stuckRereads hw < 10 →
            hw.USBSTSReread (stuckRereads hw) &&& kEHCIPortChangeIntBit = 0)
        ∧ ((∀ i, hw.USBSTSReread i &&& kEHCIPortChangeIntBit ≠ 0) →
            stuckRereads hw = 10))
    ∧ (∀ (K : EHCIParams) (fuel : Nat) (hw : EHCIHw) (st st2 : EHCIState)
        (out : FilterOut),
      AppleUSBEHCI.FilterInterrupt K fuel hw st = Res.ok (st2, out) →
      (hw.USBIntr &&& hw.USBSTS) &&& kEHCIPortChangeIntBit ≠ 0 →
      st.errataNECIncompleteWrite = true →
      (ehciStatusWrites out.regWrites).count kEHCIPortChangeIntBit
          = 1 + stuckRereads hw
        ∧ (ehciStatusWrites out.regWrites).count kEHCIPortChangeIntBit ≤ 11
        ∧ st2._portChangeInterrupt = kEHCIPortChangeIntBit
        ∧ out.signalInterrupt = 1)
    ∧ (∀ (K : EHCIParams) (fuel : Nat) (hw : EHCIHw) (st : EHCIState),
      ((hw.USBIntr &&& hw.USBSTS) &&& kEHCICompleteIntBit = 0
          ∨ sweepRuns K hw st = false) →
        ∃ st2 out,
          AppleUSBEHCI.FilterInterrupt K fuel hw st = Res.ok (st2, out)) := by
  refine ⟨?_, ?_, ?_⟩
  · intro hw
    have hmem : ∀ i, i < stuckRereads hw →
        hw.USBSTSReread i &&& kEHCIPortChangeIntBit ≠ 0 := by
      intro i hi
      unfold stuckRereads at hi
      have hget := List.mem_takeWhile_imp
        (p := fun i => decide (hw.USBSTSReread i &&& kEHCIPortChangeIntBit ≠ 0))
        (l := List.range 10) (List.getElem_mem hi)
      have hpre : (List.range 10).takeWhile
          (fun i => decide (hw.USBSTSReread i &&& kEHCIPortChangeIntBit ≠ 0))
          <+: List.range 10 := List.takeWhile_prefix _
      have hlt : i < (List.range 10).length :=
        lt_of_lt_of_le hi hpre.length_le
      have hval := List.IsPrefix.getElem hpre hi
      rw [List.getElem_range] at hval
      rw [hval] at hget
      simpa using hget
    refine ⟨portChangeRetry_stuck hw, stuckRereads_le hw, hmem, ?_, ?_⟩
    · intro hlt
      by_contra hne
      have hall : ∀ j, j ∈ List.range (stuckRereads hw + 1) →
          (fun i => decide (hw.USBSTSReread i &&& kEHCIPortChangeIntBit ≠ 0)) j
            = true := by
        intro j hj
        have hj2 : j < stuckRereads hw + 1 := List.mem_range.mp hj
        rcases Nat.lt_succ_iff_lt_or_eq.mp hj2 with h1 | h1
        · simpa using hmem j h1
        · rw [h1]
          simpa using hne
      have hsplit : List.range 10
          = List.range (stuckRereads hw + 1)
            ++ List.range' (stuckRereads hw + 1) (10 - (stuckRereads hw + 1)) := by
        rw [List.range_eq_range', List.range_eq_range']
        have hap := List.range'_append_1 0 (stuckRereads hw + 1)
          (10 - (stuckRereads hw + 1))
        rw [Nat.zero_add] at hap
        rw [hap]
        congr 1
        omega
      have hlen : stuckRereads hw + 1 ≤ stuckRereads hw := by
        have e : stuckRereads hw
            = ((List.range 10).takeWhile (fun i =>
                decide (hw.USBSTSReread i &&& kEHCIPortChangeIntBit ≠ 0))).length :=
          rfl
        rw [hsplit, List.takeWhile_append_of_pos hall, List.length_append,
          List.length_range] at e
        omega
      omega
    · intro hall
      unfold stuckRereads
      rw [List.takeWhile_eq_self_iff.mpr (by
        intro i _
        simpa using hall i)]
      simp
  · intro K fuel hw st st2 out h ha herr
    have hcount := ehciStatusWrites_count K fuel hw st st2 out h
      kEHCIPortChangeIntBit (by decide)
    rw [if_pos ha] at hcount
    have hcl : ehciClears hw st kEHCIPortChangeIntBit = 1 + stuckRereads hw := by
      simp [ehciClears, herr]
    have hflag := (FilterInterrupt_scalars K fuel hw st st2 out h).1
      kEHCIPortChangeIntBit (by decide)
    rw [if_pos ha] at hflag
    have hsig := FilterInterrupt_signal K fuel hw st st2 out h
    rw [if_pos (Or.inr (Or.inr (Or.inl ha)))] at hsig
    have hle := stuckRereads_le hw
    refine ⟨by rw [hcount, hcl], by rw [hcount, hcl]; omega, hflag, hsig⟩
  · intro K fuel hw st h
    exact FilterInterrupt_returns_skip K fuel hw st h
/-! ## The ports of `PollInterrupts` -/

theorem portResumes_update (hw : EHCIPollHw) (st : EHCIState) (port q : Nat)
    (hq : q ≠ port) :
    portResumes hw
        { st with
          _rhPortBeingResumed :=
            Function.update st._rhPortBeingResumed port true } q
      = portResumes hw st q := by
  unfold portResumes
  simp [Function.update_apply, hq]

theorem pollPorts_rh (hw : EHCIPollHw) :
    ∀ (n port : Nat) (p : PollPass) (q : Nat),
      (pollPorts hw n port p).st._rhPortBeingResumed q =
        (p.st._rhPortBeingResumed q
          || (decide (port ≤ q) && decide (q < port + n)
            && portResumes hw p.st q))
  | 0, port, p, q => by
    by_cases h1 : port ≤ q
    · have h2 : ¬ q < port + 0 := by omega
      simp [pollPorts, h2]
    · simp [pollPorts, h1]
  | n + 1, port, p, q => by
    have e1 : q ≠ port →
        (decide (port + 1 ≤ q) && decide (q < port + 1 + n))
          = (decide (port ≤ q) && decide (q < port + (n + 1))) := by
      intro hq
      by_cases h1 : port + 1 ≤ q
      · have h2 : port ≤ q := by omega
        have h3 : (q < port + 1 + n) ↔ (q < port + (n + 1)) := by omega
        simp [h1, h2, h3]
      · have h2 : ¬ port ≤ q := by omega
        simp [h1, h2]
    have e0 : ¬ port + 1 ≤ port := by omega
    simp only [pollPorts]
    by_cases hb : p.st._rhPortBeingResumed port = true
    · simp only [hb, Bool.not_true, Bool.false_eq_true, if_false]
      rw [pollPorts_rh hw n (port + 1) p q]
      by_cases hq : q = port
      · subst hq
        simp [hb]
      · rw [e1 hq]
    · have hb2 : p.st._rhPortBeingResumed port = false := by
        cases h : p.st._rhPortBeingResumed port
        · rfl
        · exact absurd h hb
      simp only [hb2, Bool.not_false, if_true]
      by_cases hr : hw.PortSC port &&& kEHCIPortSC_Resume ≠ 0
      · have hyes : portResumes hw p.st port = true := by
          simp only [ne_eq] at hr
          simp [portResumes, hb2, hr]
        simp only [hr, ne_eq, not_false_eq_true, if_true]
        rw [pollPorts_rh hw n (port + 1) _ q]
        by_cases hq : q = port
        · subst hq
          simp [hyes]
        · rw [e1 hq]
          show (Function.update p.st._rhPortBeingResumed port true q
            || (_ && portResumes hw
              { p.st with
                _rhPortBeingResumed :=
                  Function.update p.st._rhPortBeingResumed port true } q)) = _
          rw [portResumes_update hw p.st port q hq, Function.update_apply,
            if_neg hq]
      · have hno : portResumes hw p.st port = false := by
          simp only [ne_eq, not_not] at hr
          simp [portResumes, hr]
        simp only [hr, if_false]
        rw [pollPorts_rh hw n (port + 1) p q]
        by_cases hq : q = port
        · subst hq
          simp [hno]
        · rw [e1 hq]

theorem pollPorts_threads (hw : EHCIPollHw) :
    ∀ (n port : Nat) (p : PollPass),
      (pollPorts hw n port p).events
        = p.events ++ resumeThreads hw p.st port n
  | 0, port, p => by simp [pollPorts, resumeThreads]
  | n + 1, port, p => by
    simp only [pollPorts]
    by_cases hb : p.st._rhPortBeingResumed port = true
    · have hno : portResumes hw p.st port = false := by
        simp [portResumes, hb]
      simp only [hb, Bool.not_true, Bool.false_eq_true, if_false]
      rw [pollPorts_threads hw n (port + 1) p]
      unfold resumeThreads
      rw [List.range'_succ, List.filter_cons_of_neg (by simp [hno])]
    · have hb2 : p.st._rhPortBeingResumed port = false := by
        cases h : p.st._rhPortBeingResumed port
        · rfl
        · exact absurd h hb
      simp only [hb2, Bool.not_false, if_true]
      by_cases hr : hw.PortSC port &&& kEHCIPortSC_Resume ≠ 0
      · have hyes : portResumes hw p.st port = true := by
          simp only [ne_eq] at hr
          simp [portResumes, hb2, hr]
        simp only [hr, ne_eq, not_false_eq_true, if_true]
        rw [pollPorts_threads hw n (port + 1) _]
        unfold resumeThreads
        rw [List.range'_succ, List.filter_cons_of_pos hyes, List.map_cons]
        have hcond : (List.range' (port + 1) n).filter (portResumes hw
              { p.st with
                _rhPortBeingResumed :=
                  Function.update p.st._rhPortBeingResumed port true })
            = (List.range' (port + 1) n).filter (portResumes hw p.st) := by
          apply List.filter_congr
          intro q hq
          have hq2 : port + 1 ≤ q := (List.mem_range'_1.mp hq).1
          exact portResumes_update hw p.st port q (by omega)
        show (p.events ++ [PollEvent.resumePortThread (port + 1)])
          ++ List.map _ (List.filter (portResumes hw
              { p.st with
                _rhPortBeingResumed :=
                  Function.update p.st._rhPortBeingResumed port true }) _) = _
        rw [hcond]
        simp
      · have hno : portResumes hw p.st port = false := by
          simp only [ne_eq, not_not] at hr
          simp [portResumes, hr]
        simp only [hr, if_false]
        rw [pollPorts_threads hw n (port + 1) p]
        unfold resumeThreads
        rw [List.range'_succ, List.filter_cons_of_neg (by simp [hno])]
theorem resumeThreads_congr (hw : EHCIPollHw) (a b : EHCIState)
    (h : b._rhPortBeingResumed = a._rhPortBeingResumed) (port n : Nat) :
    resumeThreads hw b port n = resumeThreads hw a port n := by
  unfold resumeThreads
  have e : portResumes hw b = portResumes hw a := by
    funext q
    unfold portResumes
    rw [h]
  rw [e]

theorem resumeThreads_nodup (hw : EHCIPollHw) (st : EHCIState) (port n : Nat) :
    (resumeThreads hw st port n).Nodup := by
  unfold resumeThreads
  refine List.Nodup.map ?_ ((List.nodup_range' port n).filter _)
  intro a b hab
  have : a + 1 = b + 1 := by
    injection hab
  omega

theorem mem_resumeThreads (hw : EHCIPollHw) (st : EHCIState) (n a : Nat) :
    PollEvent.resumePortThread a ∈ resumeThreads hw st 0 n ↔
      ∃ p, p < n ∧ portResumes hw st p = true ∧ a = p + 1 := by
  unfold resumeThreads
  simp only [List.mem_map, List.mem_filter, List.mem_range'_1]
  constructor
  · rintro ⟨p, ⟨⟨_, hp⟩, hr⟩, he⟩
    refine ⟨p, by omega, hr, ?_⟩
    injection he with he
    exact he.symm
  · rintro ⟨p, hp, hr, rfl⟩
    exact ⟨p, ⟨⟨Nat.zero_le _, by omega⟩, hr⟩, rfl⟩

/-- The state and the calls of `PollInterrupts` when it reaches the port
change branch. -/
theorem pollBefore_spec (st : EHCIState) :
    (pollComplete (pollError (pollHostError
        { st := st, events := [] }))).st._rhPortBeingResumed
        = st._rhPortBeingResumed
      ∧ (pollComplete (pollError (pollHostError
          { st := st, events := [] }))).st._portChangeInterrupt
        = st._portChangeInterrupt
      ∧ ∀ e ∈ (pollComplete (pollError (pollHostError
          { st := st, events := [] }))).events,
          e = PollEvent.hostSystemErrorLog
            ∨ e = PollEvent.scavengeCompletedTransactions := by
  refine ⟨?_, ?_, ?_⟩
  · rw [pollComplete_st, pollError_st, pollHostError_st]
  · rw [pollComplete_st, pollError_st, pollHostError_st]
  · have h1 : ∀ p : PollPass, (∀ e ∈ p.events,
          e = PollEvent.hostSystemErrorLog
            ∨ e = PollEvent.scavengeCompletedTransactions) →
        ∀ e ∈ (pollHostError p).events,
          e = PollEvent.hostSystemErrorLog
            ∨ e = PollEvent.scavengeCompletedTransactions := by
      intro p hp e he
      unfold pollHostError at he
      simp only [] at he
      split_ifs at he
      · rcases List.mem_append.mp he with h | h
        · exact hp e h
        · left
          simpa using h
      · exact hp e he
      · exact hp e he
    have h2 : ∀ p : PollPass, (∀ e ∈ p.events,
          e = PollEvent.hostSystemErrorLog
            ∨ e = PollEvent.scavengeCompletedTransactions) →
        ∀ e ∈ (pollError p).events,
          e = PollEvent.hostSystemErrorLog
            ∨ e = PollEvent.scavengeCompletedTransactions := by
      intro p hp e he
      unfold pollError at he
      split_ifs at he
      · rcases List.mem_append.mp he with h | h
        · exact hp e h
        · right
          simpa using h
      · exact hp e he
    have h3 : ∀ p : PollPass, (∀ e ∈ p.events,
          e = PollEvent.hostSystemErrorLog
            ∨ e = PollEvent.scavengeCompletedTransactions) →
        ∀ e ∈ (pollComplete p).events,
          e = PollEvent.hostSystemErrorLog
            ∨ e = PollEvent.scavengeCompletedTransactions := by
      intro p hp e he
      unfold pollComplete at he
      split_ifs at he
      · rcases List.mem_append.mp he with h | h
        · exact hp e h
        · right
          simpa using h
      · exact hp e he
    exact h3 _ (h2 _ (h1 _ (by simp)))

/-- A run of `PollInterrupts` with port change pending: the port flags it
leaves and the calls it makes. -/
theorem PollInterrupts_ports (hw : EHCIPollHw) (st : EHCIState)
    (hpend : st._portChangeInterrupt &&& kEHCIPortChangeIntBit ≠ 0) :
    (∀ q, (AppleUSBEHCI.PollInterrupts hw st).1._rhPortBeingResumed q =
        (st._rhPortBeingResumed q
          || (decide (q < hw.HCSParams &&& kEHCINumPortsMask)
            && portResumes hw st q)))
      ∧ ∃ before, (AppleUSBEHCI.PollInterrupts hw st).2
          = before ++ PollEvent.EnsureUsability ::
              resumeThreads hw st 0 (hw.HCSParams &&& kEHCINumPortsMask)
        ∧ ∀ e ∈ before, e = PollEvent.hostSystemErrorLog
            ∨ e = PollEvent.scavengeCompletedTransactions := by
  obtain ⟨hrh, hpc, hev⟩ := pollBefore_spec st
  have hpend2 : (pollComplete (pollError (pollHostError
      { st := st, events := [] }))).st._portChangeInterrupt
        &&& kEHCIPortChangeIntBit ≠ 0 := by
    rw [hpc]
    exact hpend
  have hchange : pollPortChange hw (pollComplete (pollError (pollHostError
        { st := st, events := [] })))
      = pollPorts hw (hw.HCSParams &&& kEHCINumPortsMask) 0
          { st := { (pollComplete (pollError (pollHostError
                { st := st, events := [] }))).st with
              _portChangeInterrupt := 0 }
            events := (pollComplete (pollError (pollHostError
                { st := st, events := [] }))).events
              ++ [PollEvent.EnsureUsability] } := by
    unfold pollPortChange
    rw [if_pos hpend2]
  constructor
  · intro q
    show (pollFrameRollover (pollAsyncAdvance (pollPortChange hw
      (pollComplete (pollError (pollHostError
        { st := st, events := [] })))))).st._rhPortBeingResumed q = _
    rw [pollFrameRollover_st, pollAsyncAdvance_st]
    show (pollPortChange hw _).st._rhPortBeingResumed q = _
    rw [hchange, pollPorts_rh]
    show ((pollComplete (pollError (pollHostError
        { st := st, events := [] }))).st._rhPortBeingResumed q
      || (decide (0 ≤ q) && decide (q < 0 + _) && portResumes hw
        { (pollComplete (pollError (pollHostError
            { st := st, events := [] }))).st with
          _portChangeInterrupt := 0 } q)) = _
    have e : portResumes hw
        { (pollComplete (pollError (pollHostError
            { st := st, events := [] }))).st with
          _portChangeInterrupt := 0 } q = portResumes hw st q := by
      unfold portResumes
      show (!(pollComplete (pollError (pollHostError
        { st := st, events := [] }))).st._rhPortBeingResumed q && _) = _
      rw [hrh]
    rw [e, hrh]
    simp
  · refine ⟨(pollComplete (pollError (pollHostError
      { st := st, events := [] }))).events, ?_, hev⟩
    have e5 : ∀ p : PollPass, (pollAsyncAdvance p).events = p.events := by
      intro p
      unfold pollAsyncAdvance
      split_ifs <;> rfl
    have e6 : ∀ p : PollPass, (pollFrameRollover p).events = p.events := by
      intro p
      unfold pollFrameRollover
      split_ifs <;> rfl
    show (pollFrameRollover (pollAsyncAdvance (pollPortChange hw
      (pollComplete (pollError (pollHostError
        { st := st, events := [] })))))).events = _
    have e7 : resumeThreads hw
        { (pollComplete (pollError (pollHostError
            { st := st, events := [] }))).st with
          _portChangeInterrupt := 0 } 0 (hw.HCSParams &&& kEHCINumPortsMask)
        = resumeThreads hw st 0 (hw.HCSParams &&& kEHCINumPortsMask) :=
      resumeThreads_congr hw st _ hrh 0 _
    rw [e6, e5, hchange, pollPorts_threads]
    show ((pollComplete (pollError (pollHostError
        { st := st, events := [] }))).events ++ [PollEvent.EnsureUsability])
      ++ resumeThreads hw
        { (pollComplete (pollError (pollHostError
            { st := st, events := [] }))).st with
          _portChangeInterrupt := 0 } 0 (hw.HCSParams &&& kEHCINumPortsMask)
      = _
    rw [e7]
    simp

/-- C26: a run of `PollInterrupts` that finds `_portChangeInterrupt`
pending clears the flag, calls `EnsureUsability` once, and after it starts
the resume thread with argument `p + 1` and sets `_rhPortBeingResumed[p]`
exactly for the ports `p` below the port count whose entry was false and
whose status has the resume bit, in the order of the ports; the entry of
every other port is as before, no thread is started for it, and no thread
is started twice. -/
theorem ehci_port_change_dispatch (hw : EHCIPollHw) (st : EHCIState)
    (hpend : st._portChangeInterrupt &&& kEHCIPortChangeIntBit ≠ 0) :
    (AppleUSBEHCI.PollInterrupts hw st).1._portChangeInterrupt = 0
      ∧ (∃ before, (AppleUSBEHCI.PollInterrupts hw st).2
            = before ++ PollEvent.EnsureUsability ::
                resumeThreads hw st 0 (hw.HCSParams &&& kEHCINumPortsMask)
          ∧ PollEvent.EnsureUsability ∉ before
          ∧ ∀ e ∈ before, isResumePortThread e = false)
      ∧ (AppleUSBEHCI.PollInterrupts hw st).2.count PollEvent.EnsureUsability
          = 1
      ∧ (∀ p, p < hw.HCSParams &&& kEHCINumPortsMask →
          st._rhPortBeingResumed p = false →
          hw.PortSC p &&& kEHCIPortSC_Resume ≠ 0 →
          PollEvent.resumePortThread (p + 1)
              ∈ (AppleUSBEHCI.PollInterrupts hw st).2
            ∧ (AppleUSBEHCI.PollInterrupts hw st).1._rhPortBeingResumed p
              = true)
      ∧ (∀ p, ¬ (p < hw.HCSParams &&& kEHCINumPortsMask
            ∧ st._rhPortBeingResumed p = false
            ∧ hw.PortSC p &&& kEHCIPortSC_Resume ≠ 0) →
          PollEvent.resumePortThread (p + 1)
              ∉ (AppleUSBEHCI.PollInterrupts hw st).2
            ∧ (AppleUSBEHCI.PollInterrupts hw st).1._rhPortBeingResumed p
              = st._rhPortBeingResumed p)
      ∧ PollEvent.resumePortThread 0 ∉ (AppleUSBEHCI.PollInterrupts hw st).2
      ∧ (∀ a, (AppleUSBEHCI.PollInterrupts hw st).2.count
          (PollEvent.resumePortThread a) ≤ 1) := by
  obtain ⟨hrh, before, hev, hbefore⟩ := PollInterrupts_ports hw st hpend
  have hres : ∀ p, portResumes hw st p = true ↔
      (st._rhPortBeingResumed p = false
        ∧ hw.PortSC p &&& kEHCIPortSC_Resume ≠ 0) := by
    intro p
    unfold portResumes
    simp
  have hnb : ∀ a, PollEvent.resumePortThread a ∉ before := by
    intro a ha
    rcases hbefore _ ha with h | h <;> cases h
  have hne : PollEvent.EnsureUsability ∉ before := by
    intro ha
    rcases hbefore _ ha with h | h <;> cases h
  have hnr : PollEvent.EnsureUsability
      ∉ resumeThreads hw st 0 (hw.HCSParams &&& kEHCINumPortsMask) := by
    unfold resumeThreads
    simp
  have hmem : ∀ a, PollEvent.resumePortThread a
        ∈ (AppleUSBEHCI.PollInterrupts hw st).2
      ↔ ∃ p, p < hw.HCSParams &&& kEHCINumPortsMask
          ∧ portResumes hw st p = true ∧ a = p + 1 := by
    intro a
    rw [hev, ← mem_resumeThreads]
    simp only [List.mem_append, List.mem_cons]
    constructor
    · rintro (h | h | h)
      · exact absurd h (hnb a)
      · cases h
      · exact h
    · intro h
      exact Or.inr (Or.inr h)
  refine ⟨?_, ⟨before, hev, hne, ?_⟩, ?_, ?_, ?_, ?_, ?_⟩
  · obtain ⟨rh, h⟩ := PollInterrupts_st hw st
    rw [h]
    show (if st._portChangeInterrupt &&& kEHCIPortChangeIntBit ≠ 0 then 0
      else st._portChangeInterrupt) = 0
    rw [if_pos hpend]
  · intro e he
    rcases hbefore e he with h | h <;> subst h <;> rfl
  · rw [hev, List.count_append, List.count_cons_self,
      List.count_eq_zero_of_not_mem hne, List.count_eq_zero_of_not_mem hnr]
  · intro p hp hb hr
    have hyes := (hres p).mpr ⟨hb, hr⟩
    refine ⟨(hmem (p + 1)).mpr ⟨p, hp, hyes, rfl⟩, ?_⟩
    rw [hrh, hyes]
    simp [hp]
  · intro p hnot
    have hno : ¬ (p < hw.HCSParams &&& kEHCINumPortsMask
        ∧ portResumes hw st p = true) := by
      rintro ⟨h1, h2⟩
      exact hnot ⟨h1, (hres p).mp h2⟩
    constructor
    · intro hm
      obtain ⟨q, hq, hr, he⟩ := (hmem (p + 1)).mp hm
      have : p = q := by omega
      subst this
      exact hno ⟨hq, hr⟩
    · rw [hrh]
      by_cases h1 : p < hw.HCSParams &&& kEHCINumPortsMask
      · have h2 : portResumes hw st p = false := by
          cases h : portResumes hw st p
          · rfl
          · exact absurd ⟨h1, h⟩ hno
        simp [h2]
      · simp [h1]
  · intro hm
    obtain ⟨q, _, _, he⟩ := (hmem 0).mp hm
    omega
  · intro a
    rw [hev, List.count_append, List.count_eq_zero_of_not_mem (hnb a),
      List.count_cons_of_ne (by simp), Nat.zero_add]
    exact List.nodup_iff_count_le_one.mp (resumeThreads_nodup hw st _ _) _
/-! ## The counters of the endpoints -/

theorem dropScheduled_add (z : Int) (a : Nat) :
    ∀ b, dropScheduled z (a + b) = dropScheduled (dropScheduled z a) b := by
  induction a generalizing z with
  | zero => intro b; simp [dropScheduled]
  | succ a ih =>
    intro b
    rw [Nat.succ_add]
    simp only [dropScheduled]
    exact ih _ b

theorem dropScheduled_small : ∀ (n : Nat) (z : Int),
    -(2 ^ 31) ≤ z - n → z < 2 ^ 31 → dropScheduled z n = z - n
  | 0, z, _, _ => by simp [dropScheduled]
  | n + 1, z, h1, h2 => by
    simp only [dropScheduled]
    have e : toSInt32 (z - 1) = z - 1 := by
      unfold toSInt32
      have h3 : (z - 1 + 2 ^ 31) % 2 ^ 32 = z - 1 + 2 ^ 31 :=
        Int.emod_eq_of_lt (by push_cast at h1; omega) (by omega)
      rw [h3]
      omega
    rw [e, dropScheduled_small n (z - 1) (by push_cast at h1 ⊢; omega)
      (by omega)]
    push_cast
    omega

theorem retiredFor_append (st : EHCIState) (e : Nat) (l : List Ptr) (x : Ptr) :
    retiredFor st e (l ++ [x]) =
      retiredFor st e l
        + (if (st.elements x)._pEndpoint = some e then 1 else 0) := by
  unfold retiredFor
  rw [List.filter_append, List.length_append]
  by_cases h : (st.elements x)._pEndpoint = some e <;> simp [h]

theorem retireElement_endpoints (testSlot ts x : Nat) (prev : Option Ptr)
    (w : SweepState) :
    (retireElement testSlot ts x prev w).st.endpoints =
      match (w.st.elements x)._pEndpoint with
      | none => w.st.endpoints
      | some ep =>
        Function.update w.st.endpoints ep
          { w.st.endpoints ep with
            onProducerQ := toUInt32 ((w.st.endpoints ep).onProducerQ + 1)
            scheduledTDs := toSInt32 ((w.st.endpoints ep).scheduledTDs - 1) } := by
  have hp : ((setDoneQueueLink x w.cachedHead
      (unlinkElement testSlot x prev w.st)).elements x)._pEndpoint
      = (w.st.elements x)._pEndpoint := by
    rw [(setDoneQueueLink_frame x w.cachedHead _).pEndpoint,
      (unlinkElement_frame testSlot x prev w.st).pEndpoint]
  have he : (setDoneQueueLink x w.cachedHead
      (unlinkElement testSlot x prev w.st)).endpoints = w.st.endpoints := by
    cases prev <;> rfl
  rw [retireElement_st, hp]
  cases (w.st.elements x)._pEndpoint with
  | none => exact he
  | some ep =>
    show Function.update (setDoneQueueLink x w.cachedHead
      (unlinkElement testSlot x prev w.st)).endpoints ep _ = _
    rw [he]

theorem retireElement_counted (st0 : EHCIState) (testSlot ts x : Nat)
    (prev : Option Ptr) (w : SweepState) (hf : SweepFrame st0 w.st)
    (h : EndpointsCounted st0 w) :
    EndpointsCounted st0 (retireElement testSlot ts x prev w) := by
  intro e
  have hret : (retireElement testSlot ts x prev w).retired = w.retired ++ [x] :=
    rfl
  rw [retireElement_endpoints, hret, retiredFor_append, hf.pEndpoint]
  cases hx : (st0.elements x)._pEndpoint with
  | none =>
    simp only [reduceCtorEq, if_false, Nat.add_zero]
    exact h e
  | some ep =>
    simp only [Function.update_apply, Option.some.injEq]
    by_cases hee : e = ep
    · subst hee
      simp only [if_true]
      rw [h e, bumpProducer_add, dropScheduled_add]
      rfl
    · have hee2 : ¬ ep = e := fun h2 => hee h2.symm
      simp only [hee, hee2, if_false, Nat.add_zero]
      exact h e

theorem walkSlot_counted (st0 : EHCIState)
    (testSlot nextSlot curSlot mf ts : Nat) :
    ∀ (fuel : Nat) (thing prev : Option Ptr) (resc : Bool)
      (w : SweepState) (b : Bool) (w2 : SweepState),
      walkSlot testSlot nextSlot curSlot mf ts fuel thing prev resc w
        = Res.ok (b, w2) →
      SweepFrame st0 w.st → EndpointsCounted st0 w →
      SweepFrame st0 w2.st ∧ EndpointsCounted st0 w2
  | 0, thing, prev, resc, w, b, w2, h, hf, hi => by
    cases thing with
    | none =>
      simp only [walkSlot] at h
      cases h
      exact ⟨hf, hi⟩
    | some t => simp [walkSlot] at h
  | fuel + 1, thing, prev, resc, w, b, w2, h, hf, hi => by
    cases thing with
    | none =>
      simp only [walkSlot] at h
      cases h
      exact ⟨hf, hi⟩
    | some t =>
      simp only [walkSlot] at h
      split_ifs at h with hk
      · cases h
        exact ⟨hf, hi⟩
      · split at h
        · cases h
        · exact walkSlot_counted st0 testSlot nextSlot curSlot mf ts fuel _ _ _
            _ b w2 h hf hi
        · exact walkSlot_counted st0 testSlot nextSlot curSlot mf ts fuel _ _ _
            _ b w2 h
            (sweepFrame_trans hf (retireElement_frame _ _ _ _ _))
            (retireElement_counted st0 _ _ _ _ _ hf hi)

theorem sweepSlots_counted (K : EHCIParams) (st0 : EHCIState)
    (curSlot mf ts fuel : Nat) :
    ∀ (slots testSlot : Nat) (w w2 : SweepState),
      sweepSlots K curSlot mf ts fuel slots testSlot w = Res.ok w2 →
      SweepFrame st0 w.st → EndpointsCounted st0 w →
      SweepFrame st0 w2.st ∧ EndpointsCounted st0 w2
  | 0, testSlot, w, w2, h, hf, hi => by
    simp only [sweepSlots] at h
    split_ifs at h
    cases h
    exact ⟨hf, hi⟩
  | slots + 1, testSlot, w, w2, h, hf, hi => by
    simp only [sweepSlots] at h
    split_ifs at h with hc
    · cases h
      exact ⟨hf, hi⟩
    · split at h
      · next resc w1 hw1 =>
        obtain ⟨h1, h2⟩ := walkSlot_counted st0 _ _ _ _ _ _ _ _ _ _ _ _ hw1 hf hi
        refine sweepSlots_counted K st0 curSlot mf ts fuel slots _ _ w2 h ?_ ?_
        · split_ifs
          · exact h1
          · exact sweepFrame_trans h1 (by constructor <;> intros <;> rfl)
        · split_ifs
          · exact h2
          · exact h2
      · cases h
      · cases h

theorem periodicSweep_counted (K : EHCIParams) (fuel : Nat) (hw : EHCIHw)
    (st : EHCIState) (w : SweepState)
    (h : periodicSweep K fuel hw st = Res.ok w) :
    EndpointsCounted st w := by
  unfold periodicSweep at h
  simp only [] at h
  split at h
  · next w1 hw1 =>
    have hi := sweepSlots_counted K st _ _ hw.uptimeComplete fuel fuel _ _ w1
      hw1 (sweepFrame_refl st) (by
        intro e
        show st.endpoints e = _
        simp [retiredFor, bumpProducer, dropScheduled])
    cases h
    exact hi.2
  · cases h
  · cases h

theorem retiredFor_ringEq {a b : EHCIState} (h : RingEq a b) (e : Nat)
    (l : List Ptr) : retiredFor b e l = retiredFor a e l := by
  unfold retiredFor
  rw [h.elements]

/-- The endpoints after a pass that returned. -/
theorem FilterInterrupt_endpoints (K : EHCIParams) (fuel : Nat) (hw : EHCIHw)
    (st st2 : EHCIState) (out : FilterOut)
    (h : AppleUSBEHCI.FilterInterrupt K fuel hw st = Res.ok (st2, out)) :
    ∀ e, st2.endpoints e =
      { useBackPtr := (st.endpoints e).useBackPtr
        onProducerQ :=
          bumpProducer (st.endpoints e).onProducerQ
            (retiredFor st e out.retired)
        scheduledTDs :=
          dropScheduled (st.endpoints e).scheduledTDs
            (retiredFor st e out.retired) } := by
  by_cases hskip : (hw.USBIntr &&& hw.USBSTS) &&& kEHCICompleteIntBit = 0
      ∨ sweepRuns K hw st = false
  · obtain ⟨hnil, hring⟩ :=
      (FilterInterrupt_post K fuel hw st st2 out h).2.2.2.2 hskip
    intro e
    rw [hnil, hring.endpoints]
    rfl
  · have hc : (hw.USBIntr &&& hw.USBSTS) &&& kEHCICompleteIntBit ≠ 0 :=
      fun h0 => hskip (Or.inl h0)
    have hr : sweepRuns K hw st = true := by
      cases hs : sweepRuns K hw st
      · exact absurd (Or.inr hs) hskip
      · rfl
    have hact : hw.USBIntr &&& hw.USBSTS ≠ 0 := by
      intro h0
      rw [h0] at hc
      exact hc (by simp)
    have hring : RingEq st
        { (beforeComplete K hw st).st with
          _completeInterrupt := kEHCICompleteIntBit } :=
      ringEq_trans (beforeComplete_ring K hw st) (by constructor <;> rfl)
    have hruns : sweepRuns K hw
        { (beforeComplete K hw st).st with
          _completeInterrupt := kEHCICompleteIntBit } = true := by
      have e : sweepRuns K hw
          { (beforeComplete K hw st).st with
            _completeInterrupt := kEHCICompleteIntBit } = sweepRuns K hw st := by
        unfold sweepRuns
        rw [hring.inAbort, hring.outSlot]
      rw [e, hr]
    rw [FilterInterrupt_eq, if_pos hact] at h
    unfold completeInterrupt at h
    simp only [ne_eq, hc, not_false_eq_true, if_true, hruns] at h
    cases hs : periodicSweep K fuel hw
        { (beforeComplete K hw st).st with
          _completeInterrupt := kEHCICompleteIntBit } with
    | fault => simp [hs] at h
    | timeout => simp [hs] at h
    | ok w =>
      simp only [hs] at h
      cases h
      have hcnt := periodicSweep_counted K fuel hw _ w hs
      intro e
      have := hcnt e
      rw [retiredFor_ringEq hring, hring.endpoints] at this
      exact this
/-- C24: after a pass of the EHCI filter that returns, for every endpoint
`onProducerQ` is its old value after one increment of the 32-bit counter,
and `scheduledTDs` its old value after one decrement of the signed 32-bit
counter, for each element the pass put on the done queue whose `_pEndpoint`
is this endpoint: below the wrap `onProducerQ` has increased and
`scheduledTDs` has decreased by that number, and their sum is as before. An
endpoint that owns none of these elements is as before, so an element
without endpoint, and one that is not put on the done queue, moves no
counter. When the leading runs of the walked slots are finite the pass
returns, and the elements it puts on the done queue are those of the
leading runs that are not deferred. -/
theorem ehci_endpoint_accounting :
    (∀ (K : EHCIParams) (fuel : Nat) (hw : EHCIHw) (st st2 : EHCIState)
        (out : FilterOut),
      AppleUSBEHCI.FilterInterrupt K fuel hw st = Res.ok (st2, out) →
      ∀ e,
        (st2.endpoints e).onProducerQ
            = bumpProducer (st.endpoints e).onProducerQ
                (retiredFor st e out.retired)
          ∧ (st2.endpoints e).scheduledTDs
            = dropScheduled (st.endpoints e).scheduledTDs
                (retiredFor st e out.retired)
          ∧ (st2.endpoints e).useBackPtr = (st.endpoints e).useBackPtr
          ∧ ((st.endpoints e).onProducerQ + retiredFor st e out.retired
                < 2 ^ 32 →
              (st2.endpoints e).onProducerQ
                = (st.endpoints e).onProducerQ + retiredFor st e out.retired)
          ∧ (-(2 ^ 31) ≤ (st.endpoints e).scheduledTDs
                - retiredFor st e out.retired →
              (st.endpoints e).scheduledTDs < 2 ^ 31 →
              (st2.endpoints e).scheduledTDs
                = (st.endpoints e).scheduledTDs - retiredFor st e out.retired)
          ∧ ((st.endpoints e).onProducerQ + retiredFor st e out.retired
                < 2 ^ 32 →
              -(2 ^ 31) ≤ (st.endpoints e).scheduledTDs
                - retiredFor st e out.retired →
              (st.endpoints e).scheduledTDs < 2 ^ 31 →
              ((st2.endpoints e).onProducerQ : Int)
                  + (st2.endpoints e).scheduledTDs
                = ((st.endpoints e).onProducerQ : Int)
                  + (st.endpoints e).scheduledTDs)
          ∧ ((∀ x ∈ out.retired, (st.elements x)._pEndpoint ≠ some e) →
              st2.endpoints e = st.endpoints e))
    ∧ (∀ (K : EHCIParams) (k fuel : Nat) (hw : EHCIHw) (st : EHCIState)
        (lead : Nat → List Ptr) (stop : Nat → Option Ptr),
      K.kEHCIPeriodicListEntries = 2 ^ k → k ≤ 16 →
      (hw.USBIntr &&& hw.USBSTS) &&& kEHCICompleteIntBit ≠ 0 →
      sweepRuns K hw st = true →
      (∀ s ∈ walkedSlots K.kEHCIPeriodicListEntries st._outSlot
        (curSlotOf K hw.FRIndex), LeadOK st s (lead s) (stop s)) →
      K.kEHCIPeriodicListEntries ≤ fuel →
      (∀ s ∈ walkedSlots K.kEHCIPeriodicListEntries st._outSlot
        (curSlotOf K hw.FRIndex), (lead s).length < fuel) →
      ∃ st2 out, AppleUSBEHCI.FilterInterrupt K fuel hw st = Res.ok (st2, out)
        ∧ out.retired = retiredOf lead (deferredIn K hw.FRIndex st)
            (walkedSlots K.kEHCIPeriodicListEntries st._outSlot
              (curSlotOf K hw.FRIndex))
        ∧ ∀ x, x ∈ out.retired ↔
            ∃ s ∈ walkedSlots K.kEHCIPeriodicListEntries st._outSlot
              (curSlotOf K hw.FRIndex),
              x ∈ lead s ∧ deferredIn K hw.FRIndex st s x = false) := by
  constructor
  · intro K fuel hw st st2 out h e
    have hep := FilterInterrupt_endpoints K fuel hw st st2 out h e
    have h1 : (st2.endpoints e).onProducerQ
        = bumpProducer (st.endpoints e).onProducerQ
            (retiredFor st e out.retired) := by rw [hep]
    have h2 : (st2.endpoints e).scheduledTDs
        = dropScheduled (st.endpoints e).scheduledTDs
            (retiredFor st e out.retired) := by rw [hep]
    have h3 : (st2.endpoints e).useBackPtr = (st.endpoints e).useBackPtr := by
      rw [hep]
    refine ⟨h1, h2, h3, ?_, ?_, ?_, ?_⟩
    · intro hb
      rw [h1, bumpProducer_small _ _ hb]
    · intro hb1 hb2
      rw [h2, dropScheduled_small _ _ hb1 hb2]
    · intro hb hb1 hb2
      rw [h1, h2, bumpProducer_small _ _ hb, dropScheduled_small _ _ hb1 hb2]
      push_cast
      omega
    · intro hnone
      have hz : retiredFor st e out.retired = 0 := by
        unfold retiredFor
        rw [List.length_eq_zero, List.filter_eq_nil_iff]
        intro x hx
        simpa using hnone x hx
      rw [hep, hz]
      rfl
  · intro K k fuel hw st lead stop hN hk ha hr hlead hf1 hf2
    obtain ⟨st2, out, hrun, post, _⟩ :=
      FilterInterrupt_sweep K k fuel hw st lead stop hN hk ha hr hlead hf1 hf2
    refine ⟨st2, out, hrun, post.retired, ?_⟩
    intro x
    rw [post.retired, mem_retiredOf]
/-! ## The slots and the elements a sweep visits -/

theorem walkSlotVisits_eq (testSlot nextSlot curSlot mf ts : Nat)
    (d : Ptr → Bool) (r : Option Ptr) :
    ∀ (P : List Ptr) (fuel : Nat) (thing prev : Option Ptr) (w : SweepState),
      Chain (nextOf w.st) thing P r →
      (∀ x ∈ P, (w.st.elements x).kind ≠ ElemKind.other) →
      (∀ y, r = some y → (w.st.elements y).kind = ElemKind.other) →
      (∀ x ∈ P, cannotRetire w.st (w.st.elements x) nextSlot curSlot mf
        = some (d x)) →
      P.Nodup → (∀ q, prev = some q → q ∉ P) → P.length < fuel →
      walkSlotVisits testSlot nextSlot curSlot mf ts fuel thing prev w
        = P ++ r.toList
  | [], fuel, thing, prev, w, hc, _, hr, _, _, _, hf => by
    have e : thing = r := hc
    obtain ⟨f, rfl⟩ : ∃ f, fuel = f + 1 := ⟨fuel - 1, by simp at hf; omega⟩
    subst e
    cases hthing : thing with
    | none => simp [walkSlotVisits]
    | some y =>
      have hk := hr y hthing
      simp [walkSlotVisits, hk]
  | x :: xs, fuel, thing, prev, w, hc, hk, hr, hd, hn, hp, hf => by
    obtain ⟨f, rfl⟩ : ∃ f, fuel = f + 1 := ⟨fuel - 1, by simp at hf; omega⟩
    have e : thing = some x := hc.1
    subst e
    have hkx := hk x (List.mem_cons_self _ _)
    have hdx := hd x (List.mem_cons_self _ _)
    have hn2 := List.nodup_cons.mp hn
    have hlen : xs.length < f := by simp at hf; omega
    cases hdv : d x with
    | true =>
      rw [hdv] at hdx
      simp only [walkSlotVisits, hkx, if_false, hdx, List.cons_append]
      congr 1
      exact walkSlotVisits_eq testSlot nextSlot curSlot mf ts d r xs f _ _ w
        hc.2 (fun z hz => hk z (List.mem_cons_of_mem _ hz)) hr
        (fun z hz => hd z (List.mem_cons_of_mem _ hz)) hn2.2
        (fun q hq => by cases hq; exact hn2.1) hlen
    | false =>
      rw [hdv] at hdx
      simp only [walkSlotVisits, hkx, if_false, hdx, List.cons_append]
      congr 1
      have hfr := retireElement_frame testSlot ts x prev w
      refine walkSlotVisits_eq testSlot nextSlot curSlot mf ts d r xs f _ _ _
        ?_ ?_ ?_ ?_ hn2.2
        (fun q hq => fun hm => hp q hq (List.mem_cons_of_mem _ hm)) hlen
      · refine Chain.congr xs _ _ ?_ hc.2
        intro z hz
        rw [retireElement_next, if_neg]
        intro hpz
        exact hp z hpz (List.mem_cons_of_mem _ hz)
      · intro z hz
        rw [hfr.kind]
        exact hk z (List.mem_cons_of_mem _ hz)
      · intro y hy
        rw [hfr.kind]
        exact hr y hy
      · intro z hz
        rw [cannotRetire_frame hfr]
        exact hd z (List.mem_cons_of_mem _ hz)

theorem sweepVisits_done (K : EHCIParams) (c mf ts fuel : Nat)
    (w : SweepState) : ∀ m, sweepVisits K c mf ts fuel m c w = []
  | 0 => by simp [sweepVisits]
  | m + 1 => by simp [sweepVisits]

theorem sweepVisits_step (K : EHCIParams) (c mf ts fuel m t : Nat)
    (w w1 : SweepState) (resc : Bool) (htc : t ≠ c)
    (hw : walkSlot t (nextSlotOf K t) c mf ts fuel
      (w.st._logicalPeriodicList t) none false w = Res.ok (resc, w1)) :
    sweepVisits K c mf ts fuel (m + 1) t w
      = (t, walkSlotVisits t (nextSlotOf K t) c mf ts fuel
            (w.st._logicalPeriodicList t) none w) ::
          sweepVisits K c mf ts fuel m (nextSlotOf K t)
            (if resc then w1
             else { w1 with st := { w1.st with _outSlot := nextSlotOf K t } }) := by
  simp [sweepVisits, htc, hw]

theorem sweepVisits_spec (K : EHCIParams) (c mf ts fuel : Nat)
    (lead : Nat → List Ptr) (stop : Nat → Option Ptr) (d : Nat → Ptr → Bool) :
    ∀ (S : List Nat) (slotsFuel t : Nat) (w : SweepState),
      SlotPath K c t S → S.Nodup → S.length ≤ slotsFuel →
      (∀ s ∈ S, LeadOK w.st s (lead s) (stop s)) →
      (∀ s ∈ S, ∀ x ∈ lead s,
        cannotRetire w.st (w.st.elements x) (nextSlotOf K s) c mf
          = some (d s x)) →
      (∀ s ∈ S, (lead s).length < fuel) →
      sweepVisits K c mf ts fuel slotsFuel t w
        = S.map (fun s => (s, lead s ++ (stop s).toList))
  | [], slotsFuel, t, w, hp, _, _, _, _, _ => by
    have e : t = c := hp
    subst e
    rw [sweepVisits_done]
    rfl
  | s :: S, slotsFuel, t, w, hp, hn, hf, hl, hd, hlen => by
    obtain ⟨htc, rfl, hp2⟩ := hp
    obtain ⟨m, rfl⟩ : ∃ m, slotsFuel = m + 1 :=
      ⟨slotsFuel - 1, by simp at hf; omega⟩
    have hn2 := List.nodup_cons.mp hn
    have hL := hl s (List.mem_cons_self _ _)
    have hds := hd s (List.mem_cons_self _ _)
    have hnd : (lead s).Nodup :=
      Chain.nodup (fun x => (w.st.elements x).kind ≠ ElemKind.other) _ _ _
        hL.chain hL.isoch (fun y hy => by simp [hL.stops y hy])
    have hwalk := walkSlot_eq_walkList s (nextSlotOf K s) c mf ts (d s) (stop s)
      (lead s) fuel _ none false w hL.chain hL.isoch hL.stops hds hnd
      (by simp) (hlen s (List.mem_cons_self _ _))
    have hvis := walkSlotVisits_eq s (nextSlotOf K s) c mf ts (d s) (stop s)
      (lead s) fuel _ none w hL.chain hL.isoch hL.stops hds hnd
      (by simp) (hlen s (List.mem_cons_self _ _))
    rw [← Prod.mk.eta (p := walkList s ts (d s) (lead s) none false w)] at hwalk
    rw [sweepVisits_step K c mf ts fuel m s w _ _ htc hwalk, walkList_resc,
      hvis, List.map_cons]
    congr 1
    have hfr := walkList_frame s ts (d s) (lead s) none false w
    simp only [Bool.false_or]
    cases S with
    | nil =>
      have e : nextSlotOf K s = c := hp2
      rw [e, sweepVisits_done]
      rfl
    | cons s2 S2 =>
      have hne : nextSlotOf K s ≠ c := hp2.1
      have hnodefer : ∀ x ∈ lead s, d s x = false := fun x hx =>
        cannotRetire_other_slot hne (hds x hx)
      have hany : (lead s).any (d s) = false := by
        rw [List.any_eq_false]
        intro x hx
        simp [hnodefer x hx]
      have hfilter : (lead s).filter (d s) = [] := by
        rw [List.filter_eq_nil_iff]
        intro x hx
        simp [hnodefer x hx]
      rw [hany]
      simp only [Bool.false_eq_true, if_false]
      have hnext : ∀ y, nextOf (walkList s ts (d s) (lead s) none false w).2.st y
          = nextOf w.st y := fun y =>
        walkList_next s ts (d s) y _ _ _ _ (by simp [hfilter]) (by simp)
      exact sweepVisits_spec K c mf ts fuel lead stop d
        (s2 :: S2) m (nextSlotOf K s)
        { (walkList s ts (d s) (lead s) none false w).2 with
          st := { (walkList s ts (d s) (lead s) none false w).2.st with
            _outSlot := nextSlotOf K s } }
        hp2 hn2.2 (by simp at hf ⊢; omega)
        (fun u hu => by
          have hu0 := hl u (List.mem_cons_of_mem _ hu)
          have hus : u ≠ s := fun e => hn2.1 (e ▸ hu)
          constructor
          · have : (walkList s ts (d s) (lead s) none false w).2.st._logicalPeriodicList u
                = w.st._logicalPeriodicList u :=
              walkList_slots s ts (d s) u _ _ _ _ (Or.inl hus)
            show Chain _ ((walkList s ts (d s) (lead s) none false w).2.st._logicalPeriodicList u) _ _
            rw [this]
            exact Chain.congr _ _ _ (fun y _ => hnext y) hu0.chain
          · intro x hx
            show ((walkList s ts (d s) (lead s) none false w).2.st.elements x).kind ≠ _
            rw [hfr.kind]
            exact hu0.isoch x hx
          · intro y hy
            show ((walkList s ts (d s) (lead s) none false w).2.st.elements y).kind = _
            rw [hfr.kind]
            exact hu0.stops y hy
          · intro x hx
            show ((walkList s ts (d s) (lead s) none false w).2.st.elements x).kind = _ →
              ((walkList s ts (d s) (lead s) none false w).2.st.elements x)._pEndpoint ≠ _
            rw [hfr.kind, hfr.pEndpoint]
            exact hu0.endpoint x hx)
        (fun u hu x hx => by
          have := cannotRetire_frame hfr x (nextSlotOf K u) c mf
          exact this.trans (hd u (List.mem_cons_of_mem _ hu) x hx))
        (fun u hu => hlen u (List.mem_cons_of_mem _ hu))

/-- With fewer iterations than slots on the way to the current slot the
outer loop has not reached it. -/
theorem sweepSlots_short (K : EHCIParams) (c mf ts fuel : Nat) :
    ∀ (m : Nat) (S : List Nat) (t : Nat) (w w2 : SweepState),
      SlotPath K c t S → m < S.length →
      sweepSlots K c mf ts fuel m t w ≠ Res.ok w2
  | 0, [], _, _, _, _, hm => by simp at hm
  | 0, s :: S, t, w, w2, hp, _ => by
    obtain ⟨htc, _, _⟩ := hp
    simp [sweepSlots, htc]
  | m + 1, [], _, _, _, _, hm => by simp at hm
  | m + 1, s :: S, t, w, w2, hp, hm => by
    obtain ⟨htc, rfl, hp2⟩ := hp
    simp only [sweepSlots, htc, if_false]
    split
    · exact sweepSlots_short K c mf ts fuel m S _ _ w2 hp2
        (by simp at hm; omega)
    · simp
    · simp
/-- C27: with `kEHCIPeriodicListEntries` a power of two that fits the 16-bit
slot variables, `_outSlot` below it, and the leading run of every slot on
the way finite, the sweep returns: the current slot is below
`kEHCIPeriodicListEntries`, the outer loop runs its body for the slots from
`_outSlot` up to but excluding the current slot, which are
`(curSlot - _outSlot) mod kEHCIPeriodicListEntries` slots and so at most
`kEHCIPeriodicListEntries - 1`, with fewer iterations it has not returned,
and in each slot the inner loop examines the elements of the leading run
and the element that ends it, each once. The pass around such a sweep
returns. -/
theorem ehci_sweep_terminates (K : EHCIParams) (k fuel : Nat) (hw : EHCIHw)
    (st : EHCIState) (lead : Nat → List Ptr) (stop : Nat → Option Ptr)
    (hN : K.kEHCIPeriodicListEntries = 2 ^ k) (hk : k ≤ 16)
    (ho : st._outSlot < K.kEHCIPeriodicListEntries)
    (hlead : ∀ s ∈ walkedSlots K.kEHCIPeriodicListEntries st._outSlot
        (curSlotOf K hw.FRIndex), LeadOK st s (lead s) (stop s))
    (hf1 : K.kEHCIPeriodicListEntries ≤ fuel)
    (hf2 : ∀ s ∈ walkedSlots K.kEHCIPeriodicListEntries st._outSlot
        (curSlotOf K hw.FRIndex), (lead s).length < fuel) :
    curSlotOf K hw.FRIndex < K.kEHCIPeriodicListEntries
      ∧ (curSlotOf K hw.FRIndex + K.kEHCIPeriodicListEntries - st._outSlot)
          % K.kEHCIPeriodicListEntries ≤ K.kEHCIPeriodicListEntries - 1
      ∧ (∃ w, periodicSweep K fuel hw st = Res.ok w)
      ∧ (periodicSweepVisits K fuel hw st).map Prod.fst
          = walkedSlots K.kEHCIPeriodicListEntries st._outSlot
              (curSlotOf K hw.FRIndex)
      ∧ (periodicSweepVisits K fuel hw st).length
          = (curSlotOf K hw.FRIndex + K.kEHCIPeriodicListEntries - st._outSlot)
              % K.kEHCIPeriodicListEntries
      ∧ (∀ m, m < (curSlotOf K hw.FRIndex + K.kEHCIPeriodicListEntries
            - st._outSlot) % K.kEHCIPeriodicListEntries →
          ∀ w, sweepSlots K (curSlotOf K hw.FRIndex)
              (curMicroFrameOf hw.FRIndex) hw.uptimeComplete fuel m
              (toUInt16 st._outSlot) (sweepStart st) ≠ Res.ok w)
      ∧ (∀ sv ∈ periodicSweepVisits K fuel hw st,
          sv.2 = lead sv.1 ++ (stop sv.1).toList ∧ sv.2.Nodup
            ∧ sv.2.length ≤ fuel)
      ∧ ((hw.USBIntr &&& hw.USBSTS) &&& kEHCICompleteIntBit ≠ 0 →
          sweepRuns K hw st = true →
          ∃ st2 out,
            AppleUSBEHCI.FilterInterrupt K fuel hw st = Res.ok (st2, out)) := by
  have hc := curSlotOf_lt K k hw.FRIndex hN hk
  have hpos : 0 < K.kEHCIPeriodicListEntries := by omega
  have h16 : st._outSlot < 2 ^ 16 := by
    have : 2 ^ k ≤ 2 ^ 16 := Nat.pow_le_pow_right (by decide) hk
    omega
  have ht : toUInt16 st._outSlot = st._outSlot := Nat.mod_eq_of_lt h16
  have hpath := walkedSlots_path K k _ hN hk hc _ _ ho rfl
  have hnodup := walkedSlots_nodup K.kEHCIPeriodicListEntries st._outSlot
    (curSlotOf K hw.FRIndex) ho
  have hmod := Nat.mod_lt (curSlotOf K hw.FRIndex + K.kEHCIPeriodicListEntries
    - st._outSlot) hpos
  have hvis : periodicSweepVisits K fuel hw st
      = (walkedSlots K.kEHCIPeriodicListEntries st._outSlot
          (curSlotOf K hw.FRIndex)).map
          (fun s => (s, lead s ++ (stop s).toList)) := by
    unfold periodicSweepVisits
    rw [ht]
    exact sweepVisits_spec K _ _ _ fuel lead stop (deferredIn K hw.FRIndex st)
      _ fuel st._outSlot (sweepStart st) hpath hnodup
      (by rw [walkedSlots_length]; omega)
      hlead
      (fun s hs x hx =>
        cannotRetire_deferredIn K hw.FRIndex st s x ((hlead s hs).endpoint x hx))
      hf2
  refine ⟨hc, by omega, ?_, ?_, ?_, ?_, ?_, ?_⟩
  · obtain ⟨w2, hrun, _⟩ :=
      periodicSweep_spec K k fuel hw st lead stop hN hk ho hlead hf1 hf2
    exact ⟨w2, hrun⟩
  · rw [hvis, List.map_map]
    exact List.map_id _
  · rw [hvis, List.length_map, walkedSlots_length]
  · intro m hm w
    rw [ht]
    exact sweepSlots_short K _ _ _ fuel m _ _ _ w hpath
      (by rw [walkedSlots_length]; exact hm)
  · intro sv hsv
    rw [hvis] at hsv
    obtain ⟨s, hs, rfl⟩ := List.mem_map.mp hsv
    have hL := hlead s hs
    have hnd : (lead s).Nodup :=
      Chain.nodup (fun x => (st.elements x).kind ≠ ElemKind.other) _ _ _
        hL.chain hL.isoch (fun y hy => by simp [hL.stops y hy])
    refine ⟨rfl, ?_, ?_⟩
    · show (lead s ++ (stop s).toList).Nodup
      cases hst : stop s with
      | none => simpa using hnd
      | some y =>
        have hy : y ∉ lead s := fun hm =>
          hL.isoch y hm (hL.stops y (by rw [hst]; rfl))
        simp only [Option.toList]
        rw [List.nodup_append]
        refine ⟨hnd, List.nodup_singleton y, ?_⟩
        intro a ha hb
        have : a = y := by simpa using hb
        subst this
        exact hy ha
    · show (lead s ++ (stop s).toList).length ≤ fuel
      have := hf2 s hs
      cases hst : stop s <;> simp <;> omega
  · intro ha hr
    obtain ⟨st2, out, h, _⟩ :=
      FilterInterrupt_sweep K k fuel hw st lead stop hN hk ha hr hlead hf1 hf2
    exact ⟨st2, out, h⟩
/-! ## The decoding of the low latency frames -/

theorem toUInt16_land_toUInt16 (x m : Nat) :
    toUInt16 (toUInt16 x &&& m) = toUInt16 x &&& m := by
  unfold toUInt16
  apply Nat.mod_eq_of_lt
  have h1 : x % 2 ^ 16 < 2 ^ 16 := Nat.mod_lt _ (by decide)
  have h2 : x % 2 ^ 16 &&& m ≤ x % 2 ^ 16 := Nat.and_le_left
  omega

/-- The body of the loop for frame `i` leaves the record it decodes as the
statement says, and every other record as before. -/
theorem updateLowLatencyFrame_frames (P : OHCIParams) (ts : Nat)
    (td : OHCITransferDescriptor) (i : Nat) (st : OHCIState) (addr idx : Nat) :
    (updateLowLatencyFrame P ts td i st).frames addr idx =
      if addr = td.pIsocFrame ∧ idx = td.frameNum + i then
        decodedFrame P ts td.pType (toUInt16 (td.offset i)) (st.frames addr idx)
      else st.frames addr idx := by
  unfold updateLowLatencyFrame
  simp only [Function.update_apply]
  by_cases ha : addr = td.pIsocFrame
  · by_cases hj : idx = td.frameNum + i
    · subst ha hj
      simp only [if_true, and_self]
      unfold decodedFrame
      rw [toUInt16_land_toUInt16]
      by_cases hc : (toUInt16 (td.offset i) &&& P.kOHCIITDOffset_CC)
          >>> P.kOHCIITDOffset_CCPhase = P.kOHCIITDOffsetConditionNotAccessed
      · simp only [hc, if_true, Function.update_same]
      · simp only [hc, if_false]
        have e : (P.kIOReturnSuccess = P.TranslateStatusToUSBError
              ((toUInt16 (td.offset i) &&& P.kOHCIITDPSW_CC)
                >>> P.kOHCIITDPSW_CCPhase)
            ∧ td.pType = P.kOHCIIsochronousOutLowLatencyType)
          ↔ (P.TranslateStatusToUSBError
              ((toUInt16 (td.offset i) &&& P.kOHCIITDPSW_CC)
                >>> P.kOHCIITDPSW_CCPhase) = P.kIOReturnSuccess
            ∧ td.pType = P.kOHCIIsochronousOutLowLatencyType) := by
          constructor <;> rintro ⟨h1, h2⟩ <;> exact ⟨h1.symm, h2⟩
        simp only [e, Function.update_same]
    · simp [ha, hj]
  · simp [ha]

theorem updateLowLatencyFrame_framesUpdated (P : OHCIParams) (ts : Nat)
    (td : OHCITransferDescriptor) (i : Nat) (st : OHCIState) :
    (updateLowLatencyFrame P ts td i st)._framesUpdated
      = toUInt32 (st._framesUpdated + 1) := rfl

/-- The loop over the frames `0 .. n - 1` of a descriptor. -/
theorem foldl_updateLowLatencyFrame_frames (P : OHCIParams) (ts : Nat)
    (td : OHCITransferDescriptor) (st : OHCIState) :
    ∀ n : Nat,
      (∀ addr idx,
        ((List.range n).foldl
            (fun s i => updateLowLatencyFrame P ts td i s) st).frames addr idx =
          if addr = td.pIsocFrame ∧ td.frameNum ≤ idx ∧ idx < td.frameNum + n
          then
            decodedFrame P ts td.pType
              (toUInt16 (td.offset (idx - td.frameNum))) (st.frames addr idx)
          else st.frames addr idx)
      ∧ ((List.range n).foldl
            (fun s i => updateLowLatencyFrame P ts td i s) st)._framesUpdated
          = bumpProducer st._framesUpdated n
  | 0 => by
    refine ⟨?_, rfl⟩
    intro addr idx
    have : ¬ (addr = td.pIsocFrame ∧ td.frameNum ≤ idx
        ∧ idx < td.frameNum + 0) := by
      rintro ⟨_, h1, h2⟩
      omega
    simp only [List.range_zero, List.foldl_nil]
    rw [if_neg this]
  | n + 1 => by
    obtain ⟨ih1, ih2⟩ := foldl_updateLowLatencyFrame_frames P ts td st n
    rw [List.range_succ, List.foldl_append]
    simp only [List.foldl_cons, List.foldl_nil]
    refine ⟨?_, ?_⟩
    · intro addr idx
      rw [updateLowLatencyFrame_frames, ih1]
      by_cases ha : addr = td.pIsocFrame
      · by_cases hj : idx = td.frameNum + n
        · have h1 : ¬ (addr = td.pIsocFrame ∧ td.frameNum ≤ idx
              ∧ idx < td.frameNum + n) := by
            rintro ⟨_, _, h3⟩
            omega
          have h2 : addr = td.pIsocFrame ∧ td.frameNum ≤ idx
              ∧ idx < td.frameNum + (n + 1) := ⟨ha, by omega, by omega⟩
          have h3 : idx - td.frameNum = n := by omega
          rw [if_pos ⟨ha, hj⟩, if_neg h1, if_pos h2, h3]
        · have h0 : ¬ (addr = td.pIsocFrame ∧ idx = td.frameNum + n) :=
            fun h => hj h.2
          rw [if_neg h0]
          by_cases h1 : td.frameNum ≤ idx ∧ idx < td.frameNum + n
          · rw [if_pos ⟨ha, h1.1, h1.2⟩, if_pos ⟨ha, h1.1, by omega⟩]
          · have h2 : ¬ (addr = td.pIsocFrame ∧ td.frameNum ≤ idx
                ∧ idx < td.frameNum + n) := fun h => h1 ⟨h.2.1, h.2.2⟩
            have h3 : ¬ (addr = td.pIsocFrame ∧ td.frameNum ≤ idx
                ∧ idx < td.frameNum + (n + 1)) := by
              rintro ⟨_, h4, h5⟩
              exact h1 ⟨h4, by omega⟩
            rw [if_neg h2, if_neg h3]
      · have h0 : ¬ (addr = td.pIsocFrame ∧ idx = td.frameNum + n) :=
          fun h => ha h.1
        have h2 : ¬ (addr = td.pIsocFrame ∧ td.frameNum ≤ idx
            ∧ idx < td.frameNum + n) := fun h => ha h.1
        have h3 : ¬ (addr = td.pIsocFrame ∧ td.frameNum ≤ idx
            ∧ idx < td.frameNum + (n + 1)) := fun h => ha h.1
        rw [if_neg h0, if_neg h2, if_neg h3]
    · rw [updateLowLatencyFrame_framesUpdated, ih2, bumpProducer_add]
      rfl

/-- What the filter does with one descriptor is what the statement says. -/
theorem updateLowLatencyTD_frames (P : OHCIParams) (ts : Nat)
    (td : OHCITransferDescriptor) (st : OHCIState) :
    (updateLowLatencyTD P ts td st).frames = decodedFrames P ts td st.frames
      ∧ (updateLowLatencyTD P ts td st)._framesUpdated
          = bumpProducer st._framesUpdated (framesCounted P td)
      ∧ (isLowLatencyTD P td = false → updateLowLatencyTD P ts td st = st) := by
  unfold updateLowLatencyTD
  by_cases hl : td.pType = P.kOHCIIsochronousInLowLatencyType
      ∨ td.pType = P.kOHCIIsochronousOutLowLatencyType
  · have hl2 : isLowLatencyTD P td = true := by
      simp [isLowLatencyTD, hl]
    rw [if_pos hl]
    obtain ⟨h1, h2⟩ := foldl_updateLowLatencyFrame_frames P ts td
      { st with
        _lowLatencyIsochTDsProcessed :=
          toUInt32 (st._lowLatencyIsochTDsProcessed + 1) }
      ((td.flags &&& P.kOHCIITDControl_FC) >>> P.kOHCIITDControl_FCPhase + 1)
    refine ⟨?_, ?_, ?_⟩
    · funext addr idx
      rw [h1]
      unfold decodedFrames coversFrame frameCountOf
      rw [hl2]
      by_cases hc : addr = td.pIsocFrame ∧ td.frameNum ≤ idx
          ∧ idx < td.frameNum
            + ((td.flags &&& P.kOHCIITDControl_FC)
                >>> P.kOHCIITDControl_FCPhase + 1)
      · have hc2 : idx ≤ td.frameNum
            + (td.flags &&& P.kOHCIITDControl_FC)
                >>> P.kOHCIITDControl_FCPhase := by omega
        rw [if_pos hc]
        simp only [hc.1, hc.2.1, hc2, decide_True, Bool.and_self, if_true]
      · rw [if_neg hc]
        have : (true && decide (addr = td.pIsocFrame)
            && decide (td.frameNum ≤ idx)
            && decide (idx ≤ td.frameNum
              + (td.flags &&& P.kOHCIITDControl_FC)
                  >>> P.kOHCIITDControl_FCPhase)) = false := by
          by_cases ha : addr = td.pIsocFrame
          · by_cases hb : td.frameNum ≤ idx
            · have hd : ¬ idx ≤ td.frameNum
                  + (td.flags &&& P.kOHCIITDControl_FC)
                      >>> P.kOHCIITDControl_FCPhase := by
                intro h
                exact hc ⟨ha, hb, by omega⟩
              simp [hd]
            · simp [hb]
          · simp [ha]
        rw [this]
        rfl
    · rw [h2]
      unfold framesCounted frameCountOf
      rw [hl2]
      rfl
    · intro h
      rw [hl2] at h
      cases h
  · have hl2 : isLowLatencyTD P td = false := by
      simp [isLowLatencyTD, hl]
    rw [if_neg hl]
    refine ⟨?_, ?_, fun _ => rfl⟩
    · funext addr idx
      unfold decodedFrames coversFrame
      rw [hl2]
      rfl
    · unfold framesCounted
      rw [hl2]
      rfl
theorem walkDoneQueue_frames (P : OHCIParams) (ts : Nat) :
    ∀ (fuel : Nat) (thing prev : Option Ptr) (n : Nat) (st : OHCIState)
      (prev2 : Option Ptr) (n2 : Nat) (st2 : OHCIState) (l : List Ptr),
      walkDoneQueue P ts fuel thing prev n st = Res.ok (prev2, n2, st2) →
      Chain (tdNext P st) thing l none →
      st2.frames
          = l.foldl (fun fr t => decodedFrames P ts (st.descriptors t) fr)
              st.frames
        ∧ st2._framesUpdated
          = bumpProducer st._framesUpdated
              (l.map (fun t => framesCounted P (st.descriptors t))).sum
  | 0, thing, prev, n, st, prev2, n2, st2, l, h, hc => by
    cases thing with
    | none =>
      simp only [walkDoneQueue] at h
      cases h
      cases l with
      | nil => exact ⟨rfl, rfl⟩
      | cons x xs => cases hc.1
    | some t => simp [walkDoneQueue] at h
  | fuel + 1, thing, prev, n, st, prev2, n2, st2, l, h, hc => by
    cases thing with
    | none =>
      simp only [walkDoneQueue] at h
      cases h
      cases l with
      | nil => exact ⟨rfl, rfl⟩
      | cons x xs => cases hc.1
    | some t =>
      cases l with
      | nil => cases hc
      | cons x xs =>
        obtain ⟨hx, hc2⟩ := hc
        have e : x = t := (Option.some.inj hx).symm
        subst e
        simp only [walkDoneQueue] at h
        have hw := updateLowLatencyTD_walked P ts (st.descriptors x) st
        have hd : (updateLowLatencyTD P ts (st.descriptors x) st).descriptors
            = st.descriptors := by
          have := congrArg OHCIState.descriptors hw.1
          exact this
        obtain ⟨f1, f2, _⟩ :=
          updateLowLatencyTD_frames P ts (st.descriptors x) st
        have hc3 : Chain
            (tdNext P (updateLowLatencyTD P ts (st.descriptors x) st))
            (st.GetLogicalAddress
              ((st.descriptors x).nextTD &&& P.kOHCIHeadPMask)) xs none := by
          rw [tdNext_walked P hw]
          exact hc2
        obtain ⟨ih1, ih2⟩ := walkDoneQueue_frames P ts fuel _ _ _ _ prev2 n2
          st2 xs h hc3
        rw [hd, f1] at ih1
        rw [hd, f2] at ih2
        refine ⟨ih1, ?_⟩
        rw [ih2, List.map_cons, List.sum_cons, bumpProducer_add]

/-- The frame records and the count of updates after a pass of the OHCI
filter that walked the done queue `l`. -/
theorem OHCIFilterInterrupt_frames (P : OHCIParams) (fuel : Nat)
    (hw : OHCIHw) (st st2 : OHCIState) (out : OHCIFilterOut) (l : List Ptr)
    (hp : ohciProcesses hw)
    (ha : (hw.hcInterruptEnable &&& hw.hcInterruptStatus)
      &&& kOHCIHcInterrupt_WDH ≠ 0)
    (h : AppleUSBOHCI.FilterInterrupt P fuel hw st = Res.ok (st2, out))
    (hl : DoneList P st (toUInt32 hw.HCCADoneHead) l) :
    st2.frames
        = l.foldl
            (fun fr t => decodedFrames P hw.uptime (st.descriptors t) fr)
            st.frames
      ∧ st2._framesUpdated
        = bumpProducer st._framesUpdated
            (l.map (fun t => framesCounted P (st.descriptors t))).sum := by
  have hb := ohciBeforeWDH_st P hw st
  have hB1 : (ohciWDHBook hw (ohciBeforeWDH P hw st).st).descriptors
      = st.descriptors := by
    show (ohciBeforeWDH P hw st).st.descriptors = _
    rw [hb]
  have hB2 : (ohciWDHBook hw (ohciBeforeWDH P hw st).st).frames
      = st.frames := by
    show (ohciBeforeWDH P hw st).st.frames = _
    rw [hb]
  have hB3 : (ohciWDHBook hw (ohciBeforeWDH P hw st).st)._framesUpdated
      = st._framesUpdated := by
    show (ohciBeforeWDH P hw st).st._framesUpdated = _
    rw [hb]
  have hB4 : (ohciWDHBook hw (ohciBeforeWDH P hw st).st).GetLogicalAddress
      = st.GetLogicalAddress := by
    show (ohciBeforeWDH P hw st).st.GetLogicalAddress = _
    rw [hb]
  have hB5 : (ohciBeforeWDH P hw st).st.GetLogicalAddress
      = st.GetLogicalAddress := by
    rw [hb]
  have hnext : tdNext P (ohciWDHBook hw (ohciBeforeWDH P hw st).st)
      = tdNext P st := by
    funext t
    unfold tdNext tdAt
    rw [hB1, hB4]
  have hat : tdAt P (ohciBeforeWDH P hw st).st (toUInt32 hw.HCCADoneHead)
      = tdAt P st (toUInt32 hw.HCCADoneHead) := by
    unfold tdAt
    rw [hB5]
  rw [OHCIFilterInterrupt_eq, if_pos hp, ohciWriteDoneHead_eq, if_pos ha] at h
  cases hwalk : walkDoneQueue P hw.uptime fuel
      (tdAt P (ohciBeforeWDH P hw st).st (toUInt32 hw.HCCADoneHead)) none 0
      (ohciWDHBook hw (ohciBeforeWDH P hw st).st) with
  | fault =>
    rw [hwalk] at h
    cases h
  | timeout =>
    rw [hwalk] at h
    cases h
  | ok r =>
    obtain ⟨prev2, n2, s2⟩ := r
    rw [hwalk] at h
    simp only [] at h
    cases h
    have hc : Chain (tdNext P (ohciWDHBook hw (ohciBeforeWDH P hw st).st))
        (tdAt P (ohciBeforeWDH P hw st).st (toUInt32 hw.HCCADoneHead)) l
        none := by
      rw [hnext, hat]
      exact hl
    obtain ⟨g1, g2⟩ := walkDoneQueue_frames P hw.uptime fuel _ _ _ _ prev2 n2
      s2 l hwalk hc
    rw [hB1, hB2] at g1
    rw [hB1, hB3] at g2
    exact ⟨g1, g2⟩

theorem foldl_decodedFrames_other (P : OHCIParams) (ts : Nat)
    (descriptors : Ptr → OHCITransferDescriptor) (addr idx : Nat) :
    ∀ (l : List Ptr) (frames : Ptr → Nat → LowLatencyIsocFrame),
      (∀ t ∈ l, coversFrame P (descriptors t) addr idx = false) →
      l.foldl (fun fr t => decodedFrames P ts (descriptors t) fr) frames
          addr idx
        = frames addr idx
  | [], _, _ => rfl
  | t :: l, frames, h => by
    rw [List.foldl_cons, foldl_decodedFrames_other P ts descriptors addr idx l _
      (fun u hu => h u (List.mem_cons_of_mem _ hu))]
    unfold decodedFrames
    rw [h t (List.mem_cons_self _ _)]
    rfl

theorem foldl_decodedFrames_one (P : OHCIParams) (ts : Nat)
    (descriptors : Ptr → OHCITransferDescriptor) (addr idx : Nat) (t : Ptr) :
    ∀ (l : List Ptr) (frames : Ptr → Nat → LowLatencyIsocFrame),
      l.Nodup → t ∈ l → coversFrame P (descriptors t) addr idx = true →
      (∀ u ∈ l, u ≠ t → coversFrame P (descriptors u) addr idx = false) →
      l.foldl (fun fr t => decodedFrames P ts (descriptors t) fr) frames
          addr idx
        = decodedFrame P ts (descriptors t).pType
            (toUInt16 ((descriptors t).offset (idx - (descriptors t).frameNum)))
            (frames addr idx)
  | [], _, _, ht, _, _ => by cases ht
  | u :: l, frames, hn, ht, hc, ho => by
    have hn2 := List.nodup_cons.mp hn
    rw [List.foldl_cons]
    by_cases hut : u = t
    · subst hut
      rw [foldl_decodedFrames_other P ts descriptors addr idx l _
        (fun v hv => ho v (List.mem_cons_of_mem _ hv)
          (fun e => hn2.1 (e ▸ hv)))]
      unfold decodedFrames
      rw [hc]
      rfl
    · have htl : t ∈ l := by
        rcases List.mem_cons.mp ht with e | e
        · exact absurd e.symm hut
        · exact e
      rw [foldl_decodedFrames_one P ts descriptors addr idx t l _ hn2.2 htl hc
        (fun v hv => ho v (List.mem_cons_of_mem _ hv))]
      have : decodedFrames P ts (descriptors u) frames addr idx
          = frames addr idx := by
        unfold decodedFrames
        rw [ho u (List.mem_cons_self _ _) hut]
        rfl
      rw [this]

/-- C21: what the OHCI filter does with a descriptor of the done queue is
what the statement says: for a low latency isochronous descriptor, in or
out, with frame count field `FC`, the `FC + 1` records at the indices
`frameNum` to `frameNum + FC` of its frame list are decoded, each from its
own offset word, every other record is as before, and `_framesUpdated` has
been incremented `FC + 1` times; a descriptor of another type leaves the
state as it is. A pass that returns with the master interrupt enable bit
set and writeback done head active does this for the descriptors of the
done queue in their order: a record that no descriptor covers is as before
the pass, a record that one descriptor covers is decoded from the record
before the pass, and `_framesUpdated` has been incremented once for every
record updated, as the 32-bit value it is. The pass returns when the done
queue is finite. -/
theorem ohci_low_latency_frame_decoding :
    (∀ (P : OHCIParams) (ts : Nat) (td : OHCITransferDescriptor)
        (st : OHCIState),
      (updateLowLatencyTD P ts td st).frames = decodedFrames P ts td st.frames
        ∧ (updateLowLatencyTD P ts td st)._framesUpdated
            = bumpProducer st._framesUpdated (framesCounted P td)
        ∧ (isLowLatencyTD P td = false →
            updateLowLatencyTD P ts td st = st)
        ∧ (isLowLatencyTD P td = true →
            ∀ i, i ≤ frameCountOf P td →
              (updateLowLatencyTD P ts td st).frames td.pIsocFrame
                  (td.frameNum + i)
                = decodedFrame P ts td.pType (toUInt16 (td.offset i))
                    (st.frames td.pIsocFrame (td.frameNum + i)))
        ∧ (∀ addr idx, coversFrame P td addr idx = false →
            (updateLowLatencyTD P ts td st).frames addr idx
              = st.frames addr idx))
    ∧ (∀ (P : OHCIParams) (fuel : Nat) (hw : OHCIHw) (st st2 : OHCIState)
        (out : OHCIFilterOut) (l : List Ptr),
      AppleUSBOHCI.FilterInterrupt P fuel hw st = Res.ok (st2, out) →
      hw.hcInterruptEnable &&& kOHCIHcInterrupt_MIE ≠ 0 →
      (hw.hcInterruptEnable &&& hw.hcInterruptStatus)
        &&& kOHCIHcInterrupt_WDH ≠ 0 →
      DoneList P st (toUInt32 hw.HCCADoneHead) l →
      st2.frames
          = l.foldl
              (fun fr t => decodedFrames P hw.uptime (st.descriptors t) fr)
              st.frames
        ∧ st2._framesUpdated
            = bumpProducer st._framesUpdated
                (l.map (fun t => framesCounted P (st.descriptors t))).sum
        ∧ (st._framesUpdated
              + (l.map (fun t => framesCounted P (st.descriptors t))).sum
              < 2 ^ 32 →
            st2._framesUpdated = st._framesUpdated
              + (l.map (fun t => framesCounted P (st.descriptors t))).sum)
        ∧ (∀ addr idx,
            (∀ t ∈ l, coversFrame P (st.descriptors t) addr idx = false) →
            st2.frames addr idx = st.frames addr idx)
        ∧ (∀ t ∈ l, ∀ addr idx,
            coversFrame P (st.descriptors t) addr idx = true →
            (∀ u ∈ l, u ≠ t →
              coversFrame P (st.descriptors u) addr idx = false) →
            st2.frames addr idx
              = decodedFrame P hw.uptime (st.descriptors t).pType
                  (toUInt16 ((st.descriptors t).offset
                    (idx - (st.descriptors t).frameNum)))
                  (st.frames addr idx)))
    ∧ (∀ (P : OHCIParams) (fuel : Nat) (hw : OHCIHw) (st : OHCIState)
        (l : List Ptr),
      DoneList P st (toUInt32 hw.HCCADoneHead) l → l.length < fuel →
      ∃ st2 out,
        AppleUSBOHCI.FilterInterrupt P fuel hw st = Res.ok (st2, out)) := by
  refine ⟨?_, ?_, ?_⟩
  · intro P ts td st
    obtain ⟨h1, h2, h3⟩ := updateLowLatencyTD_frames P ts td st
    refine ⟨h1, h2, h3, ?_, ?_⟩
    · intro hl i hi
      rw [h1]
      unfold decodedFrames coversFrame
      rw [hl]
      have e1 : td.frameNum ≤ td.frameNum + i := by omega
      have e2 : td.frameNum + i ≤ td.frameNum + frameCountOf P td := by omega
      have e3 : td.frameNum + i - td.frameNum = i := by omega
      simp only [e1, e2, e3, decide_True, Bool.and_self, if_true]
    · intro addr idx hc
      rw [h1]
      unfold decodedFrames
      rw [hc]
      rfl
  · intro P fuel hw st st2 out l h hmie ha hl
    have hact : hw.hcInterruptEnable &&& hw.hcInterruptStatus ≠ 0 := by
      intro h0
      rw [h0] at ha
      exact ha (by simp)
    obtain ⟨g1, g2⟩ :=
      OHCIFilterInterrupt_frames P fuel hw st st2 out l ⟨hmie, hact⟩ ha h hl
    refine ⟨g1, g2, ?_, ?_, ?_⟩
    · intro hb
      rw [g2, bumpProducer_small _ _ hb]
    · intro addr idx hno
      rw [g1]
      exact foldl_decodedFrames_other P hw.uptime st.descriptors addr idx l _ hno
    · intro t ht addr idx hc ho
      rw [g1]
      exact foldl_decodedFrames_one P hw.uptime st.descriptors addr idx t l _
        (Chain.nodup_of_null hl) ht hc ho
  · intro P fuel hw st l hl hf
    exact OHCIFilterInterrupt_returns P fuel hw st l hl hf

/-! ## The theorems at the example states -/

theorem passState_eq {r : Res (EHCIState × FilterOut)} {st : EHCIState}
    (h : Res.holds r (fun _ => True)) :
    r = Res.ok (passState r st, passOut r) := by
  cases r with
  | ok a => rfl
  | fault => exact absurd h (fun h => h)
  | timeout => exact absurd h (fun h => h)

theorem ehci_sweep_slot_result_witness :
    ∃ st2 out, AppleUSBEHCI.FilterInterrupt ring8 8 (hwAt 1 16) scenarioState
        = Res.ok (st2, out)
      ∧ ∀ s ∈ walkedSlots ring8.kEHCIPeriodicListEntries
          scenarioState._outSlot (curSlotOf ring8 (hwAt 1 16).FRIndex),
        SlotResult ring8 (hwAt 1 16).FRIndex scenarioState st2 s
            (scenarioLists s)
        ∧ ∀ x ∈ (scenarioLists s).takeWhile (isIsoch scenarioState),
            deferredIn ring8 (hwAt 1 16).FRIndex scenarioState s x = false →
            x ∉ ((scenarioLists s).takeWhile (isIsoch scenarioState)).filter
                  (deferredIn ring8 (hwAt 1 16).FRIndex scenarioState s)
                ++ (scenarioLists s).dropWhile (isIsoch scenarioState) :=
  ehci_sweep_slot_result ring8 3 8 (hwAt 1 16) scenarioState scenarioLists
    (by decide) (by decide) (by decide) (by decide) (by decide) (by decide)
    (by decide) (by decide) (by decide)

theorem ehci_done_queue_publication_witness :
    ∃ st2 out, AppleUSBEHCI.FilterInterrupt ring8 8 (hwAt 1 16) scenarioState
        = Res.ok (st2, out)
      ∧ out.retired = retiredOf scenarioLead
          (deferredIn ring8 (hwAt 1 16).FRIndex scenarioState)
          (walkedSlots ring8.kEHCIPeriodicListEntries scenarioState._outSlot
            (curSlotOf ring8 (hwAt 1 16).FRIndex))
      ∧ Chain (linkOf st2) st2._savedDoneQueueHead out.retired.reverse
          scenarioState._savedDoneQueueHead
      ∧ (∀ y, y ∉ out.retired → linkOf st2 y = linkOf scenarioState y)
      ∧ (∀ (D : List Ptr) (q : Option Ptr),
          Chain (linkOf scenarioState) scenarioState._savedDoneQueueHead D q →
          (∀ y ∈ D, y ∉ out.retired) →
          Chain (linkOf st2) st2._savedDoneQueueHead
            (out.retired.reverse ++ D) q)
      ∧ st2._producerCount % 2 ^ 32
          = (scenarioState._producerCount + out.retired.length) % 2 ^ 32 :=
  ehci_done_queue_publication ring8 3 8 (hwAt 1 16) scenarioState scenarioLead
    scenarioStop (by decide) (by decide) (by decide) (by decide) (by decide)
    (by decide) (by decide) (by decide)

theorem ehci_sweep_cursor_rule_witness :
    ∃ st2 out, AppleUSBEHCI.FilterInterrupt ring8 8 (hwAt 1 16) scenarioState
        = Res.ok (st2, out)
      ∧ ((∀ s ∈ walkedSlots ring8.kEHCIPeriodicListEntries
            scenarioState._outSlot (curSlotOf ring8 (hwAt 1 16).FRIndex),
            ∀ x ∈ scenarioLead s,
            deferredIn ring8 (hwAt 1 16).FRIndex scenarioState s x = false) →
          st2._outSlot = curSlotOf ring8 (hwAt 1 16).FRIndex)
      ∧ (∀ s ∈ walkedSlots ring8.kEHCIPeriodicListEntries
            scenarioState._outSlot (curSlotOf ring8 (hwAt 1 16).FRIndex),
            ∀ x ∈ scenarioLead s,
            deferredIn ring8 (hwAt 1 16).FRIndex scenarioState s x = true →
          s = (curSlotOf ring8 (hwAt 1 16).FRIndex
                  + ring8.kEHCIPeriodicListEntries - 1)
                % ring8.kEHCIPeriodicListEntries
          ∧ st2._outSlot = s
          ∧ x ∈ (scenarioLead s).filter
                (deferredIn ring8 (hwAt 1 16).FRIndex scenarioState s)
          ∧ Chain (nextOf st2) (st2._logicalPeriodicList s)
              ((scenarioLead s).filter
                (deferredIn ring8 (hwAt 1 16).FRIndex scenarioState s))
              (scenarioStop s)) :=
  ehci_sweep_cursor_rule ring8 3 8 (hwAt 1 16) scenarioState scenarioLead
    scenarioStop (by decide) (by decide) (by decide) (by decide) (by decide)
    (by decide) (by decide)

theorem ehci_sweep_no_item_lost_witness :
    ∃ (st2 : EHCIState) (out : FilterOut) (L2 : Nat → List Ptr)
      (D2 : List Ptr),
      AppleUSBEHCI.FilterInterrupt ring8 8 (hwAt 1 16) scenarioState
        = Res.ok (st2, out)
      ∧ (∀ s, s < ring8.kEHCIPeriodicListEntries →
          Chain (nextOf st2) (st2._logicalPeriodicList s) (L2 s) none)
      ∧ Chain (linkOf st2) st2._savedDoneQueueHead D2 none
      ∧ (∀ s, s < ring8.kEHCIPeriodicListEntries → (L2 s).Nodup)
      ∧ D2.Nodup
      ∧ (∀ s, s < ring8.kEHCIPeriodicListEntries →
          ∀ t, t < ring8.kEHCIPeriodicListEntries → s ≠ t →
            ∀ x ∈ L2 s, x ∉ L2 t)
      ∧ (∀ s, s < ring8.kEHCIPeriodicListEntries → ∀ x ∈ L2 s, x ∉ D2)
      ∧ (∀ s, s < ring8.kEHCIPeriodicListEntries → ∀ x ∈ scenarioLists s,
          (x ∈ L2 s ∧ x ∉ D2)
            ∨ (x ∈ D2 ∧ ∀ t, t < ring8.kEHCIPeriodicListEntries → x ∉ L2 t))
      ∧ (∀ x ∈ ([] : List Ptr), x ∈ D2) :=
  ehci_sweep_no_item_lost ring8 3 8 (hwAt 1 16) scenarioState scenarioLists []
    (by decide) (by decide) (by decide) (by decide) (by decide) (by decide)
    (by
      intro s hs t ht hst
      have hs8 : s < 8 := hs
      have ht8 : t < 8 := ht
      clear hs ht
      interval_cases s <;> interval_cases t <;>
        first
        | exact absurd rfl hst
        | decide)
    (by decide) (by decide) (by decide) (by decide)

theorem ehci_deferred_item_retired_next_pass_witness :
    scenarioState1._outSlot = 1
    ∧ 2 ∈ scenarioLead1 1
    ∧ ∃ st2 out2,
        AppleUSBEHCI.FilterInterrupt ring8 8 (hwAt 1 18) scenarioState1
          = Res.ok (st2, out2)
        ∧ 2 ∈ out2.retired
        ∧ st2._logicalPeriodicList 1 = scenarioStop 1
        ∧ scenarioStop 1 ≠ some 2
        ∧ st2._outSlot ≠ 1
        ∧ (st2._outSlot = curSlotOf ring8 (hwAt 1 18).FRIndex
            ∨ st2._outSlot
              = (curSlotOf ring8 (hwAt 1 18).FRIndex
                    + ring8.kEHCIPeriodicListEntries - 1)
                  % ring8.kEHCIPeriodicListEntries)
        ∧ (out2.retired.Nodup →
            Chain (linkOf st2) st2._savedDoneQueueHead out2.retired.reverse
              scenarioState1._savedDoneQueueHead)
        ∧ (∀ rest, Chain (nextOf scenarioState1) (scenarioStop 1) rest none →
            (∀ u ∈ walkedSlots ring8.kEHCIPeriodicListEntries 1
                (curSlotOf ring8 (hwAt 1 18).FRIndex), ∀ y ∈ scenarioLead1 u,
              deferredIn ring8 (hwAt 1 18).FRIndex scenarioState1 u y = true →
                y ∉ rest) →
            Chain (nextOf st2) (st2._logicalPeriodicList 1) rest none
              ∧ 2 ∉ rest) :=
  ehci_deferred_item_retired_next_pass ring8 3 8 (hwAt 1 16) (hwAt 1 18)
    scenarioState scenarioState1 scenarioState1
    (passOut (AppleUSBEHCI.FilterInterrupt ring8 8 (hwAt 1 16) scenarioState))
    scenarioLead scenarioLead1 scenarioStop scenarioStop 1 2
    (by decide) (by decide) (by decide) (by decide) (by decide) (by decide)
    (by decide) (by decide) (passState_eq (by decide)) (ringEq_refl _)
    (by decide) (by decide) (by decide) (by decide) (by decide) (by decide)
    (by decide) (by decide)

theorem ehci_complete_with_empty_ring_witness :
    ∃ st2 out, AppleUSBEHCI.FilterInterrupt ring8 8 (hwAt 1 16) idleState
        = Res.ok (st2, out)
      ∧ st2._completeInterrupt = kEHCICompleteIntBit
      ∧ st2._savedDoneQueueHead = idleState._savedDoneQueueHead
      ∧ st2._producerCount = idleState._producerCount
      ∧ out.signalInterrupt = 1 :=
  ehci_complete_with_empty_ring ring8 3 8 (hwAt 1 16) idleState (by decide)
    (by decide) (by decide) (by decide) (by decide)

theorem ehci_three_slot_scenario_witness :
    ∃ st2 out, AppleUSBEHCI.FilterInterrupt ring8 8 (hwAt 1 21) threeSlotState
        = Res.ok (st2, out)
      ∧ out.retired = [1, 2]
      ∧ st2._logicalPeriodicList 0 = none
      ∧ st2._logicalPeriodicList ((0 + 1) % ring8.kEHCIPeriodicListEntries)
        = none
      ∧ st2._savedDoneQueueHead = some 2
      ∧ linkOf st2 2 = some 1
      ∧ linkOf st2 1 = threeSlotState._savedDoneQueueHead
      ∧ (∀ y, y ≠ 1 → y ≠ 2 → linkOf st2 y = linkOf threeSlotState y)
      ∧ st2._producerCount = (threeSlotState._producerCount + 2) % 2 ^ 32
      ∧ st2._outSlot
        = ((0 + 1) % ring8.kEHCIPeriodicListEntries + 1)
            % ring8.kEHCIPeriodicListEntries :=
  ehci_three_slot_scenario ring8 3 8 (hwAt 1 21) threeSlotState 0 1 2 0
    (by decide) (by decide) (by decide) (by decide) (by decide) (by decide)
    (by decide) (by decide) (by decide) (by decide) (by decide) (by decide)
    (by decide) (by decide) (by decide) (by decide) (by decide) (by decide)
    (by decide)

theorem ehci_host_error_backoff_witness :
    (logsAtActivation (fun _ => noPorts) idleState 16 ↔ ∃ j, 16 = 2 ^ j)
    ∧ (16 ≤ 20 →
        (logsAtActivation (fun _ => noPorts) idleState 16
          ↔ 16 ∈ [1, 2, 4, 8, 16]))
    ∧ (afterActivations (fun _ => noPorts) idleState 16)._errors.hostSystemError
        = 16
    ∧ 2 ^ ((afterActivations (fun _ => noPorts) idleState 16)._errors.displayed
          - 1) ≤ 16
    ∧ 16 < 2 ^ (afterActivations (fun _ => noPorts) idleState
        16)._errors.displayed :=
  ehci_host_error_backoff (fun _ => noPorts) idleState (by decide) (by decide)
    16 (by decide) (by decide)

theorem ehci_filter_signalling_witness :
    (passOut (AppleUSBEHCI.FilterInterrupt ring8 8 (hwAt 1 16)
        scenarioState)).result = false
    ∧ (∃ st2 out, AppleUSBEHCI.FilterInterrupt ring8 8 (hwAt 8 16) scenarioState
        = Res.ok (st2, out))
    ∧ (∃ st2 out, AppleUSBEHCI.FilterInterrupt ring8 8 (hwAt 1 16) scenarioState
        = Res.ok (st2, out))
    ∧ (∃ st2 out, AppleUSBEHCI.FilterInterrupt ring8 8 (hwAt 8 16) scenarioState
        = Res.ok (st2, out)
          ∧ st2._frameRolloverInterrupt = kEHCIFrListRolloverIntBit
          ∧ out.signalInterrupt = 0) :=
  ⟨((ehci_filter_signalling ring8 8 (hwAt 1 16) scenarioState).1
      (passState (AppleUSBEHCI.FilterInterrupt ring8 8 (hwAt 1 16)
        scenarioState) scenarioState)
      (passOut (AppleUSBEHCI.FilterInterrupt ring8 8 (hwAt 1 16)
        scenarioState))
      (passState_eq (by decide))).1,
    (ehci_filter_signalling ring8 8 (hwAt 8 16) scenarioState).2.1
      (Or.inl (by decide)),
    (ehci_filter_signalling ring8 8 (hwAt 1 16) scenarioState).2.2.1 3
      scenarioLead scenarioStop (by decide) (by decide) (by decide)
      (by decide) (by decide) (by decide) (by decide),
    (ehci_filter_signalling ring8 8 (hwAt 8 16) scenarioState).2.2.2
      (by decide)⟩

theorem filter_noop_when_inactive_witness :
    (∃ out, AppleUSBEHCI.FilterInterrupt ring8 8 (hwAt 0 16) scenarioState
        = Res.ok (scenarioState, out)
      ∧ out.regWrites = [] ∧ out.UpdateFrameList = [] ∧ out.retired = []
      ∧ out.result = false)
    ∧ (∃ out, AppleUSBOHCI.FilterInterrupt exampleOHCIParams 8 (ohciHwAt 0)
        ohciIdleState = Res.ok (ohciIdleState, out)
      ∧ out.writes = [] ∧ out.result = false) :=
  ⟨filter_noop_when_inactive.1 ring8 8 (hwAt 0 16) scenarioState (by decide),
    filter_noop_when_inactive.2 exampleOHCIParams 8 (ohciHwAt 0) ohciIdleState
      (by decide)⟩

theorem ohciPass_eq {r : Res (OHCIState × OHCIFilterOut)} {st : OHCIState}
    (h : Res.holds r (fun _ => True)) :
    r = Res.ok ((ohciPass r st).1, (ohciPass r st).2) := by
  cases r with
  | ok a => rfl
  | fault => exact absurd h (fun h => h)
  | timeout => exact absurd h (fun h => h)

/-- At C11: a pass with no enabled cause active, and a pass with the master
interrupt enable bit clear, each call `signalInterrupt`. -/
theorem ohci_filter_signalling_counterexample :
    (ohciHwAt 0).hcInterruptEnable &&& (ohciHwAt 0).hcInterruptStatus = 0
    ∧ Res.holds
        (AppleUSBOHCI.FilterInterrupt exampleOHCIParams 8 (ohciHwAt 0)
          ohciIdleState)
        (fun r => r.2.signalInterrupt = 1)
    ∧ ohciHwNoMIE.hcInterruptEnable &&& kOHCIHcInterrupt_MIE = 0
    ∧ Res.holds
        (AppleUSBOHCI.FilterInterrupt exampleOHCIParams 8 ohciHwNoMIE
          ohciIdleState)
        (fun r => r.2.signalInterrupt = 1) := by
  decide

theorem ohci_filter_signalling_witness :
    AppleUSBOHCI.FilterInterrupt exampleOHCIParams 8 (ohciHwAt 0)
        ohciIdleState =
      Res.ok (ohciIdleState,
        { result := false, signalInterrupt := 1, writes := [] }) :=
  (ohci_filter_signalling exampleOHCIParams 8 (ohciHwAt 0) ohciIdleState).2
    (Or.inl (by decide))

theorem ehci_poll_frame_rollover_witness :
    (AppleUSBEHCI.PollInterrupts noPorts rolloverPendingState).1._anchorTime
        = 7
    ∧ (AppleUSBEHCI.PollInterrupts noPorts rolloverPendingState).1._anchorFrame
        = 9
    ∧ (AppleUSBEHCI.PollInterrupts noPorts
        rolloverPendingState).1._frameRolloverInterrupt = 0 :=
  (ehci_poll_frame_rollover noPorts rolloverPendingState).1 (by decide)

theorem ehci_anchor_pair_consistent_witness :
    (anchorPair ((ehciRun ring8 8 rolloverSteps idleState).valueOr idleState)
        = anchorPair idleState
      ∨ anchorPair ((ehciRun ring8 8 rolloverSteps idleState).valueOr idleState)
        ∈ stagedPairs ring8 8 rolloverSteps idleState)
    ∧ anchorPair ((ehciRun ring8 8 rolloverSteps idleState).valueOr idleState)
        = (1000, 2050)
    ∧ stagedPairs ring8 8 rolloverSteps idleState = [(1000, 2050)] :=
  ⟨ehci_anchor_pair_consistent ring8 8 rolloverSteps idleState _ (by decide)
      (Res.valueOr_eq (by decide)),
    by decide, by decide⟩

/-- At C14: from the empty done queue of `ohciOneTD`, a pass that finds the
descriptor 1 on the done head leaves `_producerCount` at 1 and the
descriptor reachable from `_savedDoneQueueHead`; a second pass with
writeback done head active and the done head word 0 leaves
`_producerCount` at 1 and `_savedDoneQueueHead` at 0, from which no
descriptor is reachable. -/
theorem ohci_done_queue_dropped_on_null_head :
    ohciOneTD._savedDoneQueueHead = 0 ∧ ohciOneTD._producerCount = 0
    ∧ Res.holds
        (ohciRun exampleOHCIParams 8 [OHCIStep.filter (ohciDoneHw 16)]
          ohciOneTD)
        (fun s => s._producerCount = 1
          ∧ DoneList exampleOHCIParams s s._savedDoneQueueHead [1])
    ∧ Res.holds
        (ohciRun exampleOHCIParams 8
          [OHCIStep.filter (ohciDoneHw 16), OHCIStep.filter (ohciDoneHw 0)]
          ohciOneTD)
        (fun s => s._producerCount = 1 ∧ s._savedDoneQueueHead = 0
          ∧ DoneList exampleOHCIParams s s._savedDoneQueueHead []) := by
  decide

theorem one_timestamp_per_pass_witness :
    ((passOut (AppleUSBEHCI.FilterInterrupt ring8 8 (hwAt 1 8)
          wrapState)).UpdateFrameList = [(1, 1000)]
      ∧ (passOut (AppleUSBEHCI.FilterInterrupt ring8 8 (hwAt 1 8)
          wrapState)).UpdateFrameList
        = ((passOut (AppleUSBEHCI.FilterInterrupt ring8 8 (hwAt 1 8)
            wrapState)).retired.filter
            (fun x => (wrapState.elements x)._lowLatency)).map
            (fun x => (x, (hwAt 1 8).uptimeComplete)))
    ∧ (∃ st2 out,
        AppleUSBEHCI.FilterInterrupt ring8 8 (hwAt 1 16) scenarioState
          = Res.ok (st2, out)
        ∧ ∀ s ∈ walkedSlots ring8.kEHCIPeriodicListEntries
            scenarioState._outSlot (curSlotOf ring8 (hwAt 1 16).FRIndex),
            ∀ x ∈ scenarioLead s,
            deferredIn ring8 (hwAt 1 16).FRIndex scenarioState s x = true →
              x ∉ out.retired ∧ ∀ ts, (x, ts) ∉ out.UpdateFrameList)
    ∧ (((ohciPass (AppleUSBOHCI.FilterInterrupt exampleOHCIParams 8
            (ohciDoneHw 16) ohciOneTD) ohciOneTD).1.frames 32 0).frTimeStamp
          = 1000
        ∧ (((ohciPass (AppleUSBOHCI.FilterInterrupt exampleOHCIParams 8
              (ohciDoneHw 16) ohciOneTD) ohciOneTD).1.frames 32 0
            = ohciOneTD.frames 32 0)
          ∨ ((ohciPass (AppleUSBOHCI.FilterInterrupt exampleOHCIParams 8
              (ohciDoneHw 16) ohciOneTD) ohciOneTD).1.frames 32 0).frTimeStamp
            = (ohciDoneHw 16).uptime)) :=
  ⟨⟨by decide,
      (one_timestamp_per_pass.1 ring8 8 (hwAt 1 8) wrapState
        (passState (AppleUSBEHCI.FilterInterrupt ring8 8 (hwAt 1 8) wrapState)
          wrapState)
        (passOut (AppleUSBEHCI.FilterInterrupt ring8 8 (hwAt 1 8) wrapState))
        (passState_eq (by decide))).1⟩,
    one_timestamp_per_pass.2.1 ring8 3 8 (hwAt 1 16) scenarioState
      scenarioLead scenarioStop (by decide) (by decide) (by decide)
      (by decide) (by decide) (by decide) (by decide) (by decide),
    by decide,
    one_timestamp_per_pass.2.2 exampleOHCIParams 8 (ohciDoneHw 16) ohciOneTD
      (ohciPass (AppleUSBOHCI.FilterInterrupt exampleOHCIParams 8
        (ohciDoneHw 16) ohciOneTD) ohciOneTD).1
      (ohciPass (AppleUSBOHCI.FilterInterrupt exampleOHCIParams 8
        (ohciDoneHw 16) ohciOneTD) ohciOneTD).2
      (ohciPass_eq (by decide)) 32 0⟩

/-- At C16: with the NEC errata and the port change bit stuck, a pass of
the EHCI filter writes the bit to `USBSTS` eleven times; with writeback
done head enabled and active and the master interrupt enable bit clear, a
pass of the OHCI filter does not write the bit to `HcInterruptStatus`. -/
theorem status_bits_cleared_counterexample :
    (stuckPortHw.USBIntr &&& stuckPortHw.USBSTS) &&& kEHCIPortChangeIntBit ≠ 0
    ∧ Res.holds
        (AppleUSBEHCI.FilterInterrupt ring8 8 stuckPortHw errataState)
        (fun r => (ehciStatusWrites r.2.regWrites).count kEHCIPortChangeIntBit
          = 11)
    ∧ (ohciHwNoMIE.hcInterruptEnable &&& ohciHwNoMIE.hcInterruptStatus)
        &&& kOHCIHcInterrupt_WDH ≠ 0
    ∧ Res.holds
        (AppleUSBOHCI.FilterInterrupt exampleOHCIParams 8 ohciHwNoMIE
          ohciIdleState)
        (fun r => (ohciStatusWrites r.2.writes).count kOHCIHcInterrupt_WDH
          = 0) := by
  decide

theorem status_bits_cleared_witness :
    ehciStatusWrites (passOut (AppleUSBEHCI.FilterInterrupt ring8 8
        stuckPortHw errataState)).regWrites
      = (ehciCauseBits.filter (fun b => decide
          ((stuckPortHw.USBIntr &&& stuckPortHw.USBSTS) &&& b ≠ 0))).flatMap
          (fun b => List.replicate (ehciClears stuckPortHw errataState b) b)
    ∧ ohciStatusWrites (ohciPass (AppleUSBOHCI.FilterInterrupt
        exampleOHCIParams 8 (ohciDoneHw 16) ohciOneTD) ohciOneTD).2.writes
      = ohciCauseBits.filter (fun b => decide
          (((ohciDoneHw 16).hcInterruptEnable
            &&& (ohciDoneHw 16).hcInterruptStatus) &&& b ≠ 0)) :=
  ⟨(status_bits_cleared.1 ring8 8 stuckPortHw errataState
      (passState (AppleUSBEHCI.FilterInterrupt ring8 8 stuckPortHw errataState)
        errataState)
      (passOut (AppleUSBEHCI.FilterInterrupt ring8 8 stuckPortHw errataState))
      (passState_eq (by decide))).1,
    ((status_bits_cleared.2 exampleOHCIParams 8 (ohciDoneHw 16) ohciOneTD
      (ohciPass (AppleUSBOHCI.FilterInterrupt exampleOHCIParams 8
        (ohciDoneHw 16) ohciOneTD) ohciOneTD).1
      (ohciPass (AppleUSBOHCI.FilterInterrupt exampleOHCIParams 8
        (ohciDoneHw 16) ohciOneTD) ohciOneTD).2
      (ohciPass_eq (by decide))).1 (by decide)).1⟩

theorem pending_flags_sticky_witness :
    (ehciPendingFlag kEHCICompleteIntBit
        ((ehciRun ring8 8
          ([hwAt 1 8, hwAt 1 8, hwAt 1 8].map EHCIStep.filter)
          idleState).valueOr idleState) = kEHCICompleteIntBit
      ∧ ehciBranchRuns kEHCICompleteIntBit
        ((ehciRun ring8 8
          ([hwAt 1 8, hwAt 1 8, hwAt 1 8].map EHCIStep.filter)
          idleState).valueOr idleState) = 1)
    ∧ (ohciPendingFlag kOHCIHcInterrupt_WDH
        ((ohciRun exampleOHCIParams 8
          ([ohciDoneHw 0, ohciDoneHw 0].map OHCIStep.filter)
          ohciIdleState).valueOr ohciIdleState) = kOHCIHcInterrupt_WDH
      ∧ ohciBranchRuns kOHCIHcInterrupt_WDH
        ((ohciRun exampleOHCIParams 8
          ([ohciDoneHw 0, ohciDoneHw 0].map OHCIStep.filter)
          ohciIdleState).valueOr ohciIdleState) = 1) :=
  ⟨pending_flags_sticky.1 ring8 8 [hwAt 1 8, hwAt 1 8, hwAt 1 8] idleState _
      kEHCICompleteIntBit (by decide) (List.cons_ne_nil _ _) (by decide)
      (Res.valueOr_eq (by decide)),
    pending_flags_sticky.2.2.2.1 exampleOHCIParams 8
      [ohciDoneHw 0, ohciDoneHw 0] ohciIdleState _ kOHCIHcInterrupt_WDH
      (by decide) (List.cons_ne_nil _ _) (by decide)
      (Res.valueOr_eq (by decide))⟩

theorem torn_down_controller_noop_witness :
    AppleUSBEHCI.PrimaryInterruptFilter ring8 8 (hwAt 1 8) (some ejectedEHCI)
        = Res.ok (some ejectedEHCI,
            { result := false, FilterInterrupt := none })
    ∧ AppleUSBOHCI.InterruptHandler
        { absolutetime_to_nanoseconds := fun t => t } (some inactiveOHCI)
        = (some inactiveOHCI, { finishPending := 0, PollInterrupts := none }) :=
  ⟨torn_down_controller_noop.1 ring8 8 (hwAt 1 8) (some ejectedEHCI)
      (Or.inr (Or.inl ⟨rfl, rfl⟩)),
    (torn_down_controller_noop.2.2.2
      { absolutetime_to_nanoseconds := fun t => t } (some inactiveOHCI)).1
      (Or.inl rfl)⟩

/-- At C19: with `_producerCount` at the largest 32-bit value, a pass that
puts one element on the done queue leaves the count at 0. -/
theorem producer_count_modular_counterexample :
    wrapState._producerCount = 4294967295
    ∧ Res.holds (AppleUSBEHCI.FilterInterrupt ring8 8 (hwAt 1 8) wrapState)
        (fun r => r.2.retired = [1] ∧ r.1._producerCount = 0) := by
  decide

theorem producer_count_modular_witness :
    (passState (AppleUSBEHCI.FilterInterrupt ring8 8 (hwAt 1 16)
        scenarioState) scenarioState)._producerCount
      = scenarioState._producerCount
        + (passOut (AppleUSBEHCI.FilterInterrupt ring8 8 (hwAt 1 16)
            scenarioState)).retired.length
    ∧ scenarioState._producerCount
      ≤ (passState (AppleUSBEHCI.FilterInterrupt ring8 8 (hwAt 1 16)
          scenarioState) scenarioState)._producerCount :=
  (producer_count_modular.1 ring8 8 (hwAt 1 16) scenarioState
    (passState (AppleUSBEHCI.FilterInterrupt ring8 8 (hwAt 1 16) scenarioState)
      scenarioState)
    (passOut (AppleUSBEHCI.FilterInterrupt ring8 8 (hwAt 1 16) scenarioState))
    (passState_eq (by decide))).2.2 (by decide)

/-- At C20: the done head names the descriptor 1, which links to nothing,
while `_savedDoneQueueHead` still names it too and `_producerCount` is at
the largest 32-bit value; after the pass the descriptor links to itself, so
following `nextTD` from the new head does not visit the descriptor and then
the old list, and `_producerCount` is 0. -/
theorem ohci_write_done_head_chaining_counterexample :
    (ohciDoneHw 16).hcInterruptEnable &&& kOHCIHcInterrupt_MIE ≠ 0
    ∧ ((ohciDoneHw 16).hcInterruptEnable &&& (ohciDoneHw 16).hcInterruptStatus)
        &&& kOHCIHcInterrupt_WDH ≠ 0
    ∧ toUInt32 (ohciDoneHw 16).HCCADoneHead
        &&& exampleOHCIParams.kOHCIHeadPMask ≠ 0
    ∧ DoneList exampleOHCIParams ohciStaleHeadState
        (toUInt32 (ohciDoneHw 16).HCCADoneHead) [1]
    ∧ DoneList exampleOHCIParams ohciStaleHeadState
        ohciStaleHeadState._savedDoneQueueHead [1]
    ∧ ohciStaleHeadState._producerCount = 4294967295
    ∧ Res.holds
        (AppleUSBOHCI.FilterInterrupt exampleOHCIParams 8 (ohciDoneHw 16)
          ohciStaleHeadState)
        (fun r => tdNext exampleOHCIParams r.1 1 = some 1
          ∧ ¬ DoneList exampleOHCIParams r.1 r.1._savedDoneQueueHead
              ([1] ++ [1])
          ∧ r.1._producerCount = 0) := by
  decide

theorem ohci_write_done_head_chaining_witness :
    ∃ st2 out,
      AppleUSBOHCI.FilterInterrupt exampleOHCIParams 8 (ohciDoneHw 16)
          ohciOneTD = Res.ok (st2, out)
      ∧ st2._savedDoneQueueHead
          = toUInt32 (ohciDoneHw 16).HCCADoneHead
              &&& exampleOHCIParams.kOHCIHeadPMask
      ∧ (st2.descriptors ([1].getLast (List.cons_ne_nil 1 []))).nextTD
          = ohciOneTD._savedDoneQueueHead
      ∧ (∀ t, t ≠ [1].getLast (List.cons_ne_nil 1 []) →
          st2.descriptors t = ohciOneTD.descriptors t)
      ∧ Chain (tdNext exampleOHCIParams st2)
          (tdAt exampleOHCIParams st2 st2._savedDoneQueueHead) [1]
          (tdAt exampleOHCIParams ohciOneTD ohciOneTD._savedDoneQueueHead)
      ∧ (∀ old,
          DoneList exampleOHCIParams ohciOneTD ohciOneTD._savedDoneQueueHead
            old →
          [1].getLast (List.cons_ne_nil 1 []) ∉ old →
          DoneList exampleOHCIParams st2 st2._savedDoneQueueHead ([1] ++ old))
      ∧ st2._producerCount = toUInt32 (ohciOneTD._producerCount + [1].length)
      ∧ OHCIWrite.HCCADoneHead 0 ∈ out.writes
      ∧ st2._writeDoneHeadInterrupt = kOHCIHcInterrupt_WDH :=
  ohci_write_done_head_chaining exampleOHCIParams 8 (ohciDoneHw 16) ohciOneTD
    [1] (by decide) (by decide) (by decide) (List.cons_ne_nil 1 [])
    (by decide)


theorem ohci_low_latency_frame_decoding_witness :
    ((ohciPass (AppleUSBOHCI.FilterInterrupt exampleOHCIParams 8
          (ohciDoneHw 16) ohciTwoFrameTD) ohciTwoFrameTD).1._framesUpdated
        = ohciTwoFrameTD._framesUpdated
          + ([1].map (fun t =>
              framesCounted exampleOHCIParams
                (ohciTwoFrameTD.descriptors t))).sum
      ∧ (ohciPass (AppleUSBOHCI.FilterInterrupt exampleOHCIParams 8
          (ohciDoneHw 16) ohciTwoFrameTD) ohciTwoFrameTD).1._framesUpdated = 2)
    ∧ ((ohciPass (AppleUSBOHCI.FilterInterrupt exampleOHCIParams 8
          (ohciDoneHw 16) ohciTwoFrameTD) ohciTwoFrameTD).1.frames 32 3
        = decodedFrame exampleOHCIParams (ohciDoneHw 16).uptime
            (ohciTwoFrameTD.descriptors 1).pType
            (toUInt16 ((ohciTwoFrameTD.descriptors 1).offset
              (3 - (ohciTwoFrameTD.descriptors 1).frameNum)))
            (ohciTwoFrameTD.frames 32 3)
      ∧ (ohciPass (AppleUSBOHCI.FilterInterrupt exampleOHCIParams 8
          (ohciDoneHw 16) ohciTwoFrameTD) ohciTwoFrameTD).1.frames 32 3
        = { frStatus := 0, frReqCount := 64, frActCount := 64
            frTimeStamp := 1000 }
      ∧ (ohciPass (AppleUSBOHCI.FilterInterrupt exampleOHCIParams 8
          (ohciDoneHw 16) ohciTwoFrameTD) ohciTwoFrameTD).1.frames 32 2
        = { frStatus := 15, frReqCount := 64, frActCount := 0
            frTimeStamp := 1000 }
      ∧ (ohciPass (AppleUSBOHCI.FilterInterrupt exampleOHCIParams 8
          (ohciDoneHw 16) ohciTwoFrameTD) ohciTwoFrameTD).1.frames 32 4
        = ohciTwoFrameTD.frames 32 4) :=
  ⟨⟨(ohci_low_latency_frame_decoding.2.1 exampleOHCIParams 8 (ohciDoneHw 16)
        ohciTwoFrameTD
        (ohciPass (AppleUSBOHCI.FilterInterrupt exampleOHCIParams 8
          (ohciDoneHw 16) ohciTwoFrameTD) ohciTwoFrameTD).1
        (ohciPass (AppleUSBOHCI.FilterInterrupt exampleOHCIParams 8
          (ohciDoneHw 16) ohciTwoFrameTD) ohciTwoFrameTD).2
        [1] (ohciPass_eq (by decide)) (by decide) (by decide)
        (by decide)).2.2.1 (by decide),
      by decide⟩,
    (ohci_low_latency_frame_decoding.2.1 exampleOHCIParams 8 (ohciDoneHw 16)
        ohciTwoFrameTD
        (ohciPass (AppleUSBOHCI.FilterInterrupt exampleOHCIParams 8
          (ohciDoneHw 16) ohciTwoFrameTD) ohciTwoFrameTD).1
        (ohciPass (AppleUSBOHCI.FilterInterrupt exampleOHCIParams 8
          (ohciDoneHw 16) ohciTwoFrameTD) ohciTwoFrameTD).2
        [1] (ohciPass_eq (by decide)) (by decide) (by decide)
        (by decide)).2.2.2.2 1 (by decide) 32 3 (by decide) (by decide),
    by decide, by decide, by decide⟩

theorem frame_counter_midpoint_test_witness :
    (passState (AppleUSBEHCI.FilterInterrupt ring8 8 (hwAt 8 16) idleState)
        idleState)._frameNumber
      = idleState._frameNumber + ring8.kEHCIFrameNumberIncrement
    ∧ (ohciPass (AppleUSBOHCI.FilterInterrupt exampleOHCIParams 8
        (ohciCausesHw 32) ohciIdleState) ohciIdleState).1._frameNumber
      = ohciIdleState._frameNumber + exampleOHCIParams.kOHCIFrameOverflowBit
    ∧ (ohciPass (AppleUSBOHCI.FilterInterrupt exampleOHCIParams 8
        (ohciCausesHw 32)
        ohciIdleState) ohciIdleState).1._errors.frameNumberOverflow
      = ohciIdleState._errors.frameNumberOverflow + 1 :=
  ⟨((frame_counter_midpoint_test.1 ring8 8 (hwAt 8 16) idleState
      (passState (AppleUSBEHCI.FilterInterrupt ring8 8 (hwAt 8 16) idleState)
        idleState)
      (passOut (AppleUSBEHCI.FilterInterrupt ring8 8 (hwAt 8 16) idleState))
      (passState_eq (by decide)) (by decide)).1 (by decide)).2 (by decide),
    ((frame_counter_midpoint_test.2.2.1 exampleOHCIParams 8 (ohciCausesHw 32)
      ohciIdleState
      (ohciPass (AppleUSBOHCI.FilterInterrupt exampleOHCIParams 8
        (ohciCausesHw 32) ohciIdleState) ohciIdleState).1
      (ohciPass (AppleUSBOHCI.FilterInterrupt exampleOHCIParams 8
        (ohciCausesHw 32) ohciIdleState) ohciIdleState).2
      (ohciPass_eq (by decide)) (by decide) (by decide)).1 (by decide)).2
      (by decide),
    (frame_counter_midpoint_test.2.2.1 exampleOHCIParams 8 (ohciCausesHw 32)
      ohciIdleState
      (ohciPass (AppleUSBOHCI.FilterInterrupt exampleOHCIParams 8
        (ohciCausesHw 32) ohciIdleState) ohciIdleState).1
      (ohciPass (AppleUSBOHCI.FilterInterrupt exampleOHCIParams 8
        (ohciCausesHw 32) ohciIdleState) ohciIdleState).2
      (ohciPass_eq (by decide)) (by decide) (by decide)).2.2.2.2
      (by decide)⟩

theorem ehci_port_change_retry_bounded_witness :
    (ehciStatusWrites (passOut (AppleUSBEHCI.FilterInterrupt ring8 8
        stuckPortHw errataState)).regWrites).count kEHCIPortChangeIntBit
      = 1 + stuckRereads stuckPortHw
    ∧ (ehciStatusWrites (passOut (AppleUSBEHCI.FilterInterrupt ring8 8
        stuckPortHw errataState)).regWrites).count kEHCIPortChangeIntBit ≤ 11
    ∧ (passState (AppleUSBEHCI.FilterInterrupt ring8 8 stuckPortHw
        errataState) errataState)._portChangeInterrupt = kEHCIPortChangeIntBit
    ∧ (passOut (AppleUSBEHCI.FilterInterrupt ring8 8 stuckPortHw
        errataState)).signalInterrupt = 1 :=
  ehci_port_change_retry_bounded.2.1 ring8 8 stuckPortHw errataState
    (passState (AppleUSBEHCI.FilterInterrupt ring8 8 stuckPortHw errataState)
      errataState)
    (passOut (AppleUSBEHCI.FilterInterrupt ring8 8 stuckPortHw errataState))
    (passState_eq (by decide)) (by decide) (by decide)

theorem ehci_endpoint_accounting_witness :
    ((passState (AppleUSBEHCI.FilterInterrupt ring8 8 (hwAt 1 21)
          scenarioState) scenarioState).endpoints 0).onProducerQ
        = (scenarioState.endpoints 0).onProducerQ
          + retiredFor scenarioState 0
              (passOut (AppleUSBEHCI.FilterInterrupt ring8 8 (hwAt 1 21)
                scenarioState)).retired
    ∧ retiredFor scenarioState 0
        (passOut (AppleUSBEHCI.FilterInterrupt ring8 8 (hwAt 1 21)
          scenarioState)).retired = 1
    ∧ ((passState (AppleUSBEHCI.FilterInterrupt ring8 8 (hwAt 1 21)
          scenarioState) scenarioState).endpoints 0).scheduledTDs = -1 :=
  ⟨(ehci_endpoint_accounting.1 ring8 8 (hwAt 1 21) scenarioState
      (passState (AppleUSBEHCI.FilterInterrupt ring8 8 (hwAt 1 21)
        scenarioState) scenarioState)
      (passOut (AppleUSBEHCI.FilterInterrupt ring8 8 (hwAt 1 21)
        scenarioState))
      (passState_eq (by decide)) 0).2.2.2.1 (by decide),
    by decide, by decide⟩

theorem ehci_sweep_skipped_when_not_safe_witness :
    ∃ st2 out,
      AppleUSBEHCI.FilterInterrupt ring8 8 hwPeriodicOff scenarioState
        = Res.ok (st2, out)
      ∧ st2._logicalPeriodicList = scenarioState._logicalPeriodicList
      ∧ st2._periodicList = scenarioState._periodicList
      ∧ st2.elements = scenarioState.elements
      ∧ st2._outSlot = scenarioState._outSlot
      ∧ st2._savedDoneQueueHead = scenarioState._savedDoneQueueHead
      ∧ st2._producerCount = scenarioState._producerCount
      ∧ st2.endpoints = scenarioState.endpoints
      ∧ out.retired = [] ∧ out.UpdateFrameList = []
      ∧ st2._completeInterrupt = kEHCICompleteIntBit
      ∧ out.regWrites.getLast? = some (EHCIRegWrite.USBSTS kEHCICompleteIntBit)
      ∧ (ehciStatusWrites out.regWrites).count kEHCICompleteIntBit = 1
      ∧ out.signalInterrupt = 1 ∧ out.result = false :=
  ehci_sweep_skipped_when_not_safe ring8 8 hwPeriodicOff scenarioState
    (by decide) (Or.inr (Or.inl (by decide)))

theorem ehci_port_change_dispatch_witness :
    (AppleUSBEHCI.PollInterrupts twoPorts
        portChangePendingState).1._portChangeInterrupt = 0
    ∧ (PollEvent.resumePortThread (1 + 1)
          ∈ (AppleUSBEHCI.PollInterrupts twoPorts portChangePendingState).2
        ∧ (AppleUSBEHCI.PollInterrupts twoPorts
            portChangePendingState).1._rhPortBeingResumed 1 = true)
    ∧ (AppleUSBEHCI.PollInterrupts twoPorts portChangePendingState).2
        = [PollEvent.EnsureUsability, PollEvent.resumePortThread 2] :=
  ⟨(ehci_port_change_dispatch twoPorts portChangePendingState
      (by decide)).1,
    (ehci_port_change_dispatch twoPorts portChangePendingState
      (by decide)).2.2.2.1 1 (by decide) (by decide) (by decide),
    by decide⟩

theorem ehci_sweep_terminates_witness :
    (periodicSweepVisits ring8 8 (hwAt 1 16) scenarioState).map Prod.fst
      = walkedSlots ring8.kEHCIPeriodicListEntries scenarioState._outSlot
          (curSlotOf ring8 (hwAt 1 16).FRIndex)
    ∧ (periodicSweepVisits ring8 8 (hwAt 1 16) scenarioState).length
      = (curSlotOf ring8 (hwAt 1 16).FRIndex + ring8.kEHCIPeriodicListEntries
          - scenarioState._outSlot) % ring8.kEHCIPeriodicListEntries
    ∧ periodicSweepVisits ring8 8 (hwAt 1 16) scenarioState
      = [(0, [1, 4]), (1, [2, 3, 5])] :=
  ⟨(ehci_sweep_terminates ring8 3 8 (hwAt 1 16) scenarioState scenarioLead
      scenarioStop (by decide) (by decide) (by decide) (by decide) (by decide)
      (by decide)).2.2.2.1,
    (ehci_sweep_terminates ring8 3 8 (hwAt 1 16) scenarioState scenarioLead
      scenarioStop (by decide) (by decide) (by decide) (by decide) (by decide)
      (by decide)).2.2.2.2.1,
    by decide⟩

theorem ohci_unrecoverable_error_counted_twice_witness :
    (AppleUSBOHCI.PollInterrupts nanosecondClock
        (ohciPass (AppleUSBOHCI.FilterInterrupt exampleOHCIParams 8
          (ohciCausesHw 16) ohciIdleState)
          ohciIdleState).1).1._errors.unrecoverableError
      = ohciIdleState._errors.unrecoverableError + 2
    ∧ (AppleUSBOHCI.PollInterrupts nanosecondClock
        (ohciPass (AppleUSBOHCI.FilterInterrupt exampleOHCIParams 8
          (ohciCausesHw 16) ohciIdleState)
          ohciIdleState).1).1._unrecoverableErrorInterrupt = 0 :=
  ⟨(ohci_unrecoverable_error_counted_twice.1 exampleOHCIParams 8
      (ohciCausesHw 16) nanosecondClock ohciIdleState
      (ohciPass (AppleUSBOHCI.FilterInterrupt exampleOHCIParams 8
        (ohciCausesHw 16) ohciIdleState) ohciIdleState).1
      (ohciPass (AppleUSBOHCI.FilterInterrupt exampleOHCIParams 8
        (ohciCausesHw 16) ohciIdleState) ohciIdleState).2
      (ohciPass_eq (by decide)) (by decide) (by decide)).2.2.2.2.1 (by decide),
    (ohci_unrecoverable_error_counted_twice.1 exampleOHCIParams 8
      (ohciCausesHw 16) nanosecondClock ohciIdleState
      (ohciPass (AppleUSBOHCI.FilterInterrupt exampleOHCIParams 8
        (ohciCausesHw 16) ohciIdleState) ohciIdleState).1
      (ohciPass (AppleUSBOHCI.FilterInterrupt exampleOHCIParams 8
        (ohciCausesHw 16) ohciIdleState) ohciIdleState).2
      (ohciPass_eq (by decide)) (by decide) (by decide)).2.2.2.2.2.1⟩

end IOUSBFamily
